import Mathlib

/-! # Cytopia map engine: height propagation, bitmasks, placement and demolition

A shallow embedding of `src/engine/Map.cxx` / `Map.hxx`.

* `MapNode *` pointers into `Map::mapNodes` are indices into the node list.
* C++ `int` values are `Int`; `unsigned char` bitmasks are `Nat` (every value
  built here is a union of the eight direction bits).
* The `while` loops of `Map::updateNodeNeighbors` take a step budget and return
  `none` when it is exhausted; termination is proved separately.
* `nodeCache` in `updateNodeNeighbors` memoises `getNeighborNodes`, which only
  reads the (immutable) x/y coordinates of a node, so the embedding calls
  `getNeighborNodes` directly.
* `std::unordered_set<MapNode *>` is a duplicate-free list in insertion order.
* Sprites and textures (`updateTexture`, `m_sprite`) are rendering state and are
  not part of the embedding.
-/

namespace Cytopia

/-! ## Data model -/

/-- Layers of a map node (`Layer` enumeration). -/
inductive Layer
  | NONE | BLUEPRINT | UNDERGROUND | TERRAIN | WATER | GROUND_DECORATION | ZONE | ROAD | BUILDINGS
  deriving DecidableEq, Repr, Inhabited, Fintype

/-- Tile kinds (`TileType`); only TERRAIN, WATER and ROAD are inspected by `Map.cxx`. -/
inductive TileType
  | OTHER | TERRAIN | WATER | ROAD
  deriving DecidableEq, Repr, Inhabited

/-- Footprint of a tile in cells (`TileData::RequiredTiles`). -/
structure TileSize where
  width : Nat
  height : Nat
  deriving DecidableEq, Repr, Inhabited

/-- Tile descriptor (`TileData`), restricted to the members read by `Map.cxx`. -/
structure TileData where
  category : String
  tileType : TileType
  RequiredTiles : TileSize
  groundDecoration : List String
  deriving DecidableEq, Repr, Inhabited

/-- Grid position (`Point`): column `x`, row `y`, screen depth `z` and height. -/
structure Point where
  x : Int
  y : Int
  z : Int
  height : Int
  deriving DecidableEq, Repr, Inhabited

/-- Directions of a neighbour relative to an origin (`NeighbourNodesPosition`). -/
inductive NeighbourNodesPosition
  | BOTTOM_LEFT | LEFT | TOP_LEFT | BOTTOM | CENTER | TOP | BOTTOM_RIGHT | RIGHT | TOP_RIGHT
  deriving DecidableEq, Repr, Inhabited, Fintype

/-- Bit value of a direction, as laid out in the comment of `Map.hxx`:
`[ BR BL TR TL R L B T ]`, most significant bit first; CENTER has no bit. -/
def NeighbourNodesPosition.toNat : NeighbourNodesPosition → Nat
  | .TOP => 1
  | .BOTTOM => 2
  | .LEFT => 4
  | .RIGHT => 8
  | .TOP_LEFT => 16
  | .TOP_RIGHT => 32
  | .BOTTOM_LEFT => 64
  | .BOTTOM_RIGHT => 128
  | .CENTER => 0

/-- Per-layer state of a node (`MapNodeData`). -/
structure MapNodeData where
  tileID : String
  tileData : Option TileData
  origCornerPoint : Point
  shouldRender : Bool
  deriving Inhabited

/-- One grid cell (`MapNode`). -/
structure MapNode where
  m_isoCoordinates : Point
  m_mapNodeData : Layer → MapNodeData
  m_elevationBitmask : Nat
  m_autotileBitmask : Layer → Nat
  deriving Inhabited

/-- Notifications raised through `signalPlaceBuilding`, `signalPlaceZone` and
`signalDemolish`; the argument is the node the signal is emitted for. -/
inductive Signal
  | placeBuilding (node : Nat)
  | placeZone (node : Nat)
  | demolish (node : Nat)
  deriving DecidableEq, Repr

/-- The map (`Map`): the flat node array, its dimensions and the log of the
signals emitted so far (oldest first). -/
structure Map where
  mapNodes : List MapNode
  m_columns : Int
  m_rows : Int
  signals : List Signal
  deriving Inhabited

/-- A neighbour of a node together with its direction (`NeighborNode`). -/
structure NeighborNode where
  pNode : Nat
  position : NeighbourNodesPosition
  deriving DecidableEq, Repr

/-- The tile database (`TileManager`), external to the map. -/
structure TileManager where
  getTileData : String → Option TileData
  isTileIDAutoTile : String → Bool
  getTileLayer : String → Layer

/-- Everything `Map.cxx` reads from outside the map: `MapNode::maxHeight`, the tile
database, the table `allLayersOrdered` and `MapNode::isPlacementAllowed`; and the order in
which a `std::unordered_set<MapNode *>` is iterated. The C++ standard leaves that order
unspecified: `unorderedSetOrder inserted` is the order of iteration of a set that received
the elements `inserted` (first insertion first, no element twice), and it is some
arrangement of these elements. -/
structure Env where
  maxHeight : Int
  tileManager : TileManager
  allLayersOrdered : List Layer
  isPlacementAllowed : MapNode → String → Bool
  unorderedSetOrder : List Nat → List Nat := fun inserted => inserted
  unorderedSetOrder_perm : ∀ inserted : List Nat, (unorderedSetOrder inserted).Perm inserted := by
    intro inserted; exact List.Perm.refl _

/-! ## Points and neighbours -/

/-- Modelled from the spec: `Point::isWithinMapBoundaries` is not in the sources; a
position is inside the grid when it lies in `[0, columns) x [0, rows)`. -/
def Point.isWithinMapBoundaries (m : Map) (p : Point) : Bool :=
  decide (0 ≤ p.x) && decide (p.x < m.m_columns) && decide (0 ≤ p.y) && decide (p.y < m.m_rows)

/-- The nine offsets in the fixed direction order BOTTOM_LEFT, LEFT, TOP_LEFT, BOTTOM,
CENTER, TOP, BOTTOM_RIGHT, RIGHT, TOP_RIGHT. -/
def neighborOffsets : List (Int × Int) :=
  [(-1, -1), (-1, 0), (-1, 1), (0, -1), (0, 0), (0, 1), (1, -1), (1, 0), (1, 1)]

/-- Modelled from the spec: `PointFunctions::getNeighbors` is not in the sources; it
lists the in-grid neighbour positions of a point in the fixed direction order, the
centre only on request. -/
def PointFunctions.getNeighbors (m : Map) (p : Point) (includeCentralNode : Bool) : List Point :=
  ((neighborOffsets.filter fun o => includeCentralNode || !(o.1 == 0 && o.2 == 0)).map
    fun o => ({ x := p.x + o.1, y := p.y + o.2, z := 0, height := 0 } : Point)).filter
    fun q => q.isWithinMapBoundaries m

/-- Modelled from the spec: `PointFunctions::getNeighborPositionToOrigin` is not in the
sources; it names the direction of a neighbour relative to an origin (LEFT is one
column down, BOTTOM one row down). -/
def PointFunctions.getNeighborPositionToOrigin (neighboringPoint originPoint : Point) :
    NeighbourNodesPosition :=
  let dx := neighboringPoint.x - originPoint.x
  let dy := neighboringPoint.y - originPoint.y
  if dx = 0 then
    if dy = 1 then .TOP else if dy = -1 then .BOTTOM else .CENTER
  else if dx = 1 then
    if dy = 0 then .RIGHT else if dy = 1 then .TOP_RIGHT else if dy = -1 then .BOTTOM_RIGHT
    else .CENTER
  else if dx = -1 then
    if dy = 0 then .LEFT else if dy = 1 then .TOP_LEFT else if dy = -1 then .BOTTOM_LEFT
    else .CENTER
  else .CENTER

/-! ## Node operations (`MapNode`) -/

/-- Height of a node (`getCoordinates().height`). -/
def MapNode.height (n : MapNode) : Int := n.m_isoCoordinates.height

/-- Modelled from the spec: `MapNode::isLayerOccupied` is not in the sources; a layer is
occupied when it holds a tile descriptor. -/
def MapNode.isLayerOccupied (n : MapNode) (layer : Layer) : Bool :=
  (n.m_mapNodeData layer).tileData.isSome

/-- Modelled from the spec: `MapNode::changeHeight` is not in the sources; it raises or
lowers the node by one unit, clamped to `[0, maxHeight]`, and reports whether the height
changed. -/
def MapNode.changeHeight (maxHeight : Int) (n : MapNode) (higher : Bool) : MapNode × Bool :=
  if (higher && decide (n.height < maxHeight)) || (!higher && decide (n.height > 0)) then
    ({ n with m_isoCoordinates :=
        { n.m_isoCoordinates with height := if higher then n.height + 1 else n.height - 1 } },
      true)
  else (n, false)

/-- Modelled from the spec: `MapNode::demolishLayer` is not in the sources; it clears the
tile identifier and descriptor of one layer. -/
def MapNode.demolishLayer (n : MapNode) (layer : Layer) : MapNode :=
  { n with m_mapNodeData := fun l =>
      if l = layer then { n.m_mapNodeData l with tileID := "", tileData := none }
      else n.m_mapNodeData l }

/-- Modelled from the spec: `MapNode::demolishNode` is not in the sources; it clears the
target layer, or all layers if the layer is NONE. -/
def MapNode.demolishNode (n : MapNode) (layer : Layer) : MapNode :=
  if layer = Layer.NONE then
    { n with m_mapNodeData := fun l => { n.m_mapNodeData l with tileID := "", tileData := none } }
  else n.demolishLayer layer

/-- Stores the elevation bitmask (`MapNode::setElevationBitMask`). -/
def MapNode.setElevationBitMask (n : MapNode) (bitMask : Nat) : MapNode :=
  { n with m_elevationBitmask := bitMask }

/-- Stores the per-layer auto-tile bitmasks (`MapNode::setAutotileBitMask`). -/
def MapNode.setAutotileBitMask (n : MapNode) (bitMask : Layer → Nat) : MapNode :=
  { n with m_autotileBitmask := bitMask }

/-! ## Node array access -/

/-- Index of a position in the node array (`Map::nodeIdx`). -/
def Map.nodeIdx (m : Map) (x y : Int) : Int := x * m.m_columns + y

/-- The pointer `&mapNodes[nodeIdx(x, y)]`. -/
def Map.nodePtr (m : Map) (x y : Int) : Nat := (m.nodeIdx x y).toNat

/-- Dereference of a node pointer. -/
def Map.node (m : Map) (i : Nat) : MapNode := m.mapNodes.getD i default

/-- Write through a node pointer. -/
def Map.setNode (m : Map) (i : Nat) (n : MapNode) : Map :=
  { m with mapNodes := m.mapNodes.set i n }

/-- Node at a position (`Map::getMapNode`). -/
def Map.getMapNode (m : Map) (isoCoords : Point) : MapNode :=
  m.node (m.nodePtr isoCoords.x isoCoords.y)

/-- Neighbour nodes of a position with their directions (`Map::getNeighborNodes`). -/
def Map.getNeighborNodes (m : Map) (isoCoordinates : Point) (includeCentralNode : Bool) :
    List NeighborNode :=
  (PointFunctions.getNeighbors m isoCoordinates includeCentralNode).map fun it =>
    { pNode := m.nodePtr it.x it.y,
      position := PointFunctions.getNeighborPositionToOrigin it isoCoordinates }

/-- Bitmask of the neighbours that are strictly higher than the centre
(`Map::getElevatedNeighborBitmask`). -/
def Map.getElevatedNeighborBitmask (m : Map) (centerCoordinates : Point) : Nat :=
  let centralNodeHeight := (m.getMapNode centerCoordinates).height
  (PointFunctions.getNeighbors m centerCoordinates false).foldl
    (fun bitmask neighborCoordinates =>
      if (m.getMapNode neighborCoordinates).height > centralNodeHeight then
        bitmask ||| (PointFunctions.getNeighborPositionToOrigin neighborCoordinates
          centerCoordinates).toNat
      else bitmask)
    0

/-! ## Tile queries -/

/-- Modelled from the spec: `TileManager::getTargetCoordsOfTileID` is not in the sources;
it is the footprint of the tile (width x height cells) projected from the origin, and it
is empty when the tile is unknown or a footprint cell falls outside the grid. The spec
does not fix the orientation: columns extend towards lower x, rows towards higher y. -/
def getTargetCoordsOfTileID (env : Env) (m : Map) (targetOrigCoord : Point) (tileID : String) :
    List Point :=
  match env.tileManager.getTileData tileID with
  | none => []
  | some tileData =>
    let coords := (List.range tileData.RequiredTiles.width).flatMap fun i =>
      (List.range tileData.RequiredTiles.height).map fun j =>
        ({ targetOrigCoord with x := targetOrigCoord.x - (i : Int),
                                y := targetOrigCoord.y + (j : Int) } : Point)
    if coords.all fun c => c.isWithinMapBoundaries m then coords else []

/-- Insertion into a `std::unordered_set<MapNode *>`. -/
def setInsert (s : List Nat) (x : Nat) : List Nat := if x ∈ s then s else s ++ [x]

/-! ## Height changes -/

/-- The loop of `Map::updateHeight`: clears the ZONE layer of every given neighbour that
has one. -/
def Map.demolishZoneOf (m : Map) (neighbors : List NeighborNode) : Map :=
  neighbors.foldl
    (fun acc neighbour =>
      if (acc.node neighbour.pNode).isLayerOccupied Layer.ZONE then
        acc.setNode neighbour.pNode ((acc.node neighbour.pNode).demolishLayer Layer.ZONE)
      else acc)
    m

/-- Changes the height of a node and, on success, clears the ZONE layer of the given
neighbours (`Map::updateHeight`). -/
def Map.updateHeight (env : Env) (m : Map) (mapNode : Nat) (higher : Bool)
    (neighbors : List NeighborNode) : Map × Bool :=
  if ((m.node mapNode).changeHeight env.maxHeight higher).2 then
    ((m.setNode mapNode ((m.node mapNode).changeHeight env.maxHeight higher).1).demolishZoneOf
      neighbors, true)
  else (m, false)

/-! ## Demolition, first part -/

/-- Body of the collecting loop of `Map::demolishNode` (lines 456-482) for one position:
an in-grid node is added to the set, together with the whole footprint when it belongs to
a multi-cell building. -/
def Map.collectNode (env : Env) (m : Map) (acc : List Nat) (isoCoord : Point) : List Nat :=
  if isoCoord.isWithinMapBoundaries m then
    setInsert
      (match ((m.node (m.nodePtr isoCoord.x isoCoord.y)).m_mapNodeData Layer.BUILDINGS).tileData with
      | none => acc
      | some pNodeTileData =>
        if pNodeTileData.RequiredTiles.height > 1 || pNodeTileData.RequiredTiles.width > 1 then
          if (((m.node (m.nodePtr isoCoord.x isoCoord.y)).m_mapNodeData
              Layer.BUILDINGS).origCornerPoint).isWithinMapBoundaries m then
            (getTargetCoordsOfTileID env m
              ((m.node (m.nodePtr isoCoord.x isoCoord.y)).m_mapNodeData
                Layer.BUILDINGS).origCornerPoint
              ((m.getMapNode ((m.node (m.nodePtr isoCoord.x isoCoord.y)).m_mapNodeData
                Layer.BUILDINGS).origCornerPoint).m_mapNodeData Layer.BUILDINGS).tileID).foldl
              (fun a buildingCoords => setInsert a (m.nodePtr buildingCoords.x buildingCoords.y))
              acc
          else acc
        else acc)
      (m.nodePtr isoCoord.x isoCoord.y)
  else acc

/-- Lines 452-483 of `Map::demolishNode`: collects the nodes to demolish, expanding a
multi-cell building to its whole footprint. -/
def Map.nodesToDemolish (env : Env) (m : Map) (isoCoordinates : List Point) : List Nat :=
  isoCoordinates.foldl (m.collectNode env) []

/-- Lines 485-495 of `Map::demolishNode`: demolishes every node of `nodes` on the layer
and emits one demolition signal per node, in the order of `nodes`. The callers pass the
set `nodesToDemolish` in its order of iteration. -/
def Map.demolishAll (m : Map) (nodes : List Nat) (layer : Layer) : Map :=
  nodes.foldl
    (fun acc pNode =>
      { acc.setNode pNode ((acc.node pNode).demolishNode layer) with
        signals := acc.signals ++ [Signal.demolish pNode] })
    m

/-- `Map::demolishNode` with `updateNeighboringTiles = false`: nothing follows the
demolition loop, which iterates the set `nodesToDemolish` in the order of the set. -/
def Map.demolishNodeNoUpdate (env : Env) (m : Map) (isoCoordinates : List Point) (layer : Layer) :
    Map :=
  m.demolishAll (env.unorderedSetOrder (m.nodesToDemolish env isoCoordinates)) layer

/-! ## Auto-tile bitmask -/

/-- The node holds, on its WATER layer, a tile of kind WATER (the test of line 330). -/
def Map.holdsWater (m : Map) (pNode : Nat) : Bool :=
  match ((m.node pNode).m_mapNodeData Layer.WATER).tileData with
  | some pTileData => pTileData.tileType == TileType.WATER
  | none => false

/-- The neighbour stitches to a tile with identifier `nodeTileId` and descriptor
`pCurrentTileData` on the layer (the test of line 345). -/
def Map.stitches (m : Map) (currentLayer : Layer) (nodeTileId : String)
    (pCurrentTileData : TileData) (pNode : Nat) : Bool :=
  ((m.node pNode).m_mapNodeData currentLayer).tileData.isSome &&
    (((m.node pNode).m_mapNodeData currentLayer).tileID == nodeTileId ||
      pCurrentTileData.tileType == TileType.ROAD)

/-- The shoreline loop of `calculateAutotileBitmask` (lines 326-334). -/
def Map.waterNeighbourBits (m : Map) (neighborNodes : List NeighborNode) (bitmask : Nat) : Nat :=
  neighborNodes.foldl
    (fun b neighbour => if m.holdsWater neighbour.pNode then b ||| neighbour.position.toNat else b)
    bitmask

/-- The stitching loop of `calculateAutotileBitmask` (lines 341-349). -/
def Map.stitchNeighbourBits (m : Map) (currentLayer : Layer) (nodeTileId : String)
    (pCurrentTileData : TileData) (neighborNodes : List NeighborNode) (bitmask : Nat) : Nat :=
  neighborNodes.foldl
    (fun b neighbour =>
      if m.stitches currentLayer nodeTileId pCurrentTileData neighbour.pNode then
        b ||| neighbour.position.toNat
      else b)
    bitmask

/-- Body of the layer loop of `calculateAutotileBitmask` (lines 320-351): the new entry
of `currentLayer`, given its previous value. -/
def Map.layerAutotileBitmask (env : Env) (m : Map) (pMapNode : Nat)
    (neighborNodes : List NeighborNode) (currentLayer : Layer) (bitmask : Nat) : Nat :=
  match ((m.node pMapNode).m_mapNodeData currentLayer).tileData with
  | none => bitmask
  | some pCurrentTileData =>
    if env.tileManager.isTileIDAutoTile ((m.node pMapNode).m_mapNodeData currentLayer).tileID then
      m.stitchNeighbourBits currentLayer ((m.node pMapNode).m_mapNodeData currentLayer).tileID
        pCurrentTileData neighborNodes
        (if pCurrentTileData.tileType = TileType.TERRAIN then
          m.waterNeighbourBits neighborNodes bitmask
        else bitmask)
    else
      (if pCurrentTileData.tileType = TileType.TERRAIN then
        m.waterNeighbourBits neighborNodes bitmask
      else bitmask)

/-- Per-layer auto-tile bitmask of a node for a given neighbour list
(`Map::calculateAutotileBitmask`); every entry starts at 0. -/
def Map.calculateAutotileBitmask (env : Env) (m : Map) (pMapNode : Nat)
    (neighborNodes : List NeighborNode) : Layer → Nat :=
  env.allLayersOrdered.foldl
    (fun tileOrientationBitmask currentLayer => fun l =>
      if l = currentLayer then
        m.layerAutotileBitmask env pMapNode neighborNodes currentLayer
          (tileOrientationBitmask currentLayer)
      else tileOrientationBitmask l)
    (fun _ => 0)

/-! ## Height propagation (`Map::updateNodeNeighbors`) -/

/-- The bitmask combinations that require a tile to be elevated (`elevateTileComb`). -/
def elevateTileComb : List Nat :=
  [ NeighbourNodesPosition.TOP.toNat ||| NeighbourNodesPosition.BOTTOM.toNat,
    NeighbourNodesPosition.LEFT.toNat ||| NeighbourNodesPosition.RIGHT.toNat,
    NeighbourNodesPosition.TOP_LEFT.toNat ||| NeighbourNodesPosition.RIGHT.toNat |||
      NeighbourNodesPosition.BOTTOM.toNat,
    NeighbourNodesPosition.TOP_RIGHT.toNat ||| NeighbourNodesPosition.LEFT.toNat |||
      NeighbourNodesPosition.BOTTOM.toNat,
    NeighbourNodesPosition.BOTTOM_LEFT.toNat ||| NeighbourNodesPosition.RIGHT.toNat |||
      NeighbourNodesPosition.TOP.toNat,
    NeighbourNodesPosition.BOTTOM_RIGHT.toNat ||| NeighbourNodesPosition.LEFT.toNat |||
      NeighbourNodesPosition.TOP.toNat ]

/-- Local state of `Map::updateNodeNeighbors`. `nodesUpdatedHeight` is the FIFO queue
(front first); `nodesToElevate` is the vector used as a stack, most recently pushed
element (its `back()`) first. -/
structure UpdateState where
  map : Map
  nodesUpdatedHeight : List Nat
  nodesToElevate : List Nat
  nodesToBeUpdated : List Nat
  nodesToDemolish : List Nat

/-- `push_back` on `nodesToElevate` unless the node is already in it. -/
def pushIfAbsent (stack : List Nat) (x : Nat) : List Nat := if x ∈ stack then stack else x :: stack

/-- Body of the loop over the neighbours of a popped height-dirty node (lines 206-227). -/
def neighbourStep (env : Env) (tileHeight : Int) (s : UpdateState) (neighbour : NeighborNode) :
    UpdateState :=
  let pNode := neighbour.pNode
  let heightDiff := tileHeight - (s.map.node pNode).height
  let s1 := { s with nodesToElevate := pushIfAbsent s.nodesToElevate pNode }
  if heightDiff.natAbs > 1 then
    { s1 with
      nodesUpdatedHeight := s1.nodesUpdatedHeight ++ [pNode],
      map := (s1.map.updateHeight env pNode (decide (heightDiff > 1))
        (s1.map.getNeighborNodes (s1.map.node pNode).m_isoCoordinates false)).1 }
  else s1

/-- One iteration of the inner loop over the height-dirty queue (lines 192-227), for the
node `pHeighChangedNode` just popped from the front of the queue. -/
def heightStep (env : Env) (s : UpdateState) (pHeighChangedNode : Nat) : UpdateState :=
  let tileHeight := (s.map.node pHeighChangedNode).height
  let s1 := { s with nodesToElevate := pushIfAbsent s.nodesToElevate pHeighChangedNode }
  (s1.map.getNeighborNodes (s1.map.node pHeighChangedNode).m_isoCoordinates false).foldl
    (neighbourStep env tileHeight) s1

/-- One iteration of the loop over the elevation candidates (lines 232-257), for the node
`pEleNode` just popped from the back of `nodesToElevate`. -/
def elevateStep (env : Env) (s : UpdateState) (pEleNode : Nat) : UpdateState :=
  let s1 := { s with nodesToBeUpdated := setInsert s.nodesToBeUpdated pEleNode }
  let elevationBitmask := s1.map.getElevatedNeighborBitmask (s1.map.node pEleNode).m_isoCoordinates
  let s2 :=
    if elevationBitmask ≠ (s1.map.node pEleNode).m_elevationBitmask then
      { s1 with
        nodesToDemolish := setInsert s1.nodesToDemolish pEleNode,
        map := s1.map.setNode pEleNode
          ((s1.map.node pEleNode).setElevationBitMask elevationBitmask) }
    else s1
  if elevateTileComb.any fun elBitMask => elevationBitmask &&& elBitMask == elBitMask then
    { s2 with
      map := (s2.map.updateHeight env pEleNode true
        (s2.map.getNeighborNodes (s2.map.node pEleNode).m_isoCoordinates false)).1,
      nodesUpdatedHeight := s2.nodesUpdatedHeight ++ [pEleNode] }
  else s2

/-- The loop of lines 188-259: while the queue is non-empty its front node is processed;
when it is empty the last elevation candidate is processed; the loop ends when both are
empty. `none` means that the step budget ran out. -/
def propagate (env : Env) : Nat → UpdateState → Option UpdateState
  | 0, _ => none
  | fuel + 1, s =>
    match s.nodesUpdatedHeight with
    | pHeighChangedNode :: rest =>
      propagate env fuel (heightStep env { s with nodesUpdatedHeight := rest } pHeighChangedNode)
    | [] =>
      match s.nodesToElevate with
      | pEleNode :: rest => propagate env fuel (elevateStep env { s with nodesToElevate := rest } pEleNode)
      | [] => some s

/-- The loop over the seed nodes (lines 184-260). -/
def propagateAll (env : Env) (fuel : Nat) : List Nat → UpdateState → Option UpdateState
  | [], s => some s
  | pUpdateNode :: nodes, s =>
    match propagate env fuel { s with nodesUpdatedHeight := s.nodesUpdatedHeight ++ [pUpdateNode] } with
    | none => none
    | some s1 => propagateAll env fuel nodes s1

/-- Lines 270-273: the auto-tile bitmask of every given node is recomputed and stored. -/
def Map.autotilePass (env : Env) (m : Map) (nodes : List Nat) : Map :=
  nodes.foldl
    (fun acc pNode =>
      acc.setNode pNode ((acc.node pNode).setAutotileBitMask
        (acc.calculateAutotileBitmask env pNode
          (acc.getNeighborNodes (acc.node pNode).m_isoCoordinates false))))
    m

/-- Lines 262-273: demolition of the nodes whose elevation bitmask changed, then the
auto-tile bitmask of every visited node is recomputed. Both sets are iterated in the order
of the set. -/
def finishUpdate (env : Env) (s : UpdateState) : Map :=
  (if s.nodesToDemolish.isEmpty then s.map
    else s.map.demolishNodeNoUpdate env
      ((env.unorderedSetOrder s.nodesToDemolish).map fun mn => (s.map.node mn).m_isoCoordinates)
      Layer.NONE).autotilePass
    env (env.unorderedSetOrder s.nodesToBeUpdated)

/-- Final local state of `Map::updateNodeNeighbors` when its loops end. -/
def Map.updateNodeNeighborsState (env : Env) (fuel : Nat) (m : Map) (nodes : List Nat) :
    Option UpdateState :=
  propagateAll env fuel nodes
    { map := m, nodesUpdatedHeight := [], nodesToElevate := [], nodesToBeUpdated := [],
      nodesToDemolish := [] }

/-- Restores the height and bitmask invariants from the given seed nodes
(`Map::updateNodeNeighbors`). -/
def Map.updateNodeNeighbors (env : Env) (fuel : Nat) (m : Map) (nodes : List Nat) : Option Map :=
  (m.updateNodeNeighborsState env fuel nodes).map (finishUpdate env)

/-- Demolishes the given positions on a layer (`Map::demolishNode`): the loop over the set
`nodesToDemolish` runs in the order of iteration of the set, and so does the list
`updateNodes` that seeds the propagation. -/
def Map.demolishNode (env : Env) (fuel : Nat) (m : Map) (isoCoordinates : List Point)
    (updateNeighboringTiles : Bool) (layer : Layer) : Option Map :=
  let nodesToDemolish := env.unorderedSetOrder (m.nodesToDemolish env isoCoordinates)
  let m1 := m.demolishAll nodesToDemolish layer
  let updateNodes := if updateNeighboringTiles then nodesToDemolish else []
  if updateNodes.isEmpty then some m1 else m1.updateNodeNeighbors env fuel updateNodes

/-- Raises or lowers a node and propagates the change (`Map::changeHeight`). -/
def Map.changeHeight (env : Env) (fuel : Nat) (m : Map) (isoCoordinates : Point) (higher : Bool) :
    Option Map :=
  let mapNode := m.nodePtr isoCoordinates.x isoCoordinates.y
  let neighbours := m.getNeighborNodes isoCoordinates true
  let neighorCoordinates := PointFunctions.getNeighbors m isoCoordinates true
  let r := m.updateHeight env mapNode higher neighbours
  if r.2 then
    let lowered :=
      if !higher then
        let centerHeight := (r.1.getMapNode isoCoordinates).height
        neighorCoordinates.foldl
          (fun (acc : Map × List Nat) neighbourCoord =>
            let neighborNode := acc.1.nodePtr neighbourCoord.x neighbourCoord.y
            if centerHeight < (acc.1.node neighborNode).height then
              (acc.1.setNode neighborNode ((acc.1.node neighborNode).changeHeight env.maxHeight false).1,
                acc.2 ++ [neighborNode])
            else acc)
          (r.1, [mapNode])
      else (r.1, [mapNode])
    (lowered.1.demolishNodeNoUpdate env neighorCoordinates Layer.NONE).updateNodeNeighbors env fuel
      lowered.2
  else some m

/-- Raises a node by one unit (`Map::increaseHeight`). -/
def Map.increaseHeight (env : Env) (fuel : Nat) (m : Map) (isoCoordinates : Point) : Option Map :=
  m.changeHeight env fuel isoCoordinates true

/-- Lowers a node by one unit (`Map::decreaseHeight`). -/
def Map.decreaseHeight (env : Env) (fuel : Nat) (m : Map) (isoCoordinates : Point) : Option Map :=
  m.changeHeight env fuel isoCoordinates false

/-! ## Placement (`Map::setTileID`) -/

/-- Modelled from the spec: `MapNode::setTileID` is not in the sources; when the tile
resolves it writes the tile identifier, the resolved descriptor and the origin cell on the
layer of the tile. -/
def MapNode.setTileID (tm : TileManager) (n : MapNode) (tileID : String) (origCornerPoint : Point) :
    MapNode :=
  match tm.getTileData tileID with
  | none => n
  | some tileData =>
    if tileID.isEmpty then n
    else
      { n with m_mapNodeData := fun l =>
          if l = tm.getTileLayer tileID then
            { n.m_mapNodeData l with
              tileID := tileID, tileData := some tileData, origCornerPoint := origCornerPoint }
          else n.m_mapNodeData l }

/-- Sets the render flag of one layer (`MapNode::setRenderFlag`). -/
def MapNode.setRenderFlag (n : MapNode) (layer : Layer) (shouldRender : Bool) : MapNode :=
  { n with m_mapNodeData := fun l =>
      if l = layer then { n.m_mapNodeData l with shouldRender := shouldRender }
      else n.m_mapNodeData l }

/-- Placement check of one cell (`Map::isPlacementOnNodeAllowed`). -/
def Map.isPlacementOnNodeAllowed (env : Env) (m : Map) (isoCoordinates : Point) (tileID : String) :
    Bool :=
  env.isPlacementAllowed (m.node (m.nodePtr isoCoordinates.x isoCoordinates.y)) tileID

/-- Body of the placement loop of `Map::setTileID` (lines 761-807) for one target cell.
The state is the map and the list `nodesToBeUpdated`. In the source the test
`!targetCoordinates.size() == 1` negates the size before comparing, so it holds only for
an empty target list. -/
def placeStep (env : Env) (tileID : String) (coordinate : Point) (targetCoordinates : List Point)
    (layer : Layer) (randomGroundDecorationTileID : String) (acc : Map × List Nat) (coord : Point) :
    Map × List Nat :=
  let currentMapNode := acc.1.nodePtr coord.x coord.y
  let n1 :=
    if coord ≠ coordinate ∧ targetCoordinates.length > 1 then
      (acc.1.node currentMapNode).setRenderFlag layer false
    else (acc.1.node currentMapNode).setRenderFlag layer true
  let n2 :=
    if (if targetCoordinates.length = 0 then 1 else 0) = 1 then
      n1.setTileID env.tileManager tileID coord
    else n1.setTileID env.tileManager tileID coordinate
  let n3 :=
    if !randomGroundDecorationTileID.isEmpty then
      n2.setTileID env.tileManager randomGroundDecorationTileID coord
    else n2
  let nodesToBeUpdated :=
    if env.tileManager.isTileIDAutoTile tileID then acc.2 ++ [currentMapNode] else acc.2
  let m1 := acc.1.setNode currentMapNode n3
  let m2 :=
    if (n3.m_mapNodeData Layer.BUILDINGS).tileData.isSome &&
        (n3.m_mapNodeData Layer.ZONE).tileData.isSome then
      { m1 with signals := m1.signals ++ [Signal.placeBuilding currentMapNode] }
    else if (n3.m_mapNodeData Layer.ZONE).tileData.isSome then
      { m1 with signals := m1.signals ++ [Signal.placeZone currentMapNode] }
    else m1
  (m2, nodesToBeUpdated)

/-- Places a tile with its whole footprint (`Map::setTileID`). `rnd` stands for the
draw of `Randomizer::choose` among the ground decorations. -/
def Map.setTileID (env : Env) (fuel : Nat) (rnd : Nat) (m : Map) (tileID : String)
    (coordinate : Point) : Option Map :=
  let targetCoordinates := getTargetCoordsOfTileID env m coordinate tileID
  match env.tileManager.getTileData tileID with
  | none => some m
  | some tileData =>
    if targetCoordinates.isEmpty then some m
    else if targetCoordinates.any fun coord => !m.isPlacementOnNodeAllowed env coord tileID then
      some m
    else
      let layer := env.tileManager.getTileLayer tileID
      let randomGroundDecorationTileID :=
        if tileData.groundDecoration.isEmpty then ""
        else tileData.groundDecoration.getD (rnd % tileData.groundDecoration.length) ""
      let m1 :=
        if targetCoordinates.length > 1 then
          m.demolishNodeNoUpdate env targetCoordinates Layer.BUILDINGS
        else m
      let r := targetCoordinates.foldl
        (placeStep env tileID coordinate targetCoordinates layer randomGroundDecorationTileID)
        (m1, [])
      if r.2.isEmpty then some r.1 else r.1.updateNodeNeighbors env fuel r.2

/-! ## Invariants of the grid -/

/-- Well-formed map: the grid is square (`nodeIdx` uses the column count as the stride
for both dimensions), the node array has one node per cell, and the node stored at index
`x * columns + y` carries the coordinates `(x, y)`. -/
def Map.WF (m : Map) : Prop :=
  0 ≤ m.m_columns ∧ m.m_rows = m.m_columns ∧
  m.mapNodes.length = m.m_columns.toNat * m.m_columns.toNat ∧
  ∀ i, i < m.mapNodes.length →
    (m.node i).m_isoCoordinates.x = ((i / m.m_columns.toNat : Nat) : Int) ∧
    (m.node i).m_isoCoordinates.y = ((i % m.m_columns.toNat : Nat) : Int)

/-- Every node height lies in `[0, maxHeight]`. -/
def Map.HeightsInRange (env : Env) (m : Map) : Prop :=
  ∀ i, i < m.mapNodes.length → 0 ≤ (m.node i).height ∧ (m.node i).height ≤ env.maxHeight

/-- Indices of the neighbour nodes of the node with index `i` (centre excluded). -/
def Map.neighbourIdx (m : Map) (i : Nat) : List Nat :=
  (m.getNeighborNodes (m.node i).m_isoCoordinates false).map fun nb => nb.pNode

/-- Invariant I1 (height continuity): 8-adjacent nodes differ in height by at most 1. -/
def Map.I1 (m : Map) : Prop :=
  ∀ p q : Point, p.isWithinMapBoundaries m = true → q.isWithinMapBoundaries m = true →
    |p.x - q.x| ≤ 1 → |p.y - q.y| ≤ 1 →
    |(m.getMapNode p).height - (m.getMapNode q).height| ≤ 1

/-- Index form of I1, decidable on a concrete map. -/
def Map.I1Idx (m : Map) : Prop :=
  ∀ i, i < m.mapNodes.length → ∀ j ∈ m.neighbourIdx i,
    ((m.node i).height - (m.node j).height).natAbs ≤ 1

/-- Column/row offset of a direction (inverse of `getNeighborPositionToOrigin`). -/
def NeighbourNodesPosition.offset : NeighbourNodesPosition → Int × Int
  | .BOTTOM_LEFT => (-1, -1)
  | .LEFT => (-1, 0)
  | .TOP_LEFT => (-1, 1)
  | .BOTTOM => (0, -1)
  | .CENTER => (0, 0)
  | .TOP => (0, 1)
  | .BOTTOM_RIGHT => (1, -1)
  | .RIGHT => (1, 0)
  | .TOP_RIGHT => (1, 1)

/-- The position one step away from `p` in direction `d`. -/
def Point.shift (p : Point) (d : NeighbourNodesPosition) : Point :=
  { x := p.x + d.offset.1, y := p.y + d.offset.2, z := 0, height := 0 }

/-- The bit of direction `d` is set in a bitmask. -/
def hasBit (bitmask : Nat) (d : NeighbourNodesPosition) : Prop :=
  bitmask &&& d.toNat = d.toNat

instance (bitmask : Nat) (d : NeighbourNodesPosition) : Decidable (hasBit bitmask d) :=
  inferInstanceAs (Decidable (bitmask &&& d.toNat = d.toNat))

/-- The neighbour of `c` in direction `d` exists and is strictly higher than `c`. -/
def Map.tallerNeighbour (m : Map) (c : Point) (d : NeighbourNodesPosition) : Prop :=
  (c.shift d).isWithinMapBoundaries m = true ∧
    (m.getMapNode (c.shift d)).height > (m.getMapNode c).height

/-- Invariant I2 (elevation bitmask correctness): the stored bit of every non-centre
direction is set exactly when the neighbour in that direction exists and is strictly
higher. -/
def Map.I2 (m : Map) : Prop :=
  ∀ p : Point, p.isWithinMapBoundaries m = true → ∀ d : NeighbourNodesPosition, d ≠ .CENTER →
    (hasBit (m.getMapNode p).m_elevationBitmask d ↔ m.tallerNeighbour p d)

/-- The stored elevation bitmask of a node agrees with the freshly computed one on the
eight direction bits. -/
def Map.elevOK (m : Map) (i : Nat) : Prop :=
  ∀ d : NeighbourNodesPosition, d ≠ .CENTER →
    (hasBit (m.node i).m_elevationBitmask d ↔
      hasBit (m.getElevatedNeighborBitmask (m.node i).m_isoCoordinates) d)

/-- Index form of I2: every stored elevation bitmask agrees with the freshly computed
one. -/
def Map.I2Idx (m : Map) : Prop :=
  ∀ i, i < m.mapNodes.length → m.elevOK i

/-! ## Relations between two states of the map, used to state what an operation keeps -/

/-- The second map has the dimensions, the node count and the x/y coordinates of the first. -/
def Map.SameGrid (m m' : Map) : Prop :=
  m'.m_columns = m.m_columns ∧ m'.m_rows = m.m_rows ∧
  m'.mapNodes.length = m.mapNodes.length ∧
  ∀ i, (m'.node i).m_isoCoordinates.x = (m.node i).m_isoCoordinates.x ∧
       (m'.node i).m_isoCoordinates.y = (m.node i).m_isoCoordinates.y

/-- The second map differs from the first at most in the per-layer tile data of its nodes
and in the signal log. -/
def Map.SameButData (m m' : Map) : Prop :=
  m'.m_columns = m.m_columns ∧ m'.m_rows = m.m_rows ∧
  m'.mapNodes.length = m.mapNodes.length ∧
  ∀ i, (m'.node i).m_isoCoordinates = (m.node i).m_isoCoordinates ∧
       (m'.node i).m_elevationBitmask = (m.node i).m_elevationBitmask ∧
       (m'.node i).m_autotileBitmask = (m.node i).m_autotileBitmask

/-- The second map has the dimensions, coordinates, heights and elevation bitmasks of the
first. -/
def Map.SameCore (m m' : Map) : Prop :=
  m'.m_columns = m.m_columns ∧ m'.m_rows = m.m_rows ∧
  m'.mapNodes.length = m.mapNodes.length ∧
  ∀ i, (m'.node i).m_isoCoordinates = (m.node i).m_isoCoordinates ∧
       (m'.node i).m_elevationBitmask = (m.node i).m_elevationBitmask

/-- The second map has the dimensions, the x/y coordinates and the heights of the first;
tiles and stored bitmasks may differ. -/
def Map.SameHeights (m m' : Map) : Prop :=
  m.SameGrid m' ∧ ∀ i, (m'.node i).height = (m.node i).height

/-- Two states of the propagation loop with the same heights and the same two work
lists. -/
def UpdateState.SameHeights (s s' : UpdateState) : Prop :=
  s.map.SameHeights s'.map ∧ s'.nodesUpdatedHeight = s.nodesUpdatedHeight ∧
    s'.nodesToElevate = s.nodesToElevate

/-- Two nodes are 8-adjacent in the grid (index form). -/
def Map.Adj (m : Map) (i j : Nat) : Prop :=
  j < m.mapNodes.length ∧
  ((m.node j).m_isoCoordinates.x - (m.node i).m_isoCoordinates.x).natAbs ≤ 1 ∧
  ((m.node j).m_isoCoordinates.y - (m.node i).m_isoCoordinates.y).natAbs ≤ 1 ∧
  ((m.node j).m_isoCoordinates.x ≠ (m.node i).m_isoCoordinates.x ∨
    (m.node j).m_isoCoordinates.y ≠ (m.node i).m_isoCoordinates.y)

/-! ## Tile state of a layer -/

/-- The layer of the node holds no tile: no descriptor and an empty identifier. -/
def MapNode.layerCleared (n : MapNode) (layer : Layer) : Prop :=
  (n.m_mapNodeData layer).tileData = none ∧ (n.m_mapNodeData layer).tileID = ""

/-- Every layer that is cleared in the first map is cleared in the second. -/
def Map.KeepsCleared (m m' : Map) : Prop :=
  ∀ i layer, (m.node i).layerCleared layer → (m'.node i).layerCleared layer

/-- The layer data holds a descriptor whose footprint is larger than 1x1: the test
`pNodeTileData && (RequiredTiles.height > 1 || RequiredTiles.width > 1)` of
`Map::demolishNode` (line 465). -/
def MapNodeData.isMultiCell (d : MapNodeData) : Bool :=
  match d.tileData with
  | some pNodeTileData =>
    decide (pNodeTileData.RequiredTiles.height > 1) || decide (pNodeTileData.RequiredTiles.width > 1)
  | none => false

/-- The grid holds a multi-cell structure `tileID` with the given origin on the BUILDINGS
layer, as `setTileID` leaves it: the origin is in the grid and stores the identifier, and
every footprint cell holds a descriptor with a footprint larger than 1x1 and refers back
to the origin. -/
def Map.HoldsStructure (env : Env) (m : Map) (tileID : String) (origin : Point) : Prop :=
  origin.isWithinMapBoundaries m = true ∧
  ((m.getMapNode origin).m_mapNodeData Layer.BUILDINGS).tileID = tileID ∧
  ∀ t ∈ getTargetCoordsOfTileID env m origin tileID,
    ((m.getMapNode t).m_mapNodeData Layer.BUILDINGS).origCornerPoint = origin ∧
    ((m.getMapNode t).m_mapNodeData Layer.BUILDINGS).isMultiCell = true

/-- Invariant I4 (auto-tile bitmask correctness): on every layer, the stored auto-tile
bitmask of every node equals `calculateAutotileBitmask` of the node and its neighbours. -/
def Map.I4 (env : Env) (m : Map) : Prop :=
  ∀ i, i < m.mapNodes.length → ∀ L : Layer,
    (m.node i).m_autotileBitmask L =
      m.calculateAutotileBitmask env i (m.getNeighborNodes (m.node i).m_isoCoordinates false) L

instance (m : Map) : Decidable m.WF := by
  unfold Map.WF; infer_instance

instance (env : Env) (m : Map) : Decidable (m.HeightsInRange env) := by
  unfold Map.HeightsInRange; infer_instance

instance (m : Map) : Decidable m.I1Idx := by
  unfold Map.I1Idx; infer_instance

instance (m : Map) : Decidable m.I2Idx := by
  unfold Map.I2Idx Map.elevOK; infer_instance

instance (env : Env) (m : Map) : Decidable (m.I4 env) := by
  unfold Map.I4; infer_instance

instance (n : MapNode) (layer : Layer) : Decidable (n.layerCleared layer) := by
  unfold MapNode.layerCleared; infer_instance

instance (env : Env) (m : Map) (tileID : String) (origin : Point) :
    Decidable (m.HoldsStructure env tileID origin) := by
  unfold Map.HoldsStructure; infer_instance

/-! ## Proof-side notions for the propagation loop -/

/-- The heights of two nodes differ by at most one. -/
def Map.gapOK (m : Map) (i j : Nat) : Prop :=
  ((m.node i).height - (m.node j).height).natAbs ≤ 1

/-- Number of nodes at height `k`, plus the number of queue entries whose node is at
height `k`. -/
def levelCount (m : Map) (queue : List Nat) (k : Nat) : Nat :=
  ∑ i ∈ Finset.range m.mapNodes.length,
    if (m.node i).height = (k : Int) then 1 + queue.count i else 0

/-- Termination measure of the propagation loop, compared lexicographically with the
lowest level first: one entry per height level, then the size of the candidate stack. -/
def propagateMeasure (env : Env) (s : UpdateState) : Fin (env.maxHeight.toNat + 2) → Nat :=
  fun k =>
    if k.val ≤ env.maxHeight.toNat then levelCount s.map s.nodesUpdatedHeight k.val
    else s.nodesToElevate.length

/-- The level counts `g` are, up to level `K`, lexicographically no larger than `f`. -/
def LexLE (K : Nat) (f g : Nat → Nat) : Prop :=
  (∀ k, k ≤ K → g k = f k) ∨ ∃ j, j ≤ K ∧ (∀ k, k < j → g k = f k) ∧ g j < f j

/-- State invariant of the propagation loop: well-formed grid, heights in range, and
every queued node is a node of the grid. -/
def UpdateState.Valid (env : Env) (s : UpdateState) : Prop :=
  s.map.WF ∧ s.map.HeightsInRange env ∧
  (∀ i ∈ s.nodesUpdatedHeight, i < s.map.mapNodes.length) ∧
  (∀ i ∈ s.nodesToElevate, i < s.map.mapNodes.length)

/-- The measure of `s'` is lexicographically smaller than the measure of `s`. -/
def MeasureLT (env : Env) (s' s : UpdateState) : Prop :=
  Pi.Lex (fun a b => a < b) (fun a b => a < b) (propagateMeasure env s') (propagateMeasure env s)

/-- The map after lines 241-247 of `updateNodeNeighbors`: the freshly computed elevation
bitmask of the node is stored if it differs from the stored one. -/
def Map.storeElevation (m : Map) (pEleNode : Nat) : Map :=
  if m.getElevatedNeighborBitmask (m.node pEleNode).m_isoCoordinates ≠
      (m.node pEleNode).m_elevationBitmask then
    m.setNode pEleNode ((m.node pEleNode).setElevationBitMask
      (m.getElevatedNeighborBitmask (m.node pEleNode).m_isoCoordinates))
  else m

/-- The node must be elevated: its elevation bitmask contains one of the combinations of
`elevateTileComb`. -/
def mustElevate (elevationBitmask : Nat) : Bool :=
  elevateTileComb.any fun elBitMask => elevationBitmask &&& elBitMask == elBitMask

/-- Height-gap invariant of the propagation: two adjacent nodes differ by at most one,
unless one of them is still in the work list `W`, or the pair is the node `N` being
processed together with one of its neighbours still to be visited (`todo`). -/
def Map.GapInv (m : Map) (W : List Nat) (N : Nat) (todo : List Nat) : Prop :=
  ∀ i j, i < m.mapNodes.length → m.Adj i j →
    m.gapOK i j ∨ i ∈ W ∨ j ∈ W ∨ (i = N ∧ j ∈ todo) ∨ (j = N ∧ i ∈ todo)

/-- Elevation-bitmask invariant of the propagation: the stored bitmask of a node is up to
date, unless the node is an elevation candidate (`S`), is in the work list `W` or adjacent
to a node of `W`, or is excused by `T` (a neighbour still to be visited, or a node whose
bitmask was already stale before the operation). -/
def Map.ElevInv (m : Map) (W S : List Nat) (T : Nat → Prop) : Prop :=
  ∀ i, i < m.mapNodes.length →
    m.elevOK i ∨ i ∈ S ∨ i ∈ W ∨ (∃ j ∈ W, m.Adj i j) ∨ T i

/-- Invariant of the propagation loop; `extra` are the seed nodes not yet queued and
`stale` the nodes whose stored bitmask is not claimed to be up to date. -/
def UpdateState.Inv (env : Env) (stale : Nat → Prop) (extra : List Nat) (s : UpdateState) : Prop :=
  s.Valid env ∧ s.map.GapInv (s.nodesUpdatedHeight ++ extra) 0 [] ∧
    s.map.ElevInv (s.nodesUpdatedHeight ++ extra) s.nodesToElevate stale

/-! ## Placement legality (`Map::isAllowSetTileId`) -/

/-- Filter of `Map::isAllowSetTileId` (lines 662-694): whether a tile may be set on
`layer` of the node. `isSlopeNode` stands for `MapNode::isSlopeNode`, which is not in the
sources. -/
def Map.isAllowSetTileId (isSlopeNode : MapNode → Bool) (layer : Layer) (pMapNode : MapNode) :
    Bool :=
  match layer with
  | Layer.ZONE =>
    if (pMapNode.isLayerOccupied Layer.BUILDINGS &&
          (match (pMapNode.m_mapNodeData Layer.BUILDINGS).tileData with
           | some tileData => tileData.category != "Flora"
           | none => false)) ||
        pMapNode.isLayerOccupied Layer.WATER || pMapNode.isLayerOccupied Layer.ROAD ||
        isSlopeNode pMapNode then
      false
    else true
  | Layer.WATER =>
    if pMapNode.isLayerOccupied Layer.BUILDINGS &&
        (match (pMapNode.m_mapNodeData Layer.BUILDINGS).tileData with
         | some tileData => tileData.category != "Flora"
         | none => false) then
      false
    else true
  | _ => true

/-! ## Visible-range culler (`Map::calculateVisibleMap`) and drawing order -/

/-- The visible nodes (`Map::calculateVisibleMap`, lines 696-724), as the list of the node
pointers whose sprites are written to `pMapNodesVisible`, in the order they are written;
its length is `m_visibleNodesCount`. `topLeft` and `bottomRight` are the grid coordinates
of the viewport corners (results of `calculateIsoCoordinates`, which is not in the
sources). -/
def Map.calculateVisibleMap (env : Env) (m : Map) (topLeft bottomRight : Point) : List Nat :=
  let left := topLeft.x + topLeft.y - 2
  let right := bottomRight.x + bottomRight.y + 1
  let top := topLeft.y - topLeft.x + 1
  let bottom := bottomRight.y - bottomRight.x - 1 - env.maxHeight
  (List.range m.m_columns.toNat).reverse.flatMap fun (y : Nat) =>
    (List.range m.m_rows.toNat).flatMap fun (x : Nat) =>
      if decide (((x : Int) + (y : Int)) ≥ left) && decide (((x : Int) + (y : Int)) ≤ right) &&
          decide (((y : Int) - (x : Int)) ≤ top) && decide (((y : Int) - (x : Int)) ≥ bottom) then
        [m.nodePtr (x : Int) (y : Int)]
      else []

/-- The drawing-order list built by `Map::loadMapFromFile` (lines 648-655) for a map with
the given column count: the pointers `&mapNodes[x * columns + y]` for `x` ascending and,
inside each `x`, `y` from `columns - 1` down to 0. -/
def loadedDrawingOrder (columns : Int) : List Nat :=
  (List.range columns.toNat).flatMap fun (x : Nat) =>
    (List.range columns.toNat).reverse.map fun (y : Nat) => ((x : Int) * columns + (y : Int)).toNat

/-- The nodes in the order in which `calculateVisibleMap` scans the grid: `y` from
`columns - 1` down to 0 and, inside each `y`, `x` ascending below the row count. -/
def Map.scanOrder (m : Map) : List Nat :=
  (List.range m.m_columns.toNat).reverse.flatMap fun (y : Nat) =>
    (List.range m.m_rows.toNat).map fun (x : Nat) => m.nodePtr (x : Int) (y : Int)


/-! ## Notions for placement, demolition and quiet propagation -/

/-- No node is pinched: the set of strictly taller neighbours of a node contains none of
the combinations of `elevateTileComb`. -/
def Map.NoPinchedNode (m : Map) : Prop :=
  ∀ i, i < m.mapNodes.length →
    mustElevate (m.getElevatedNeighborBitmask (m.node i).m_isoCoordinates) = false

/-- Every node stores exactly the elevation bitmask that `getElevatedNeighborBitmask`
computes for it. -/
def Map.ElevationStored (m : Map) : Prop :=
  ∀ i, i < m.mapNodes.length →
    (m.node i).m_elevationBitmask = m.getElevatedNeighborBitmask (m.node i).m_isoCoordinates

/-- The state a completed edit leaves: heights in range, height continuity, stored
elevation bitmasks up to date and no pinched node. -/
def Map.Settled (env : Env) (m : Map) : Prop :=
  m.HeightsInRange env ∧ m.I1Idx ∧ m.ElevationStored ∧ m.NoPinchedNode

instance (m : Map) : Decidable m.NoPinchedNode := by
  unfold Map.NoPinchedNode; infer_instance

instance (m : Map) : Decidable m.ElevationStored := by
  unfold Map.ElevationStored; infer_instance

instance (env : Env) (m : Map) : Decidable (m.Settled env) := by
  unfold Map.Settled; infer_instance

/-- The second map has, on every layer of every node, the render flag and the origin
corner point of the first. -/
def Map.SameFlags (m m' : Map) : Prop :=
  ∀ i layer,
    ((m'.node i).m_mapNodeData layer).shouldRender = ((m.node i).m_mapNodeData layer).shouldRender ∧
    ((m'.node i).m_mapNodeData layer).origCornerPoint =
      ((m.node i).m_mapNodeData layer).origCornerPoint

/-- The node written by one iteration of the placement loop of `Map::setTileID`
(lines 761-790): render flag, tile and ground decoration. -/
def placedNode (env : Env) (tileID : String) (coordinate : Point) (targetCoordinates : List Point)
    (layer : Layer) (randomGroundDecorationTileID : String) (n : MapNode) (coord : Point) :
    MapNode :=
  let n1 :=
    if coord ≠ coordinate ∧ targetCoordinates.length > 1 then n.setRenderFlag layer false
    else n.setRenderFlag layer true
  let n2 :=
    if (if targetCoordinates.length = 0 then 1 else 0) = 1 then
      n1.setTileID env.tileManager tileID coord
    else n1.setTileID env.tileManager tileID coordinate
  if !randomGroundDecorationTileID.isEmpty then
    n2.setTileID env.tileManager randomGroundDecorationTileID coord
  else n2

/-- The placement notification emitted for a node in the state `n` (lines 797-807 of
`Map::setTileID`): building placed, zone placed or none. -/
def placementSignal (n : MapNode) (pNode : Nat) : Option Signal :=
  if (n.m_mapNodeData Layer.BUILDINGS).tileData.isSome &&
      (n.m_mapNodeData Layer.ZONE).tileData.isSome then
    some (Signal.placeBuilding pNode)
  else if (n.m_mapNodeData Layer.ZONE).tileData.isSome then some (Signal.placeZone pNode)
  else none

/-- The signal is a placement notification (building placed or zone placed). -/
def Signal.isPlacement : Signal → Bool
  | .placeBuilding _ => true
  | .placeZone _ => true
  | .demolish _ => false

/-- The node a signal is emitted for. -/
def Signal.node : Signal → Nat
  | .placeBuilding n => n
  | .placeZone n => n
  | .demolish n => n

/-- The second map keeps every render flag and origin corner point of the first, and its
signal log is the log of the first followed by demolition signals only. -/
def Map.FlagsKept (m m' : Map) : Prop :=
  m.SameFlags m' ∧ ∃ l : List Nat, m'.signals = m.signals ++ l.map Signal.demolish

/-- The ground decoration drawn by `Map::setTileID` for a tile descriptor: the empty
identifier when the descriptor has none. -/
def chosenGroundDecoration (tileData : TileData) (rnd : Nat) : String :=
  if tileData.groundDecoration.isEmpty then ""
  else tileData.groundDecoration.getD (rnd % tileData.groundDecoration.length) ""

/-- The map on which the placement loop of `Map::setTileID` starts: for a footprint of
more than one cell the target cells are demolished on the BUILDINGS layer first. -/
def Map.clearedForPlacement (env : Env) (m : Map) (tileID : String) (coordinate : Point) : Map :=
  if (getTargetCoordsOfTileID env m coordinate tileID).length > 1 then
    m.demolishNodeNoUpdate env (getTargetCoordsOfTileID env m coordinate tileID) Layer.BUILDINGS
  else m

/-- The placement loop of `Map::setTileID` (lines 761-807) for a resolved descriptor: the
map after every target cell has been written, and the list `nodesToBeUpdated`. -/
def Map.placeAll (env : Env) (rnd : Nat) (m : Map) (tileID : String) (coordinate : Point)
    (tileData : TileData) : Map × List Nat :=
  (getTargetCoordsOfTileID env m coordinate tileID).foldl
    (placeStep env tileID coordinate (getTargetCoordsOfTileID env m coordinate tileID)
      (env.tileManager.getTileLayer tileID) (chosenGroundDecoration tileData rnd))
    (m.clearedForPlacement env tileID coordinate, [])

/-- The state of a target cell right after the placement loop of `Map::setTileID` has
written it. -/
def Map.writtenCell (env : Env) (rnd : Nat) (m : Map) (tileID : String) (coordinate : Point)
    (tileData : TileData) (coord : Point) : MapNode :=
  placedNode env tileID coordinate (getTargetCoordsOfTileID env m coordinate tileID)
    (env.tileManager.getTileLayer tileID) (chosenGroundDecoration tileData rnd)
    ((m.clearedForPlacement env tileID coordinate).node (m.nodePtr coord.x coord.y)) coord

/-! ## Direction increment, node lookup, picker and loading -/

/-- Post-increment of a direction (`operator++(NeighbourNodesPosition &, int)`, lines
29-68): the returned value and the new value of the operand. -/
def NeighbourNodesPosition.postIncrement (nn : NeighbourNodesPosition) :
    NeighbourNodesPosition × NeighbourNodesPosition :=
  (nn,
    match nn with
    | .BOTTOM_LEFT => .LEFT
    | .LEFT => .TOP_LEFT
    | .TOP_LEFT => .BOTTOM
    | .BOTTOM => .CENTER
    | .CENTER => .TOP
    | .TOP => .BOTTOM_RIGHT
    | .BOTTOM_RIGHT => .RIGHT
    | .RIGHT => .TOP_RIGHT
    | .TOP_RIGHT => .BOTTOM_LEFT)

/-- The fixed order of the nine directions. -/
def directionOrder : List NeighbourNodesPosition :=
  [.BOTTOM_LEFT, .LEFT, .TOP_LEFT, .BOTTOM, .CENTER, .TOP, .BOTTOM_RIGHT, .RIGHT, .TOP_RIGHT]

/-- `Map::getMapNode` (Map.hxx line 141) with the indexing of the node array made explicit:
`mapNodes[nodeIdx(x, y)]` yields the node stored at that index, and `none` stands for an
index outside the array (where the C++ indexing is undefined). -/
def Map.getMapNodeChecked (m : Map) (isoCoords : Point) : Option MapNode :=
  if 0 ≤ m.nodeIdx isoCoords.x isoCoords.y then
    m.mapNodes[(m.nodeIdx isoCoords.x isoCoords.y).toNat]?
  else none

/-- Lines 409-415 of `Map::findNodeInMap`: a guess whose row is not below `mapSize` is moved
down its column diagonal by `diff = isoY - mapSize`. -/
def adjustPickerGuess (mapSize isoX isoY : Int) : Int × Int :=
  if isoY ≥ mapSize then
    let diff := isoY - mapSize
    (isoX + diff, isoY - diff)
  else (isoX, isoY)

/-- The positions probed by the two loops of `Map::findNodeInMap` (lines 429-445) for the
adjusted guess `(isoX, isoY)`, in the order of the probes: `x` from `xMax` down to `xMin`,
and for each `x` the rows from `max (yMiddlePoint - 2) 0` up, while `y <= yMiddlePoint + 2`
and `y < mapSize`. -/
def pickerCandidates (mapSize isoX isoY : Int) : List (Int × Int) :=
  let neighborReach : Int := 2
  let xMax := min (isoX + neighborReach + isoY) (mapSize - 1)
  let xMin := max (isoX - neighborReach) 0
  (List.range (xMax - xMin + 1).toNat).flatMap fun (k : Nat) =>
    let x := xMax - (k : Int)
    let diff := x - isoX
    let yMiddlePoint := isoY - diff
    let yFirst := max (yMiddlePoint - neighborReach) 0
    let yLast := min (yMiddlePoint + neighborReach) (mapSize - 1)
    (List.range (yLast - yFirst + 1).toNat).map fun (j : Nat) => (x, yFirst + (j : Int))

/-- The position `Point(x, y)` of a picker candidate. -/
def candidatePoint (c : Int × Int) : Point := { x := c.1, y := c.2, z := 0, height := 0 }

/-- The picker (`Map::findNodeInMap`): the coordinates of the first probed node for which
`isClickWithinTile` holds, or the point `(-1, -1, 0, 0)`. `calculatedIsoCoords` stands for
`calculateIsoCoordinates(screenCoordinates)`, `mapSize` for `Settings::instance().mapSize`
and `isClickWithinTile` for the test of the same name at the given screen point and
layer. -/
def Map.findNodeInMap (m : Map) (mapSize : Int) (isClickWithinTile : Point → Bool)
    (calculatedIsoCoords : Point) : Point :=
  match (pickerCandidates mapSize
      (adjustPickerGuess mapSize calculatedIsoCoords.x calculatedIsoCoords.y).1
      (adjustPickerGuess mapSize calculatedIsoCoords.x calculatedIsoCoords.y).2).find?
      fun c => isClickWithinTile (m.getMapNode (candidatePoint c)).m_isoCoordinates with
  | some c => (m.getMapNode (candidatePoint c)).m_isoCoordinates
  | none => { x := -1, y := -1, z := 0, height := 0 }

/-- `Map::updateAllNodes` (line 281): the propagation seeded with the drawing-order list.
`mapNodesInDrawingOrder` is a member of the C++ map; here it is passed along. -/
def Map.updateAllNodes (env : Env) (fuel : Nat) (m : Map) (mapNodesInDrawingOrder : List Nat) :
    Option Map :=
  m.updateNodeNeighbors env fuel mapNodesInDrawingOrder

/-- The save game as `Map::loadMapFromFile` reads it from the parsed JSON document: the
entries "Savegame version", "columns" and "rows" (`none` when absent) and the node records
of "mapNode", already decoded into nodes. -/
structure SaveGame where
  savegameVersion : Option Nat
  columns : Option Int
  rows : Option Int
  mapNode : List MapNode

/-- The outcomes of `Map::loadMapFromFile`: a null pointer, the `ConfigurationError` thrown
when the text does not parse, the `CytopiaError` thrown for a save game of another version,
the `std::bad_array_new_length` that `new Sprite *[columns * rows]` in the `Map` constructor
(line 88) throws for a negative size, or the loaded map with its drawing-order list. -/
inductive LoadResult
  | nullptr
  | configurationError
  | cytopiaError (saveGameVersion : Nat)
  | badArrayNewLength
  | loaded (map : Map) (mapNodesInDrawingOrder : List Nat)

/-- The load of a save game (`Map::loadMapFromFile`, lines 609-659) from the decompressed
text of the file. `parse` stands for `json::parse` (`none` for a discarded result) and
`SAVEGAME_VERSION` for the constant of that name; the outer `none` means that the step
budget of the final `updateAllNodes` ran out. -/
def loadMapFromFile (env : Env) (fuel : Nat) (parse : String → Option SaveGame)
    (SAVEGAME_VERSION : Nat) (jsonAsString : String) : Option LoadResult :=
  if jsonAsString.isEmpty then some LoadResult.nullptr
  else
    match parse jsonAsString with
    | none => some LoadResult.configurationError
    | some saveGameJSON =>
      let saveGameVersion := saveGameJSON.savegameVersion.getD 0
      if saveGameVersion ≠ SAVEGAME_VERSION then some (LoadResult.cytopiaError saveGameVersion)
      else
        let columns := saveGameJSON.columns.getD (-1)
        let rows := saveGameJSON.rows.getD (-1)
        if columns = -1 ∨ rows = -1 then some LoadResult.nullptr
        else if columns * rows < 0 then some LoadResult.badArrayNewLength
        else
          let map : Map :=
            { mapNodes := saveGameJSON.mapNode, m_columns := columns, m_rows := rows,
              signals := [] }
          let mapNodesInDrawingOrder := loadedDrawingOrder columns
          (map.updateAllNodes env fuel mapNodesInDrawingOrder).map
            fun loadedMap => LoadResult.loaded loadedMap mapNodesInDrawingOrder

/-- The map that `Map::loadMapFromFile` builds from a save game before it runs
`updateAllNodes`: the dimensions and the node records of the save game. -/
def SaveGame.grid (sg : SaveGame) : Map :=
  { mapNodes := sg.mapNode, m_columns := sg.columns.getD (-1), m_rows := sg.rows.getD (-1),
    signals := [] }

/-! ## Notions for the visited nodes, for raises and for the lowering loop -/

/-- The node is not pinched: its set of strictly taller neighbours contains none of the
combinations of `elevateTileComb`. -/
def Map.pinchOK (m : Map) (i : Nat) : Prop :=
  mustElevate (m.getElevatedNeighborBitmask (m.node i).m_isoCoordinates) = false

/-- Pinch invariant of the propagation: a node that has left the candidate stack (`B`) is
not pinched, unless it is a candidate again (`S`), is in the work list `W` or adjacent to a
node of `W`, or is excused by `T` (a neighbour still to be visited). -/
def Map.PinchInv (m : Map) (W S B : List Nat) (T : Nat → Prop) : Prop :=
  ∀ i, i < m.mapNodes.length → i ∈ B →
    m.pinchOK i ∨ i ∈ S ∨ i ∈ W ∨ (∃ j ∈ W, m.Adj i j) ∨ T i

/-- Visit invariant of the propagation: a node that was a seed (`A`) or whose height differs
from the reference heights `h0` is in the work list `W`, or it is a candidate or visited
node (`S`, `B`) all of whose neighbours are candidates or visited, up to the neighbours of
the node `N` being processed that are still to be visited (`todo`). -/
def Map.VisitInv (h0 : Nat → Int) (A : List Nat) (m : Map) (W S B : List Nat) (N : Nat)
    (todo : List Nat) : Prop :=
  ∀ i, i < m.mapNodes.length → (i ∈ A ∨ (m.node i).height ≠ h0 i) →
    i ∈ W ∨ ((i ∈ S ∨ i ∈ B) ∧ ∀ j, m.Adj i j → j ∈ S ∨ j ∈ B ∨ (i = N ∧ j ∈ todo))

/-- State invariant used for the visited nodes of `updateNodeNeighbors`. -/
def UpdateState.Seen (env : Env) (h0 : Nat → Int) (A : List Nat) (s : UpdateState) : Prop :=
  s.Valid env ∧
  s.map.PinchInv s.nodesUpdatedHeight s.nodesToElevate s.nodesToBeUpdated (fun _ => False) ∧
  s.map.VisitInv h0 A s.nodesUpdatedHeight s.nodesToElevate s.nodesToBeUpdated 0 []

/-- Chebyshev distance between two nodes of the grid: the number of steps between
8-adjacent nodes that separate them. -/
def Map.dist (m : Map) (i j : Nat) : Nat :=
  max ((m.node i).m_isoCoordinates.x - (m.node j).m_isoCoordinates.x).natAbs
    ((m.node i).m_isoCoordinates.y - (m.node j).m_isoCoordinates.y).natAbs

/-- Wave invariant of a raise: `T` is the height profile the running wave of raises is
building. It changes by at most one unit between adjacent nodes, it never exceeds the
height limit, every node is at its target height or one unit below it, and every node of
the work list `W` has reached it. `h` gives the current heights. -/
def Map.WaveInv (env : Env) (m0 : Map) (h : Nat → Int) (W : List Nat) (T : Nat → Int) : Prop :=
  (∀ i j, i < m0.mapNodes.length → m0.Adj i j → T j ≤ T i + 1) ∧
  (∀ i, i < m0.mapNodes.length → T i - 1 ≤ h i ∧ h i ≤ T i ∧ T i ≤ env.maxHeight) ∧
  (∀ i ∈ W, h i = T i)

/-- Heights of a raise in progress, against the heights `h1` at its start and the grid `m0`
before the edit: no node is below its height at the start, a node above its height in `m0`
is at most at height `H`, and every node of the work list `W` is above its height in
`m0`. -/
def Map.RaisedInv (m0 : Map) (h1 : Nat → Int) (H : Int) (h : Nat → Int) (W : List Nat) : Prop :=
  (∀ i, i < m0.mapNodes.length → h1 i ≤ h i ∧ h i ≤ max (m0.node i).height H) ∧
  (∀ i ∈ W, (m0.node i).height < h i)

/-- State invariant of the propagation that follows a raise of a node of the grid `m0`. -/
def UpdateState.Rising (env : Env) (m0 : Map) (h1 : Nat → Int) (H : Int) (s : UpdateState) :
    Prop :=
  s.Inv env (fun _ => True) [] ∧ m0.SameGrid s.map ∧
  (∃ T : Nat → Int,
    m0.WaveInv env (fun i => (s.map.node i).height) s.nodesUpdatedHeight T) ∧
  m0.RaisedInv h1 H (fun i => (s.map.node i).height) s.nodesUpdatedHeight

/-- The state that `Map::changeHeight` hands to `demolishNode` and `updateNodeNeighbors`
when it lowers a node (lines 141-157): the map after `updateHeight` and the loop that lowers
the higher neighbours, and the list `nodesToUpdate`. -/
def Map.lowerAround (env : Env) (m : Map) (isoCoordinates : Point) : Map × List Nat :=
  let mapNode := m.nodePtr isoCoordinates.x isoCoordinates.y
  let r := m.updateHeight env mapNode false (m.getNeighborNodes isoCoordinates true)
  let centerHeight := (r.1.getMapNode isoCoordinates).height
  (PointFunctions.getNeighbors m isoCoordinates true).foldl
    (fun (acc : Map × List Nat) neighbourCoord =>
      let neighborNode := acc.1.nodePtr neighbourCoord.x neighbourCoord.y
      if centerHeight < (acc.1.node neighborNode).height then
        (acc.1.setNode neighborNode ((acc.1.node neighborNode).changeHeight env.maxHeight false).1,
          acc.2 ++ [neighborNode])
      else acc)
    (r.1, [mapNode])

/-- The node at `c` is pinched: the directions in which it has a strictly taller
neighbour contain one of the six combinations of `elevateTileComb`. -/
def Map.pinched (m : Map) (c : Point) : Prop :=
  (m.tallerNeighbour c .TOP ∧ m.tallerNeighbour c .BOTTOM) ∨
  (m.tallerNeighbour c .LEFT ∧ m.tallerNeighbour c .RIGHT) ∨
  (m.tallerNeighbour c .TOP_LEFT ∧ m.tallerNeighbour c .RIGHT ∧ m.tallerNeighbour c .BOTTOM) ∨
  (m.tallerNeighbour c .TOP_RIGHT ∧ m.tallerNeighbour c .LEFT ∧ m.tallerNeighbour c .BOTTOM) ∨
  (m.tallerNeighbour c .BOTTOM_LEFT ∧ m.tallerNeighbour c .RIGHT ∧ m.tallerNeighbour c .TOP) ∨
  (m.tallerNeighbour c .BOTTOM_RIGHT ∧ m.tallerNeighbour c .LEFT ∧ m.tallerNeighbour c .TOP)

/-- Number of steps of the loop over the neighbours `todo` (lines 206-227), run from the
state `s`, that take the lowering branch: the test of line 222 holds and `updateHeight` is
called with `higher = false`. -/
def neighbourLowerings (env : Env) (tileHeight : Int) : List NeighborNode → UpdateState → Nat
  | [], _ => 0
  | neighbour :: todo, s =>
    (if (tileHeight - (s.map.node neighbour.pNode).height).natAbs > 1 ∧
        ¬ tileHeight - (s.map.node neighbour.pNode).height > 1 then 1 else 0) +
      neighbourLowerings env tileHeight todo (neighbourStep env tileHeight s neighbour)

/-- Number of neighbour steps that take the lowering branch in a run of `propagate` with
the given step budget. -/
def propagateLowerings (env : Env) : Nat → UpdateState → Nat
  | 0, _ => 0
  | fuel + 1, s =>
    match s.nodesUpdatedHeight with
    | pHeighChangedNode :: rest =>
      neighbourLowerings env (s.map.node pHeighChangedNode).height
          (s.map.getNeighborNodes (s.map.node pHeighChangedNode).m_isoCoordinates false)
          { s with nodesUpdatedHeight := rest,
                   nodesToElevate := pushIfAbsent s.nodesToElevate pHeighChangedNode } +
        propagateLowerings env fuel
          (heightStep env { s with nodesUpdatedHeight := rest } pHeighChangedNode)
    | [] =>
      match s.nodesToElevate with
      | pEleNode :: rest =>
        propagateLowerings env fuel (elevateStep env { s with nodesToElevate := rest } pEleNode)
      | [] => 0

/-- The state in which the propagation of `changeHeight` starts after a successful change
of the node at `isoCoordinates` (lines 139-160), for a raise. -/
def Map.raiseStart (env : Env) (m : Map) (isoCoordinates : Point) : UpdateState :=
  { map := (m.updateHeight env (m.nodePtr isoCoordinates.x isoCoordinates.y) true
      (m.getNeighborNodes isoCoordinates true)).1.demolishNodeNoUpdate env
      (PointFunctions.getNeighbors m isoCoordinates true) Layer.NONE,
    nodesUpdatedHeight := [m.nodePtr isoCoordinates.x isoCoordinates.y],
    nodesToElevate := [], nodesToBeUpdated := [], nodesToDemolish := [] }

/-! ## Concrete grids and tile databases -/

/-- Layer data of a layer without a tile. -/
def emptyNodeData : MapNodeData :=
  { tileID := "", tileData := none, origCornerPoint := { x := 0, y := 0, z := 0, height := 0 },
    shouldRender := true }

/-- A node at height 0 without tiles and with cleared bitmasks. -/
def flatNode (x y : Int) : MapNode :=
  { m_isoCoordinates := { x := x, y := y, z := 0, height := 0 },
    m_mapNodeData := fun _ => emptyNodeData,
    m_elevationBitmask := 0,
    m_autotileBitmask := fun _ => 0 }

/-- The flat `n x n` grid: every node at height 0, no tiles, node `(x, y)` at index
`x * n + y`. -/
def flatMap (n : Nat) : Map :=
  { mapNodes := (List.range n).flatMap fun x => (List.range n).map fun y => flatNode x y,
    m_columns := n, m_rows := n, signals := [] }

/-- The heights of all nodes, in index order. -/
def Map.heights (m : Map) : List Int :=
  m.mapNodes.map MapNode.height

/-- Three calls of `increaseHeight` on the same position. -/
def raiseThrice (env : Env) (fuel : Nat) (m : Map) (p : Point) : Option Map :=
  (m.increaseHeight env fuel p).bind fun m1 =>
    (m1.increaseHeight env fuel p).bind fun m2 => m2.increaseHeight env fuel p

/-- A tile database without tiles. -/
def noTiles : TileManager :=
  { getTileData := fun _ => none, isTileIDAutoTile := fun _ => false,
    getTileLayer := fun _ => Layer.NONE }

/-- An environment without tiles and the given height limit. -/
def plainEnv (maxHeight : Int) : Env :=
  { maxHeight := maxHeight, tileManager := noTiles, allLayersOrdered := [],
    isPlacementAllowed := fun _ _ => true }

/-- The grid after `k` calls of `increaseHeight` on the centre of the flat 5x5 grid, with
height limit 3. -/
def pyramidStage : Nat → Option Map
  | 0 => some (flatMap 5)
  | k + 1 =>
    (pyramidStage k).bind fun m =>
      m.increaseHeight (plainEnv 3) 60 { x := 2, y := 2, z := 0, height := 0 }

/-- The flat 3x3 grid after one call of `increaseHeight` on its centre. -/
def hillMap : Map :=
  ((flatMap 3).increaseHeight (plainEnv 3) 40 { x := 1, y := 1, z := 0, height := 0 }).getD
    (flatMap 3)

/-- The layers in the order of `allLayersOrdered` (all layers except `NONE`). -/
def sampleLayers : List Layer :=
  [Layer.BLUEPRINT, Layer.UNDERGROUND, Layer.TERRAIN, Layer.WATER, Layer.GROUND_DECORATION,
    Layer.ZONE, Layer.ROAD, Layer.BUILDINGS]

/-- A 1x1 tile descriptor of the given kind. -/
def unitTile (category : String) (tileType : TileType) : TileData :=
  { category := category, tileType := tileType, RequiredTiles := { width := 1, height := 1 },
    groundDecoration := [] }

/-- A small tile database: grass terrain, water, an auto-tiling road and a 2x2 house. -/
def sampleTiles : TileManager :=
  { getTileData := fun id =>
      if id = "grass" then some (unitTile "Terrain" TileType.TERRAIN)
      else if id = "water" then some (unitTile "Water" TileType.WATER)
      else if id = "road" then some (unitTile "Roads" TileType.ROAD)
      else if id = "house" then
        some { category := "Residential", tileType := TileType.OTHER,
               RequiredTiles := { width := 2, height := 2 }, groundDecoration := [] }
      else none,
    isTileIDAutoTile := fun id => decide (id = "road"),
    getTileLayer := fun id =>
      if id = "grass" then Layer.TERRAIN
      else if id = "water" then Layer.WATER
      else if id = "road" then Layer.ROAD
      else if id = "house" then Layer.BUILDINGS
      else Layer.NONE }

/-- The environment of the small tile database, every placement allowed by the node. -/
def sampleEnv : Env :=
  { maxHeight := 32, tileManager := sampleTiles, allLayersOrdered := sampleLayers,
    isPlacementAllowed := fun _ _ => true }

/-- A node at height 0 holding the listed tiles of the small tile database. -/
def tileNode (x y : Int) (tiles : List (Layer × String)) : MapNode :=
  { m_isoCoordinates := { x := x, y := y, z := 0, height := 0 },
    m_mapNodeData := fun layer =>
      match tiles.lookup layer with
      | some id =>
        { tileID := id, tileData := sampleTiles.getTileData id,
          origCornerPoint := { x := x, y := y, z := 0, height := 0 }, shouldRender := true }
      | none => emptyNodeData,
    m_elevationBitmask := 0,
    m_autotileBitmask := fun _ => 0 }

/-- A 2x2 grid of grass: a road on `(0, 0)` and `(0, 1)`, water on `(1, 0)`; auto-tile
bitmasks not yet computed. -/
def sampleRaw : Map :=
  { mapNodes :=
      [tileNode 0 0 [(Layer.TERRAIN, "grass"), (Layer.ROAD, "road")],
       tileNode 0 1 [(Layer.TERRAIN, "grass"), (Layer.ROAD, "road")],
       tileNode 1 0 [(Layer.TERRAIN, "grass"), (Layer.WATER, "water")],
       tileNode 1 1 [(Layer.TERRAIN, "grass")]],
    m_columns := 2, m_rows := 2, signals := [] }

/-- The 2x2 grid `sampleRaw` with the auto-tile bitmasks of all nodes computed. -/
def sampleMap : Map :=
  sampleRaw.autotilePass sampleEnv [0, 1, 2, 3]

/-- A flat 3x3 grid with a road on `(1, 1)` and on `(2, 2)`; auto-tile bitmasks not yet
computed. -/
def roadRaw : Map :=
  { mapNodes :=
      [tileNode 0 0 [], tileNode 0 1 [], tileNode 0 2 [],
       tileNode 1 0 [], tileNode 1 1 [(Layer.ROAD, "road")], tileNode 1 2 [],
       tileNode 2 0 [], tileNode 2 1 [], tileNode 2 2 [(Layer.ROAD, "road")]],
    m_columns := 3, m_rows := 3, signals := [] }

/-- The 3x3 grid `roadRaw` with the auto-tile bitmasks of all nodes computed. -/
def roadGrid : Map :=
  roadRaw.autotilePass sampleEnv [0, 1, 2, 3, 4, 5, 6, 7, 8]

/-- The stored auto-tile bitmasks of all nodes on one layer, in index order. -/
def Map.autotileBits (m : Map) (layer : Layer) : List Nat :=
  m.mapNodes.map fun n => n.m_autotileBitmask layer

/-- The flat 2x2 grid after placing the 2x2 house with origin `(1, 0)`. -/
def builtMap : Map :=
  ((flatMap 2).setTileID sampleEnv 0 0 "house" { x := 1, y := 0, z := 0, height := 0 }).getD
    (flatMap 2)

/-- A tile database with a zone tile, a 1x1 building with a ground decoration, a 2x2 house
and an auto-tiling road. -/
def townTiles : TileManager :=
  { getTileData := fun id =>
      if id = "zone" then some (unitTile "Residential" TileType.OTHER)
      else if id = "hut" then
        some { category := "Residential", tileType := TileType.OTHER,
               RequiredTiles := { width := 1, height := 1 }, groundDecoration := ["lawn"] }
      else if id = "lawn" then some (unitTile "GroundDecoration" TileType.OTHER)
      else if id = "house" then
        some { category := "Residential", tileType := TileType.OTHER,
               RequiredTiles := { width := 2, height := 2 }, groundDecoration := [] }
      else if id = "road" then some (unitTile "Roads" TileType.ROAD)
      else none,
    isTileIDAutoTile := fun id => decide (id = "road"),
    getTileLayer := fun id =>
      if id = "zone" then Layer.ZONE
      else if id = "hut" then Layer.BUILDINGS
      else if id = "lawn" then Layer.GROUND_DECORATION
      else if id = "house" then Layer.BUILDINGS
      else if id = "road" then Layer.ROAD
      else Layer.NONE }

/-- The environment of `townTiles`, height limit 4, every placement allowed by the node. -/
def townEnv : Env :=
  { maxHeight := 4, tileManager := townTiles, allLayersOrdered := sampleLayers,
    isPlacementAllowed := fun _ _ => true }

/-- A node without tiles at the given height, with the given stored elevation bitmask. -/
def raisedNode (x y height : Int) (elevationBitmask : Nat) : MapNode :=
  { m_isoCoordinates := { x := x, y := y, z := 0, height := height },
    m_mapNodeData := fun _ => emptyNodeData,
    m_elevationBitmask := elevationBitmask,
    m_autotileBitmask := fun _ => 0 }

/-- The node with a zone tile of `townTiles` written on its ZONE layer. -/
def MapNode.withZone (n : MapNode) : MapNode :=
  n.setTileID townTiles "zone" n.m_isoCoordinates

/-- The flat 3x3 grid with a zone tile on its centre node. -/
def zoneGrid : Map :=
  (flatMap 3).setNode 4 ((flatMap 3).node 4).withZone

/-- The flat 2x2 grid with a zone tile on node `(0, 0)`. -/
def zoneCorner : Map :=
  (flatMap 2).setNode 0 ((flatMap 2).node 0).withZone

/-- The map with the elevation bitmask of every node stored as
`getElevatedNeighborBitmask` computes it. -/
def Map.withElevation (m : Map) : Map :=
  { m with mapNodes := m.mapNodes.map fun n =>
      n.setElevationBitMask (m.getElevatedNeighborBitmask n.m_isoCoordinates) }

/-- Heights of a 4x4 plateau of height 2 with a peak of height 3 on node `(0, 0)`. -/
def peakHeights : List Int :=
  [3, 2, 2, 2,  2, 2, 2, 2,  2, 2, 2, 2,  2, 2, 2, 2]

/-- The 4x4 plateau with its peak, without tiles, elevation bitmasks stored. -/
def peakRaw : Map :=
  Map.withElevation
    { mapNodes := (List.range 16).map fun (i : Nat) =>
        raisedNode ((i / 4 : Nat) : Int) ((i % 4 : Nat) : Int) (peakHeights.getD i 0) 0,
      m_columns := 4, m_rows := 4, signals := [] }

/-- The 4x4 plateau with a zone tile on its peak `(0, 0)`. -/
def peakGrid : Map :=
  peakRaw.setNode 0 (peakRaw.node 0).withZone

/-- The 3x3 slope: node `(x, y)` at height `x`, without tiles, elevation bitmasks stored. -/
def slopeGrid : Map :=
  Map.withElevation
    { mapNodes := (List.range 9).map fun (i : Nat) =>
        raisedNode ((i / 3 : Nat) : Int) ((i % 3 : Nat) : Int) ((i / 3 : Nat) : Int) 0,
      m_columns := 3, m_rows := 3, signals := [] }

/-- A save game of version 4 holding the flat 2x2 grid. -/
def squareSave : SaveGame :=
  { savegameVersion := some 4, columns := some 2, rows := some 2,
    mapNode := (flatMap 2).mapNodes }

/-- A save game of version 4 with one column and two rows, holding the nodes `(0, 0)` and
`(0, 1)`. -/
def tallSave : SaveGame :=
  { savegameVersion := some 4, columns := some 1, rows := some 2,
    mapNode := [flatNode 0 0, flatNode 0 1] }

/-- A save game without a version entry. -/
def unversionedSave : SaveGame :=
  { savegameVersion := none, columns := some 2, rows := some 2,
    mapNode := (flatMap 2).mapNodes }

/-- A parser that accepts the texts "square", "tall" and "old" and discards every other
text. -/
def sampleParse (text : String) : Option SaveGame :=
  if text = "square" then some squareSave
  else if text = "tall" then some tallSave
  else if text = "old" then some unversionedSave
  else none

/-- A 3x3 grid whose node `(0, 1)` lies at height 0 between the nodes `(0, 0)` and `(0, 2)`
of height 1; every other node is at height 0. No tiles, elevation bitmasks stored. -/
def pinchGrid : Map :=
  Map.withElevation
    { mapNodes := (List.range 9).map fun (i : Nat) =>
        raisedNode ((i / 3 : Nat) : Int) ((i % 3 : Nat) : Int)
          (([1, 0, 1, 0, 0, 0, 0, 0, 0] : List Int).getD i 0) 0,
      m_columns := 3, m_rows := 3, signals := [] }

/-- A state of the propagation on `pinchGrid` with empty work lists. -/
def pinchState : UpdateState :=
  { map := pinchGrid, nodesUpdatedHeight := [], nodesToElevate := [], nodesToBeUpdated := [],
    nodesToDemolish := [] }

/-- A map of the given dimensions without node records, for statements about `nodeIdx` that
depend on the dimensions only. -/
def bareGrid (columns rows : Int) : Map :=
  { mapNodes := [], m_columns := columns, m_rows := rows, signals := [] }

/-- The flat 3x3 grid whose centre node stores an elevation bitmask (the bit of TOP) that
its flat surroundings do not give it. -/
def staleGrid : Map :=
  (flatMap 3).setNode 4 (((flatMap 3).node 4).setElevationBitMask 1)

/-- The environment of the small tile database, with every unordered set iterated in the
reverse order of insertion. -/
def reversingEnv : Env :=
  { maxHeight := 32, tileManager := sampleTiles, allLayersOrdered := sampleLayers,
    isPlacementAllowed := fun _ _ => true,
    unorderedSetOrder := fun inserted => inserted.reverse,
    unorderedSetOrder_perm := fun inserted => List.reverse_perm inserted }

/-- A save game of version 4 with `-2` columns and 3 rows. -/
def negativeSave : SaveGame :=
  { savegameVersion := some 4, columns := some (-2), rows := some 3, mapNode := [] }


/-! ## Node array access -/

theorem Map.node_setNode (m : Map) (i j : Nat) (n : MapNode) :
    (m.setNode i n).node j = if j = i ∧ i < m.mapNodes.length then n else m.node j := by
  unfold Map.node Map.setNode
  simp only [List.getD_eq_getElem?_getD, List.getElem?_set]
  by_cases h : i = j
  · subst h
    by_cases hi : i < m.mapNodes.length
    · simp [hi]
    · simp [hi, List.getElem?_eq_none (Nat.le_of_not_lt hi)]
  · have h2 : ¬ j = i := fun e => h e.symm
    simp [h, h2]

theorem Map.length_setNode (m : Map) (i : Nat) (n : MapNode) :
    (m.setNode i n).mapNodes.length = m.mapNodes.length := by
  simp [Map.setNode]

theorem Map.columns_setNode (m : Map) (i : Nat) (n : MapNode) :
    (m.setNode i n).m_columns = m.m_columns := rfl

theorem Map.rows_setNode (m : Map) (i : Nat) (n : MapNode) :
    (m.setNode i n).m_rows = m.m_rows := rfl

theorem Map.signals_setNode (m : Map) (i : Nat) (n : MapNode) :
    (m.setNode i n).signals = m.signals := rfl

/-! ## Neighbour geometry -/

theorem mem_getNeighbors (m : Map) (p q : Point) (inc : Bool) :
    q ∈ PointFunctions.getNeighbors m p inc ↔
      q.z = 0 ∧ q.height = 0 ∧ q.isWithinMapBoundaries m = true ∧
      (q.x - p.x = -1 ∨ q.x - p.x = 0 ∨ q.x - p.x = 1) ∧
      (q.y - p.y = -1 ∨ q.y - p.y = 0 ∨ q.y - p.y = 1) ∧
      (inc = true ∨ q.x ≠ p.x ∨ q.y ≠ p.y) := by
  unfold PointFunctions.getNeighbors neighborOffsets
  simp only [List.mem_filter, List.mem_map]
  constructor
  · rintro ⟨⟨o, ho, rfl⟩, hq⟩
    simp only [List.mem_cons, List.mem_singleton, List.not_mem_nil, or_false] at ho
    rcases ho with ⟨h1, h2⟩
    refine ⟨rfl, rfl, hq, ?_, ?_, ?_⟩
    · rcases h1 with h|h|h|h|h|h|h|h|h <;> subst h <;> simp
    · rcases h1 with h|h|h|h|h|h|h|h|h <;> subst h <;> simp
    · rcases h1 with h|h|h|h|h|h|h|h|h <;> subst h <;> simp_all
  · rintro ⟨hz, hh, hq, hx, hy, hc⟩
    refine ⟨⟨(q.x - p.x, q.y - p.y), ?_, ?_⟩, hq⟩
    · simp only [List.mem_cons, List.mem_singleton, List.not_mem_nil, or_false, Prod.mk.injEq]
      refine ⟨?_, ?_⟩
      · rcases hx with h|h|h <;> rcases hy with h'|h'|h' <;> simp [h, h']
      · rcases hc with h | h | h
        · simp [h]
        · have : ¬ (q.x - p.x = 0) := by omega
          simp [this]
        · have : ¬ (q.y - p.y = 0) := by omega
          simp [this]
    · cases q; simp_all


theorem Map.WF.bounds_toNat {m : Map} (hwf : m.WF) {p : Point}
    (hp : p.isWithinMapBoundaries m = true) :
    p.x.toNat < m.m_columns.toNat ∧ p.y.toNat < m.m_columns.toNat ∧
      (p.x.toNat : Int) = p.x ∧ (p.y.toNat : Int) = p.y := by
  obtain ⟨h0, hsq, -, -⟩ := hwf
  simp only [Point.isWithinMapBoundaries, Bool.and_eq_true, decide_eq_true_eq] at hp
  omega

theorem Map.WF.nodePtr_eq {m : Map} (hwf : m.WF) {p : Point}
    (hp : p.isWithinMapBoundaries m = true) :
    m.nodePtr p.x p.y = p.x.toNat * m.m_columns.toNat + p.y.toNat := by
  obtain ⟨hx, hy, ex, ey⟩ := hwf.bounds_toNat hp
  obtain ⟨h0, -, -, -⟩ := hwf
  unfold Map.nodePtr Map.nodeIdx
  have hc : (m.m_columns.toNat : Int) = m.m_columns := Int.toNat_of_nonneg h0
  have : p.x * m.m_columns + p.y = ((p.x.toNat * m.m_columns.toNat + p.y.toNat : Nat) : Int) := by
    push_cast
    rw [ex, ey, hc]
  rw [this, Int.toNat_natCast]

theorem Map.WF.nodePtr_lt {m : Map} (hwf : m.WF) {p : Point}
    (hp : p.isWithinMapBoundaries m = true) :
    m.nodePtr p.x p.y < m.mapNodes.length := by
  rw [hwf.nodePtr_eq hp]
  obtain ⟨hx, hy, -, -⟩ := hwf.bounds_toNat hp
  obtain ⟨-, -, hlen, -⟩ := hwf
  rw [hlen]
  calc p.x.toNat * m.m_columns.toNat + p.y.toNat
      < p.x.toNat * m.m_columns.toNat + m.m_columns.toNat := by omega
    _ = (p.x.toNat + 1) * m.m_columns.toNat := by ring
    _ ≤ m.m_columns.toNat * m.m_columns.toNat := Nat.mul_le_mul_right _ hx

theorem Map.WF.getMapNode_xy {m : Map} (hwf : m.WF) {p : Point}
    (hp : p.isWithinMapBoundaries m = true) :
    (m.getMapNode p).m_isoCoordinates.x = p.x ∧ (m.getMapNode p).m_isoCoordinates.y = p.y := by
  have hlt := hwf.nodePtr_lt hp
  have he := hwf.nodePtr_eq hp
  obtain ⟨hx, hy, ex, ey⟩ := hwf.bounds_toNat hp
  obtain ⟨-, -, -, hc⟩ := hwf
  have := hc _ hlt
  unfold Map.getMapNode
  have hpos : 0 < m.m_columns.toNat := by omega
  have hdiv : (p.x.toNat * m.m_columns.toNat + p.y.toNat) / m.m_columns.toNat = p.x.toNat := by
    rw [Nat.add_comm, Nat.add_mul_div_right _ _ hpos, Nat.div_eq_of_lt hy, Nat.zero_add]
  have hmod : (p.x.toNat * m.m_columns.toNat + p.y.toNat) % m.m_columns.toNat = p.y.toNat := by
    rw [Nat.add_comm, Nat.add_mul_mod_self_right, Nat.mod_eq_of_lt hy]
  rw [this.1, this.2, he, hdiv, hmod]
  exact ⟨ex, ey⟩

theorem Map.WF.columns_pos {m : Map} (hwf : m.WF) {i : Nat} (hi : i < m.mapNodes.length) :
    0 < m.m_columns.toNat := by
  obtain ⟨h0, hsq, hlen, hc⟩ := hwf
  rcases Nat.eq_zero_or_pos m.m_columns.toNat with h | h
  · rw [h, Nat.zero_mul] at hlen
    rw [hlen] at hi
    exact absurd hi (Nat.not_lt_zero _)
  · exact h

theorem Map.WF.coords_within {m : Map} (hwf : m.WF) {i : Nat} (hi : i < m.mapNodes.length) :
    (m.node i).m_isoCoordinates.isWithinMapBoundaries m = true := by
  have hpos := hwf.columns_pos hi
  obtain ⟨h0, hsq, hlen, hc⟩ := hwf
  have := hc i hi
  simp only [Point.isWithinMapBoundaries, Bool.and_eq_true, decide_eq_true_eq]
  rw [this.1, this.2, hsq]
  have hcc : (m.m_columns.toNat : Int) = m.m_columns := Int.toNat_of_nonneg h0
  have h1 : i / m.m_columns.toNat < m.m_columns.toNat := by
    rw [Nat.div_lt_iff_lt_mul hpos]; rw [← hlen]; exact hi
  have h2 : i % m.m_columns.toNat < m.m_columns.toNat := Nat.mod_lt _ hpos
  have h3 : ((i / m.m_columns.toNat : Nat) : Int) < m.m_columns := by rw [← hcc]; exact_mod_cast h1
  have h4 : ((i % m.m_columns.toNat : Nat) : Int) < m.m_columns := by rw [← hcc]; exact_mod_cast h2
  refine ⟨⟨⟨?_, h3⟩, ?_⟩, h4⟩
  · exact Int.natCast_nonneg _
  · exact Int.natCast_nonneg _

theorem Map.WF.nodePtr_coords {m : Map} (hwf : m.WF) {i : Nat} (hi : i < m.mapNodes.length) :
    m.nodePtr (m.node i).m_isoCoordinates.x (m.node i).m_isoCoordinates.y = i := by
  rw [hwf.nodePtr_eq (hwf.coords_within hi)]
  obtain ⟨h0, hsq, hlen, hc⟩ := hwf
  have := hc i hi
  rw [this.1, this.2, Int.toNat_natCast, Int.toNat_natCast]
  exact Nat.div_add_mod' i _

theorem Map.WF.getMapNode_coords {m : Map} (hwf : m.WF) {i : Nat} (hi : i < m.mapNodes.length) :
    m.getMapNode (m.node i).m_isoCoordinates = m.node i := by
  unfold Map.getMapNode
  rw [hwf.nodePtr_coords hi]



theorem Map.SameGrid.refl_sameGrid (m : Map) : m.SameGrid m := ⟨rfl, rfl, rfl, fun _ => ⟨rfl, rfl⟩⟩

theorem Map.SameGrid.trans_sameGrid {a b c : Map} (h1 : a.SameGrid b) (h2 : b.SameGrid c) :
    a.SameGrid c :=
  ⟨h2.1.trans h1.1, h2.2.1.trans h1.2.1, h2.2.2.1.trans h1.2.2.1,
    fun i => ⟨(h2.2.2.2 i).1.trans (h1.2.2.2 i).1, (h2.2.2.2 i).2.trans (h1.2.2.2 i).2⟩⟩

theorem Map.SameButData.refl_sameButData (m : Map) : m.SameButData m :=
  ⟨rfl, rfl, rfl, fun _ => ⟨rfl, rfl, rfl⟩⟩

theorem Map.SameButData.trans_sameButData {a b c : Map} (h1 : a.SameButData b) (h2 : b.SameButData c) :
    a.SameButData c :=
  ⟨h2.1.trans h1.1, h2.2.1.trans h1.2.1, h2.2.2.1.trans h1.2.2.1,
    fun i => ⟨(h2.2.2.2 i).1.trans (h1.2.2.2 i).1, (h2.2.2.2 i).2.1.trans (h1.2.2.2 i).2.1,
      (h2.2.2.2 i).2.2.trans (h1.2.2.2 i).2.2⟩⟩

theorem Map.SameButData.sameGrid_sameButData {a b : Map} (h : a.SameButData b) : a.SameGrid b :=
  ⟨h.1, h.2.1, h.2.2.1, fun i => by rw [(h.2.2.2 i).1]; exact ⟨rfl, rfl⟩⟩

theorem Map.SameButData.height_sameButData {a b : Map} (h : a.SameButData b) (i : Nat) :
    (b.node i).height = (a.node i).height := by
  unfold MapNode.height; rw [(h.2.2.2 i).1]

theorem Map.SameGrid.wf_sameGrid {m m' : Map} (h : m.SameGrid m') (hwf : m.WF) : m'.WF := by
  obtain ⟨hc, hr, hl, hxy⟩ := h
  obtain ⟨h0, hsq, hlen, hco⟩ := hwf
  refine ⟨by rw [hc]; exact h0, by rw [hc, hr]; exact hsq, by rw [hl, hc]; exact hlen, ?_⟩
  intro i hi
  rw [(hxy i).1, (hxy i).2, hc]
  exact hco i (by rw [← hl]; exact hi)

theorem isWithinMapBoundaries_congr {m m' : Map} (hc : m'.m_columns = m.m_columns)
    (hr : m'.m_rows = m.m_rows) {p p' : Point} (hx : p'.x = p.x) (hy : p'.y = p.y) :
    p'.isWithinMapBoundaries m' = p.isWithinMapBoundaries m := by
  simp only [Point.isWithinMapBoundaries, hc, hr, hx, hy]

theorem getNeighbors_congr {m m' : Map} (hc : m'.m_columns = m.m_columns)
    (hr : m'.m_rows = m.m_rows) {p p' : Point} (hx : p'.x = p.x) (hy : p'.y = p.y) (inc : Bool) :
    PointFunctions.getNeighbors m' p' inc = PointFunctions.getNeighbors m p inc := by
  unfold PointFunctions.getNeighbors
  rw [hx, hy]
  congr 1
  funext q
  exact isWithinMapBoundaries_congr hc hr rfl rfl

theorem getNeighborPositionToOrigin_congr {q p p' : Point} (hx : p'.x = p.x) (hy : p'.y = p.y) :
    PointFunctions.getNeighborPositionToOrigin q p' =
      PointFunctions.getNeighborPositionToOrigin q p := by
  unfold PointFunctions.getNeighborPositionToOrigin
  rw [hx, hy]

theorem getNeighborNodes_congr {m m' : Map} (hc : m'.m_columns = m.m_columns)
    (hr : m'.m_rows = m.m_rows) {p p' : Point} (hx : p'.x = p.x) (hy : p'.y = p.y) (inc : Bool) :
    m'.getNeighborNodes p' inc = m.getNeighborNodes p inc := by
  unfold Map.getNeighborNodes
  rw [getNeighbors_congr hc hr hx hy]
  apply List.map_congr_left
  intro q _
  simp only [Map.nodePtr, Map.nodeIdx, hc, getNeighborPositionToOrigin_congr hx hy]

theorem Map.SameGrid.neighborNodes {m m' : Map} (h : m.SameGrid m') (i : Nat) :
    m'.getNeighborNodes (m'.node i).m_isoCoordinates false =
      m.getNeighborNodes (m.node i).m_isoCoordinates false :=
  getNeighborNodes_congr h.1 h.2.1 (h.2.2.2 i).1 (h.2.2.2 i).2 false

theorem Map.SameGrid.neighbourIdx {m m' : Map} (h : m.SameGrid m') (i : Nat) :
    m'.neighbourIdx i = m.neighbourIdx i := by
  unfold Map.neighbourIdx
  rw [h.neighborNodes]

theorem Map.mem_neighbourIdx {m : Map} (i j : Nat) :
    j ∈ m.neighbourIdx i ↔
      ∃ q ∈ PointFunctions.getNeighbors m (m.node i).m_isoCoordinates false,
        j = m.nodePtr q.x q.y := by
  unfold Map.neighbourIdx Map.getNeighborNodes
  simp only [List.mem_map, List.map_map, Function.comp]
  constructor
  · rintro ⟨q, hq, rfl⟩; exact ⟨q, hq, rfl⟩
  · rintro ⟨q, hq, rfl⟩; exact ⟨q, hq, rfl⟩

theorem Map.WF.mem_neighbourIdx_iff {m : Map} (hwf : m.WF) {i : Nat} (j : Nat) :
    j ∈ m.neighbourIdx i ↔ m.Adj i j := by
  rw [Map.mem_neighbourIdx]
  constructor
  · rintro ⟨q, hq, rfl⟩
    rw [mem_getNeighbors] at hq
    obtain ⟨-, -, hin, hx, hy, hc⟩ := hq
    have hxy := hwf.getMapNode_xy hin
    unfold Map.getMapNode at hxy
    refine ⟨hwf.nodePtr_lt hin, ?_, ?_, ?_⟩
    · rw [hxy.1]; omega
    · rw [hxy.2]; omega
    · rw [hxy.1, hxy.2]; simpa using hc
  · rintro ⟨hj, hx, hy, hne⟩
    refine ⟨{ x := (m.node j).m_isoCoordinates.x, y := (m.node j).m_isoCoordinates.y,
              z := 0, height := 0 }, ?_, ?_⟩
    · rw [mem_getNeighbors]
      refine ⟨rfl, rfl, ?_, by simp only; omega, by simp only; omega, Or.inr hne⟩
      rw [← hwf.coords_within hj]
      exact isWithinMapBoundaries_congr rfl rfl rfl rfl
    · exact (hwf.nodePtr_coords hj).symm

theorem Map.WF.adj_symm {m : Map} (hwf : m.WF) {i j : Nat} (hi : i < m.mapNodes.length)
    (h : m.Adj i j) : m.Adj j i := by
  obtain ⟨hj, hx, hy, hne⟩ := h
  refine ⟨hi, by omega, by omega, ?_⟩
  rcases hne with h | h
  · exact Or.inl fun e => h e.symm
  · exact Or.inr fun e => h e.symm

theorem Map.WF.neighbourIdx_symm {m : Map} (hwf : m.WF) {i j : Nat}
    (hi : i < m.mapNodes.length) (h : j ∈ m.neighbourIdx i) : i ∈ m.neighbourIdx j :=
  (hwf.mem_neighbourIdx_iff i).2 (hwf.adj_symm hi ((hwf.mem_neighbourIdx_iff j).1 h))

theorem Map.WF.neighbourIdx_lt {m : Map} (hwf : m.WF) {i j : Nat}
    (h : j ∈ m.neighbourIdx i) : j < m.mapNodes.length :=
  ((hwf.mem_neighbourIdx_iff j).1 h).1

/-! ## Iteration order of unordered sets -/

theorem Env.mem_unorderedSetOrder (env : Env) (inserted : List Nat) (i : Nat) :
    i ∈ env.unorderedSetOrder inserted ↔ i ∈ inserted :=
  (env.unorderedSetOrder_perm inserted).mem_iff

theorem Env.unorderedSetOrder_nodup (env : Env) (inserted : List Nat) :
    (env.unorderedSetOrder inserted).Nodup ↔ inserted.Nodup :=
  (env.unorderedSetOrder_perm inserted).nodup_iff

theorem Env.unorderedSetOrder_nil (env : Env) : env.unorderedSetOrder [] = [] :=
  List.Perm.eq_nil (env.unorderedSetOrder_perm [])

theorem Env.unorderedSetOrder_length (env : Env) (inserted : List Nat) :
    (env.unorderedSetOrder inserted).length = inserted.length :=
  (env.unorderedSetOrder_perm inserted).length_eq

theorem Env.unorderedSetOrder_isEmpty (env : Env) (inserted : List Nat) :
    (env.unorderedSetOrder inserted).isEmpty = inserted.isEmpty := by
  have h := env.unorderedSetOrder_length inserted
  cases hl : inserted with
  | nil => rw [hl] at h; rw [List.length_eq_zero.1 h]
  | cons a rest =>
    rw [hl] at h
    cases hu : env.unorderedSetOrder (a :: rest) with
    | nil => rw [hu] at h; simp at h
    | cons b r => rfl


/-! ## Effect of the node operations -/

theorem MapNode.changeHeight_fields (H : Int) (n : MapNode) (higher : Bool) :
    (n.changeHeight H higher).1.m_isoCoordinates.x = n.m_isoCoordinates.x ∧
    (n.changeHeight H higher).1.m_isoCoordinates.y = n.m_isoCoordinates.y ∧
    (n.changeHeight H higher).1.m_isoCoordinates.z = n.m_isoCoordinates.z ∧
    (n.changeHeight H higher).1.m_mapNodeData = n.m_mapNodeData ∧
    (n.changeHeight H higher).1.m_elevationBitmask = n.m_elevationBitmask ∧
    (n.changeHeight H higher).1.m_autotileBitmask = n.m_autotileBitmask := by
  unfold MapNode.changeHeight
  split <;> simp

theorem MapNode.changeHeight_height (H : Int) (n : MapNode) (higher : Bool) :
    (n.changeHeight H higher).1.height =
      if higher = true then (if n.height < H then n.height + 1 else n.height)
      else (if n.height > 0 then n.height - 1 else n.height) := by
  unfold MapNode.changeHeight
  cases higher <;> simp <;> split <;> simp_all [MapNode.height]

theorem MapNode.changeHeight_snd (H : Int) (n : MapNode) (higher : Bool) :
    (n.changeHeight H higher).2 =
      ((higher && decide (n.height < H)) || (!higher && decide (n.height > 0))) := by
  unfold MapNode.changeHeight
  split <;> simp_all

theorem MapNode.demolishLayer_fields (n : MapNode) (layer : Layer) :
    (n.demolishLayer layer).m_isoCoordinates = n.m_isoCoordinates ∧
    (n.demolishLayer layer).m_elevationBitmask = n.m_elevationBitmask ∧
    (n.demolishLayer layer).m_autotileBitmask = n.m_autotileBitmask := ⟨rfl, rfl, rfl⟩

theorem MapNode.demolishNode_fields (n : MapNode) (layer : Layer) :
    (n.demolishNode layer).m_isoCoordinates = n.m_isoCoordinates ∧
    (n.demolishNode layer).m_elevationBitmask = n.m_elevationBitmask ∧
    (n.demolishNode layer).m_autotileBitmask = n.m_autotileBitmask := by
  unfold MapNode.demolishNode
  split
  · exact ⟨rfl, rfl, rfl⟩
  · exact MapNode.demolishLayer_fields n layer

theorem Map.SameButData.setNode_sameButData (m : Map) (i : Nat) (n : MapNode)
    (h : n.m_isoCoordinates = (m.node i).m_isoCoordinates ∧
      n.m_elevationBitmask = (m.node i).m_elevationBitmask ∧
      n.m_autotileBitmask = (m.node i).m_autotileBitmask) :
    m.SameButData (m.setNode i n) := by
  refine ⟨rfl, rfl, Map.length_setNode m i n, fun j => ?_⟩
  rw [Map.node_setNode]
  split
  · rename_i hj; rw [hj.1]; exact h
  · exact ⟨rfl, rfl, rfl⟩

theorem Map.SameButData.withSignals (m : Map) (sig : List Signal) :
    m.SameButData { m with signals := sig } :=
  ⟨rfl, rfl, rfl, fun _ => ⟨rfl, rfl, rfl⟩⟩

/-- The ZONE clearing loop of `updateHeight` only touches tile data. -/
theorem Map.demolishZoneOf_sameButData (nbs : List NeighborNode) (m : Map) :
    m.SameButData (m.demolishZoneOf nbs) := by
  unfold Map.demolishZoneOf
  induction nbs generalizing m with
  | nil => exact Map.SameButData.refl_sameButData m
  | cons nb rest ih =>
    simp only [List.foldl_cons]
    refine Map.SameButData.trans_sameButData ?_ (ih _)
    split
    · exact Map.SameButData.setNode_sameButData m _ _ (MapNode.demolishLayer_fields _ _)
    · exact Map.SameButData.refl_sameButData m

theorem Map.demolishZoneOf_signals (nbs : List NeighborNode) (m : Map) :
    (m.demolishZoneOf nbs).signals = m.signals := by
  unfold Map.demolishZoneOf
  induction nbs generalizing m with
  | nil => rfl
  | cons nb rest ih =>
    simp only [List.foldl_cons]
    rw [ih]
    split <;> rfl

theorem Map.updateHeight_snd (env : Env) (m : Map) (i : Nat) (higher : Bool)
    (nbs : List NeighborNode) :
    (m.updateHeight env i higher nbs).2 = ((m.node i).changeHeight env.maxHeight higher).2 := by
  unfold Map.updateHeight
  split <;> simp_all

theorem Map.updateHeight_spec (env : Env) (m : Map) (i : Nat) (higher : Bool)
    (nbs : List NeighborNode) :
    m.SameGrid (m.updateHeight env i higher nbs).1 ∧
    (∀ j, ((m.updateHeight env i higher nbs).1.node j).m_elevationBitmask =
      (m.node j).m_elevationBitmask) ∧
    (∀ j, ((m.updateHeight env i higher nbs).1.node j).m_autotileBitmask =
      (m.node j).m_autotileBitmask) ∧
    (∀ j, j ≠ i → ((m.updateHeight env i higher nbs).1.node j).height = (m.node j).height) ∧
    (i < m.mapNodes.length → ((m.updateHeight env i higher nbs).1.node i).height =
      ((m.node i).changeHeight env.maxHeight higher).1.height) ∧
    (m.updateHeight env i higher nbs).1.signals = m.signals := by
  unfold Map.updateHeight
  split
  · have hz := Map.demolishZoneOf_sameButData nbs
      (m.setNode i ((m.node i).changeHeight env.maxHeight higher).1)
    have hf := MapNode.changeHeight_fields env.maxHeight (m.node i) higher
    refine ⟨⟨hz.1, hz.2.1, hz.2.2.1.trans (Map.length_setNode _ _ _), fun j => ?_⟩, fun j => ?_,
      fun j => ?_, fun j hj => ?_, fun hi => ?_, ?_⟩
    · show (Map.node _ j).m_isoCoordinates.x = _ ∧ (Map.node _ j).m_isoCoordinates.y = _
      rw [(hz.2.2.2 j).1, Map.node_setNode]
      split
      · rename_i h; rw [h.1]; exact ⟨hf.1, hf.2.1⟩
      · exact ⟨rfl, rfl⟩
    · show (Map.node _ j).m_elevationBitmask = _
      rw [(hz.2.2.2 j).2.1, Map.node_setNode]
      split
      · rename_i h; rw [h.1]; exact hf.2.2.2.2.1
      · rfl
    · show (Map.node _ j).m_autotileBitmask = _
      rw [(hz.2.2.2 j).2.2, Map.node_setNode]
      split
      · rename_i h; rw [h.1]; exact hf.2.2.2.2.2
      · rfl
    · show (Map.node _ j).height = _
      rw [hz.height_sameButData, Map.node_setNode, if_neg (fun h => hj h.1)]
    · show (Map.node _ i).height = _
      rw [hz.height_sameButData, Map.node_setNode, if_pos ⟨rfl, hi⟩]
    · show (Map.demolishZoneOf _ nbs).signals = _
      rw [Map.demolishZoneOf_signals]; rfl
  · refine ⟨Map.SameGrid.refl_sameGrid m, fun _ => rfl, fun _ => rfl, fun _ _ => rfl, fun _ => ?_, rfl⟩
    rename_i h _
    show (m.node i).height = _
    rw [MapNode.changeHeight_snd] at h
    unfold MapNode.changeHeight
    rw [if_neg h]


/-! ## Steps of the propagation loop -/

theorem mem_pushIfAbsent (stack : List Nat) (x y : Nat) :
    y ∈ pushIfAbsent stack x ↔ y = x ∨ y ∈ stack := by
  unfold pushIfAbsent
  split
  · constructor
    · exact Or.inr
    · rintro (h | h)
      · subst h; assumption
      · exact h
  · simp

theorem mem_setInsert (s : List Nat) (x y : Nat) :
    y ∈ setInsert s x ↔ y = x ∨ y ∈ s := by
  unfold setInsert
  split
  · constructor
    · exact Or.inr
    · rintro (h | h)
      · subst h; assumption
      · exact h
  · simp [or_comm]

theorem neighbourStep_spec (env : Env) (k : Int) (s : UpdateState) (nb : NeighborNode) :
    (neighbourStep env k s nb).nodesToElevate = pushIfAbsent s.nodesToElevate nb.pNode ∧
    (neighbourStep env k s nb).nodesToBeUpdated = s.nodesToBeUpdated ∧
    (neighbourStep env k s nb).nodesToDemolish = s.nodesToDemolish ∧
    (((k - (s.map.node nb.pNode).height).natAbs ≤ 1 ∧
        (neighbourStep env k s nb).map = s.map ∧
        (neighbourStep env k s nb).nodesUpdatedHeight = s.nodesUpdatedHeight) ∨
      ((k - (s.map.node nb.pNode).height).natAbs > 1 ∧
        (neighbourStep env k s nb).map =
          (s.map.updateHeight env nb.pNode (decide (k - (s.map.node nb.pNode).height > 1))
            (s.map.getNeighborNodes (s.map.node nb.pNode).m_isoCoordinates false)).1 ∧
        (neighbourStep env k s nb).nodesUpdatedHeight = s.nodesUpdatedHeight ++ [nb.pNode])) := by
  unfold neighbourStep
  dsimp only
  split
  · rename_i h
    exact ⟨rfl, rfl, rfl, Or.inr ⟨h, rfl, rfl⟩⟩
  · rename_i h
    exact ⟨rfl, rfl, rfl, Or.inl ⟨Nat.le_of_not_lt h, rfl, rfl⟩⟩

theorem Map.HeightsInRange.updateHeight_heightsInRange {env : Env} {m : Map} (h : m.HeightsInRange env)
    (i : Nat) (higher : Bool) (nbs : List NeighborNode) :
    (m.updateHeight env i higher nbs).1.HeightsInRange env := by
  obtain ⟨hg, -, -, hne, heq, -⟩ := Map.updateHeight_spec env m i higher nbs
  intro j hj
  rw [hg.2.2.1] at hj
  by_cases hji : j = i
  · subst hji
    rw [heq hj, MapNode.changeHeight_height]
    have := h j hj
    cases higher <;> simp <;> split <;> omega
  · rw [hne j hji]; exact h j hj

theorem UpdateState.Valid.neighbourStep_valid {env : Env} {s : UpdateState} (hv : s.Valid env)
    (k : Int) {nb : NeighborNode} (hnb : nb.pNode < s.map.mapNodes.length) :
    (neighbourStep env k s nb).Valid env ∧ s.map.SameGrid (neighbourStep env k s nb).map := by
  obtain ⟨hS, -, -, hcase⟩ := neighbourStep_spec env k s nb
  obtain ⟨hwf, hr, hq, hs⟩ := hv
  have hS' : ∀ i ∈ (Cytopia.neighbourStep env k s nb).nodesToElevate, i < s.map.mapNodes.length := by
    intro i hi
    rw [hS, mem_pushIfAbsent] at hi
    rcases hi with rfl | hi
    · exact hnb
    · exact hs i hi
  rcases hcase with ⟨-, hm, hQ⟩ | ⟨-, hm, hQ⟩
  · refine ⟨⟨by rw [hm]; exact hwf, by rw [hm]; exact hr, ?_, ?_⟩, by rw [hm]; exact Map.SameGrid.refl_sameGrid _⟩
    · rw [hm, hQ]; exact hq
    · rw [hm]; exact hS'
  · have hsp := Map.updateHeight_spec env s.map nb.pNode
      (decide (k - (s.map.node nb.pNode).height > 1))
      (s.map.getNeighborNodes (s.map.node nb.pNode).m_isoCoordinates false)
    have hg := hsp.1
    refine ⟨⟨by rw [hm]; exact hg.wf_sameGrid hwf, by rw [hm]; exact hr.updateHeight_heightsInRange _ _ _, ?_, ?_⟩,
      by rw [hm]; exact hg⟩
    · rw [hm, hQ, hg.2.2.1]
      intro i hi
      rw [List.mem_append, List.mem_singleton] at hi
      rcases hi with hi | rfl
      · exact hq i hi
      · exact hnb
    · rw [hm, hg.2.2.1]; exact hS'


/-! ## The termination measure -/

theorem levelCount_congr {m m' : Map} (hlen : m'.mapNodes.length = m.mapNodes.length)
    (hh : ∀ j, (m'.node j).height = (m.node j).height) (Q : List Nat) (l : Nat) :
    levelCount m' Q l = levelCount m Q l := by
  unfold levelCount
  rw [hlen]
  exact Finset.sum_congr rfl fun i _ => by rw [hh i]

theorem levelCount_cons (m : Map) (Q : List Nat) (N : Nat) (hN : N < m.mapNodes.length)
    (l : Nat) :
    levelCount m (N :: Q) l = levelCount m Q l + (if (m.node N).height = (l : Int) then 1 else 0) := by
  unfold levelCount
  have hmem : N ∈ Finset.range m.mapNodes.length := Finset.mem_range.2 hN
  rw [← Finset.add_sum_erase _ _ hmem, ← Finset.add_sum_erase _ (fun i =>
    if (m.node i).height = (l : Int) then 1 + Q.count i else 0) hmem]
  have : ∑ x ∈ (Finset.range m.mapNodes.length).erase N,
      (if (m.node x).height = (l : Int) then 1 + List.count x (N :: Q) else 0) =
      ∑ x ∈ (Finset.range m.mapNodes.length).erase N,
      (if (m.node x).height = (l : Int) then 1 + List.count x Q else 0) := by
    apply Finset.sum_congr rfl
    intro i hi
    have hne : i ≠ N := (Finset.mem_erase.1 hi).1
    have hne2 : ¬ N = i := fun e => hne e.symm
    simp [List.count_cons, hne2]
  rw [this, List.count_cons_self]
  split <;> omega

theorem levelCount_move {m m' : Map} (hlen : m'.mapNodes.length = m.mapNodes.length)
    (Q : List Nat) {M : Nat} (hM : M < m.mapNodes.length)
    (hne : ∀ j, j ≠ M → (m'.node j).height = (m.node j).height) (l : Nat) :
    levelCount m' (Q ++ [M]) l + (if (m.node M).height = (l : Int) then 1 + Q.count M else 0) =
      levelCount m Q l + (if (m'.node M).height = (l : Int) then 2 + Q.count M else 0) := by
  unfold levelCount
  rw [hlen]
  have hmem : M ∈ Finset.range m.mapNodes.length := Finset.mem_range.2 hM
  rw [← Finset.add_sum_erase _ _ hmem, ← Finset.add_sum_erase _ (fun i =>
    if (m.node i).height = (l : Int) then 1 + Q.count i else 0) hmem]
  have : ∑ x ∈ (Finset.range m.mapNodes.length).erase M,
      (if (m'.node x).height = (l : Int) then 1 + List.count x (Q ++ [M]) else 0) =
      ∑ x ∈ (Finset.range m.mapNodes.length).erase M,
      (if (m.node x).height = (l : Int) then 1 + List.count x Q else 0) := by
    apply Finset.sum_congr rfl
    intro i hi
    have hne' : i ≠ M := (Finset.mem_erase.1 hi).1
    have hne2 : ¬ M = i := fun e => hne' e.symm
    rw [hne i hne', List.count_append, List.count_singleton]
    simp [hne2]
  rw [this, List.count_append, List.count_singleton]
  simp only [beq_self_eq_true, if_true]
  split <;> split <;> omega

theorem LexLE.refl_lexLE (K : Nat) (f : Nat → Nat) : LexLE K f f := Or.inl fun _ _ => rfl

theorem LexLE.trans_lexLE {K : Nat} {f g h : Nat → Nat} (h1 : LexLE K f g) (h2 : LexLE K g h) :
    LexLE K f h := by
  rcases h1 with h1 | ⟨j, hj, hlt, hdec⟩
  · rcases h2 with h2 | ⟨j', hj', hlt', hdec'⟩
    · exact Or.inl fun k hk => (h2 k hk).trans (h1 k hk)
    · refine Or.inr ⟨j', hj', fun k hk => (hlt' k hk).trans (h1 k (by omega)), ?_⟩
      rw [← h1 j' hj']; exact hdec'
  · rcases h2 with h2 | ⟨j', hj', hlt', hdec'⟩
    · refine Or.inr ⟨j, hj, fun k hk => (h2 k (by omega)).trans (hlt k hk), ?_⟩
      rw [h2 j hj]; exact hdec
    · rcases Nat.lt_trichotomy j j' with h | h | h
      · refine Or.inr ⟨j, hj, fun k hk => (hlt' k (by omega)).trans (hlt k hk), ?_⟩
        rw [hlt' j h]; exact hdec
      · subst h
        exact Or.inr ⟨j, hj, fun k hk => (hlt' k hk).trans (hlt k hk), by omega⟩
      · refine Or.inr ⟨j', hj', fun k hk => (hlt' k hk).trans (hlt k (by omega)), ?_⟩
        rw [← hlt j' h]; exact hdec'

theorem neighbourStep_lexLE {env : Env} {s : UpdateState} (hv : s.Valid env)
    {k : Int} (hk0 : 0 ≤ k) (hkH : k ≤ env.maxHeight) {nb : NeighborNode}
    (hnb : nb.pNode < s.map.mapNodes.length) :
    LexLE k.toNat (levelCount s.map s.nodesUpdatedHeight)
      (levelCount (neighbourStep env k s nb).map (neighbourStep env k s nb).nodesUpdatedHeight) := by
  obtain ⟨-, -, -, hcase⟩ := neighbourStep_spec env k s nb
  rcases hcase with ⟨-, hm, hQ⟩ | ⟨hgap, hm, hQ⟩
  · rw [hm, hQ]; exact LexLE.refl_lexLE _ _
  · rw [hm, hQ]
    have hr := hv.2.1 nb.pNode hnb
    by_cases hup : k - (s.map.node nb.pNode).height > 1
    · -- the neighbour is raised: its old level loses it
      have hd : decide (k - (s.map.node nb.pNode).height > 1) = true := by simp [hup]
      rw [hd]
      obtain ⟨hg, -, -, hne, heq, -⟩ := Map.updateHeight_spec env s.map nb.pNode true
        (s.map.getNeighborNodes (s.map.node nb.pNode).m_isoCoordinates false)
      have hmove := levelCount_move hg.2.2.1 s.nodesUpdatedHeight hnb hne
      have hnew := heq hnb
      rw [MapNode.changeHeight_height, if_pos rfl, if_pos (by omega)] at hnew
      refine Or.inr ⟨(s.map.node nb.pNode).height.toNat, by omega, fun l hl => ?_, ?_⟩
      · have := hmove l
        rw [if_neg (by omega), if_neg (by rw [hnew]; omega)] at this
        simpa using this
      · have := hmove (s.map.node nb.pNode).height.toNat
        rw [if_pos (by omega), if_neg (by rw [hnew]; omega)] at this
        omega
    · -- the neighbour is lowered: it stays above the level of the popped node
      have hdown : (s.map.node nb.pNode).height - k > 1 := by omega
      have hd : decide (k - (s.map.node nb.pNode).height > 1) = false := by simp [hup]
      rw [hd]
      obtain ⟨hg, -, -, hne, heq, -⟩ := Map.updateHeight_spec env s.map nb.pNode false
        (s.map.getNeighborNodes (s.map.node nb.pNode).m_isoCoordinates false)
      have hmove := levelCount_move hg.2.2.1 s.nodesUpdatedHeight hnb hne
      have hnew := heq hnb
      rw [MapNode.changeHeight_height, if_neg (by simp), if_pos (by omega)] at hnew
      refine Or.inl fun l hl => ?_
      have := hmove l
      rw [if_neg (by omega), if_neg (by rw [hnew]; omega)] at this
      simpa using this


theorem measureLT_wf (env : Env) : WellFounded (MeasureLT env) :=
  InvImage.wf (propagateMeasure env)
    (Pi.Lex.wellFounded (s := fun _ a b => a < b) (fun a b => a < b) fun _ => Nat.lt_wfRel.wf)

theorem measureLT_of_level {env : Env} {s s' : UpdateState} (h0 : 0 ≤ env.maxHeight) {j : Nat}
    (hj : (j : Int) ≤ env.maxHeight)
    (hlt : ∀ l, l < j → levelCount s'.map s'.nodesUpdatedHeight l =
      levelCount s.map s.nodesUpdatedHeight l)
    (hdec : levelCount s'.map s'.nodesUpdatedHeight j < levelCount s.map s.nodesUpdatedHeight j) :
    MeasureLT env s' s := by
  have hjn : j ≤ env.maxHeight.toNat := by omega
  refine ⟨⟨j, by omega⟩, fun i hi => ?_, ?_⟩
  · have hi' : i.val < j := hi
    simp only [propagateMeasure]
    rw [if_pos (by omega), if_pos (by omega)]
    exact hlt _ hi'
  · simp only [propagateMeasure]
    rw [if_pos hjn, if_pos hjn]
    exact hdec

theorem measureLT_of_stack {env : Env} {s s' : UpdateState} (h0 : 0 ≤ env.maxHeight)
    (heq : ∀ l : Nat, (l : Int) ≤ env.maxHeight → levelCount s'.map s'.nodesUpdatedHeight l =
      levelCount s.map s.nodesUpdatedHeight l)
    (hdec : s'.nodesToElevate.length < s.nodesToElevate.length) :
    MeasureLT env s' s := by
  refine ⟨⟨env.maxHeight.toNat + 1, by omega⟩, fun i hi => ?_, ?_⟩
  · have hi' : i.val < env.maxHeight.toNat + 1 := hi
    simp only [propagateMeasure]
    rw [if_pos (by omega), if_pos (by omega)]
    exact heq _ (by omega)
  · simp only [propagateMeasure]
    rw [if_neg (by omega), if_neg (by omega)]
    exact hdec

/-- Induction over the neighbour loop of a height step. -/
theorem neighbourFold_induct (env : Env) (k : Int)
    (P : List NeighborNode → UpdateState → Prop)
    (hstep : ∀ nb rest s, s.Valid env → nb.pNode < s.map.mapNodes.length →
      P (nb :: rest) s → P rest (neighbourStep env k s nb)) :
    ∀ (todo : List NeighborNode) (s : UpdateState), s.Valid env →
      (∀ nb ∈ todo, nb.pNode < s.map.mapNodes.length) → P todo s →
      P [] (todo.foldl (neighbourStep env k) s) ∧ (todo.foldl (neighbourStep env k) s).Valid env ∧
        s.map.SameGrid (todo.foldl (neighbourStep env k) s).map := by
  intro todo
  induction todo with
  | nil => intro s hv _ hP; exact ⟨hP, hv, Map.SameGrid.refl_sameGrid _⟩
  | cons nb rest ih =>
    intro s hv hlt hP
    have hnb := hlt nb (List.mem_cons_self _ _)
    obtain ⟨hv', hg⟩ := hv.neighbourStep_valid k hnb
    have := ih (neighbourStep env k s nb) hv'
      (fun x hx => by rw [hg.2.2.1]; exact hlt x (List.mem_cons_of_mem _ hx))
      (hstep nb rest s hv hnb hP)
    exact ⟨this.1, this.2.1, hg.trans_sameGrid this.2.2⟩

theorem Map.WF.neighborNodes_lt {m : Map} (hwf : m.WF) (i : Nat) :
    ∀ nb ∈ m.getNeighborNodes (m.node i).m_isoCoordinates false, nb.pNode < m.mapNodes.length := by
  intro nb hnb
  exact hwf.neighbourIdx_lt (i := i) (List.mem_map.2 ⟨nb, hnb, rfl⟩)

theorem heightStep_eq (env : Env) (s : UpdateState) (N : Nat) :
    heightStep env s N =
      (s.map.getNeighborNodes (s.map.node N).m_isoCoordinates false).foldl
        (neighbourStep env (s.map.node N).height)
        { s with nodesToElevate := pushIfAbsent s.nodesToElevate N } := rfl

theorem UpdateState.Valid.pushStack {env : Env} {s : UpdateState} (hv : s.Valid env) {N : Nat}
    (hN : N < s.map.mapNodes.length) :
    UpdateState.Valid env { s with nodesToElevate := pushIfAbsent s.nodesToElevate N } := by
  refine ⟨hv.1, hv.2.1, hv.2.2.1, fun i hi => ?_⟩
  rcases (mem_pushIfAbsent _ _ _).1 hi with rfl | h
  · exact hN
  · exact hv.2.2.2 i h

theorem UpdateState.Valid.heightStep_valid {env : Env} {s : UpdateState} (hv : s.Valid env) {N : Nat}
    (hN : N < s.map.mapNodes.length) :
    (heightStep env s N).Valid env ∧ s.map.SameGrid (heightStep env s N).map := by
  rw [heightStep_eq]
  have := neighbourFold_induct env (s.map.node N).height (fun _ _ => True)
    (fun _ _ _ _ _ _ => trivial) _ _ (hv.pushStack hN) (hv.1.neighborNodes_lt N) trivial
  exact this.2

theorem heightStep_lexLE {env : Env} {s : UpdateState} (hv : s.Valid env) {N : Nat}
    (hN : N < s.map.mapNodes.length) :
    LexLE (s.map.node N).height.toNat (levelCount s.map s.nodesUpdatedHeight)
      (levelCount (heightStep env s N).map (heightStep env s N).nodesUpdatedHeight) := by
  rw [heightStep_eq]
  have hr := hv.2.1 N hN
  have := neighbourFold_induct env (s.map.node N).height
    (fun _ t => LexLE (s.map.node N).height.toNat (levelCount s.map s.nodesUpdatedHeight)
      (levelCount t.map t.nodesUpdatedHeight))
    (fun nb rest t ht hnb hP => hP.trans_lexLE (neighbourStep_lexLE ht hr.1 hr.2 hnb))
    _ _ (hv.pushStack hN) (hv.1.neighborNodes_lt N) (LexLE.refl_lexLE _ _)
  exact this.1

/-- A height step strictly decreases the termination measure. -/
theorem heightStep_measureLT {env : Env} {s : UpdateState} (hv : s.Valid env) {N : Nat}
    {rest : List Nat} (hQ : s.nodesUpdatedHeight = N :: rest) :
    MeasureLT env (heightStep env { s with nodesUpdatedHeight := rest } N) s := by
  have hN : N < s.map.mapNodes.length := hv.2.2.1 N (by rw [hQ]; exact List.mem_cons_self _ _)
  have hv' : UpdateState.Valid env { s with nodesUpdatedHeight := rest } :=
    ⟨hv.1, hv.2.1, fun i hi => hv.2.2.1 i (by rw [hQ]; exact List.mem_cons_of_mem _ hi), hv.2.2.2⟩
  have hr := hv.2.1 N hN
  have hle := heightStep_lexLE hv' hN
  dsimp only at hle
  have hpop : ∀ l, levelCount s.map s.nodesUpdatedHeight l =
      levelCount s.map rest l + (if (s.map.node N).height = (l : Int) then 1 else 0) := by
    intro l; rw [hQ]; exact levelCount_cons s.map rest N hN l
  have h0 : 0 ≤ env.maxHeight := le_trans hr.1 hr.2
  rcases hle with hle | ⟨j, hj, hlt, hdec⟩
  · refine measureLT_of_level h0 (j := (s.map.node N).height.toNat) (by omega) (fun l hl => ?_) ?_
    · rw [hle l (by omega), hpop l, if_neg (by omega)]; rfl
    · rw [hle _ (le_refl _), hpop _, if_pos (by omega)]
      exact Nat.lt_succ_self _
  · refine measureLT_of_level h0 (j := j) (by omega) (fun l hl => ?_) ?_
    · rw [hlt l hl, hpop l, if_neg (by omega)]; rfl
    · have := hpop j
      have h2 : levelCount s.map rest j ≤ levelCount s.map s.nodesUpdatedHeight j := by
        rw [this]; exact Nat.le_add_right _ _
      exact lt_of_lt_of_le hdec h2


/-! ## The elevation step -/

theorem getElevated_congr {m m' : Map} (hc : m'.m_columns = m.m_columns)
    (hr : m'.m_rows = m.m_rows) {p p' : Point} (hx : p'.x = p.x) (hy : p'.y = p.y)
    (hcen : (m'.getMapNode p').height = (m.getMapNode p).height)
    (hnb : ∀ q ∈ PointFunctions.getNeighbors m p false,
      (m'.getMapNode q).height = (m.getMapNode q).height) :
    m'.getElevatedNeighborBitmask p' = m.getElevatedNeighborBitmask p := by
  unfold Map.getElevatedNeighborBitmask
  dsimp only
  rw [getNeighbors_congr hc hr hx hy, hcen]
  apply List.foldl_ext
  intro b q hq
  rw [hnb q hq, getNeighborPositionToOrigin_congr hx hy]

theorem getElevated_zero_of_none_taller (m : Map) (c : Point)
    (h : ∀ q ∈ PointFunctions.getNeighbors m c false,
      ¬ (m.getMapNode q).height > (m.getMapNode c).height) :
    m.getElevatedNeighborBitmask c = 0 := by
  unfold Map.getElevatedNeighborBitmask
  dsimp only
  generalize PointFunctions.getNeighbors m c false = l at h
  induction l with
  | nil => rfl
  | cons q rest ih =>
    rw [List.foldl_cons, if_neg (h q (List.mem_cons_self _ _))]
    exact ih fun q hq => h q (List.mem_cons_of_mem _ hq)

theorem mustElevate_ne_zero {b : Nat} (h : mustElevate b = true) : b ≠ 0 := by
  rintro rfl
  revert h
  decide

theorem Map.WF.lt_maxHeight_of_mustElevate {env : Env} {m : Map} (hwf : m.WF)
    (hr : m.HeightsInRange env) {E : Nat} (hE : E < m.mapNodes.length)
    (h : mustElevate (m.getElevatedNeighborBitmask (m.node E).m_isoCoordinates) = true) :
    (m.node E).height < env.maxHeight := by
  by_contra hcon
  apply mustElevate_ne_zero h
  apply getElevated_zero_of_none_taller
  intro q hq
  rw [hwf.getMapNode_coords hE]
  have hin : q.isWithinMapBoundaries m = true := ((mem_getNeighbors m _ q false).1 hq).2.2.1
  have := hr _ (hwf.nodePtr_lt hin)
  unfold Map.getMapNode
  omega

theorem Map.storeElevation_spec (m : Map) (E : Nat) :
    m.SameGrid (m.storeElevation E) ∧
    (∀ j, ((m.storeElevation E).node j).height = (m.node j).height) ∧
    (∀ j, ((m.storeElevation E).node j).m_autotileBitmask = (m.node j).m_autotileBitmask) ∧
    (∀ j, ((m.storeElevation E).node j).m_mapNodeData = (m.node j).m_mapNodeData) ∧
    (∀ j, j ≠ E → ((m.storeElevation E).node j).m_elevationBitmask =
      (m.node j).m_elevationBitmask) ∧
    (E < m.mapNodes.length → ((m.storeElevation E).node E).m_elevationBitmask =
      m.getElevatedNeighborBitmask (m.node E).m_isoCoordinates) ∧
    (m.storeElevation E).signals = m.signals := by
  unfold Map.storeElevation
  split
  · refine ⟨⟨rfl, rfl, Map.length_setNode _ _ _, fun j => ?_⟩, fun j => ?_, fun j => ?_,
      fun j => ?_, fun j hj => ?_, fun hE => ?_, rfl⟩
    all_goals rw [Map.node_setNode]
    · split
      · rename_i h; rw [h.1]; exact ⟨rfl, rfl⟩
      · exact ⟨rfl, rfl⟩
    · split
      · rename_i h; rw [h.1]; rfl
      · rfl
    · split
      · rename_i h; rw [h.1]; rfl
      · rfl
    · split
      · rename_i h; rw [h.1]; rfl
      · rfl
    · rw [if_neg (fun h => hj h.1)]
    · rw [if_pos ⟨rfl, hE⟩]; rfl
  · rename_i h
    refine ⟨Map.SameGrid.refl_sameGrid m, fun _ => rfl, fun _ => rfl, fun _ => rfl, fun _ _ => rfl,
      fun _ => ?_, rfl⟩
    exact (not_not.1 h).symm

theorem elevateStep_spec (env : Env) (s : UpdateState) (E : Nat) :
    (elevateStep env s E).nodesToElevate = s.nodesToElevate ∧
    (elevateStep env s E).nodesToBeUpdated = setInsert s.nodesToBeUpdated E ∧
    ((mustElevate (s.map.getElevatedNeighborBitmask (s.map.node E).m_isoCoordinates) = false ∧
        (elevateStep env s E).map = s.map.storeElevation E ∧
        (elevateStep env s E).nodesUpdatedHeight = s.nodesUpdatedHeight) ∨
      (mustElevate (s.map.getElevatedNeighborBitmask (s.map.node E).m_isoCoordinates) = true ∧
        (elevateStep env s E).map =
          ((s.map.storeElevation E).updateHeight env E true
            ((s.map.storeElevation E).getNeighborNodes
              ((s.map.storeElevation E).node E).m_isoCoordinates false)).1 ∧
        (elevateStep env s E).nodesUpdatedHeight = s.nodesUpdatedHeight ++ [E])) := by
  unfold elevateStep mustElevate Map.storeElevation
  dsimp only
  by_cases hb : s.map.getElevatedNeighborBitmask (s.map.node E).m_isoCoordinates ≠
      (s.map.node E).m_elevationBitmask
  · rw [if_pos hb, if_pos hb]
    split
    · rename_i h; exact ⟨rfl, rfl, Or.inr ⟨h, rfl, rfl⟩⟩
    · rename_i h; exact ⟨rfl, rfl, Or.inl ⟨by simpa using h, rfl, rfl⟩⟩
  · rw [if_neg hb, if_neg hb]
    split
    · rename_i h; exact ⟨rfl, rfl, Or.inr ⟨h, rfl, rfl⟩⟩
    · rename_i h; exact ⟨rfl, rfl, Or.inl ⟨by simpa using h, rfl, rfl⟩⟩


theorem Map.HeightsInRange.congr_heightsInRange {env : Env} {m m' : Map} (h : m.HeightsInRange env)
    (hlen : m'.mapNodes.length = m.mapNodes.length)
    (hh : ∀ j, (m'.node j).height = (m.node j).height) : m'.HeightsInRange env := by
  intro j hj
  rw [hh j]
  exact h j (by rw [← hlen]; exact hj)

theorem UpdateState.Valid.elevateStep_valid {env : Env} {s : UpdateState} (hv : s.Valid env) {E : Nat}
    (hE : E < s.map.mapNodes.length) :
    (elevateStep env s E).Valid env ∧ s.map.SameGrid (elevateStep env s E).map := by
  obtain ⟨hS, -, hcase⟩ := elevateStep_spec env s E
  obtain ⟨hwf, hr, hq, hs⟩ := hv
  obtain ⟨hg, hh, -, -, -, -, -⟩ := Map.storeElevation_spec s.map E
  rcases hcase with ⟨-, hm, hQ⟩ | ⟨-, hm, hQ⟩
  · refine ⟨⟨by rw [hm]; exact hg.wf_sameGrid hwf, by rw [hm]; exact hr.congr_heightsInRange hg.2.2.1 hh, ?_, ?_⟩,
      by rw [hm]; exact hg⟩
    · rw [hm, hQ, hg.2.2.1]; exact hq
    · rw [hm, hS, hg.2.2.1]; exact hs
  · obtain ⟨hg2, -, -, -, -, -⟩ := Map.updateHeight_spec env (s.map.storeElevation E) E true
      ((s.map.storeElevation E).getNeighborNodes
        ((s.map.storeElevation E).node E).m_isoCoordinates false)
    have hgg := hg.trans_sameGrid hg2
    refine ⟨⟨by rw [hm]; exact hgg.wf_sameGrid hwf,
      by rw [hm]; exact (hr.congr_heightsInRange hg.2.2.1 hh).updateHeight_heightsInRange _ _ _, ?_, ?_⟩, by rw [hm]; exact hgg⟩
    · rw [hm, hQ, hgg.2.2.1]
      intro i hi
      rw [List.mem_append, List.mem_singleton] at hi
      rcases hi with hi | rfl
      · exact hq i hi
      · exact hE
    · rw [hm, hS, hgg.2.2.1]; exact hs

/-- An elevation step strictly decreases the termination measure. -/
theorem elevateStep_measureLT {env : Env} {s : UpdateState} (hv : s.Valid env) {E : Nat}
    {rest : List Nat} (hS : s.nodesToElevate = E :: rest) :
    MeasureLT env (elevateStep env { s with nodesToElevate := rest } E) s := by
  have hE : E < s.map.mapNodes.length := hv.2.2.2 E (by rw [hS]; exact List.mem_cons_self _ _)
  have hr := hv.2.1 E hE
  have h0 : 0 ≤ env.maxHeight := le_trans hr.1 hr.2
  obtain ⟨hS', -, hcase⟩ := elevateStep_spec env { s with nodesToElevate := rest } E
  obtain ⟨hg, hh, -, -, -, -, -⟩ := Map.storeElevation_spec s.map E
  dsimp only at hS' hcase
  rcases hcase with ⟨-, hm, hQ'⟩ | ⟨hpin, hm, hQ'⟩
  · refine measureLT_of_stack h0 (fun l _ => ?_) ?_
    · rw [hm, hQ']; exact levelCount_congr hg.2.2.1 hh _ l
    · rw [hS', hS]; exact Nat.lt_succ_self _
  · obtain ⟨hg2, -, -, hne, heq, -⟩ := Map.updateHeight_spec env (s.map.storeElevation E) E true
      ((s.map.storeElevation E).getNeighborNodes
        ((s.map.storeElevation E).node E).m_isoCoordinates false)
    have hlt := hv.1.lt_maxHeight_of_mustElevate hv.2.1 hE hpin
    have hE2 : E < (s.map.storeElevation E).mapNodes.length := by rw [hg.2.2.1]; exact hE
    have hnew := heq hE2
    rw [MapNode.changeHeight_height, if_pos rfl, hh E, if_pos hlt] at hnew
    have hmove := levelCount_move hg2.2.2.1 s.nodesUpdatedHeight hE2 hne
    have hlc : ∀ l, levelCount (s.map.storeElevation E) s.nodesUpdatedHeight l =
        levelCount s.map s.nodesUpdatedHeight l := fun l => levelCount_congr hg.2.2.1 hh _ l
    refine measureLT_of_level h0 (j := (s.map.node E).height.toNat) (by omega) (fun l hl => ?_) ?_
    · have := hmove l
      rw [hh E, if_neg (by omega), if_neg (by rw [hnew]; omega), hlc l] at this
      rw [hm, hQ']
      simpa using this
    · have := hmove (s.map.node E).height.toNat
      rw [hh E, if_pos (by omega), if_neg (by rw [hnew]; omega), hlc] at this
      rw [hm, hQ']
      omega

/-! ## Termination of the propagation loop -/

theorem propagate_mono (env : Env) :
    ∀ (fuel : Nat) (s s' : UpdateState), propagate env fuel s = some s' →
      ∀ fuel', fuel ≤ fuel' → propagate env fuel' s = some s' := by
  intro fuel
  induction fuel with
  | zero => intro s s' h; simp [propagate] at h
  | succ n ih =>
    intro s s' h fuel' hle
    obtain ⟨n', rfl⟩ : ∃ n', fuel' = n' + 1 := ⟨fuel' - 1, by omega⟩
    unfold propagate at h ⊢
    split at h
    · exact ih _ _ h _ (by omega)
    · split at h
      · exact ih _ _ h _ (by omega)
      · exact h

/-- Induction principle for the propagation loop: an invariant that implies validity and
is kept by both kinds of step holds when the loop ends, and the loop does end. -/
theorem propagate_induct (env : Env) (Inv : UpdateState → Prop)
    (hvalid : ∀ s, Inv s → s.Valid env)
    (hheight : ∀ s N rest, Inv s → s.nodesUpdatedHeight = N :: rest →
      Inv (heightStep env { s with nodesUpdatedHeight := rest } N))
    (helev : ∀ s E rest, Inv s → s.nodesUpdatedHeight = [] → s.nodesToElevate = E :: rest →
      Inv (elevateStep env { s with nodesToElevate := rest } E)) :
    ∀ s, Inv s → ∃ fuel s', propagate env fuel s = some s' ∧ Inv s' ∧
      s'.nodesUpdatedHeight = [] ∧ s'.nodesToElevate = [] ∧ s.map.SameGrid s'.map := by
  intro s
  induction s using (measureLT_wf env).induction with
  | _ s ih =>
    intro hinv
    have hv := hvalid s hinv
    rcases hq : s.nodesUpdatedHeight with _ | ⟨N, rest⟩
    · rcases hs : s.nodesToElevate with _ | ⟨E, rest⟩
      · exact ⟨1, s, by simp [propagate, hq, hs], hinv, hq, hs, Map.SameGrid.refl_sameGrid _⟩
      · obtain ⟨fuel, s', hp, hI, h1, h2, h3⟩ :=
          ih _ (elevateStep_measureLT hv hs) (helev s E rest hinv hq hs)
        have hvu : UpdateState.Valid env { s with nodesToElevate := rest } :=
          ⟨hv.1, hv.2.1, hv.2.2.1,
            fun i hi => hv.2.2.2 i (by rw [hs]; exact List.mem_cons_of_mem _ hi)⟩
        have hg := (hvu.elevateStep_valid (E := E)
          (hv.2.2.2 E (by rw [hs]; exact List.mem_cons_self _ _))).2
        exact ⟨fuel + 1, s', by simp only [propagate, hq, hs]; rw [hq] at hp; exact hp, hI, h1, h2,
          hg.trans_sameGrid h3⟩
    · obtain ⟨fuel, s', hp, hI, h1, h2, h3⟩ :=
        ih _ (heightStep_measureLT hv hq) (hheight s N rest hinv hq)
      have hvu : UpdateState.Valid env { s with nodesUpdatedHeight := rest } :=
        ⟨hv.1, hv.2.1, fun i hi => hv.2.2.1 i (by rw [hq]; exact List.mem_cons_of_mem _ hi),
          hv.2.2.2⟩
      have hg := (hvu.heightStep_valid (N := N)
        (hv.2.2.1 N (by rw [hq]; exact List.mem_cons_self _ _))).2
      exact ⟨fuel + 1, s', by simp only [propagate, hq]; exact hp, hI, h1, h2, hg.trans_sameGrid h3⟩


/-! ## Invariants of the propagation loop -/

theorem Map.SameGrid.adj {m m' : Map} (h : m.SameGrid m') (i j : Nat) :
    m'.Adj i j ↔ m.Adj i j := by
  unfold Map.Adj
  rw [h.2.2.1, (h.2.2.2 i).1, (h.2.2.2 i).2, (h.2.2.2 j).1, (h.2.2.2 j).2]

theorem Map.gapOK_congr {m m' : Map} {i j : Nat} (hi : (m'.node i).height = (m.node i).height)
    (hj : (m'.node j).height = (m.node j).height) : m'.gapOK i j ↔ m.gapOK i j := by
  unfold Map.gapOK; rw [hi, hj]

/-- The freshly computed bitmask of a node only depends on its height and on the heights
of its neighbours. -/
theorem Map.WF.getElevated_eq {m m' : Map} (hwf : m.WF) (hg : m.SameGrid m') {i : Nat}
    (hi : i < m.mapNodes.length) (hcen : (m'.node i).height = (m.node i).height)
    (hnb : ∀ j, m.Adj i j → (m'.node j).height = (m.node j).height) :
    m'.getElevatedNeighborBitmask (m'.node i).m_isoCoordinates =
      m.getElevatedNeighborBitmask (m.node i).m_isoCoordinates := by
  have hwf' := hg.wf_sameGrid hwf
  have hi' : i < m'.mapNodes.length := by rw [hg.2.2.1]; exact hi
  apply getElevated_congr hg.1 hg.2.1 (hg.2.2.2 i).1 (hg.2.2.2 i).2
  · rw [hwf'.getMapNode_coords hi', hwf.getMapNode_coords hi]; exact hcen
  · intro q hq
    have hadj : m.Adj i (m.nodePtr q.x q.y) :=
      (hwf.mem_neighbourIdx_iff _).1 ((Map.mem_neighbourIdx i _).2 ⟨q, hq, rfl⟩)
    have := hnb _ hadj
    unfold Map.getMapNode
    have hp : m'.nodePtr q.x q.y = m.nodePtr q.x q.y := by
      unfold Map.nodePtr Map.nodeIdx; rw [hg.1]
    rw [hp]; exact this

theorem Map.WF.elevOK_congr {m m' : Map} (hwf : m.WF) (hg : m.SameGrid m') {i : Nat}
    (hi : i < m.mapNodes.length)
    (hst : (m'.node i).m_elevationBitmask = (m.node i).m_elevationBitmask)
    (hcen : (m'.node i).height = (m.node i).height)
    (hnb : ∀ j, m.Adj i j → (m'.node j).height = (m.node j).height) :
    m'.elevOK i ↔ m.elevOK i := by
  unfold Map.elevOK
  rw [hst, hwf.getElevated_eq hg hi hcen hnb]

/-- The gap invariant survives the move of one node that joins the work list. -/
theorem Map.GapInv.move_gapInv {m m' : Map} {W W' : List Nat} {N : Nat} {todo todo' : List Nat}
    (h : m.GapInv W N todo) (hg : m.SameGrid m') {M : Nat}
    (hne : ∀ j, j ≠ M → (m'.node j).height = (m.node j).height)
    (hW : ∀ i, i ∈ W → i ∈ W') (hM : M ∈ W')
    (htodo : ∀ i, i ∈ todo → i = M ∨ i ∈ todo') :
    m'.GapInv W' N todo' := by
  intro i j hi hadj
  rw [hg.2.2.1] at hi
  rw [hg.adj] at hadj
  by_cases hiM : i = M
  · subst hiM; exact Or.inr (Or.inl hM)
  by_cases hjM : j = M
  · subst hjM; exact Or.inr (Or.inr (Or.inl hM))
  rcases h i j hi hadj with h1 | h1 | h1 | ⟨h1, h2⟩ | ⟨h1, h2⟩
  · exact Or.inl ((Map.gapOK_congr (hne i hiM) (hne j hjM)).2 h1)
  · exact Or.inr (Or.inl (hW i h1))
  · exact Or.inr (Or.inr (Or.inl (hW j h1)))
  · rcases htodo j h2 with h3 | h3
    · exact absurd h3 hjM
    · exact Or.inr (Or.inr (Or.inr (Or.inl ⟨h1, h3⟩)))
  · rcases htodo i h2 with h3 | h3
    · exact absurd h3 hiM
    · exact Or.inr (Or.inr (Or.inr (Or.inr ⟨h1, h3⟩)))

/-- The elevation invariant survives the move of one node that joins the work list. -/
theorem Map.ElevInv.move_elevInv {m m' : Map} {W W' S S' : List Nat} {T T' : Nat → Prop}
    (h : m.ElevInv W S T) (hwf : m.WF) (hg : m.SameGrid m') {M : Nat}
    (hM : M < m.mapNodes.length)
    (hst : ∀ j, (m'.node j).m_elevationBitmask = (m.node j).m_elevationBitmask)
    (hne : ∀ j, j ≠ M → (m'.node j).height = (m.node j).height)
    (hW : ∀ i, i ∈ W → i ∈ W') (hMW : M ∈ W') (hS : ∀ i, i ∈ S → i ∈ S')
    (htodo : ∀ i, T i → i ∈ S' ∨ T' i) :
    m'.ElevInv W' S' T' := by
  intro i hi
  rw [hg.2.2.1] at hi
  by_cases hiM : i = M
  · subst hiM; exact Or.inr (Or.inr (Or.inl hMW))
  by_cases hadj : m.Adj i M
  · exact Or.inr (Or.inr (Or.inr (Or.inl ⟨M, hMW, (hg.adj i M).2 hadj⟩)))
  rcases h i hi with h1 | h1 | h1 | ⟨j, h1, h2⟩ | h1
  · refine Or.inl ((hwf.elevOK_congr hg hi (hst i) (hne i hiM) fun j hj => hne j ?_).2 h1)
    rintro rfl; exact hadj hj
  · exact Or.inr (Or.inl (hS i h1))
  · exact Or.inr (Or.inr (Or.inl (hW i h1)))
  · exact Or.inr (Or.inr (Or.inr (Or.inl ⟨j, hW j h1, (hg.adj i j).2 h2⟩)))
  · rcases htodo i h1 with h3 | h3
    · exact Or.inr (Or.inl h3)
    · exact Or.inr (Or.inr (Or.inr (Or.inr h3)))


theorem neighbourStep_gap {env : Env} {s : UpdateState} {k : Int} {N : Nat}
    (hk : (s.map.node N).height = k) {extra : List Nat} {nb : NeighborNode}
    {rest : List NeighborNode}
    (h : s.map.GapInv (s.nodesUpdatedHeight ++ extra) N ((nb :: rest).map fun x => x.pNode)) :
    ((neighbourStep env k s nb).map.node N).height = k ∧
    (neighbourStep env k s nb).map.GapInv ((neighbourStep env k s nb).nodesUpdatedHeight ++ extra) N
      (rest.map fun x => x.pNode) := by
  obtain ⟨-, -, -, hcase⟩ := neighbourStep_spec env k s nb
  rcases hcase with ⟨hgap, hm, hQ⟩ | ⟨hgap, hm, hQ⟩
  · rw [hm, hQ]
    refine ⟨hk, fun i j hi hadj => ?_⟩
    rcases h i j hi hadj with h1 | h1 | h1 | ⟨h1, h2⟩ | ⟨h1, h2⟩
    · exact Or.inl h1
    · exact Or.inr (Or.inl h1)
    · exact Or.inr (Or.inr (Or.inl h1))
    · rw [List.map_cons, List.mem_cons] at h2
      rcases h2 with h2 | h2
      · left; unfold Map.gapOK; rw [h1, h2, hk]; exact hgap
      · exact Or.inr (Or.inr (Or.inr (Or.inl ⟨h1, h2⟩)))
    · rw [List.map_cons, List.mem_cons] at h2
      rcases h2 with h2 | h2
      · left; unfold Map.gapOK; rw [h1, h2, hk]; omega
      · exact Or.inr (Or.inr (Or.inr (Or.inr ⟨h1, h2⟩)))
  · rw [hm, hQ]
    obtain ⟨hg, -, -, hne, -, -⟩ := Map.updateHeight_spec env s.map nb.pNode
      (decide (k - (s.map.node nb.pNode).height > 1))
      (s.map.getNeighborNodes (s.map.node nb.pNode).m_isoCoordinates false)
    have hNM : N ≠ nb.pNode := by
      rintro rfl
      rw [hk] at hgap
      simp at hgap
    refine ⟨by rw [hne N hNM]; exact hk, h.move_gapInv hg hne (fun i hi => ?_) ?_ (fun i hi => ?_)⟩
    · simp only [List.mem_append] at hi ⊢
      rcases hi with hi | hi
      · exact Or.inl (Or.inl hi)
      · exact Or.inr hi
    · simp
    · rw [List.map_cons, List.mem_cons] at hi
      exact hi

theorem neighbourStep_elev {env : Env} {s : UpdateState} (hv : s.Valid env) {k : Int}
    {stale : Nat → Prop} {extra : List Nat} {nb : NeighborNode} {rest : List NeighborNode}
    (hnb : nb.pNode < s.map.mapNodes.length)
    (h : s.map.ElevInv (s.nodesUpdatedHeight ++ extra) s.nodesToElevate
      (fun i => i ∈ (nb :: rest).map (fun x => x.pNode) ∨ stale i)) :
    (neighbourStep env k s nb).map.ElevInv ((neighbourStep env k s nb).nodesUpdatedHeight ++ extra)
      (neighbourStep env k s nb).nodesToElevate
      (fun i => i ∈ rest.map (fun x => x.pNode) ∨ stale i) := by
  obtain ⟨hS, -, -, hcase⟩ := neighbourStep_spec env k s nb
  have htodo : ∀ i, (i ∈ (nb :: rest).map (fun x => x.pNode) ∨ stale i) →
      i ∈ pushIfAbsent s.nodesToElevate nb.pNode ∨
        (i ∈ rest.map (fun x => x.pNode) ∨ stale i) := by
    intro i hi
    rw [List.map_cons, List.mem_cons] at hi
    rcases hi with (hi | hi) | hi
    · exact Or.inl ((mem_pushIfAbsent _ _ _).2 (Or.inl hi))
    · exact Or.inr (Or.inl hi)
    · exact Or.inr (Or.inr hi)
  rcases hcase with ⟨-, hm, hQ⟩ | ⟨-, hm, hQ⟩
  · rw [hm, hQ, hS]
    intro i hi
    rcases h i hi with h1 | h1 | h1 | h1 | h1
    · exact Or.inl h1
    · exact Or.inr (Or.inl ((mem_pushIfAbsent _ _ _).2 (Or.inr h1)))
    · exact Or.inr (Or.inr (Or.inl h1))
    · exact Or.inr (Or.inr (Or.inr (Or.inl h1)))
    · rcases htodo i h1 with h2 | h2
      · exact Or.inr (Or.inl h2)
      · exact Or.inr (Or.inr (Or.inr (Or.inr h2)))
  · rw [hm, hQ, hS]
    obtain ⟨hg, hst, -, hne, -, -⟩ := Map.updateHeight_spec env s.map nb.pNode
      (decide (k - (s.map.node nb.pNode).height > 1))
      (s.map.getNeighborNodes (s.map.node nb.pNode).m_isoCoordinates false)
    refine h.move_elevInv hv.1 hg hnb hst hne (fun i hi => ?_) ?_
      (fun i hi => (mem_pushIfAbsent _ _ _).2 (Or.inr hi)) htodo
    · simp only [List.mem_append] at hi ⊢
      rcases hi with hi | hi
      · exact Or.inl (Or.inl hi)
      · exact Or.inr hi
    · simp

theorem Map.GapInv.anchor {m : Map} {W : List Nat} {N : Nat} (h : m.GapInv W N []) (N' : Nat) :
    m.GapInv W N' [] := by
  intro i j hi hadj
  rcases h i j hi hadj with h1 | h1 | h1 | ⟨-, h2⟩ | ⟨-, h2⟩
  · exact Or.inl h1
  · exact Or.inr (Or.inl h1)
  · exact Or.inr (Or.inr (Or.inl h1))
  · simp at h2
  · simp at h2

/-- A height step keeps the loop invariant. -/
theorem UpdateState.Inv.heightStep_inv {env : Env} {stale : Nat → Prop} {extra : List Nat}
    {s : UpdateState} (hinv : s.Inv env stale extra) {N : Nat} {rest : List Nat}
    (hQ : s.nodesUpdatedHeight = N :: rest) :
    (Cytopia.heightStep env { s with nodesUpdatedHeight := rest } N).Inv env stale extra := by
  obtain ⟨hv, hgap, helev⟩ := hinv
  have hN : N < s.map.mapNodes.length := hv.2.2.1 N (by rw [hQ]; exact List.mem_cons_self _ _)
  have hv' : UpdateState.Valid env { s with nodesUpdatedHeight := rest } :=
    ⟨hv.1, hv.2.1, fun i hi => hv.2.2.1 i (by rw [hQ]; exact List.mem_cons_of_mem _ hi), hv.2.2.2⟩
  have hv1 := hv'.pushStack hN
  rw [hQ] at hgap helev
  have hnbr : ∀ j, s.map.Adj N j ↔
      j ∈ (s.map.getNeighborNodes (s.map.node N).m_isoCoordinates false).map fun x => x.pNode :=
    fun j => (hv.1.mem_neighbourIdx_iff (i := N) j).symm
  rw [heightStep_eq]
  have := neighbourFold_induct env (s.map.node N).height
    (fun todo t => (t.map.node N).height = (s.map.node N).height ∧
      t.map.GapInv (t.nodesUpdatedHeight ++ extra) N (todo.map fun x => x.pNode) ∧
      t.map.ElevInv (t.nodesUpdatedHeight ++ extra) t.nodesToElevate
        (fun i => i ∈ todo.map (fun x => x.pNode) ∨ stale i))
    (fun nb rest' t ht hnb hP =>
      ⟨(neighbourStep_gap hP.1 hP.2.1).1, (neighbourStep_gap hP.1 hP.2.1).2,
        neighbourStep_elev ht hnb hP.2.2⟩)
    _ _ hv1 (hv.1.neighborNodes_lt N) ⟨rfl, ?_, ?_⟩
  · refine ⟨this.2.1, Map.GapInv.anchor this.1.2.1 0, fun i hi => ?_⟩
    rcases this.1.2.2 i hi with h1 | h1 | h1 | h1 | h1 | h1
    · exact Or.inl h1
    · exact Or.inr (Or.inl h1)
    · exact Or.inr (Or.inr (Or.inl h1))
    · exact Or.inr (Or.inr (Or.inr (Or.inl h1)))
    · simp at h1
    · exact Or.inr (Or.inr (Or.inr (Or.inr h1)))
  · -- the gap invariant when the node has just been popped
    intro i j hi hadj
    dsimp only at hi hadj ⊢
    rcases hgap i j hi hadj with h1 | h1 | h1 | ⟨-, h2⟩ | ⟨-, h2⟩
    · exact Or.inl h1
    · rw [List.cons_append, List.mem_cons] at h1
      rcases h1 with h1 | h1
      · subst h1
        exact Or.inr (Or.inr (Or.inr (Or.inl ⟨rfl, (hnbr j).1 hadj⟩)))
      · exact Or.inr (Or.inl h1)
    · rw [List.cons_append, List.mem_cons] at h1
      rcases h1 with h1 | h1
      · subst h1
        exact Or.inr (Or.inr (Or.inr (Or.inr ⟨rfl, (hnbr i).1 (hv.1.adj_symm hi hadj)⟩)))
      · exact Or.inr (Or.inr (Or.inl h1))
    · simp at h2
    · simp at h2
  · -- the elevation invariant when the node has just been popped
    intro i hi
    dsimp only at hi ⊢
    rcases helev i hi with h1 | h1 | h1 | ⟨j, h1, h2⟩ | h1
    · exact Or.inl h1
    · exact Or.inr (Or.inl ((mem_pushIfAbsent _ _ _).2 (Or.inr h1)))
    · rw [List.cons_append, List.mem_cons] at h1
      rcases h1 with h1 | h1
      · exact Or.inr (Or.inl ((mem_pushIfAbsent _ _ _).2 (Or.inl h1)))
      · exact Or.inr (Or.inr (Or.inl h1))
    · rw [List.cons_append, List.mem_cons] at h1
      rcases h1 with h1 | h1
      · subst h1
        have hj : j < s.map.mapNodes.length := h2.1
        exact Or.inr (Or.inr (Or.inr (Or.inr (Or.inl ((hnbr i).1 (hv.1.adj_symm hi h2))))))
      · exact Or.inr (Or.inr (Or.inr (Or.inl ⟨j, h1, h2⟩)))
    · exact Or.inr (Or.inr (Or.inr (Or.inr (Or.inr h1))))


theorem Map.GapInv.congr_gapInv {m m' : Map} {W : List Nat} {N : Nat} {todo : List Nat}
    (h : m.GapInv W N todo) (hg : m.SameGrid m')
    (hh : ∀ j, (m'.node j).height = (m.node j).height) : m'.GapInv W N todo := by
  intro i j hi hadj
  rw [hg.2.2.1] at hi
  rw [hg.adj] at hadj
  rcases h i j hi hadj with h1 | h1
  · exact Or.inl ((Map.gapOK_congr (hh i) (hh j)).2 h1)
  · exact Or.inr h1

/-- Storing the fresh bitmask of a node that has just left the candidate stack keeps the
elevation invariant. -/
theorem Map.ElevInv.storeElevation {m : Map} {W : List Nat} {E : Nat} {rest : List Nat}
    {T : Nat → Prop}
    (h : m.ElevInv W (E :: rest) T) (hwf : m.WF) (hE : E < m.mapNodes.length) :
    (m.storeElevation E).ElevInv W rest T := by
  obtain ⟨hg, hh, -, -, hst, hstE, -⟩ := Map.storeElevation_spec m E
  intro i hi
  rw [hg.2.2.1] at hi
  by_cases hiE : i = E
  · subst hiE
    left
    unfold Map.elevOK
    rw [hstE hE, hwf.getElevated_eq hg hE (hh i) fun j _ => hh j]
    exact fun _ _ => Iff.rfl
  · rcases h i hi with h1 | h1 | h1 | ⟨j, h1, h2⟩ | h1
    · exact Or.inl ((hwf.elevOK_congr hg hi (hst i hiE) (hh i) fun j _ => hh j).2 h1)
    · rw [List.mem_cons] at h1
      rcases h1 with h1 | h1
      · exact absurd h1 hiE
      · exact Or.inr (Or.inl h1)
    · exact Or.inr (Or.inr (Or.inl h1))
    · exact Or.inr (Or.inr (Or.inr (Or.inl ⟨j, h1, (hg.adj i j).2 h2⟩)))
    · exact Or.inr (Or.inr (Or.inr (Or.inr h1)))

/-- An elevation step keeps the loop invariant. -/
theorem UpdateState.Inv.elevateStep_inv {env : Env} {stale : Nat → Prop} {extra : List Nat}
    {s : UpdateState} (hinv : s.Inv env stale extra) {E : Nat} {rest : List Nat}
    (hS : s.nodesToElevate = E :: rest) :
    (Cytopia.elevateStep env { s with nodesToElevate := rest } E).Inv env stale extra := by
  obtain ⟨hv, hgap, helev⟩ := hinv
  have hE : E < s.map.mapNodes.length := hv.2.2.2 E (by rw [hS]; exact List.mem_cons_self _ _)
  have hv' : UpdateState.Valid env { s with nodesToElevate := rest } :=
    ⟨hv.1, hv.2.1, hv.2.2.1, fun i hi => hv.2.2.2 i (by rw [hS]; exact List.mem_cons_of_mem _ hi)⟩
  have hvalid := (hv'.elevateStep_valid (E := E) hE).1
  obtain ⟨hS', -, hcase⟩ := elevateStep_spec env { s with nodesToElevate := rest } E
  obtain ⟨hg, hh, -, -, -, -, -⟩ := Map.storeElevation_spec s.map E
  dsimp only at hS' hcase
  rw [hS] at helev
  have hgap2 := hgap.congr_gapInv hg hh
  have helev2 := helev.storeElevation hv.1 hE
  refine ⟨hvalid, ?_, ?_⟩
  · rcases hcase with ⟨-, hm, hQ'⟩ | ⟨-, hm, hQ'⟩
    · rw [hm, hQ']; exact hgap2
    · rw [hm, hQ']
      obtain ⟨hg2, -, -, hne, -, -⟩ := Map.updateHeight_spec env (s.map.storeElevation E) E true
        ((s.map.storeElevation E).getNeighborNodes
          ((s.map.storeElevation E).node E).m_isoCoordinates false)
      refine hgap2.move_gapInv hg2 hne (fun i hi => ?_) (by simp) (fun i hi => Or.inr hi)
      simp only [List.mem_append] at hi ⊢
      rcases hi with hi | hi
      · exact Or.inl (Or.inl hi)
      · exact Or.inr hi
  · rcases hcase with ⟨-, hm, hQ'⟩ | ⟨-, hm, hQ'⟩
    · rw [hm, hQ', hS']; exact helev2
    · rw [hm, hQ', hS']
      obtain ⟨hg2, hst2, -, hne, -, -⟩ := Map.updateHeight_spec env (s.map.storeElevation E) E true
        ((s.map.storeElevation E).getNeighborNodes
          ((s.map.storeElevation E).node E).m_isoCoordinates false)
      refine helev2.move_elevInv (hg.wf_sameGrid hv.1) hg2 (by rw [hg.2.2.1]; exact hE) hst2 hne (fun i hi => ?_)
        (by simp) (fun i hi => hi) (fun i hi => Or.inr hi)
      simp only [List.mem_append] at hi ⊢
      rcases hi with hi | hi
      · exact Or.inl (Or.inl hi)
      · exact Or.inr hi

theorem UpdateState.Inv.valid {env : Env} {stale : Nat → Prop} {extra : List Nat}
    {s : UpdateState} (h : s.Inv env stale extra) : s.Valid env := h.1

/-- The propagation loop terminates from every state that satisfies the invariant, and
the invariant holds in the final state, whose queue and stack are empty. -/
theorem propagate_inv (env : Env) (stale : Nat → Prop) (extra : List Nat) (s : UpdateState)
    (h : s.Inv env stale extra) :
    ∃ fuel s', propagate env fuel s = some s' ∧ s'.Inv env stale extra ∧
      s'.nodesUpdatedHeight = [] ∧ s'.nodesToElevate = [] ∧ s.map.SameGrid s'.map :=
  propagate_induct env (fun s => s.Inv env stale extra) (fun _ h => h.1)
    (fun _ _ _ hinv hQ => hinv.heightStep_inv hQ) (fun _ _ _ hinv _ hS => hinv.elevateStep_inv hS) s h

/-- The propagation loop terminates from every valid state. -/
theorem propagate_terminates (env : Env) (s : UpdateState) (h : s.Valid env) :
    ∃ fuel s', propagate env fuel s = some s' ∧ s'.Valid env ∧
      s'.nodesUpdatedHeight = [] ∧ s'.nodesToElevate = [] ∧ s.map.SameGrid s'.map :=
  propagate_induct env (fun s => s.Valid env) (fun _ h => h)
    (fun s N rest hv hQ =>
      (UpdateState.Valid.heightStep_valid (s := { s with nodesUpdatedHeight := rest })
        ⟨hv.1, hv.2.1, fun i hi => hv.2.2.1 i (by rw [hQ]; exact List.mem_cons_of_mem _ hi),
          hv.2.2.2⟩
        (hv.2.2.1 N (by rw [hQ]; exact List.mem_cons_self _ _))).1)
    (fun s E rest hv _ hS =>
      (UpdateState.Valid.elevateStep_valid (s := { s with nodesToElevate := rest })
        ⟨hv.1, hv.2.1, hv.2.2.1,
          fun i hi => hv.2.2.2 i (by rw [hS]; exact List.mem_cons_of_mem _ hi)⟩
        (hv.2.2.2 E (by rw [hS]; exact List.mem_cons_self _ _))).1)
    s h


/-! ## The loop over the seed nodes -/

theorem propagateAll_induct (env : Env) (Inv : List Nat → UpdateState → Prop)
    (hpush : ∀ x xs s, Inv (x :: xs) s → s.nodesUpdatedHeight = [] →
      ∃ fuel s', propagate env fuel { s with nodesUpdatedHeight := s.nodesUpdatedHeight ++ [x] } =
        some s' ∧ Inv xs s' ∧ s'.nodesUpdatedHeight = []) :
    ∀ seeds s, Inv seeds s → s.nodesUpdatedHeight = [] →
      ∃ fuel, ∀ fuel', fuel ≤ fuel' →
        ∃ s', propagateAll env fuel' seeds s = some s' ∧ Inv [] s' ∧ s'.nodesUpdatedHeight = [] := by
  intro seeds
  induction seeds with
  | nil => intro s h hQ; exact ⟨0, fun _ _ => ⟨s, rfl, h, hQ⟩⟩
  | cons x xs ih =>
    intro s h hQ
    obtain ⟨f1, s1, hp, hI, hQ1⟩ := hpush x xs s h hQ
    obtain ⟨f2, h2⟩ := ih s1 hI hQ1
    refine ⟨max f1 f2, fun fuel' hle => ?_⟩
    obtain ⟨s', hs', hI', hQ'⟩ := h2 fuel' (le_trans (le_max_right _ _) hle)
    refine ⟨s', ?_, hI', hQ'⟩
    unfold propagateAll
    rw [propagate_mono env f1 _ _ hp fuel' (le_trans (le_max_left _ _) hle)]
    exact hs'

theorem propagateAll_mono (env : Env) (fuel fuel' : Nat) (hle : fuel ≤ fuel') :
    ∀ (seeds : List Nat) (s s' : UpdateState), propagateAll env fuel seeds s = some s' →
      propagateAll env fuel' seeds s = some s' := by
  intro seeds
  induction seeds with
  | nil => intro s s' h; exact h
  | cons x xs ih =>
    intro s s' h
    unfold propagateAll at h ⊢
    split at h
    · exact absurd h (by simp)
    · rename_i s1 hs1
      rw [propagate_mono env fuel _ _ hs1 fuel' hle]
      exact ih _ _ h

theorem UpdateState.Valid.pushQueue {env : Env} {s : UpdateState} (hv : s.Valid env) {x : Nat}
    (hx : x < s.map.mapNodes.length) :
    UpdateState.Valid env { s with nodesUpdatedHeight := s.nodesUpdatedHeight ++ [x] } := by
  refine ⟨hv.1, hv.2.1, fun i hi => ?_, hv.2.2.2⟩
  rw [List.mem_append, List.mem_singleton] at hi
  rcases hi with hi | rfl
  · exact hv.2.2.1 i hi
  · exact hx

/-- The seed loop terminates on every valid state and every list of seed nodes. -/
theorem propagateAll_terminates (env : Env) (seeds : List Nat) (s : UpdateState)
    (hv : s.Valid env) (hQ : s.nodesUpdatedHeight = [])
    (hseeds : ∀ x ∈ seeds, x < s.map.mapNodes.length) :
    ∃ fuel, ∀ fuel', fuel ≤ fuel' → ∃ s', propagateAll env fuel' seeds s = some s' ∧
      s'.Valid env ∧ s'.nodesUpdatedHeight = [] ∧ s.map.SameGrid s'.map := by
  have := propagateAll_induct env
    (fun seeds t => t.Valid env ∧ s.map.SameGrid t.map ∧ ∀ x ∈ seeds, x < s.map.mapNodes.length)
    (fun x xs t ht hQt => by
      obtain ⟨hvt, hgt, hxs⟩ := ht
      have hx : x < t.map.mapNodes.length := by
        rw [hgt.2.2.1]; exact hxs x (List.mem_cons_self _ _)
      obtain ⟨fuel, s', hp, hv', hQ', -, hg'⟩ := propagate_terminates env _ (hvt.pushQueue hx)
      exact ⟨fuel, s', hp, ⟨hv', hgt.trans_sameGrid hg', fun y hy => hxs y (List.mem_cons_of_mem _ hy)⟩,
        hQ'⟩)
    seeds s ⟨hv, Map.SameGrid.refl_sameGrid _, hseeds⟩ hQ
  obtain ⟨fuel, hf⟩ := this
  refine ⟨fuel, fun fuel' hle => ?_⟩
  obtain ⟨s', hs', hI, hQ'⟩ := hf fuel' hle
  exact ⟨s', hs', hI.1, hQ', hI.2.1⟩

/-- The seed loop ends in a state that satisfies the invariant with no work left. -/
theorem propagateAll_inv (env : Env) (stale : Nat → Prop) (seeds : List Nat) (s : UpdateState)
    (hinv : s.Inv env stale seeds) (hQ : s.nodesUpdatedHeight = []) (hS : s.nodesToElevate = [])
    (hseeds : ∀ x ∈ seeds, x < s.map.mapNodes.length) :
    ∃ fuel, ∀ fuel', fuel ≤ fuel' → ∃ s', propagateAll env fuel' seeds s = some s' ∧
      s'.Inv env stale [] ∧ s'.nodesUpdatedHeight = [] ∧ s'.nodesToElevate = [] ∧
      s.map.SameGrid s'.map := by
  have := propagateAll_induct env
    (fun seeds t => t.Inv env stale seeds ∧ t.nodesToElevate = [] ∧ s.map.SameGrid t.map ∧
      ∀ x ∈ seeds, x < s.map.mapNodes.length)
    (fun x xs t ht hQt => by
      obtain ⟨hit, hSt, hgt, hxs⟩ := ht
      have hx : x < t.map.mapNodes.length := by
        rw [hgt.2.2.1]; exact hxs x (List.mem_cons_self _ _)
      have hi1 : UpdateState.Inv env stale xs
          { t with nodesUpdatedHeight := t.nodesUpdatedHeight ++ [x] } := by
        obtain ⟨hvt, hg, he⟩ := hit
        refine ⟨hvt.pushQueue hx, ?_, ?_⟩
        · rw [hQt] at hg ⊢; exact hg
        · rw [hQt] at he ⊢; exact he
      obtain ⟨fuel, s', hp, hI', hQ', hS', hg'⟩ := propagate_inv env stale xs _ hi1
      exact ⟨fuel, s', hp, ⟨hI', hS', hgt.trans_sameGrid hg',
        fun y hy => hxs y (List.mem_cons_of_mem _ hy)⟩, hQ'⟩)
    seeds s ⟨hinv, hS, Map.SameGrid.refl_sameGrid _, hseeds⟩ hQ
  obtain ⟨fuel, hf⟩ := this
  refine ⟨fuel, fun fuel' hle => ?_⟩
  obtain ⟨s', hs', hI, hQ'⟩ := hf fuel' hle
  exact ⟨s', hs', hI.1, hQ', hI.2.1, hI.2.2.1⟩


/-! ## What demolition and the final bitmask pass keep -/

theorem Map.SameCore.refl_sameCore (m : Map) : m.SameCore m := ⟨rfl, rfl, rfl, fun _ => ⟨rfl, rfl⟩⟩

theorem Map.SameCore.trans_sameCore {a b c : Map} (h1 : a.SameCore b) (h2 : b.SameCore c) :
    a.SameCore c :=
  ⟨h2.1.trans h1.1, h2.2.1.trans h1.2.1, h2.2.2.1.trans h1.2.2.1,
    fun i => ⟨(h2.2.2.2 i).1.trans (h1.2.2.2 i).1, (h2.2.2.2 i).2.trans (h1.2.2.2 i).2⟩⟩

theorem Map.SameButData.sameCore {a b : Map} (h : a.SameButData b) : a.SameCore b :=
  ⟨h.1, h.2.1, h.2.2.1, fun i => ⟨(h.2.2.2 i).1, (h.2.2.2 i).2.1⟩⟩

theorem Map.SameCore.sameGrid_sameCore {a b : Map} (h : a.SameCore b) : a.SameGrid b :=
  ⟨h.1, h.2.1, h.2.2.1, fun i => by rw [(h.2.2.2 i).1]; exact ⟨rfl, rfl⟩⟩

theorem Map.SameCore.height_sameCore {a b : Map} (h : a.SameCore b) (i : Nat) :
    (b.node i).height = (a.node i).height := by
  unfold MapNode.height; rw [(h.2.2.2 i).1]

theorem Map.SameCore.setNode_sameCore (m : Map) (i : Nat) (n : MapNode)
    (h : n.m_isoCoordinates = (m.node i).m_isoCoordinates ∧
      n.m_elevationBitmask = (m.node i).m_elevationBitmask) :
    m.SameCore (m.setNode i n) := by
  refine ⟨rfl, rfl, Map.length_setNode m i n, fun j => ?_⟩
  rw [Map.node_setNode]
  split
  · rename_i hj; rw [hj.1]; exact h
  · exact ⟨rfl, rfl⟩

theorem Map.demolishAll_sameButData (nodes : List Nat) (layer : Layer) (m : Map) :
    m.SameButData (m.demolishAll nodes layer) := by
  unfold Map.demolishAll
  induction nodes generalizing m with
  | nil => exact Map.SameButData.refl_sameButData m
  | cons x rest ih =>
    simp only [List.foldl_cons]
    refine Map.SameButData.trans_sameButData ?_ (ih _)
    exact (Map.SameButData.setNode_sameButData m _ _ (MapNode.demolishNode_fields _ _)).trans_sameButData
      (Map.SameButData.withSignals _ _)

theorem Map.demolishNodeNoUpdate_sameButData (env : Env) (m : Map) (coords : List Point)
    (layer : Layer) : m.SameButData (m.demolishNodeNoUpdate env coords layer) :=
  Map.demolishAll_sameButData _ _ _

theorem autotileFold_sameCore (env : Env) (nodes : List Nat) (m : Map) :
    m.SameCore (m.autotilePass env nodes) := by
  unfold Map.autotilePass
  induction nodes generalizing m with
  | nil => exact Map.SameCore.refl_sameCore m
  | cons x rest ih =>
    simp only [List.foldl_cons]
    refine Map.SameCore.trans_sameCore ?_ (ih _)
    exact Map.SameCore.setNode_sameCore m _ _ ⟨rfl, rfl⟩

theorem finishUpdate_sameCore (env : Env) (s : UpdateState) :
    s.map.SameCore (finishUpdate env s) := by
  unfold finishUpdate
  refine Map.SameCore.trans_sameCore ?_ (autotileFold_sameCore env _ _)
  split
  · exact Map.SameCore.refl_sameCore _
  · exact (Map.demolishNodeNoUpdate_sameButData env _ _ _).sameCore

theorem Map.SameCore.wf_sameCore {m m' : Map} (h : m.SameCore m') (hwf : m.WF) : m'.WF :=
  h.sameGrid_sameCore.wf_sameGrid hwf

theorem Map.SameCore.heightsInRange {env : Env} {m m' : Map} (h : m.SameCore m')
    (hr : m.HeightsInRange env) : m'.HeightsInRange env :=
  hr.congr_heightsInRange h.2.2.1 h.height_sameCore

theorem Map.SameCore.i1Idx {m m' : Map} (h : m.SameCore m') (hi : m.I1Idx) : m'.I1Idx := by
  intro i hlt j hj
  rw [h.sameGrid_sameCore.neighbourIdx] at hj
  rw [h.height_sameCore, h.height_sameCore]
  exact hi i (by rw [← h.2.2.1]; exact hlt) j hj

theorem Map.SameCore.elevOK {m m' : Map} (h : m.SameCore m') (hwf : m.WF) {i : Nat}
    (hlt : i < m.mapNodes.length) (hi : m.elevOK i) : m'.elevOK i := by
  unfold Map.elevOK at hi ⊢
  rw [(h.2.2.2 i).2, hwf.getElevated_eq h.sameGrid_sameCore hlt (h.height_sameCore i) fun j _ => h.height_sameCore j]
  exact hi

theorem Map.SameCore.i2Idx {m m' : Map} (h : m.SameCore m') (hwf : m.WF) (hi : m.I2Idx) :
    m'.I2Idx := by
  intro i hlt
  rw [h.2.2.1] at hlt
  exact h.elevOK hwf hlt (hi i hlt)

/-! ## `updateNodeNeighbors` -/

theorem Map.updateNodeNeighbors_mono (env : Env) (m : Map) (seeds : List Nat) (fuel fuel' : Nat)
    (hle : fuel ≤ fuel') (m' : Map) (h : m.updateNodeNeighbors env fuel seeds = some m') :
    m.updateNodeNeighbors env fuel' seeds = some m' := by
  unfold Map.updateNodeNeighbors Map.updateNodeNeighborsState at h ⊢
  rw [Option.map_eq_some'] at h ⊢
  obtain ⟨s, hs, hf⟩ := h
  exact ⟨s, propagateAll_mono env fuel fuel' hle _ _ _ hs, hf⟩

/-- `updateNodeNeighbors` terminates on every well-formed grid with heights in range, for
every list of seed nodes; it keeps the grid well-formed and the heights in range. -/
theorem Map.updateNodeNeighbors_terminates (env : Env) (m : Map) (seeds : List Nat)
    (hwf : m.WF) (hr : m.HeightsInRange env) (hseeds : ∀ x ∈ seeds, x < m.mapNodes.length) :
    ∃ fuel, ∀ fuel', fuel ≤ fuel' → ∃ m', m.updateNodeNeighbors env fuel' seeds = some m' ∧
      m'.WF ∧ m'.HeightsInRange env ∧ m.SameGrid m' := by
  obtain ⟨fuel, hf⟩ := propagateAll_terminates env seeds
    { map := m, nodesUpdatedHeight := [], nodesToElevate := [], nodesToBeUpdated := [],
      nodesToDemolish := [] }
    ⟨hwf, hr, fun _ h => absurd h (List.not_mem_nil _), fun _ h => absurd h (List.not_mem_nil _)⟩
    rfl hseeds
  refine ⟨fuel, fun fuel' hle => ?_⟩
  obtain ⟨s', hs', hv, -, hg⟩ := hf fuel' hle
  have hc := finishUpdate_sameCore env s'
  refine ⟨finishUpdate env s', ?_, hc.wf_sameCore hv.1, hc.heightsInRange hv.2.1, hg.trans_sameGrid hc.sameGrid_sameCore⟩
  unfold Map.updateNodeNeighbors Map.updateNodeNeighborsState
  rw [hs']; rfl

/-- If every height gap of the grid involves a seed node, and every stale elevation
bitmask belongs to a seed node, to a neighbour of a seed node or to a node excused by
`stale`, then `updateNodeNeighbors` ends with a grid that satisfies I1 and in which the
bitmask of every node not excused by `stale` is up to date. -/
theorem Map.updateNodeNeighbors_restores (env : Env) (stale : Nat → Prop) (m : Map)
    (seeds : List Nat)
    (hwf : m.WF) (hr : m.HeightsInRange env) (hseeds : ∀ x ∈ seeds, x < m.mapNodes.length)
    (hgap : m.GapInv seeds 0 []) (helev : m.ElevInv seeds [] stale) :
    ∃ fuel, ∀ fuel', fuel ≤ fuel' → ∃ m', m.updateNodeNeighbors env fuel' seeds = some m' ∧
      m'.WF ∧ m'.HeightsInRange env ∧ m.SameGrid m' ∧ m'.I1Idx ∧
      ∀ i, i < m'.mapNodes.length → m'.elevOK i ∨ stale i := by
  obtain ⟨fuel, hf⟩ := propagateAll_inv env stale seeds
    { map := m, nodesUpdatedHeight := [], nodesToElevate := [], nodesToBeUpdated := [],
      nodesToDemolish := [] }
    ⟨⟨hwf, hr, fun _ h => absurd h (List.not_mem_nil _), fun _ h => absurd h (List.not_mem_nil _)⟩,
      hgap, helev⟩
    rfl rfl hseeds
  refine ⟨fuel, fun fuel' hle => ?_⟩
  obtain ⟨s', hs', ⟨hv, hg1, he1⟩, hQ, hS, hg⟩ := hf fuel' hle
  have hc := finishUpdate_sameCore env s'
  rw [hQ] at hg1 he1
  rw [hS] at he1
  have hI1 : s'.map.I1Idx := by
    intro i hi j hj
    rcases hg1 i j hi ((hv.1.mem_neighbourIdx_iff j).1 hj) with h | h | h | ⟨-, h⟩ | ⟨-, h⟩
    · exact h
    all_goals simp at h
  have hI2 : ∀ i, i < s'.map.mapNodes.length → s'.map.elevOK i ∨ stale i := by
    intro i hi
    rcases he1 i hi with h | h | h | ⟨j, h, -⟩ | h
    · exact Or.inl h
    · simp at h
    · simp at h
    · simp at h
    · exact Or.inr h
  refine ⟨finishUpdate env s', ?_, hc.wf_sameCore hv.1, hc.heightsInRange hv.2.1, hg.trans_sameGrid hc.sameGrid_sameCore,
    hc.i1Idx hI1, fun i hi => ?_⟩
  · unfold Map.updateNodeNeighbors Map.updateNodeNeighborsState
    rw [hs']; rfl
  · rw [hc.2.2.1] at hi
    rcases hI2 i hi with h | h
    · exact Or.inl (hc.elevOK hv.1 hi h)
    · exact Or.inr h


/-! ## `changeHeight` -/

theorem Map.setNode_changeHeight_spec (H : Int) (m : Map) (i : Nat) (higher : Bool) :
    m.SameGrid (m.setNode i ((m.node i).changeHeight H higher).1) ∧
    (∀ j, ((m.setNode i ((m.node i).changeHeight H higher).1).node j).m_elevationBitmask =
      (m.node j).m_elevationBitmask) ∧
    (∀ j, j ≠ i → ((m.setNode i ((m.node i).changeHeight H higher).1).node j).height =
      (m.node j).height) ∧
    (i < m.mapNodes.length → ((m.setNode i ((m.node i).changeHeight H higher).1).node i).height =
      ((m.node i).changeHeight H higher).1.height) := by
  have hf := MapNode.changeHeight_fields H (m.node i) higher
  refine ⟨⟨rfl, rfl, Map.length_setNode _ _ _, fun j => ?_⟩, fun j => ?_, fun j hj => ?_,
    fun hi => ?_⟩
  all_goals rw [Map.node_setNode]
  · split
    · rename_i h; rw [h.1]; exact ⟨hf.1, hf.2.1⟩
    · exact ⟨rfl, rfl⟩
  · split
    · rename_i h; rw [h.1]; exact hf.2.2.2.2.1
    · rfl
  · rw [if_neg (fun h => hj h.1)]
  · rw [if_pos ⟨rfl, hi⟩]

theorem Map.HeightsInRange.setNode_changeHeight {env : Env} {m : Map} (h : m.HeightsInRange env)
    (i : Nat) (higher : Bool) :
    (m.setNode i ((m.node i).changeHeight env.maxHeight higher).1).HeightsInRange env := by
  obtain ⟨hg, -, hne, heq⟩ := Map.setNode_changeHeight_spec env.maxHeight m i higher
  intro j hj
  rw [hg.2.2.1] at hj
  by_cases hji : j = i
  · subst hji
    rw [heq hj, MapNode.changeHeight_height]
    have := h j hj
    cases higher <;> simp <;> split <;> omega
  · rw [hne j hji]; exact h j hj

theorem Map.WF.gapInv_of_i1Idx {m : Map} (hwf : m.WF) (h : m.I1Idx) : m.GapInv [] 0 [] := by
  intro i j hi hadj
  exact Or.inl (h i hi j ((hwf.mem_neighbourIdx_iff j).2 hadj))

theorem Map.ElevInv.congr_elevInv {m m' : Map} {W S : List Nat} {T : Nat → Prop}
    (h : m.ElevInv W S T) (hwf : m.WF) (hc : m.SameCore m') : m'.ElevInv W S T := by
  intro i hi
  rw [hc.2.2.1] at hi
  rcases h i hi with h1 | h1 | h1 | ⟨j, h1, h2⟩ | h1
  · exact Or.inl (hc.elevOK hwf hi h1)
  · exact Or.inr (Or.inl h1)
  · exact Or.inr (Or.inr (Or.inl h1))
  · exact Or.inr (Or.inr (Or.inr (Or.inl ⟨j, h1, (hc.sameGrid_sameCore.adj i j).2 h2⟩)))
  · exact Or.inr (Or.inr (Or.inr (Or.inr h1)))

/-- State of the lowering loop of `changeHeight`: the map and the seed list. -/
theorem lowerFold_inv (env : Env) (stale : Nat → Prop) (centerHeight : Int) (m0 : Map) :
    ∀ (coords : List Point) (acc : Map × List Nat),
      (∀ q ∈ coords, q.isWithinMapBoundaries m0 = true) →
      m0.SameGrid acc.1 → acc.1.WF → acc.1.HeightsInRange env →
      (∀ x ∈ acc.2, x < m0.mapNodes.length) →
      acc.1.GapInv acc.2 0 [] → acc.1.ElevInv acc.2 [] stale →
      let r := coords.foldl
        (fun (acc : Map × List Nat) neighbourCoord =>
          let neighborNode := acc.1.nodePtr neighbourCoord.x neighbourCoord.y
          if centerHeight < (acc.1.node neighborNode).height then
            (acc.1.setNode neighborNode
                ((acc.1.node neighborNode).changeHeight env.maxHeight false).1,
              acc.2 ++ [neighborNode])
          else acc) acc
      m0.SameGrid r.1 ∧ r.1.WF ∧ r.1.HeightsInRange env ∧
        (∀ x ∈ r.2, x < m0.mapNodes.length) ∧
        r.1.GapInv r.2 0 [] ∧ r.1.ElevInv r.2 [] stale := by
  intro coords
  induction coords with
  | nil => intro acc _ hg hwf hr hs hgap helev; exact ⟨hg, hwf, hr, hs, hgap, helev⟩
  | cons q rest ih =>
    intro acc hin hg hwf hr hs hgap helev
    simp only [List.foldl_cons]
    have hq : q.isWithinMapBoundaries acc.1 = true := by
      rw [isWithinMapBoundaries_congr hg.1 hg.2.1 rfl rfl]
      exact hin q (List.mem_cons_self _ _)
    have hlt := hwf.nodePtr_lt hq
    obtain ⟨hg', hst, hne, -⟩ :=
      Map.setNode_changeHeight_spec env.maxHeight acc.1 (acc.1.nodePtr q.x q.y) false
    apply ih _ (fun x hx => hin x (List.mem_cons_of_mem _ hx))
    all_goals split
    all_goals first
      | assumption
      | skip
    · exact hg.trans_sameGrid hg'
    · exact hg'.wf_sameGrid hwf
    · exact hr.setNode_changeHeight _ _
    · intro x hx
      rw [List.mem_append, List.mem_singleton] at hx
      rcases hx with hx | rfl
      · exact hs x hx
      · rw [← hg.2.2.1]; exact hlt
    · exact hgap.move_gapInv hg' hne (fun i hi => List.mem_append_left _ hi) (by simp)
        (fun i hi => Or.inr hi)
    · exact helev.move_elevInv hwf hg' hlt hst hne (fun i hi => List.mem_append_left _ hi) (by simp)
        (fun i hi => hi) (fun i hi => Or.inr hi)

/-- `changeHeight` on a grid that satisfies I1 ends with a grid that satisfies I1, and it
brings every stored elevation bitmask up to date, except for nodes whose bitmask was
already stale and excused by `stale`. -/
theorem Map.changeHeight_restores (env : Env) (stale : Nat → Prop) (m : Map) (p : Point)
    (higher : Bool) (hwf : m.WF) (hr : m.HeightsInRange env)
    (hp : p.isWithinMapBoundaries m = true) (h1 : m.I1Idx)
    (h2 : ∀ i, i < m.mapNodes.length → m.elevOK i ∨ stale i) :
    ∃ fuel, ∀ fuel', fuel ≤ fuel' → ∃ m', m.changeHeight env fuel' p higher = some m' ∧
      m'.WF ∧ m'.HeightsInRange env ∧ m.SameGrid m' ∧ m'.I1Idx ∧
      ∀ i, i < m'.mapNodes.length → m'.elevOK i ∨ stale i := by
  unfold Map.changeHeight
  dsimp only
  split
  · -- the height of the node changed
    have hc := hwf.nodePtr_lt hp
    obtain ⟨hg, hst, -, hne, -, -⟩ := Map.updateHeight_spec env m (m.nodePtr p.x p.y) higher
      (m.getNeighborNodes p true)
    have hwf1 := hg.wf_sameGrid hwf
    have hr1 := hr.updateHeight_heightsInRange (m.nodePtr p.x p.y) higher (m.getNeighborNodes p true)
    have hgap1 : (m.updateHeight env (m.nodePtr p.x p.y) higher
        (m.getNeighborNodes p true)).1.GapInv [m.nodePtr p.x p.y] 0 [] :=
      (hwf.gapInv_of_i1Idx h1).move_gapInv hg hne (fun i hi => absurd hi (List.not_mem_nil _))
        (List.mem_singleton_self _) (fun i hi => Or.inr hi)
    have helev0 : m.ElevInv [] [] stale := fun i hi => by
      rcases h2 i hi with h | h
      · exact Or.inl h
      · exact Or.inr (Or.inr (Or.inr (Or.inr h)))
    have helev1 : (m.updateHeight env (m.nodePtr p.x p.y) higher
        (m.getNeighborNodes p true)).1.ElevInv [m.nodePtr p.x p.y] [] stale :=
      helev0.move_elevInv hwf hg hc hst hne (fun i hi => absurd hi (List.not_mem_nil _))
        (List.mem_singleton_self _) (fun i hi => hi) (fun i hi => Or.inr hi)
    have hseed1 : ∀ x ∈ [m.nodePtr p.x p.y], x < (m.updateHeight env (m.nodePtr p.x p.y) higher
        (m.getNeighborNodes p true)).1.mapNodes.length := by
      intro x hx
      rw [List.mem_singleton] at hx
      rw [hx, hg.2.2.1]; exact hc
    -- the state handed to `updateNodeNeighbors`
    have hL : ∀ L : Map × List Nat,
        (m.updateHeight env (m.nodePtr p.x p.y) higher (m.getNeighborNodes p true)).1.SameGrid L.1 →
        L.1.WF → L.1.HeightsInRange env →
        (∀ x ∈ L.2, x < (m.updateHeight env (m.nodePtr p.x p.y) higher
          (m.getNeighborNodes p true)).1.mapNodes.length) →
        L.1.GapInv L.2 0 [] → L.1.ElevInv L.2 [] stale →
        ∃ fuel, ∀ fuel', fuel ≤ fuel' →
          ∃ m', (L.1.demolishNodeNoUpdate env (PointFunctions.getNeighbors m p true)
              Layer.NONE).updateNodeNeighbors env fuel' L.2 = some m' ∧
            m'.WF ∧ m'.HeightsInRange env ∧ m.SameGrid m' ∧ m'.I1Idx ∧
            ∀ i, i < m'.mapNodes.length → m'.elevOK i ∨ stale i := by
      intro L hgL hwfL hrL hsL hgapL helevL
      have hd := (Map.demolishNodeNoUpdate_sameButData env L.1
        (PointFunctions.getNeighbors m p true) Layer.NONE).sameCore
      obtain ⟨fuel, hf⟩ := Map.updateNodeNeighbors_restores env stale _ L.2 (hd.wf_sameCore hwfL)
        (hd.heightsInRange hrL)
        (fun x hx => by rw [hd.2.2.1, hgL.2.2.1]; exact hsL x hx)
        (hgapL.congr_gapInv hd.sameGrid_sameCore hd.height_sameCore) (helevL.congr_elevInv hwfL hd)
      refine ⟨fuel, fun fuel' hle => ?_⟩
      obtain ⟨m', hm', hw', hr', hg', hi1, hi2⟩ := hf fuel' hle
      exact ⟨m', hm', hw', hr', ((hg.trans_sameGrid hgL).trans_sameGrid hd.sameGrid_sameCore).trans_sameGrid hg', hi1, hi2⟩
    cases higher
    · -- lowering: the higher neighbours are lowered as well
      simp only [Bool.not_false, if_true]
      obtain ⟨a1, a2, a3, a4, a5, a6⟩ := lowerFold_inv env stale
        ((m.updateHeight env (m.nodePtr p.x p.y) false (m.getNeighborNodes p true)).1.getMapNode
          p).height
        (m.updateHeight env (m.nodePtr p.x p.y) false (m.getNeighborNodes p true)).1
        (PointFunctions.getNeighbors m p true)
        ((m.updateHeight env (m.nodePtr p.x p.y) false (m.getNeighborNodes p true)).1,
          [m.nodePtr p.x p.y])
        (fun q hq => by
          rw [isWithinMapBoundaries_congr hg.1 hg.2.1 rfl rfl]
          exact ((mem_getNeighbors m p q true).1 hq).2.2.1)
        (Map.SameGrid.refl_sameGrid _) hwf1 hr1 hseed1 hgap1 helev1
      exact hL _ a1 a2 a3 a4 a5 a6
    · -- raising: the node is the only seed
      simp only [Bool.not_true, if_false, Bool.false_eq_true]
      exact hL (_, [m.nodePtr p.x p.y]) (Map.SameGrid.refl_sameGrid _) hwf1 hr1 hseed1 hgap1 helev1
  · exact ⟨0, fun _ _ => ⟨m, rfl, hwf, hr, Map.SameGrid.refl_sameGrid m, h1, h2⟩⟩


/-! ## Bits of the elevation bitmask -/

/-- Bit index of a direction. -/
theorem NeighbourNodesPosition.toNat_eq_two_pow (d : NeighbourNodesPosition) (hd : d ≠ .CENTER) :
    ∃ k, k < 8 ∧ d.toNat = 2 ^ k := by
  cases d
  · exact ⟨6, by decide, rfl⟩
  · exact ⟨2, by decide, rfl⟩
  · exact ⟨4, by decide, rfl⟩
  · exact ⟨1, by decide, rfl⟩
  · exact absurd rfl hd
  · exact ⟨0, by decide, rfl⟩
  · exact ⟨7, by decide, rfl⟩
  · exact ⟨3, by decide, rfl⟩
  · exact ⟨5, by decide, rfl⟩

theorem and_two_pow_eq_iff (a k : Nat) : a &&& 2 ^ k = 2 ^ k ↔ a.testBit k = true := by
  constructor
  · intro h
    have := congrArg (fun x => x.testBit k) h
    simp only [Nat.testBit_and, Nat.testBit_two_pow_self, Bool.and_true] at this
    exact this
  · intro h
    apply Nat.eq_of_testBit_eq
    intro i
    rw [Nat.testBit_and, Nat.testBit_two_pow]
    by_cases hki : k = i
    · subst hki; simp [h]
    · simp [hki]

theorem NeighbourNodesPosition.toNat_injective {a b : NeighbourNodesPosition}
    (h : a.toNat = b.toNat) : a = b := by
  cases a <;> cases b <;> first | rfl | exact absurd h (by decide)

theorem NeighbourNodesPosition.toNat_and_eq_iff (p d : NeighbourNodesPosition) :
    d ≠ .CENTER → (p.toNat &&& d.toNat = d.toNat ↔ p = d) := by
  cases p <;> cases d <;> decide

theorem hasBit_or (a : Nat) (p d : NeighbourNodesPosition) (hd : d ≠ .CENTER) :
    hasBit (a ||| p.toNat) d ↔ hasBit a d ∨ p = d := by
  obtain ⟨k, -, hk⟩ := d.toNat_eq_two_pow hd
  unfold hasBit
  rw [hk, and_two_pow_eq_iff, and_two_pow_eq_iff, Nat.testBit_or, Bool.or_eq_true]
  apply or_congr Iff.rfl
  rw [← and_two_pow_eq_iff, ← hk]
  exact p.toNat_and_eq_iff d hd

theorem hasBit_zero (d : NeighbourNodesPosition) (hd : d ≠ .CENTER) : ¬ hasBit 0 d := by
  unfold hasBit
  rw [Nat.zero_and]
  intro h
  exact absurd h (by cases d <;> first | exact absurd rfl hd | decide)

theorem NeighbourNodesPosition.toNat_lt (d : NeighbourNodesPosition) : d.toNat < 2 ^ 8 := by
  cases d <;> decide

/-- Bits of the elevation fold. -/
theorem elevatedFold_hasBit (m : Map) (c : Point) (h0 : Int) (d : NeighbourNodesPosition)
    (hd : d ≠ .CENTER) (l : List Point) (init : Nat) :
    hasBit (l.foldl
      (fun bitmask neighborCoordinates =>
        if (m.getMapNode neighborCoordinates).height > h0 then
          bitmask ||| (PointFunctions.getNeighborPositionToOrigin neighborCoordinates c).toNat
        else bitmask) init) d ↔
      hasBit init d ∨ ∃ q ∈ l, (m.getMapNode q).height > h0 ∧
        PointFunctions.getNeighborPositionToOrigin q c = d := by
  induction l generalizing init with
  | nil => simp
  | cons q rest ih =>
    rw [List.foldl_cons, ih]
    by_cases hq : (m.getMapNode q).height > h0
    · rw [if_pos hq, hasBit_or _ _ _ hd]
      constructor
      · rintro ((h | h) | ⟨q', hq', h⟩)
        · exact Or.inl h
        · exact Or.inr ⟨q, List.mem_cons_self _ _, hq, h⟩
        · exact Or.inr ⟨q', List.mem_cons_of_mem _ hq', h⟩
      · rintro (h | ⟨q', hq', h⟩)
        · exact Or.inl (Or.inl h)
        · rw [List.mem_cons] at hq'
          rcases hq' with rfl | hq'
          · exact Or.inl (Or.inr h.2)
          · exact Or.inr ⟨q', hq', h⟩
    · rw [if_neg hq]
      constructor
      · rintro (h | ⟨q', hq', h⟩)
        · exact Or.inl h
        · exact Or.inr ⟨q', List.mem_cons_of_mem _ hq', h⟩
      · rintro (h | ⟨q', hq', h⟩)
        · exact Or.inl h
        · rw [List.mem_cons] at hq'
          rcases hq' with rfl | hq'
          · exact absurd h.1 hq
          · exact Or.inr ⟨q', hq', h⟩

theorem elevatedFold_lt (m : Map) (c : Point) (h0 : Int) (l : List Point) (init : Nat)
    (hinit : init < 2 ^ 8) :
    l.foldl
      (fun bitmask neighborCoordinates =>
        if (m.getMapNode neighborCoordinates).height > h0 then
          bitmask ||| (PointFunctions.getNeighborPositionToOrigin neighborCoordinates c).toNat
        else bitmask) init < 2 ^ 8 := by
  induction l generalizing init with
  | nil => exact hinit
  | cons q rest ih =>
    rw [List.foldl_cons]
    apply ih
    split
    · exact Nat.or_lt_two_pow hinit (NeighbourNodesPosition.toNat_lt _)
    · exact hinit

theorem getNeighborPositionToOrigin_eq_iff (q c : Point) (d : NeighbourNodesPosition)
    (hd : d ≠ .CENTER) :
    PointFunctions.getNeighborPositionToOrigin q c = d ↔
      q.x = c.x + d.offset.1 ∧ q.y = c.y + d.offset.2 := by
  unfold PointFunctions.getNeighborPositionToOrigin
  dsimp only
  constructor
  · intro h
    split at h
    · split at h
      · subst h; exact ⟨by simp [NeighbourNodesPosition.offset]; omega, by simp [NeighbourNodesPosition.offset]; omega⟩
      · split at h
        · subst h; exact ⟨by simp [NeighbourNodesPosition.offset]; omega, by simp [NeighbourNodesPosition.offset]; omega⟩
        · exact absurd h.symm hd
    · split at h
      · split at h
        · subst h; exact ⟨by simp [NeighbourNodesPosition.offset]; omega, by simp [NeighbourNodesPosition.offset]; omega⟩
        · split at h
          · subst h; exact ⟨by simp [NeighbourNodesPosition.offset]; omega, by simp [NeighbourNodesPosition.offset]; omega⟩
          · split at h
            · subst h; exact ⟨by simp [NeighbourNodesPosition.offset]; omega, by simp [NeighbourNodesPosition.offset]; omega⟩
            · exact absurd h.symm hd
      · split at h
        · split at h
          · subst h; exact ⟨by simp [NeighbourNodesPosition.offset]; omega, by simp [NeighbourNodesPosition.offset]; omega⟩
          · split at h
            · subst h; exact ⟨by simp [NeighbourNodesPosition.offset]; omega, by simp [NeighbourNodesPosition.offset]; omega⟩
            · split at h
              · subst h; exact ⟨by simp [NeighbourNodesPosition.offset]; omega, by simp [NeighbourNodesPosition.offset]; omega⟩
              · exact absurd h.symm hd
        · exact absurd h.symm hd
  · rintro ⟨hx, hy⟩
    have hx' : q.x - c.x = d.offset.1 := by omega
    have hy' : q.y - c.y = d.offset.2 := by omega
    rw [hx', hy']
    cases d <;> first | exact absurd rfl hd | simp [NeighbourNodesPosition.offset]

/-- The computed elevation bitmask has the bit of a direction exactly when the neighbour
in that direction exists and is strictly higher, and it has no bit beyond the eight
direction bits. -/
theorem Map.getElevatedNeighborBitmask_spec (m : Map) (c : Point) :
    (∀ d : NeighbourNodesPosition, d ≠ .CENTER →
      (hasBit (m.getElevatedNeighborBitmask c) d ↔ m.tallerNeighbour c d)) ∧
    m.getElevatedNeighborBitmask c < 2 ^ 8 := by
  refine ⟨fun d hd => ?_, ?_⟩
  · unfold Map.getElevatedNeighborBitmask
    dsimp only
    rw [elevatedFold_hasBit m c _ d hd]
    unfold Map.tallerNeighbour
    constructor
    · rintro (h | ⟨q, hq, hh, hpos⟩)
      · exact absurd h (hasBit_zero d hd)
      · rw [getNeighborPositionToOrigin_eq_iff q c d hd] at hpos
        rw [mem_getNeighbors] at hq
        obtain ⟨hz, hhe, hin, -, -, -⟩ := hq
        have : c.shift d = q := by
          cases q
          simp only [Point.shift, Point.mk.injEq]
          simp only at hz hhe hpos
          exact ⟨hpos.1.symm, hpos.2.symm, hz.symm, hhe.symm⟩
        rw [this]
        exact ⟨hin, hh⟩
    · rintro ⟨hin, hh⟩
      refine Or.inr ⟨c.shift d, ?_, hh, ?_⟩
      · rw [mem_getNeighbors]
        refine ⟨rfl, rfl, hin, ?_, ?_, Or.inr ?_⟩
        · cases d <;> simp [Point.shift, NeighbourNodesPosition.offset]
        · cases d <;> simp [Point.shift, NeighbourNodesPosition.offset]
        · cases d <;> first | exact absurd rfl hd | simp [Point.shift, NeighbourNodesPosition.offset]
      · rw [getNeighborPositionToOrigin_eq_iff _ c d hd]
        exact ⟨rfl, rfl⟩
  · unfold Map.getElevatedNeighborBitmask
    exact elevatedFold_lt m c _ _ 0 (by decide)


/-! ## Position form and index form of the invariants -/

theorem Map.getMapNode_congr (m : Map) {p q : Point} (hx : p.x = q.x) (hy : p.y = q.y) :
    m.getMapNode p = m.getMapNode q := by
  unfold Map.getMapNode; rw [hx, hy]

theorem Map.tallerNeighbour_congr (m : Map) {p q : Point} (hx : p.x = q.x) (hy : p.y = q.y)
    (d : NeighbourNodesPosition) : m.tallerNeighbour p d ↔ m.tallerNeighbour q d := by
  unfold Map.tallerNeighbour
  have : p.shift d = q.shift d := by unfold Point.shift; rw [hx, hy]
  rw [this, m.getMapNode_congr hx hy]

theorem Map.WF.i1_iff {m : Map} (hwf : m.WF) : m.I1 ↔ m.I1Idx := by
  constructor
  · intro h i hi j hj
    have hadj := (hwf.mem_neighbourIdx_iff j).1 hj
    have := h (m.node i).m_isoCoordinates (m.node j).m_isoCoordinates (hwf.coords_within hi)
      (hwf.coords_within hadj.1) (abs_le.2 ⟨by have := hadj.2.1; omega, by have := hadj.2.1; omega⟩)
      (abs_le.2 ⟨by have := hadj.2.2.1; omega, by have := hadj.2.2.1; omega⟩)
    rw [hwf.getMapNode_coords hi, hwf.getMapNode_coords hadj.1] at this
    have := abs_le.1 this
    omega
  · intro h p q hp hq hx hy
    have hx' := abs_le.1 hx
    have hy' := abs_le.1 hy
    by_cases hsame : p.x = q.x ∧ p.y = q.y
    · rw [m.getMapNode_congr hsame.1 hsame.2]; simp
    · have hpi := hwf.nodePtr_lt hp
      have hqi := hwf.nodePtr_lt hq
      have hpxy := hwf.getMapNode_xy hp
      have hqxy := hwf.getMapNode_xy hq
      unfold Map.getMapNode at hpxy hqxy ⊢
      have hadj : m.Adj (m.nodePtr p.x p.y) (m.nodePtr q.x q.y) := by
        refine ⟨hqi, ?_, ?_, ?_⟩
        · rw [hpxy.1, hqxy.1]; omega
        · rw [hpxy.2, hqxy.2]; omega
        · rw [hpxy.1, hqxy.1, hpxy.2, hqxy.2]
          by_contra hcon
          push_neg at hcon
          exact hsame ⟨hcon.1.symm, hcon.2.symm⟩
      have := h _ hpi _ ((hwf.mem_neighbourIdx_iff _).2 hadj)
      exact abs_le.2 ⟨by omega, by omega⟩

theorem Map.WF.i2_iff {m : Map} (hwf : m.WF) : m.I2 ↔ m.I2Idx := by
  constructor
  · intro h i hi d hd
    have := h (m.node i).m_isoCoordinates (hwf.coords_within hi) d hd
    rw [hwf.getMapNode_coords hi] at this
    rw [this, (m.getElevatedNeighborBitmask_spec _).1 d hd]
  · intro h p hp d hd
    have hpi := hwf.nodePtr_lt hp
    have hpxy := hwf.getMapNode_xy hp
    have := h _ hpi d hd
    unfold Map.getMapNode at hpxy ⊢
    rw [this, (m.getElevatedNeighborBitmask_spec _).1 d hd]
    exact m.tallerNeighbour_congr hpxy.1 hpxy.2 d

/-! ## Height edits keep I1 and restore I2 -/

theorem Map.changeHeight_i1 (env : Env) (m : Map) (p : Point) (higher : Bool) (hwf : m.WF)
    (hr : m.HeightsInRange env) (hp : p.isWithinMapBoundaries m = true) (h1 : m.I1) :
    ∃ fuel, ∀ fuel', fuel ≤ fuel' → ∃ m', m.changeHeight env fuel' p higher = some m' ∧ m'.I1 := by
  obtain ⟨fuel, hf⟩ := Map.changeHeight_restores env (fun _ => True) m p higher hwf hr hp
    (hwf.i1_iff.1 h1) (fun _ _ => Or.inr trivial)
  refine ⟨fuel, fun fuel' hle => ?_⟩
  obtain ⟨m', hm', hwf', -, -, hi1, -⟩ := hf fuel' hle
  exact ⟨m', hm', hwf'.i1_iff.2 hi1⟩

theorem Map.changeHeight_i2 (env : Env) (m : Map) (p : Point) (higher : Bool) (hwf : m.WF)
    (hr : m.HeightsInRange env) (hp : p.isWithinMapBoundaries m = true) (h1 : m.I1)
    (h2 : m.I2) :
    ∃ fuel, ∀ fuel', fuel ≤ fuel' → ∃ m', m.changeHeight env fuel' p higher = some m' ∧
      m'.I1 ∧ m'.I2 := by
  obtain ⟨fuel, hf⟩ := Map.changeHeight_restores env (fun _ => False) m p higher hwf hr hp
    (hwf.i1_iff.1 h1) (fun i hi => Or.inl (hwf.i2_iff.1 h2 i hi))
  refine ⟨fuel, fun fuel' hle => ?_⟩
  obtain ⟨m', hm', hwf', -, -, hi1, hi2⟩ := hf fuel' hle
  refine ⟨m', hm', hwf'.i1_iff.2 hi1, hwf'.i2_iff.2 fun i hi => ?_⟩
  rcases hi2 i hi with h | h
  · exact h
  · exact absurd h id


/-! ## The auto-tile bitmask -/

theorem hasBit_center (a : Nat) : hasBit a .CENTER := by
  unfold hasBit
  show a &&& 0 = 0
  exact Nat.and_zero a

/-- Bits of a loop that ORs the direction of every neighbour passing a test. -/
theorem orFold_hasBit (c : NeighborNode → Bool) (d : NeighbourNodesPosition) (hd : d ≠ .CENTER)
    (l : List NeighborNode) (init : Nat) :
    hasBit (l.foldl (fun b nb => if c nb then b ||| nb.position.toNat else b) init) d ↔
      hasBit init d ∨ ∃ nb ∈ l, c nb = true ∧ nb.position = d := by
  induction l generalizing init with
  | nil => simp
  | cons q rest ih =>
    rw [List.foldl_cons, ih]
    by_cases hq : c q = true
    · rw [if_pos hq, hasBit_or _ _ _ hd]
      constructor
      · rintro ((h | h) | ⟨q', hq', h⟩)
        · exact Or.inl h
        · exact Or.inr ⟨q, List.mem_cons_self _ _, hq, h⟩
        · exact Or.inr ⟨q', List.mem_cons_of_mem _ hq', h⟩
      · rintro (h | ⟨q', hq', h⟩)
        · exact Or.inl (Or.inl h)
        · rw [List.mem_cons] at hq'
          rcases hq' with rfl | hq'
          · exact Or.inl (Or.inr h.2)
          · exact Or.inr ⟨q', hq', h⟩
    · rw [if_neg hq]
      constructor
      · rintro (h | ⟨q', hq', h⟩)
        · exact Or.inl h
        · exact Or.inr ⟨q', List.mem_cons_of_mem _ hq', h⟩
      · rintro (h | ⟨q', hq', h⟩)
        · exact Or.inl h
        · rw [List.mem_cons] at hq'
          rcases hq' with rfl | hq'
          · exact absurd h.1 hq
          · exact Or.inr ⟨q', hq', h⟩

theorem Map.waterNeighbourBits_hasBit (m : Map) (nbs : List NeighborNode) (init : Nat)
    (d : NeighbourNodesPosition) (hd : d ≠ .CENTER) :
    hasBit (m.waterNeighbourBits nbs init) d ↔
      hasBit init d ∨ ∃ nb ∈ nbs, m.holdsWater nb.pNode = true ∧ nb.position = d :=
  orFold_hasBit (fun nb => m.holdsWater nb.pNode) d hd nbs init

theorem Map.stitchNeighbourBits_hasBit (m : Map) (L : Layer) (tileID : String) (td : TileData)
    (nbs : List NeighborNode) (init : Nat) (d : NeighbourNodesPosition) (hd : d ≠ .CENTER) :
    hasBit (m.stitchNeighbourBits L tileID td nbs init) d ↔
      hasBit init d ∨ ∃ nb ∈ nbs, m.stitches L tileID td nb.pNode = true ∧ nb.position = d :=
  orFold_hasBit (fun nb => m.stitches L tileID td nb.pNode) d hd nbs init

/-- One pass of the layer loop only changes the entry of its layer. -/
theorem calcFold_other (env : Env) (m : Map) (N : Nat) (nbs : List NeighborNode) (L : Layer)
    (layers : List Layer) (hL : L ∉ layers) (init : Layer → Nat) :
    layers.foldl
      (fun t c => fun l =>
        if l = c then m.layerAutotileBitmask env N nbs c (t c) else t l) init L = init L := by
  induction layers generalizing init with
  | nil => rfl
  | cons c rest ih =>
    rw [List.foldl_cons, ih (fun h => hL (List.mem_cons_of_mem _ h))]
    have : L ≠ c := fun h => hL (h ▸ List.mem_cons_self _ _)
    simp [this]

/-- Induction over the layer loop for one entry: a property of the entry that holds
initially and is kept by the body of the loop holds at the end; if the layer is visited
and the body establishes a second property that later passes keep, that one holds too. -/
theorem calcFold_entry (env : Env) (m : Map) (N : Nat) (nbs : List NeighborNode) (L : Layer)
    (P : Nat → Prop)
    (hstep : ∀ b, P b → P (m.layerAutotileBitmask env N nbs L b))
    (layers : List Layer) (init : Layer → Nat) (h0 : P (init L)) :
    P (layers.foldl
      (fun t c => fun l =>
        if l = c then m.layerAutotileBitmask env N nbs c (t c) else t l) init L) := by
  induction layers generalizing init with
  | nil => exact h0
  | cons c rest ih =>
    rw [List.foldl_cons]
    apply ih
    by_cases h : L = c
    · subst h; simp only [if_true]; exact hstep _ h0
    · simp only [if_neg h]; exact h0

theorem calcFold_visited (env : Env) (m : Map) (N : Nat) (nbs : List NeighborNode) (L : Layer)
    (Q : Nat → Prop)
    (hest : ∀ b, Q (m.layerAutotileBitmask env N nbs L b))
    (layers : List Layer) (hL : L ∈ layers) (init : Layer → Nat) :
    Q (layers.foldl
      (fun t c => fun l =>
        if l = c then m.layerAutotileBitmask env N nbs c (t c) else t l) init L) := by
  induction layers generalizing init with
  | nil => exact absurd hL (List.not_mem_nil _)
  | cons c rest ih =>
    rw [List.foldl_cons]
    by_cases hr : L ∈ rest
    · exact ih hr _
    · rw [calcFold_other env m N nbs L rest hr]
      have : L = c := by
        rcases List.mem_cons.1 hL with h | h
        · exact h
        · exact absurd h hr
      subst this
      simp only [if_true]
      exact hest _

/-- An entry of a layer on which the node has no tile is zero. -/
theorem Map.calculateAutotileBitmask_noTile (env : Env) (m : Map) (N : Nat)
    (nbs : List NeighborNode) (L : Layer)
    (h : ((m.node N).m_mapNodeData L).tileData = none) :
    m.calculateAutotileBitmask env N nbs L = 0 := by
  unfold Map.calculateAutotileBitmask
  apply calcFold_entry env m N nbs L (fun b => b = 0)
  · intro b hb
    unfold Map.layerAutotileBitmask
    rw [h]; exact hb
  · rfl

/-- Stitching rule: on a visited layer whose tile takes part in auto-tiling, the bit of a
neighbour is set when the neighbour holds a tile on that layer and either holds the same
identifier or the tile of the node is a road. -/
theorem Map.calculateAutotileBitmask_stitch (env : Env) (m : Map) (N : Nat)
    (nbs : List NeighborNode) (L : Layer) (hL : L ∈ env.allLayersOrdered) (td : TileData)
    (htd : ((m.node N).m_mapNodeData L).tileData = some td)
    (hauto : env.tileManager.isTileIDAutoTile ((m.node N).m_mapNodeData L).tileID = true)
    (nb : NeighborNode) (hnb : nb ∈ nbs)
    (hM : ((m.node nb.pNode).m_mapNodeData L).tileData.isSome = true)
    (hrule : ((m.node nb.pNode).m_mapNodeData L).tileID = ((m.node N).m_mapNodeData L).tileID ∨
      td.tileType = TileType.ROAD) :
    hasBit (m.calculateAutotileBitmask env N nbs L) nb.position := by
  by_cases hd : nb.position = .CENTER
  · rw [hd]; exact hasBit_center _
  unfold Map.calculateAutotileBitmask
  apply calcFold_visited env m N nbs L (fun b => hasBit b nb.position) _ _ hL
  intro b
  unfold Map.layerAutotileBitmask
  rw [htd]
  simp only [hauto, if_true]
  rw [Map.stitchNeighbourBits_hasBit _ _ _ _ _ _ _ hd]
  refine Or.inr ⟨nb, hnb, ?_, rfl⟩
  unfold Map.stitches
  rw [hM, Bool.true_and, Bool.or_eq_true]
  rcases hrule with h | h
  · exact Or.inl (by simp [h])
  · exact Or.inr (by simp [h])

/-- The water test of line 330 on the raw node data: the WATER layer of the node has a
tile descriptor and the descriptor is of kind WATER. -/
theorem Map.holdsWater_iff (m : Map) (pNode : Nat) :
    m.holdsWater pNode = true ↔
      ∃ wd : TileData, ((m.node pNode).m_mapNodeData Layer.WATER).tileData = some wd ∧
        wd.tileType = TileType.WATER := by
  unfold Map.holdsWater
  cases h : ((m.node pNode).m_mapNodeData Layer.WATER).tileData with
  | none => simp
  | some pTileData => simp

/-- Shoreline rule: on a visited layer whose tile is of kind TERRAIN and takes no part in
auto-tiling, the bit of a direction is set exactly when a neighbour in that direction
holds a WATER tile on its WATER layer. -/
theorem Map.calculateAutotileBitmask_shore (env : Env) (m : Map) (N : Nat)
    (nbs : List NeighborNode) (L : Layer) (hL : L ∈ env.allLayersOrdered) (td : TileData)
    (htd : ((m.node N).m_mapNodeData L).tileData = some td)
    (hter : td.tileType = TileType.TERRAIN)
    (hauto : env.tileManager.isTileIDAutoTile ((m.node N).m_mapNodeData L).tileID = false)
    (d : NeighbourNodesPosition) (hd : d ≠ .CENTER) :
    hasBit (m.calculateAutotileBitmask env N nbs L) d ↔
      ∃ nb ∈ nbs, nb.position = d ∧ m.holdsWater nb.pNode = true := by
  have hstep : ∀ b, m.layerAutotileBitmask env N nbs L b = m.waterNeighbourBits nbs b := by
    intro b
    unfold Map.layerAutotileBitmask
    rw [htd]
    simp only [hauto, hter, if_true, Bool.false_eq_true, if_false]
  constructor
  · intro h
    have := calcFold_entry env m N nbs L
      (fun b => hasBit b d → ∃ nb ∈ nbs, nb.position = d ∧ m.holdsWater nb.pNode = true)
      (fun b hb hbit => by
        rw [hstep, Map.waterNeighbourBits_hasBit _ _ _ _ hd] at hbit
        rcases hbit with h1 | ⟨nb, h1, h2, h3⟩
        · exact hb h1
        · exact ⟨nb, h1, h3, h2⟩)
      env.allLayersOrdered (fun _ => 0) (fun h0 => absurd h0 (hasBit_zero d hd))
    exact this h
  · rintro ⟨nb, h1, h2, h3⟩
    unfold Map.calculateAutotileBitmask
    apply calcFold_visited env m N nbs L (fun b => hasBit b d) _ _ hL
    intro b
    rw [hstep, Map.waterNeighbourBits_hasBit _ _ _ _ hd]
    exact Or.inr ⟨nb, h1, h3, h2⟩


/-! ## Rejected placements -/

/-- A placement whose tile does not resolve, whose footprint leaves the grid or one of
whose target cells refuses the tile changes nothing. -/
theorem Map.setTileID_rejected (env : Env) (fuel rnd : Nat) (m : Map) (tileID : String)
    (coordinate : Point)
    (h : env.tileManager.getTileData tileID = none ∨
      getTargetCoordsOfTileID env m coordinate tileID = [] ∨
      ∃ coord ∈ getTargetCoordsOfTileID env m coordinate tileID,
        m.isPlacementOnNodeAllowed env coord tileID = false) :
    m.setTileID env fuel rnd tileID coordinate = some m := by
  unfold Map.setTileID
  dsimp only
  split
  · rfl
  · rename_i td htd
    rcases h with h | h | ⟨c, hc, hno⟩
    · rw [htd] at h; exact absurd h (by simp)
    · rw [h]; simp
    · split
      · rfl
      · rw [if_pos]
        rw [List.any_eq_true]
        exact ⟨c, hc, by simp [hno]⟩

/-! ## Cleared layers stay cleared -/

theorem Map.KeepsCleared.refl_keepsCleared (m : Map) : m.KeepsCleared m := fun _ _ h => h

theorem Map.KeepsCleared.trans_keepsCleared {a b c : Map} (h1 : a.KeepsCleared b) (h2 : b.KeepsCleared c) :
    a.KeepsCleared c := fun i l h => h2 i l (h1 i l h)

theorem Map.KeepsCleared.setNode_keepsCleared (m : Map) (i : Nat) (n : MapNode)
    (h : ∀ l, (m.node i).layerCleared l → n.layerCleared l) : m.KeepsCleared (m.setNode i n) := by
  intro j l hj
  rw [Map.node_setNode]
  split
  · rename_i hji; rw [hji.1] at hj; exact h l hj
  · exact hj

theorem Map.KeepsCleared.of_data {m m' : Map}
    (h : ∀ i, (m'.node i).m_mapNodeData = (m.node i).m_mapNodeData) : m.KeepsCleared m' := by
  intro i l hi
  unfold MapNode.layerCleared at hi ⊢
  rw [h i]; exact hi

theorem MapNode.demolishLayer_cleared (n : MapNode) (layer l : Layer)
    (h : n.layerCleared l) : (n.demolishLayer layer).layerCleared l := by
  unfold MapNode.layerCleared MapNode.demolishLayer at *
  dsimp only
  split
  · exact ⟨rfl, rfl⟩
  · exact h

theorem MapNode.demolishLayer_self (n : MapNode) (layer : Layer) :
    (n.demolishLayer layer).layerCleared layer := by
  unfold MapNode.layerCleared MapNode.demolishLayer
  simp

theorem MapNode.demolishNode_cleared (n : MapNode) (layer l : Layer)
    (h : n.layerCleared l) : (n.demolishNode layer).layerCleared l := by
  unfold MapNode.demolishNode
  split
  · exact ⟨rfl, rfl⟩
  · exact n.demolishLayer_cleared layer l h

theorem MapNode.demolishNode_self (n : MapNode) (layer : Layer) (hl : layer ≠ Layer.NONE) :
    (n.demolishNode layer).layerCleared layer := by
  unfold MapNode.demolishNode
  rw [if_neg hl]
  exact n.demolishLayer_self layer

theorem Map.demolishZoneOf_keepsCleared (nbs : List NeighborNode) (m : Map) :
    m.KeepsCleared (m.demolishZoneOf nbs) := by
  unfold Map.demolishZoneOf
  induction nbs generalizing m with
  | nil => exact Map.KeepsCleared.refl_keepsCleared m
  | cons nb rest ih =>
    simp only [List.foldl_cons]
    refine Map.KeepsCleared.trans_keepsCleared ?_ (ih _)
    split
    · exact Map.KeepsCleared.setNode_keepsCleared m _ _ fun l h => MapNode.demolishLayer_cleared _ _ l h
    · exact Map.KeepsCleared.refl_keepsCleared m

theorem Map.updateHeight_keepsCleared (env : Env) (m : Map) (i : Nat) (higher : Bool)
    (nbs : List NeighborNode) : m.KeepsCleared (m.updateHeight env i higher nbs).1 := by
  unfold Map.updateHeight
  split
  · refine Map.KeepsCleared.trans_keepsCleared ?_ (Map.demolishZoneOf_keepsCleared nbs _)
    apply Map.KeepsCleared.setNode_keepsCleared
    intro l h
    unfold MapNode.layerCleared at h ⊢
    rw [(MapNode.changeHeight_fields env.maxHeight (m.node i) higher).2.2.2.1]
    exact h
  · exact Map.KeepsCleared.refl_keepsCleared m

theorem Map.storeElevation_keepsCleared (m : Map) (E : Nat) :
    m.KeepsCleared (m.storeElevation E) :=
  Map.KeepsCleared.of_data (Map.storeElevation_spec m E).2.2.2.1

theorem neighbourStep_keepsCleared (env : Env) (k : Int) (s : UpdateState) (nb : NeighborNode) :
    s.map.KeepsCleared (neighbourStep env k s nb).map := by
  obtain ⟨-, -, -, hcase⟩ := neighbourStep_spec env k s nb
  rcases hcase with ⟨-, hm, -⟩ | ⟨-, hm, -⟩
  · rw [hm]; exact Map.KeepsCleared.refl_keepsCleared _
  · rw [hm]; exact Map.updateHeight_keepsCleared _ _ _ _ _

theorem heightStep_keepsCleared (env : Env) (s : UpdateState) (N : Nat) :
    s.map.KeepsCleared (heightStep env s N).map := by
  rw [heightStep_eq]
  generalize s.map.getNeighborNodes (s.map.node N).m_isoCoordinates false = l
  have : ∀ (l : List NeighborNode) (t : UpdateState),
      t.map.KeepsCleared (l.foldl (neighbourStep env (s.map.node N).height) t).map := by
    intro l
    induction l with
    | nil => intro t; exact Map.KeepsCleared.refl_keepsCleared _
    | cons nb rest ih =>
      intro t
      rw [List.foldl_cons]
      exact (neighbourStep_keepsCleared env _ t nb).trans_keepsCleared (ih _)
  exact this l { s with nodesToElevate := pushIfAbsent s.nodesToElevate N }

theorem elevateStep_keepsCleared (env : Env) (s : UpdateState) (E : Nat) :
    s.map.KeepsCleared (elevateStep env s E).map := by
  obtain ⟨-, -, hcase⟩ := elevateStep_spec env s E
  rcases hcase with ⟨-, hm, -⟩ | ⟨-, hm, -⟩
  · rw [hm]; exact Map.storeElevation_keepsCleared _ _
  · rw [hm]
    exact (Map.storeElevation_keepsCleared _ _).trans_keepsCleared (Map.updateHeight_keepsCleared _ _ _ _ _)

theorem propagate_keepsCleared (env : Env) :
    ∀ (fuel : Nat) (s s' : UpdateState), propagate env fuel s = some s' →
      s.map.KeepsCleared s'.map := by
  intro fuel
  induction fuel with
  | zero => intro s s' h; simp [propagate] at h
  | succ n ih =>
    intro s s' h
    unfold propagate at h
    split at h
    · rename_i N rest _
      exact (heightStep_keepsCleared env { s with nodesUpdatedHeight := rest } N).trans_keepsCleared (ih _ _ h)
    · split at h
      · rename_i E rest _
        exact (elevateStep_keepsCleared env { s with nodesToElevate := rest } E).trans_keepsCleared (ih _ _ h)
      · rw [Option.some.injEq] at h; subst h; exact Map.KeepsCleared.refl_keepsCleared _

theorem propagateAll_keepsCleared (env : Env) (fuel : Nat) :
    ∀ (seeds : List Nat) (s s' : UpdateState), propagateAll env fuel seeds s = some s' →
      s.map.KeepsCleared s'.map := by
  intro seeds
  induction seeds with
  | nil =>
    intro s s' h
    simp only [propagateAll, Option.some.injEq] at h
    subst h; exact Map.KeepsCleared.refl_keepsCleared _
  | cons x xs ih =>
    intro s s' h
    unfold propagateAll at h
    split at h
    · exact absurd h (by simp)
    · rename_i s1 hs1
      exact (propagate_keepsCleared env fuel _ _ hs1).trans_keepsCleared (ih _ _ h)

theorem Map.demolishAll_keepsCleared (nodes : List Nat) (layer : Layer) (m : Map) :
    m.KeepsCleared (m.demolishAll nodes layer) := by
  unfold Map.demolishAll
  induction nodes generalizing m with
  | nil => exact Map.KeepsCleared.refl_keepsCleared m
  | cons x rest ih =>
    simp only [List.foldl_cons]
    refine Map.KeepsCleared.trans_keepsCleared ?_ (ih _)
    exact (Map.KeepsCleared.setNode_keepsCleared m _ _ fun l h => MapNode.demolishNode_cleared _ _ l h).trans_keepsCleared
      (Map.KeepsCleared.of_data fun _ => rfl)

theorem autotileFold_keepsCleared (env : Env) (nodes : List Nat) (m : Map) :
    m.KeepsCleared (m.autotilePass env nodes) := by
  unfold Map.autotilePass
  induction nodes generalizing m with
  | nil => exact Map.KeepsCleared.refl_keepsCleared m
  | cons x rest ih =>
    simp only [List.foldl_cons]
    refine Map.KeepsCleared.trans_keepsCleared ?_ (ih _)
    exact Map.KeepsCleared.setNode_keepsCleared m _ _ fun l h => h

theorem finishUpdate_keepsCleared (env : Env) (s : UpdateState) :
    s.map.KeepsCleared (finishUpdate env s) := by
  unfold finishUpdate
  refine Map.KeepsCleared.trans_keepsCleared ?_ (autotileFold_keepsCleared env _ _)
  split
  · exact Map.KeepsCleared.refl_keepsCleared _
  · exact Map.demolishAll_keepsCleared _ _ _

theorem Map.updateNodeNeighbors_keepsCleared (env : Env) (fuel : Nat) (m m' : Map)
    (seeds : List Nat) (h : m.updateNodeNeighbors env fuel seeds = some m') :
    m.KeepsCleared m' := by
  unfold Map.updateNodeNeighbors Map.updateNodeNeighborsState at h
  rw [Option.map_eq_some'] at h
  obtain ⟨s, hs, hf⟩ := h
  rw [← hf]
  exact (propagateAll_keepsCleared env fuel _ _ _ hs).trans_keepsCleared (finishUpdate_keepsCleared env s)


/-! ## Demolition of a footprint -/

theorem mem_getTargetCoords_within {env : Env} {m : Map} {origin : Point} {tileID : String}
    {t : Point} (h : t ∈ getTargetCoordsOfTileID env m origin tileID) :
    t.isWithinMapBoundaries m = true := by
  unfold getTargetCoordsOfTileID at h
  split at h
  · exact absurd h (List.not_mem_nil _)
  · dsimp only at h
    split at h
    · rename_i hall
      exact (List.all_eq_true.1 hall) t h
    · exact absurd h (List.not_mem_nil _)

theorem mem_foldl_setInsert (f : Point → Nat) (l : List Point) (acc : List Nat) (x : Nat) :
    x ∈ l.foldl (fun a b => setInsert a (f b)) acc ↔ x ∈ acc ∨ ∃ b ∈ l, x = f b := by
  induction l generalizing acc with
  | nil => simp
  | cons b rest ih =>
    rw [List.foldl_cons, ih, mem_setInsert]
    constructor
    · rintro ((h | h) | ⟨b', hb', h⟩)
      · exact Or.inr ⟨b, List.mem_cons_self _ _, h⟩
      · exact Or.inl h
      · exact Or.inr ⟨b', List.mem_cons_of_mem _ hb', h⟩
    · rintro (h | ⟨b', hb', h⟩)
      · exact Or.inl (Or.inr h)
      · rw [List.mem_cons] at hb'
        rcases hb' with rfl | hb'
        · exact Or.inl (Or.inl h)
        · exact Or.inr ⟨b', hb', h⟩

/-- Every collected node is a node of the grid. -/
theorem Map.WF.collectNode_lt {m : Map} (hwf : m.WF) (env : Env) (acc : List Nat) (c : Point)
    (hacc : ∀ x ∈ acc, x < m.mapNodes.length) :
    ∀ x ∈ m.collectNode env acc c, x < m.mapNodes.length := by
  unfold Map.collectNode
  split
  · rename_i hc
    intro x hx
    rw [mem_setInsert] at hx
    rcases hx with rfl | hx
    · exact hwf.nodePtr_lt hc
    · split at hx
      · exact hacc x hx
      · split at hx
        · split at hx
          · rw [mem_foldl_setInsert (fun b => m.nodePtr b.x b.y)] at hx
            rcases hx with hx | ⟨b, hb, rfl⟩
            · exact hacc x hx
            · exact hwf.nodePtr_lt (mem_getTargetCoords_within hb)
          · exact hacc x hx
        · exact hacc x hx
  · exact hacc

theorem Map.WF.nodesToDemolish_lt {m : Map} (hwf : m.WF) (env : Env) (coords : List Point) :
    ∀ x ∈ m.nodesToDemolish env coords, x < m.mapNodes.length := by
  unfold Map.nodesToDemolish
  have : ∀ (l : List Point) (acc : List Nat), (∀ x ∈ acc, x < m.mapNodes.length) →
      ∀ x ∈ l.foldl (m.collectNode env) acc, x < m.mapNodes.length := by
    intro l
    induction l with
    | nil => intro acc h; exact h
    | cons c rest ih =>
      intro acc hacc
      rw [List.foldl_cons]
      exact ih _ (hwf.collectNode_lt env acc c hacc)
  exact this coords [] (fun _ h => absurd h (List.not_mem_nil _))

/-- Demolishing one cell of a multi-cell structure collects every cell of its footprint. -/
theorem Map.HoldsStructure.nodesToDemolish {env : Env} {m : Map} {tileID : String}
    {origin : Point} (hold : m.HoldsStructure env tileID origin) {c : Point}
    (hc : c ∈ getTargetCoordsOfTileID env m origin tileID) :
    ∀ t ∈ getTargetCoordsOfTileID env m origin tileID,
      m.nodePtr t.x t.y ∈ m.nodesToDemolish env [c] := by
  intro t ht
  obtain ⟨hin, hid, hcells⟩ := hold
  obtain ⟨horig, hmulti⟩ := hcells c hc
  obtain ⟨td, htd, hbig⟩ : ∃ td, ((m.getMapNode c).m_mapNodeData Layer.BUILDINGS).tileData = some td ∧
      (td.RequiredTiles.height > 1 ∨ td.RequiredTiles.width > 1) := by
    unfold MapNodeData.isMultiCell at hmulti
    cases htd : ((m.getMapNode c).m_mapNodeData Layer.BUILDINGS).tileData with
    | none => rw [htd] at hmulti; exact absurd hmulti (by decide)
    | some td =>
      rw [htd] at hmulti
      refine ⟨td, rfl, ?_⟩
      simpa using hmulti
  unfold Map.getMapNode at htd horig
  unfold Map.nodesToDemolish
  rw [List.foldl_cons, List.foldl_nil]
  unfold Map.collectNode
  rw [if_pos (mem_getTargetCoords_within hc), htd]
  dsimp only
  have hb : (decide (td.RequiredTiles.height > 1) || decide (td.RequiredTiles.width > 1)) = true := by
    rcases hbig with h | h
    · simp [h]
    · simp [h]
  rw [if_pos hb, horig, if_pos hin, hid, mem_setInsert,
    mem_foldl_setInsert (fun b => m.nodePtr b.x b.y)]
  exact Or.inr (Or.inr ⟨t, ht, rfl⟩)

/-- After the demolition loop every collected node is cleared on the demolished layer. -/
theorem Map.demolishAll_cleared (layer L : Layer) (hL : layer = Layer.NONE ∨ L = layer)
    (nodes : List Nat) (m : Map) :
    ∀ i ∈ nodes, i < m.mapNodes.length → ((m.demolishAll nodes layer).node i).layerCleared L := by
  induction nodes generalizing m with
  | nil => intro i hi; exact absurd hi (List.not_mem_nil _)
  | cons x rest ih =>
    intro i hi hlt
    have hstep : Map.demolishAll m (x :: rest) layer =
        Map.demolishAll
          { m.setNode x ((m.node x).demolishNode layer) with
            signals := m.signals ++ [Signal.demolish x] } rest layer := by
      unfold Map.demolishAll; rw [List.foldl_cons]
    rw [hstep]
    by_cases hr : i ∈ rest
    · exact ih _ i hr (by simpa [Map.setNode] using hlt)
    · have hix : i = x := by
        rcases List.mem_cons.1 hi with h | h
        · exact h
        · exact absurd h hr
      subst hix
      apply Map.demolishAll_keepsCleared rest layer _ i L
      have hnode : (Map.node { m.setNode i ((m.node i).demolishNode layer) with
          signals := m.signals ++ [Signal.demolish i] } i) = (m.node i).demolishNode layer := by
        show (m.setNode i ((m.node i).demolishNode layer)).node i = _
        rw [Map.node_setNode, if_pos ⟨rfl, hlt⟩]
      rw [hnode]
      rcases hL with h | h
      · subst h; unfold MapNode.demolishNode; rw [if_pos rfl]; exact ⟨rfl, rfl⟩
      · subst h
        by_cases hn : L = Layer.NONE
        · subst hn; unfold MapNode.demolishNode; rw [if_pos rfl]; exact ⟨rfl, rfl⟩
        · exact MapNode.demolishNode_self _ _ hn

/-- Demolishing one cell of a multi-cell structure on the BUILDINGS layer clears the
BUILDINGS layer of every cell of its footprint, with or without the neighbour update. -/
theorem Map.demolishNode_clears_footprint (env : Env) (m : Map) (tileID : String)
    (origin c : Point) (updateNeighboringTiles : Bool) (hwf : m.WF) (hr : m.HeightsInRange env)
    (hold : m.HoldsStructure env tileID origin)
    (hc : c ∈ getTargetCoordsOfTileID env m origin tileID) :
    ∃ fuel, ∀ fuel', fuel ≤ fuel' →
      ∃ m', m.demolishNode env fuel' [c] updateNeighboringTiles Layer.BUILDINGS = some m' ∧
        ∀ t ∈ getTargetCoordsOfTileID env m origin tileID,
          (m'.getMapNode t).layerCleared Layer.BUILDINGS := by
  have hmem : ∀ t ∈ getTargetCoordsOfTileID env m origin tileID,
      m.nodePtr t.x t.y ∈ env.unorderedSetOrder (m.nodesToDemolish env [c]) :=
    fun t ht => (env.mem_unorderedSetOrder _ _).2 (hold.nodesToDemolish hc t ht)
  have hlt : ∀ x ∈ env.unorderedSetOrder (m.nodesToDemolish env [c]), x < m.mapNodes.length :=
    fun x hx => hwf.nodesToDemolish_lt env [c] x ((env.mem_unorderedSetOrder _ _).1 hx)
  have hcl := Map.demolishAll_cleared Layer.BUILDINGS Layer.BUILDINGS (Or.inr rfl)
    (env.unorderedSetOrder (m.nodesToDemolish env [c])) m
  have hd := (Map.demolishAll_sameButData (env.unorderedSetOrder (m.nodesToDemolish env [c]))
    Layer.BUILDINGS m).sameCore
  have hcleared : ∀ t ∈ getTargetCoordsOfTileID env m origin tileID,
      ((m.demolishAll (env.unorderedSetOrder (m.nodesToDemolish env [c])) Layer.BUILDINGS).node
        (m.nodePtr t.x t.y)).layerCleared Layer.BUILDINGS :=
    fun t ht => hcl _ (hmem t ht) (hlt _ (hmem t ht))
  unfold Map.demolishNode
  dsimp only
  by_cases hup : (if updateNeighboringTiles = true then
      env.unorderedSetOrder (m.nodesToDemolish env [c]) else []).isEmpty = true
  · refine ⟨0, fun fuel' _ => ⟨_, by rw [if_pos hup], fun t ht => ?_⟩⟩
    have := hcleared t ht
    unfold Map.getMapNode
    have hp : (m.demolishAll (env.unorderedSetOrder (m.nodesToDemolish env [c]))
        Layer.BUILDINGS).nodePtr t.x t.y = m.nodePtr t.x t.y := by
      unfold Map.nodePtr Map.nodeIdx; rw [hd.1]
    rw [hp]; exact this
  · obtain ⟨fuel, hf⟩ := Map.updateNodeNeighbors_terminates env
      (m.demolishAll (env.unorderedSetOrder (m.nodesToDemolish env [c])) Layer.BUILDINGS)
      (if updateNeighboringTiles = true then env.unorderedSetOrder (m.nodesToDemolish env [c])
        else [])
      (hd.wf_sameCore hwf) (hd.heightsInRange hr)
      (fun x hx => by
        rw [hd.2.2.1]
        split at hx
        · exact hlt x hx
        · exact absurd hx (List.not_mem_nil _))
    refine ⟨fuel, fun fuel' hle => ?_⟩
    obtain ⟨m', hm', -, -, hg⟩ := hf fuel' hle
    refine ⟨m', by rw [if_neg hup]; exact hm', fun t ht => ?_⟩
    have hk := Map.updateNodeNeighbors_keepsCleared env fuel' _ m' _ hm'
    have := hk _ _ (hcleared t ht)
    unfold Map.getMapNode
    have hp : m'.nodePtr t.x t.y = m.nodePtr t.x t.y := by
      unfold Map.nodePtr Map.nodeIdx; rw [hg.1, hd.1]
    rw [hp]; exact this


/-! ## The final auto-tile pass -/

theorem Map.calculateAutotileBitmask_congr (env : Env) {m m' : Map}
    (h : ∀ j, (m'.node j).m_mapNodeData = (m.node j).m_mapNodeData) (i : Nat)
    (nbs : List NeighborNode) :
    m'.calculateAutotileBitmask env i nbs = m.calculateAutotileBitmask env i nbs := by
  simp only [Map.calculateAutotileBitmask, Map.layerAutotileBitmask, Map.waterNeighbourBits,
    Map.stitchNeighbourBits, Map.holdsWater, Map.stitches, h]

theorem Map.autotilePass_cons (env : Env) (m : Map) (x : Nat) (rest : List Nat) :
    m.autotilePass env (x :: rest) =
      (m.setNode x ((m.node x).setAutotileBitMask
        (m.calculateAutotileBitmask env x
          (m.getNeighborNodes (m.node x).m_isoCoordinates false)))).autotilePass env rest := by
  unfold Map.autotilePass; rw [List.foldl_cons]

/-- The stored auto-tile bitmasks after the loop of lines 270-273. -/
theorem Map.autotilePass_spec (env : Env) (nodes : List Nat) (m : Map) :
    m.SameGrid (m.autotilePass env nodes) ∧
    (∀ j, ((m.autotilePass env nodes).node j).m_mapNodeData = (m.node j).m_mapNodeData) ∧
    (∀ j, j ∈ nodes → j < m.mapNodes.length →
      ((m.autotilePass env nodes).node j).m_autotileBitmask =
        m.calculateAutotileBitmask env j
          (m.getNeighborNodes (m.node j).m_isoCoordinates false)) ∧
    (∀ j, j ∉ nodes →
      ((m.autotilePass env nodes).node j).m_autotileBitmask = (m.node j).m_autotileBitmask) := by
  induction nodes generalizing m with
  | nil =>
    exact ⟨Map.SameGrid.refl_sameGrid m, fun _ => rfl, fun j hj => absurd hj (List.not_mem_nil _),
      fun _ _ => rfl⟩
  | cons x rest ih =>
    rw [Map.autotilePass_cons]
    obtain ⟨hg, hdata, hin, hout⟩ := ih (m.setNode x ((m.node x).setAutotileBitMask
      (m.calculateAutotileBitmask env x (m.getNeighborNodes (m.node x).m_isoCoordinates false))))
    have hc1 := Map.SameCore.setNode_sameCore m x ((m.node x).setAutotileBitMask
      (m.calculateAutotileBitmask env x (m.getNeighborNodes (m.node x).m_isoCoordinates false)))
      ⟨rfl, rfl⟩
    have hd1 : ∀ j, ((m.setNode x ((m.node x).setAutotileBitMask
        (m.calculateAutotileBitmask env x
          (m.getNeighborNodes (m.node x).m_isoCoordinates false)))).node j).m_mapNodeData =
        (m.node j).m_mapNodeData := by
      intro j
      rw [Map.node_setNode]
      split
      · rename_i h; rw [h.1]; rfl
      · rfl
    refine ⟨hc1.sameGrid_sameCore.trans_sameGrid hg, fun j => (hdata j).trans (hd1 j), fun j hj hlt => ?_,
      fun j hj => ?_⟩
    · by_cases hr : j ∈ rest
      · rw [hin j hr (by rw [hc1.2.2.1]; exact hlt), Map.calculateAutotileBitmask_congr env hd1,
          hc1.sameGrid_sameCore.neighborNodes]
      · have hjx : j = x := by
          rcases List.mem_cons.1 hj with h | h
          · exact h
          · exact absurd h hr
        subst hjx
        rw [hout j hr, Map.node_setNode, if_pos ⟨rfl, hlt⟩]
        rfl
    · have hjx : ¬ (j = x ∧ x < m.mapNodes.length) :=
        fun h => hj (h.1 ▸ List.mem_cons_self _ _)
      rw [hout j (fun h => hj (List.mem_cons_of_mem _ h)), Map.node_setNode, if_neg hjx]

/-- After the pass every given node stores the bitmask computed on the resulting grid. -/
theorem Map.autotilePass_correct (env : Env) (nodes : List Nat) (m : Map) (i : Nat)
    (hi : i ∈ nodes) (hlt : i < m.mapNodes.length) :
    ((m.autotilePass env nodes).node i).m_autotileBitmask =
      (m.autotilePass env nodes).calculateAutotileBitmask env i
        ((m.autotilePass env nodes).getNeighborNodes
          ((m.autotilePass env nodes).node i).m_isoCoordinates false) := by
  obtain ⟨hg, hdata, hin, -⟩ := Map.autotilePass_spec env nodes m
  rw [hin i hi hlt, Map.calculateAutotileBitmask_congr env hdata, hg.neighborNodes]

/-- When `updateNodeNeighbors` returns, every visited node stores the auto-tile bitmask
computed on the returned grid. -/
theorem finishUpdate_autotile (env : Env) (s : UpdateState) (i : Nat)
    (hi : i ∈ s.nodesToBeUpdated) (hlt : i < s.map.mapNodes.length) :
    ((finishUpdate env s).node i).m_autotileBitmask =
      (finishUpdate env s).calculateAutotileBitmask env i
        ((finishUpdate env s).getNeighborNodes ((finishUpdate env s).node i).m_isoCoordinates
          false) := by
  unfold finishUpdate
  apply Map.autotilePass_correct env _ _ i ((env.mem_unorderedSetOrder _ _).2 hi)
  split
  · exact hlt
  · rw [(Map.demolishNodeNoUpdate_sameButData env _ _ _).2.2.1]; exact hlt

/-- A node the pass does not visit keeps its stored auto-tile bitmask. -/
theorem finishUpdate_autotile_other (env : Env) (s : UpdateState) (i : Nat)
    (hi : i ∉ s.nodesToBeUpdated) :
    ((finishUpdate env s).node i).m_autotileBitmask = (s.map.node i).m_autotileBitmask := by
  unfold finishUpdate
  rw [(Map.autotilePass_spec env _ _).2.2.2 i
    (fun h => hi ((env.mem_unorderedSetOrder _ _).1 h))]
  split
  · rfl
  · exact ((Map.demolishNodeNoUpdate_sameButData env _ _ _).2.2.2 i).2.2


/-! ## The nodes visited by the propagation -/

theorem neighbourFold_lists (env : Env) (k : Int) :
    ∀ (l : List NeighborNode) (t : UpdateState),
      (∀ x ∈ t.nodesUpdatedHeight, x ∈ (l.foldl (neighbourStep env k) t).nodesUpdatedHeight) ∧
      (∀ x ∈ t.nodesToElevate, x ∈ (l.foldl (neighbourStep env k) t).nodesToElevate) ∧
      (l.foldl (neighbourStep env k) t).nodesToBeUpdated = t.nodesToBeUpdated := by
  intro l
  induction l with
  | nil => intro t; exact ⟨fun _ h => h, fun _ h => h, rfl⟩
  | cons nb rest ih =>
    intro t
    rw [List.foldl_cons]
    obtain ⟨h1, h2, h3⟩ := ih (neighbourStep env k t nb)
    obtain ⟨hS, hU, -, hcase⟩ := neighbourStep_spec env k t nb
    refine ⟨fun x hx => h1 x ?_, fun x hx => h2 x ?_, h3.trans hU⟩
    · rcases hcase with ⟨-, -, hQ⟩ | ⟨-, -, hQ⟩
      · rw [hQ]; exact hx
      · rw [hQ]; exact List.mem_append_left _ hx
    · rw [hS]; exact (mem_pushIfAbsent _ _ _).2 (Or.inr hx)

theorem heightStep_lists (env : Env) (s : UpdateState) (N : Nat) :
    (∀ x ∈ s.nodesUpdatedHeight, x ∈ (heightStep env s N).nodesUpdatedHeight) ∧
    (∀ x, x = N ∨ x ∈ s.nodesToElevate → x ∈ (heightStep env s N).nodesToElevate) ∧
    (heightStep env s N).nodesToBeUpdated = s.nodesToBeUpdated := by
  rw [heightStep_eq]
  obtain ⟨h1, h2, h3⟩ := neighbourFold_lists env (s.map.node N).height
    (s.map.getNeighborNodes (s.map.node N).m_isoCoordinates false)
    { s with nodesToElevate := pushIfAbsent s.nodesToElevate N }
  exact ⟨h1, fun x hx => h2 x ((mem_pushIfAbsent _ _ _).2 hx), h3⟩

theorem elevateStep_lists (env : Env) (s : UpdateState) (E : Nat) :
    (∀ x ∈ s.nodesUpdatedHeight, x ∈ (elevateStep env s E).nodesUpdatedHeight) ∧
    (elevateStep env s E).nodesToElevate = s.nodesToElevate ∧
    (elevateStep env s E).nodesToBeUpdated = setInsert s.nodesToBeUpdated E := by
  obtain ⟨hS, hU, hcase⟩ := elevateStep_spec env s E
  refine ⟨fun x hx => ?_, hS, hU⟩
  rcases hcase with ⟨-, -, hQ⟩ | ⟨-, -, hQ⟩
  · rw [hQ]; exact hx
  · rw [hQ]; exact List.mem_append_left _ hx

/-- The propagation loop visits every node that is queued or an elevation candidate. -/
theorem propagate_visits (env : Env) (A : List Nat) (s : UpdateState) (hv : s.Valid env)
    (hA : ∀ x ∈ A, x ∈ s.nodesUpdatedHeight ∨ x ∈ s.nodesToElevate ∨ x ∈ s.nodesToBeUpdated)
    (hU : ∀ x ∈ s.nodesToBeUpdated, x < s.map.mapNodes.length) :
    ∃ fuel s', propagate env fuel s = some s' ∧ s'.Valid env ∧
      s'.nodesUpdatedHeight = [] ∧ s'.nodesToElevate = [] ∧ s.map.SameGrid s'.map ∧
      (∀ x ∈ A, x ∈ s'.nodesToBeUpdated) ∧
      (∀ x ∈ s'.nodesToBeUpdated, x < s'.map.mapNodes.length) := by
  obtain ⟨fuel, s', hp, hI, hQ, hS, hg⟩ := propagate_induct env
    (fun t => t.Valid env ∧
      (∀ x ∈ A, x ∈ t.nodesUpdatedHeight ∨ x ∈ t.nodesToElevate ∨ x ∈ t.nodesToBeUpdated) ∧
      (∀ x ∈ t.nodesToBeUpdated, x < t.map.mapNodes.length))
    (fun _ h => h.1)
    (fun t N rest ht hQt => by
      obtain ⟨hvt, hAt, hUt⟩ := ht
      have hvu : UpdateState.Valid env { t with nodesUpdatedHeight := rest } :=
        ⟨hvt.1, hvt.2.1, fun i hi => hvt.2.2.1 i (by rw [hQt]; exact List.mem_cons_of_mem _ hi),
          hvt.2.2.2⟩
      have hN := hvt.2.2.1 N (by rw [hQt]; exact List.mem_cons_self _ _)
      obtain ⟨hv', hg'⟩ := hvu.heightStep_valid (N := N) hN
      obtain ⟨l1, l2, l3⟩ := heightStep_lists env { t with nodesUpdatedHeight := rest } N
      refine ⟨hv', fun x hx => ?_, fun x hx => ?_⟩
      · rcases hAt x hx with h | h | h
        · rw [hQt, List.mem_cons] at h
          rcases h with h | h
          · exact Or.inr (Or.inl (l2 x (Or.inl h)))
          · exact Or.inl (l1 x h)
        · exact Or.inr (Or.inl (l2 x (Or.inr h)))
        · exact Or.inr (Or.inr (by rw [l3]; exact h))
      · rw [l3] at hx
        rw [hg'.2.2.1]
        exact hUt x hx)
    (fun t E rest ht _ hSt => by
      obtain ⟨hvt, hAt, hUt⟩ := ht
      have hvu : UpdateState.Valid env { t with nodesToElevate := rest } :=
        ⟨hvt.1, hvt.2.1, hvt.2.2.1,
          fun i hi => hvt.2.2.2 i (by rw [hSt]; exact List.mem_cons_of_mem _ hi)⟩
      have hE := hvt.2.2.2 E (by rw [hSt]; exact List.mem_cons_self _ _)
      obtain ⟨hv', hg'⟩ := hvu.elevateStep_valid (E := E) hE
      obtain ⟨l1, l2, l3⟩ := elevateStep_lists env { t with nodesToElevate := rest } E
      refine ⟨hv', fun x hx => ?_, fun x hx => ?_⟩
      · rcases hAt x hx with h | h | h
        · exact Or.inl (l1 x h)
        · rw [hSt, List.mem_cons] at h
          rcases h with h | h
          · exact Or.inr (Or.inr (by rw [l3]; exact (mem_setInsert _ _ _).2 (Or.inl h)))
          · exact Or.inr (Or.inl (by rw [l2]; exact h))
        · exact Or.inr (Or.inr (by rw [l3]; exact (mem_setInsert _ _ _).2 (Or.inr h)))
      · rw [l3, mem_setInsert] at hx
        rw [hg'.2.2.1]
        rcases hx with rfl | hx
        · exact hE
        · exact hUt x hx)
    s ⟨hv, hA, hU⟩
  refine ⟨fuel, s', hp, hI.1, hQ, hS, hg, fun x hx => ?_, hI.2.2⟩
  rcases hI.2.1 x hx with h | h | h
  · rw [hQ] at h; exact absurd h (List.not_mem_nil _)
  · rw [hS] at h; exact absurd h (List.not_mem_nil _)
  · exact h

/-- `updateNodeNeighbors` visits every seed node; every visited node is a node of the
grid. -/
theorem propagateAll_visits (env : Env) (seeds : List Nat) (s : UpdateState)
    (hv : s.Valid env) (hQ : s.nodesUpdatedHeight = []) (hS : s.nodesToElevate = [])
    (hU : ∀ x ∈ s.nodesToBeUpdated, x < s.map.mapNodes.length)
    (hseeds : ∀ x ∈ seeds, x < s.map.mapNodes.length) :
    ∃ fuel, ∀ fuel', fuel ≤ fuel' → ∃ s', propagateAll env fuel' seeds s = some s' ∧
      s'.Valid env ∧ s'.nodesUpdatedHeight = [] ∧ s'.nodesToElevate = [] ∧
      s.map.SameGrid s'.map ∧ (∀ x ∈ seeds, x ∈ s'.nodesToBeUpdated) ∧
      (∀ x ∈ s'.nodesToBeUpdated, x < s'.map.mapNodes.length) := by
  have := propagateAll_induct env
    (fun rem t => t.Valid env ∧ t.nodesToElevate = [] ∧ s.map.SameGrid t.map ∧
      (∀ x ∈ rem, x < s.map.mapNodes.length) ∧
      (∀ x ∈ seeds, x ∈ rem ∨ x ∈ t.nodesToBeUpdated) ∧
      (∀ x ∈ t.nodesToBeUpdated, x < t.map.mapNodes.length))
    (fun x xs t ht hQt => by
      obtain ⟨hvt, hSt, hgt, hxs, hAt, hUt⟩ := ht
      have hx : x < t.map.mapNodes.length := by
        rw [hgt.2.2.1]; exact hxs x (List.mem_cons_self _ _)
      obtain ⟨fuel, s', hp, hv', hQ', hS', hg', hA', hU'⟩ := propagate_visits env
        (seeds.filter fun y => decide (y ∉ xs))
        { t with nodesUpdatedHeight := t.nodesUpdatedHeight ++ [x] } (hvt.pushQueue hx)
        (fun y hy => by
          rw [List.mem_filter, decide_eq_true_eq] at hy
          rcases hAt y hy.1 with h | h
          · rw [List.mem_cons] at h
            rcases h with h | h
            · exact Or.inl (by rw [hQt, h]; simp)
            · exact absurd h hy.2
          · exact Or.inr (Or.inr h))
        hUt
      refine ⟨fuel, s', hp, ⟨hv', hS', hgt.trans_sameGrid hg',
        fun y hy => hxs y (List.mem_cons_of_mem _ hy), fun y hy => ?_, hU'⟩, hQ'⟩
      by_cases hyx : y ∈ xs
      · exact Or.inl hyx
      · exact Or.inr (hA' y (by rw [List.mem_filter, decide_eq_true_eq]; exact ⟨hy, hyx⟩)))
    seeds s ⟨hv, hS, Map.SameGrid.refl_sameGrid _, hseeds, fun x hx => Or.inl hx, hU⟩ hQ
  obtain ⟨fuel, hf⟩ := this
  refine ⟨fuel, fun fuel' hle => ?_⟩
  obtain ⟨s', hs', hI, hQ'⟩ := hf fuel' hle
  refine ⟨s', hs', hI.1, hQ', hI.2.1, hI.2.2.1, fun x hx => ?_, hI.2.2.2.2.2⟩
  rcases hI.2.2.2.2.1 x hx with h | h
  · exact absurd h (List.not_mem_nil _)
  · exact h

/-- `updateNodeNeighbors` terminates with both work lists empty, and every node it
visited, in particular every seed node, stores on every layer the auto-tile bitmask
computed on the returned grid. -/
theorem Map.updateNodeNeighbors_autotile (env : Env) (m : Map) (seeds : List Nat)
    (hwf : m.WF) (hr : m.HeightsInRange env) (hseeds : ∀ x ∈ seeds, x < m.mapNodes.length) :
    ∃ fuel, ∀ fuel', fuel ≤ fuel' →
      ∃ s', m.updateNodeNeighborsState env fuel' seeds = some s' ∧
        m.updateNodeNeighbors env fuel' seeds = some (finishUpdate env s') ∧
        s'.nodesUpdatedHeight = [] ∧ s'.nodesToElevate = [] ∧
        (∀ x ∈ seeds, x ∈ s'.nodesToBeUpdated) ∧
        ∀ i ∈ s'.nodesToBeUpdated,
          ((finishUpdate env s').node i).m_autotileBitmask =
            (finishUpdate env s').calculateAutotileBitmask env i
              ((finishUpdate env s').getNeighborNodes
                ((finishUpdate env s').node i).m_isoCoordinates false) := by
  obtain ⟨fuel, hf⟩ := propagateAll_visits env seeds
    { map := m, nodesUpdatedHeight := [], nodesToElevate := [], nodesToBeUpdated := [],
      nodesToDemolish := [] }
    ⟨hwf, hr, fun _ h => absurd h (List.not_mem_nil _), fun _ h => absurd h (List.not_mem_nil _)⟩
    rfl rfl (fun _ h => absurd h (List.not_mem_nil _)) hseeds
  refine ⟨fuel, fun fuel' hle => ?_⟩
  obtain ⟨s', hs', -, hQ, hS, -, hA, hU⟩ := hf fuel' hle
  refine ⟨s', hs', ?_, hQ, hS, hA, fun i hi => finishUpdate_autotile env s' i hi (hU i hi)⟩
  unfold Map.updateNodeNeighbors Map.updateNodeNeighborsState
  rw [hs']; rfl



/-! ## Heights do not depend on tiles, stored bitmasks or a larger height limit -/

theorem Map.SameHeights.refl_sameHeights (m : Map) : m.SameHeights m := ⟨Map.SameGrid.refl_sameGrid m, fun _ => rfl⟩

theorem Map.SameHeights.of_both {a b a' b' : Map} (h : a.SameHeights b)
    (ha : a.SameGrid a') (hha : ∀ i, (a'.node i).height = (a.node i).height)
    (hb : b.SameGrid b') (hhb : ∀ i, (b'.node i).height = (b.node i).height) :
    a'.SameHeights b' := by
  obtain ⟨⟨hc, hr, hl, hxy⟩, hh⟩ := h
  refine ⟨⟨by rw [hb.1, hc, ha.1], by rw [hb.2.1, hr, ha.2.1], by rw [hb.2.2.1, hl, ha.2.2.1],
    fun i => ?_⟩, fun i => by rw [hhb, hh, hha]⟩
  rw [(hb.2.2.2 i).1, (hb.2.2.2 i).2, (hxy i).1, (hxy i).2, (ha.2.2.2 i).1, (ha.2.2.2 i).2]
  exact ⟨rfl, rfl⟩

theorem Map.SameHeights.heights_eq {m m' : Map} (h : m.SameHeights m') :
    m'.heights = m.heights := by
  unfold Map.heights
  apply List.ext_getElem
  · simp only [List.length_map]; exact h.1.2.2.1
  · intro i h1 h2
    simp only [List.length_map] at h1 h2
    have := h.2 i
    unfold Map.node at this
    rw [List.getD_eq_getElem _ _ h1, List.getD_eq_getElem _ _ h2] at this
    simpa using this

theorem Map.SameHeights.updateHeight_sameHeights {e e' : Env} {m m' : Map} (h : m.SameHeights m') {i : Nat}
    (hi : i < m.mapNodes.length) (higher : Bool)
    (hlt : higher = true → (m.node i).height < e.maxHeight ∧ (m.node i).height < e'.maxHeight)
    (nbs nbs' : List NeighborNode) :
    (m.updateHeight e i higher nbs).1.SameHeights (m'.updateHeight e' i higher nbs').1 := by
  obtain ⟨hg, -, -, hne, heq, -⟩ := Map.updateHeight_spec e m i higher nbs
  obtain ⟨hg', -, -, hne', heq', -⟩ := Map.updateHeight_spec e' m' i higher nbs'
  have hi' : i < m'.mapNodes.length := by rw [h.1.2.2.1]; exact hi
  obtain ⟨⟨hc, hr, hl, hxy⟩, hh⟩ := h
  refine ⟨⟨by rw [hg'.1, hc, hg.1], by rw [hg'.2.1, hr, hg.2.1], by rw [hg'.2.2.1, hl, hg.2.2.1],
    fun j => ?_⟩, fun j => ?_⟩
  · rw [(hg'.2.2.2 j).1, (hg'.2.2.2 j).2, (hxy j).1, (hxy j).2, (hg.2.2.2 j).1, (hg.2.2.2 j).2]
    exact ⟨rfl, rfl⟩
  · by_cases hji : j = i
    · subst hji
      rw [heq hi, heq' hi', MapNode.changeHeight_height, MapNode.changeHeight_height, hh j]
      cases higher with
      | false => rfl
      | true =>
        obtain ⟨h1, h2⟩ := hlt rfl
        simp only [if_true, if_pos h1, if_pos h2]
    · rw [hne j hji, hne' j hji, hh j]

theorem UpdateState.SameHeights.neighbourStep_sameHeights {e e' : Env} {s s' : UpdateState}
    (hs : s.SameHeights s') {k : Int} (hk : k ≤ e.maxHeight) (hle : e.maxHeight ≤ e'.maxHeight)
    {nb : NeighborNode} (hnb : nb.pNode < s.map.mapNodes.length) :
    (neighbourStep e k s nb).SameHeights (neighbourStep e' k s' nb) := by
  obtain ⟨hS, -, -, hcase⟩ := neighbourStep_spec e k s nb
  obtain ⟨hS', -, -, hcase'⟩ := neighbourStep_spec e' k s' nb
  obtain ⟨hm, hQ, hE⟩ := hs
  have hh := hm.2 nb.pNode
  rw [hh] at hcase'
  rcases hcase with ⟨hc, hmap, hq⟩ | ⟨hc, hmap, hq⟩
  · rcases hcase' with ⟨hc', hmap', hq'⟩ | ⟨hc', hmap', hq'⟩
    · exact ⟨by rw [hmap, hmap']; exact hm, by rw [hq, hq', hQ], by rw [hS, hS', hE]⟩
    · omega
  · rcases hcase' with ⟨hc', hmap', hq'⟩ | ⟨hc', hmap', hq'⟩
    · omega
    · refine ⟨?_, by rw [hq, hq', hQ], by rw [hS, hS', hE]⟩
      rw [hmap, hmap']
      apply Map.SameHeights.updateHeight_sameHeights hm hnb
      intro hd
      have := of_decide_eq_true hd
      constructor <;> omega

theorem neighbourFold_sameHeights {e e' : Env} {k : Int} (hk : k ≤ e.maxHeight)
    (hle : e.maxHeight ≤ e'.maxHeight) :
    ∀ (todo : List NeighborNode) (s s' : UpdateState), s.Valid e → s.SameHeights s' →
      (∀ nb ∈ todo, nb.pNode < s.map.mapNodes.length) →
      (todo.foldl (neighbourStep e k) s).SameHeights (todo.foldl (neighbourStep e' k) s') := by
  intro todo
  induction todo with
  | nil => intro s s' _ hs _; exact hs
  | cons nb rest ih =>
    intro s s' hv hs hlt
    have hnb := hlt nb (List.mem_cons_self _ _)
    obtain ⟨hv', hg⟩ := hv.neighbourStep_valid k hnb
    rw [List.foldl_cons, List.foldl_cons]
    exact ih _ _ hv' (hs.neighbourStep_sameHeights hk hle hnb)
      (fun x hx => by rw [hg.2.2.1]; exact hlt x (List.mem_cons_of_mem _ hx))

theorem UpdateState.SameHeights.heightStep_sameHeights {e e' : Env} {s s' : UpdateState}
    (hv : s.Valid e) (hs : s.SameHeights s') (hle : e.maxHeight ≤ e'.maxHeight) {N : Nat}
    (hN : N < s.map.mapNodes.length) :
    (heightStep e s N).SameHeights (heightStep e' s' N) := by
  rw [heightStep_eq, heightStep_eq, hs.1.1.neighborNodes, hs.1.2 N]
  apply neighbourFold_sameHeights (hv.2.1 N hN).2 hle _ _ _ (hv.pushStack hN)
  · exact ⟨hs.1, hs.2.1, by show pushIfAbsent _ _ = pushIfAbsent _ _; rw [hs.2.2]⟩
  · exact hv.1.neighborNodes_lt N

theorem Map.SameHeights.getElevated {m m' : Map} (h : m.SameHeights m') (i : Nat) :
    m'.getElevatedNeighborBitmask (m'.node i).m_isoCoordinates =
      m.getElevatedNeighborBitmask (m.node i).m_isoCoordinates := by
  have hptr : ∀ q : Point, (m'.getMapNode q).height = (m.getMapNode q).height := by
    intro q
    unfold Map.getMapNode Map.nodePtr Map.nodeIdx
    rw [h.1.1, h.2]
  apply getElevated_congr h.1.1 h.1.2.1 (h.1.2.2.2 i).1 (h.1.2.2.2 i).2
  · unfold Map.getMapNode Map.nodePtr Map.nodeIdx
    rw [h.1.1, (h.1.2.2.2 i).1, (h.1.2.2.2 i).2, h.2]
  · intro q _; exact hptr q

theorem UpdateState.SameHeights.elevateStep_sameHeights {e e' : Env} {s s' : UpdateState}
    (hv : s.Valid e) (hs : s.SameHeights s') (hle : e.maxHeight ≤ e'.maxHeight) {E : Nat}
    (hE : E < s.map.mapNodes.length) :
    (elevateStep e s E).SameHeights (elevateStep e' s' E) := by
  obtain ⟨hS, -, hcase⟩ := elevateStep_spec e s E
  obtain ⟨hS', -, hcase'⟩ := elevateStep_spec e' s' E
  obtain ⟨hm, hQ, hEl⟩ := hs
  rw [hm.getElevated E] at hcase'
  obtain ⟨hg, hh, -⟩ := Map.storeElevation_spec s.map E
  obtain ⟨hg', hh', -⟩ := Map.storeElevation_spec s'.map E
  have hst : (s.map.storeElevation E).SameHeights (s'.map.storeElevation E) :=
    hm.of_both hg hh hg' hh'
  rcases hcase with ⟨hc, hmap, hq⟩ | ⟨hc, hmap, hq⟩
  · rcases hcase' with ⟨hc', hmap', hq'⟩ | ⟨hc', hmap', hq'⟩
    · exact ⟨by rw [hmap, hmap']; exact hst, by rw [hq, hq', hQ], by rw [hS, hS', hEl]⟩
    · rw [hc] at hc'; exact absurd hc' (by decide)
  · rcases hcase' with ⟨hc', hmap', hq'⟩ | ⟨hc', hmap', hq'⟩
    · rw [hc] at hc'; exact absurd hc' (by decide)
    · refine ⟨?_, by rw [hq, hq', hQ], by rw [hS, hS', hEl]⟩
      rw [hmap, hmap']
      apply Map.SameHeights.updateHeight_sameHeights hst (by rw [hg.2.2.1]; exact hE)
      intro _
      have := hv.1.lt_maxHeight_of_mustElevate hv.2.1 hE hc
      rw [hh E]
      constructor <;> omega

/-- The propagation loop run with a larger height limit, other tiles and other stored
bitmasks ends with the same step budget and with the same heights. -/
theorem propagate_sameHeights {e e' : Env} (hle : e.maxHeight ≤ e'.maxHeight) :
    ∀ (fuel : Nat) (s s' r : UpdateState), s.Valid e → s.SameHeights s' →
      propagate e fuel s = some r →
      ∃ r', propagate e' fuel s' = some r' ∧ r.SameHeights r' ∧ r.Valid e ∧
        s.map.SameGrid r.map := by
  intro fuel
  induction fuel with
  | zero => intro s s' r _ _ h; simp [propagate] at h
  | succ n ih =>
    intro s s' r hv hs h
    obtain ⟨m', Q', S', U', D'⟩ := s'
    obtain ⟨hm, hQ, hS⟩ := hs
    simp only at hm hQ hS
    subst hQ
    subst hS
    have hs : s.SameHeights
        { map := m', nodesUpdatedHeight := s.nodesUpdatedHeight,
          nodesToElevate := s.nodesToElevate, nodesToBeUpdated := U', nodesToDemolish := D' } :=
      ⟨hm, rfl, rfl⟩
    unfold propagate at h ⊢
    simp only
    rcases hq : s.nodesUpdatedHeight with _ | ⟨N, rest⟩
    · rw [hq] at h
      rcases hst : s.nodesToElevate with _ | ⟨E, rest⟩
      · rw [hst] at h
        simp only at h ⊢
        cases h
        exact ⟨_, rfl, ⟨hm, hq.symm, hst.symm⟩, hv, Map.SameGrid.refl_sameGrid _⟩
      · rw [hst] at h
        simp only at h ⊢
        have hvu : UpdateState.Valid e
            { map := s.map, nodesUpdatedHeight := [], nodesToElevate := rest,
              nodesToBeUpdated := s.nodesToBeUpdated, nodesToDemolish := s.nodesToDemolish } :=
          ⟨hv.1, hv.2.1, fun i hi => absurd hi (List.not_mem_nil _),
            fun i hi => hv.2.2.2 i (by rw [hst]; exact List.mem_cons_of_mem _ hi)⟩
        have hE : E < s.map.mapNodes.length :=
          hv.2.2.2 E (by rw [hst]; exact List.mem_cons_self _ _)
        have hsu : UpdateState.SameHeights
            { map := s.map, nodesUpdatedHeight := [], nodesToElevate := rest,
              nodesToBeUpdated := s.nodesToBeUpdated, nodesToDemolish := s.nodesToDemolish }
            { map := m', nodesUpdatedHeight := [], nodesToElevate := rest,
              nodesToBeUpdated := U', nodesToDemolish := D' } := ⟨hm, rfl, rfl⟩
        obtain ⟨r', h1, h2, h3, h4⟩ :=
          ih _ _ r (hvu.elevateStep_valid hE).1 (hsu.elevateStep_sameHeights hvu hle hE) h
        exact ⟨r', h1, h2, h3, Map.SameGrid.trans_sameGrid (hvu.elevateStep_valid hE).2 h4⟩
    · rw [hq] at h
      simp only at h ⊢
      have hvu : UpdateState.Valid e { s with nodesUpdatedHeight := rest } :=
        ⟨hv.1, hv.2.1, fun i hi => hv.2.2.1 i (by rw [hq]; exact List.mem_cons_of_mem _ hi),
          hv.2.2.2⟩
      have hN : N < s.map.mapNodes.length :=
        hv.2.2.1 N (by rw [hq]; exact List.mem_cons_self _ _)
      have hsu : UpdateState.SameHeights { s with nodesUpdatedHeight := rest }
          { map := m', nodesUpdatedHeight := rest, nodesToElevate := s.nodesToElevate,
            nodesToBeUpdated := U', nodesToDemolish := D' } := ⟨hm, rfl, rfl⟩
      obtain ⟨r', h1, h2, h3, h4⟩ :=
        ih _ _ r (hvu.heightStep_valid hN).1 (hsu.heightStep_sameHeights hvu hle hN) h
      exact ⟨r', h1, h2, h3, Map.SameGrid.trans_sameGrid (hvu.heightStep_valid hN).2 h4⟩

theorem propagateAll_sameHeights {e e' : Env} (hle : e.maxHeight ≤ e'.maxHeight) (fuel : Nat) :
    ∀ (seeds : List Nat) (s s' r : UpdateState), s.Valid e → s.SameHeights s' →
      (∀ x ∈ seeds, x < s.map.mapNodes.length) →
      propagateAll e fuel seeds s = some r →
      ∃ r', propagateAll e' fuel seeds s' = some r' ∧ r.SameHeights r' ∧ r.Valid e ∧
        s.map.SameGrid r.map := by
  intro seeds
  induction seeds with
  | nil =>
    intro s s' r hv hs _ h
    simp only [propagateAll] at h ⊢
    cases h
    exact ⟨s', rfl, hs, hv, Map.SameGrid.refl_sameGrid _⟩
  | cons x rest ih =>
    intro s s' r hv hs hlt h
    unfold propagateAll at h ⊢
    have hx := hlt x (List.mem_cons_self _ _)
    have hsu : UpdateState.SameHeights
        { s with nodesUpdatedHeight := s.nodesUpdatedHeight ++ [x] }
        { s' with nodesUpdatedHeight := s'.nodesUpdatedHeight ++ [x] } :=
      ⟨hs.1, by show _ ++ _ = _ ++ _; rw [hs.2.1], hs.2.2⟩
    cases hp : propagate e fuel { s with nodesUpdatedHeight := s.nodesUpdatedHeight ++ [x] } with
    | none => rw [hp] at h; simp at h
    | some s1 =>
      rw [hp] at h
      simp only at h
      obtain ⟨s1', hp', hs1, hv1, hg⟩ :=
        propagate_sameHeights hle fuel _ _ s1 (hv.pushQueue hx) hsu hp
      rw [hp']
      simp only
      obtain ⟨r', h1, h2, h3, h4⟩ := ih _ _ r hv1 hs1
        (fun y hy => by rw [hg.2.2.1]; exact hlt y (List.mem_cons_of_mem _ hy)) h
      exact ⟨r', h1, h2, h3, Map.SameGrid.trans_sameGrid hg h4⟩

theorem Map.updateNodeNeighbors_sameHeights {e e' : Env} (hle : e.maxHeight ≤ e'.maxHeight)
    (fuel : Nat) {m m' : Map} (h : m.SameHeights m') (hwf : m.WF) (hr : m.HeightsInRange e)
    (seeds : List Nat) (hseeds : ∀ x ∈ seeds, x < m.mapNodes.length) (r : Map)
    (hrun : m.updateNodeNeighbors e fuel seeds = some r) :
    ∃ r', m'.updateNodeNeighbors e' fuel seeds = some r' ∧ r.SameHeights r' ∧ r.WF ∧
      r.HeightsInRange e ∧ m.SameGrid r := by
  unfold Map.updateNodeNeighbors Map.updateNodeNeighborsState at hrun ⊢
  rw [Option.map_eq_some'] at hrun
  obtain ⟨s, hs, hf⟩ := hrun
  obtain ⟨s', hs', hsim, hv, hgs⟩ := propagateAll_sameHeights hle fuel seeds
    { map := m, nodesUpdatedHeight := [], nodesToElevate := [], nodesToBeUpdated := [],
      nodesToDemolish := [] }
    { map := m', nodesUpdatedHeight := [], nodesToElevate := [], nodesToBeUpdated := [],
      nodesToDemolish := [] } s
    ⟨hwf, hr, fun _ hi => absurd hi (List.not_mem_nil _),
      fun _ hi => absurd hi (List.not_mem_nil _)⟩
    ⟨h, rfl, rfl⟩ hseeds hs
  have hc := finishUpdate_sameCore e s
  have hc' := finishUpdate_sameCore e' s'
  refine ⟨finishUpdate e' s', by rw [hs']; rfl, ?_, ?_, ?_, ?_⟩
  · rw [← hf]
    exact hsim.1.of_both hc.sameGrid_sameCore hc.height_sameCore hc'.sameGrid_sameCore hc'.height_sameCore
  · rw [← hf]; exact hc.wf_sameCore hv.1
  · rw [← hf]; exact hc.heightsInRange hv.2.1
  · rw [← hf]; exact Map.SameGrid.trans_sameGrid hgs hc.sameGrid_sameCore

/-- Raising a node that is below the height limit gives the same heights for every larger
height limit and whatever the tiles and stored bitmasks of the grid are. -/
theorem Map.increaseHeight_sameHeights {e e' : Env} (hle : e.maxHeight ≤ e'.maxHeight)
    (fuel : Nat) {m m' : Map} (h : m.SameHeights m') (hwf : m.WF) (hr : m.HeightsInRange e)
    (p : Point) (hp : p.isWithinMapBoundaries m = true)
    (hlow : (m.getMapNode p).height < e.maxHeight) (r : Map)
    (hrun : m.increaseHeight e fuel p = some r) :
    ∃ r', m'.increaseHeight e' fuel p = some r' ∧ r.SameHeights r' ∧ r.WF ∧
      r.HeightsInRange e ∧ m.SameGrid r := by
  have hptr : m'.nodePtr p.x p.y = m.nodePtr p.x p.y := by
    unfold Map.nodePtr Map.nodeIdx; rw [h.1.1]
  have hlt := hwf.nodePtr_lt hp
  unfold Map.getMapNode at hlow
  have h2 : (m.updateHeight e (m.nodePtr p.x p.y) true (m.getNeighborNodes p true)).2 = true := by
    rw [Map.updateHeight_snd, MapNode.changeHeight_snd]
    simp [hlow]
  have h2' : (m'.updateHeight e' (m.nodePtr p.x p.y) true (m'.getNeighborNodes p true)).2 = true := by
    rw [Map.updateHeight_snd, MapNode.changeHeight_snd, h.2]
    have : (m.node (m.nodePtr p.x p.y)).height < e'.maxHeight := by omega
    simp [this]
  unfold Map.increaseHeight Map.changeHeight at hrun ⊢
  dsimp only at hrun ⊢
  rw [hptr, if_pos h2']
  rw [if_pos h2] at hrun
  simp only [Bool.not_true, Bool.false_eq_true, if_false] at hrun ⊢
  have hup := @Map.SameHeights.updateHeight_sameHeights e e' m m' h (m.nodePtr p.x p.y) hlt true
    (fun _ => ⟨hlow, by omega⟩) (m.getNeighborNodes p true) (m'.getNeighborNodes p true)
  have hsp := Map.updateHeight_spec e m (m.nodePtr p.x p.y) true (m.getNeighborNodes p true)
  have hd := Map.demolishNodeNoUpdate_sameButData e
    (m.updateHeight e (m.nodePtr p.x p.y) true (m.getNeighborNodes p true)).1
    (PointFunctions.getNeighbors m p true) Layer.NONE
  have hd' := Map.demolishNodeNoUpdate_sameButData e'
    (m'.updateHeight e' (m.nodePtr p.x p.y) true (m'.getNeighborNodes p true)).1
    (PointFunctions.getNeighbors m' p true) Layer.NONE
  obtain ⟨r', h1, h2, h3, h4, h5⟩ := Map.updateNodeNeighbors_sameHeights hle fuel
    (hup.of_both hd.sameGrid_sameButData hd.height_sameButData hd'.sameGrid_sameButData hd'.height_sameButData)
    (hd.sameCore.wf_sameCore (hsp.1.wf_sameGrid hwf)) (hd.sameCore.heightsInRange (hr.updateHeight_heightsInRange _ _ _))
    [m.nodePtr p.x p.y]
    (fun x hx => by
      rw [List.mem_singleton] at hx
      rw [hx, hd.2.2.1, hsp.1.2.2.1]; exact hlt)
    r hrun
  exact ⟨r', h1, h2, h3, h4, (hsp.1.trans_sameGrid hd.sameGrid_sameButData).trans_sameGrid h5⟩

theorem Map.changeHeight_mono (env : Env) (m : Map) (p : Point) (higher : Bool)
    (fuel fuel' : Nat) (hle : fuel ≤ fuel') (r : Map)
    (h : m.changeHeight env fuel p higher = some r) :
    m.changeHeight env fuel' p higher = some r := by
  unfold Map.changeHeight at h ⊢
  dsimp only at h ⊢
  split
  · rename_i hc
    rw [if_pos hc] at h
    exact Map.updateNodeNeighbors_mono env _ _ fuel fuel' hle r h
  · rename_i hc
    rw [if_neg hc] at h
    exact h



set_option maxRecDepth 100000

/-! ## The stepped pyramid -/

theorem Map.increaseHeight_mono (env : Env) (m : Map) (p : Point) (fuel fuel' : Nat)
    (hle : fuel ≤ fuel') (r : Map) (h : m.increaseHeight env fuel p = some r) :
    m.increaseHeight env fuel' p = some r :=
  Map.changeHeight_mono env m p true fuel fuel' hle r h

theorem pyramidStage_one :
    (pyramidStage 1).map (fun m =>
      decide ((m.getMapNode { x := 2, y := 2, z := 0, height := 0 }).height < 3)) = some true := by
  decide

theorem pyramidStage_two :
    (pyramidStage 2).map (fun m =>
      decide ((m.getMapNode { x := 2, y := 2, z := 0, height := 0 }).height < 3)) = some true := by
  decide

theorem pyramidStage_three :
    (pyramidStage 3).map Map.heights =
      some [1, 1, 1, 1, 1,  1, 2, 2, 2, 1,  1, 2, 3, 2, 1,  1, 2, 2, 2, 1,  1, 1, 1, 1, 1] := by
  decide

/-- Three raises of the centre of a flat 5x5 grid give the stepped pyramid, for every
height limit of at least 3, every tile database and every step budget of at least 60. -/
theorem raiseThrice_heights (env : Env) (m : Map) (fuel : Nat) (hfuel : 60 ≤ fuel)
    (hmax : 3 ≤ env.maxHeight) (hflat : (flatMap 5).SameHeights m) :
    (raiseThrice env fuel m { x := 2, y := 2, z := 0, height := 0 }).map Map.heights =
      some [1, 1, 1, 1, 1,  1, 2, 2, 2, 1,  1, 2, 3, 2, 1,  1, 2, 2, 2, 1,  1, 1, 1, 1, 1] := by
  have hle : (plainEnv 3).maxHeight ≤ env.maxHeight := hmax
  have f1 := pyramidStage_one
  have f2 := pyramidStage_two
  have f3 := pyramidStage_three
  rw [Option.map_eq_some'] at f1 f2 f3
  obtain ⟨m1, e1, c1⟩ := f1
  obtain ⟨m2, e2, c2⟩ := f2
  obtain ⟨m3, e3, c3⟩ := f3
  have c1' := of_decide_eq_true c1
  have c2' := of_decide_eq_true c2
  have s1 : (flatMap 5).increaseHeight (plainEnv 3) 60 { x := 2, y := 2, z := 0, height := 0 } =
      some m1 := e1
  have s2 : m1.increaseHeight (plainEnv 3) 60 { x := 2, y := 2, z := 0, height := 0 } =
      some m2 := by
    have : pyramidStage 2 = (pyramidStage 1).bind fun m =>
        m.increaseHeight (plainEnv 3) 60 { x := 2, y := 2, z := 0, height := 0 } := rfl
    rw [this, e1] at e2
    exact e2
  have s3 : m2.increaseHeight (plainEnv 3) 60 { x := 2, y := 2, z := 0, height := 0 } =
      some m3 := by
    have : pyramidStage 3 = (pyramidStage 2).bind fun m =>
        m.increaseHeight (plainEnv 3) 60 { x := 2, y := 2, z := 0, height := 0 } := rfl
    rw [this, e2] at e3
    exact e3
  have hin : ∀ {a : Map}, (flatMap 5).SameGrid a →
      ({ x := 2, y := 2, z := 0, height := 0 } : Point).isWithinMapBoundaries a = true := by
    intro a ha
    unfold Point.isWithinMapBoundaries
    rw [ha.1, ha.2.1]
    decide
  obtain ⟨r1, hr1, hs1, hwf1, hrg1, hg1⟩ := Map.increaseHeight_sameHeights hle 60 hflat
    (by decide) (by decide) _ (by decide) (by decide) m1 s1
  obtain ⟨r2, hr2, hs2, hwf2, hrg2, hg2⟩ := Map.increaseHeight_sameHeights hle 60 hs1
    hwf1 hrg1 _ (hin hg1) c1' m2 s2
  obtain ⟨r3, hr3, hs3, -, -, -⟩ := Map.increaseHeight_sameHeights hle 60 hs2
    hwf2 hrg2 _ (hin (hg1.trans_sameGrid hg2)) c2' m3 s3
  unfold raiseThrice
  rw [Map.increaseHeight_mono env m _ 60 fuel hfuel r1 hr1, Option.some_bind,
    Map.increaseHeight_mono env r1 _ 60 fuel hfuel r2 hr2, Option.some_bind,
    Map.increaseHeight_mono env r2 _ 60 fuel hfuel r3 hr3, Option.map_some', hs3.heights_eq, c3]



set_option maxRecDepth 100000

/-! ## The specification claims -/

/-- C1: height continuity (I1) is preserved by height edits. On a well-formed grid with
heights in `[0, maxHeight]` on which all 8-adjacent nodes differ in height by at most 1,
and for every in-grid position `p`, both `increaseHeight p` and `decreaseHeight p` return
(for every large enough step budget) and every pair of 8-adjacent nodes of the result
still differs in height by at most 1. -/
theorem heightEdit_preserves_I1 (env : Env) (m : Map) (p : Point) (hwf : m.WF)
    (hr : m.HeightsInRange env) (hp : p.isWithinMapBoundaries m = true) (h1 : m.I1) :
    ∃ fuel, ∀ fuel', fuel ≤ fuel' →
      (∃ m', m.increaseHeight env fuel' p = some m' ∧ m'.I1) ∧
      (∃ m', m.decreaseHeight env fuel' p = some m' ∧ m'.I1) := by
  obtain ⟨f1, hf1⟩ := Map.changeHeight_i1 env m p true hwf hr hp h1
  obtain ⟨f2, hf2⟩ := Map.changeHeight_i1 env m p false hwf hr hp h1
  exact ⟨max f1 f2, fun fuel' hle =>
    ⟨hf1 fuel' (le_trans (le_max_left _ _) hle), hf2 fuel' (le_trans (le_max_right _ _) hle)⟩⟩

theorem heightEdit_preserves_I1_witness :
    hillMap.WF ∧ hillMap.HeightsInRange (plainEnv 3) ∧ hillMap.I1 ∧
    ∃ fuel, ∀ fuel', fuel ≤ fuel' →
      (∃ m', hillMap.increaseHeight (plainEnv 3) fuel' { x := 1, y := 1, z := 0, height := 0 } =
        some m' ∧ m'.I1) ∧
      (∃ m', hillMap.decreaseHeight (plainEnv 3) fuel' { x := 1, y := 1, z := 0, height := 0 } =
        some m' ∧ m'.I1) :=
  ⟨by decide, by decide, (Map.WF.i1_iff (by decide)).2 (by decide),
    heightEdit_preserves_I1 (plainEnv 3) hillMap { x := 1, y := 1, z := 0, height := 0 }
      (by decide) (by decide) (by decide) ((Map.WF.i1_iff (by decide)).2 (by decide))⟩

/-- C2: stored elevation bitmasks are correct after a height edit (I2). On a well-formed
grid with heights in `[0, maxHeight]` on which I1 and I2 hold, and for every in-grid
position `p`, both `increaseHeight p` and `decreaseHeight p` return (for every large enough
step budget) and in the result, for every node and every non-centre direction, the stored
elevation bit of the direction is set exactly when the neighbour in that direction exists
and is strictly higher. -/
theorem heightEdit_restores_I2 (env : Env) (m : Map) (p : Point) (hwf : m.WF)
    (hr : m.HeightsInRange env) (hp : p.isWithinMapBoundaries m = true) (h1 : m.I1)
    (h2 : m.I2) :
    ∃ fuel, ∀ fuel', fuel ≤ fuel' →
      (∃ m', m.increaseHeight env fuel' p = some m' ∧ m'.I2) ∧
      (∃ m', m.decreaseHeight env fuel' p = some m' ∧ m'.I2) := by
  obtain ⟨f1, hf1⟩ := Map.changeHeight_i2 env m p true hwf hr hp h1 h2
  obtain ⟨f2, hf2⟩ := Map.changeHeight_i2 env m p false hwf hr hp h1 h2
  refine ⟨max f1 f2, fun fuel' hle => ⟨?_, ?_⟩⟩
  · obtain ⟨m', hm', -, hi2⟩ := hf1 fuel' (le_trans (le_max_left _ _) hle)
    exact ⟨m', hm', hi2⟩
  · obtain ⟨m', hm', -, hi2⟩ := hf2 fuel' (le_trans (le_max_right _ _) hle)
    exact ⟨m', hm', hi2⟩

theorem heightEdit_restores_I2_witness :
    hillMap.WF ∧ hillMap.I1 ∧ hillMap.I2 ∧ hillMap.heights = [0, 0, 0, 0, 1, 0, 0, 0, 0] ∧
    ∃ fuel, ∀ fuel', fuel ≤ fuel' →
      (∃ m', hillMap.increaseHeight (plainEnv 3) fuel' { x := 0, y := 1, z := 0, height := 0 } =
        some m' ∧ m'.I2) ∧
      (∃ m', hillMap.decreaseHeight (plainEnv 3) fuel' { x := 0, y := 1, z := 0, height := 0 } =
        some m' ∧ m'.I2) :=
  ⟨by decide, (Map.WF.i1_iff (by decide)).2 (by decide),
    (Map.WF.i2_iff (by decide)).2 (by decide), by decide,
    heightEdit_restores_I2 (plainEnv 3) hillMap { x := 0, y := 1, z := 0, height := 0 }
      (by decide) (by decide) (by decide) ((Map.WF.i1_iff (by decide)).2 (by decide))
      ((Map.WF.i2_iff (by decide)).2 (by decide))⟩

/-- C3: on a flat 5x5 grid (every node at height 0, whatever its tiles and stored
bitmasks), with a height limit of at least 3, three calls of `increaseHeight` on the
centre node return and leave the stepped pyramid: the centre at height 3, the 8 nodes
around it at height 2 and the 16 border nodes at height 1. -/
theorem raiseThrice_stepped_pyramid (env : Env) (m : Map) (fuel : Nat) (hfuel : 60 ≤ fuel)
    (hmax : 3 ≤ env.maxHeight) (hflat : (flatMap 5).SameHeights m) :
    (raiseThrice env fuel m { x := 2, y := 2, z := 0, height := 0 }).map Map.heights =
      some [1, 1, 1, 1, 1,  1, 2, 2, 2, 1,  1, 2, 3, 2, 1,  1, 2, 2, 2, 1,  1, 1, 1, 1, 1] :=
  raiseThrice_heights env m fuel hfuel hmax hflat

theorem raiseThrice_stepped_pyramid_witness :
    (flatMap 5).heights =
      [0, 0, 0, 0, 0,  0, 0, 0, 0, 0,  0, 0, 0, 0, 0,  0, 0, 0, 0, 0,  0, 0, 0, 0, 0] ∧
    (raiseThrice sampleEnv 100 (flatMap 5) { x := 2, y := 2, z := 0, height := 0 }).map
        Map.heights =
      some [1, 1, 1, 1, 1,  1, 2, 2, 2, 1,  1, 2, 3, 2, 1,  1, 2, 2, 2, 1,  1, 1, 1, 1, 1] :=
  ⟨by decide,
    raiseThrice_stepped_pyramid sampleEnv (flatMap 5) 100 (by decide) (by decide)
      (Map.SameHeights.refl_sameHeights (flatMap 5))⟩

/-- C4: the height propagation terminates. On every well-formed finite grid whose heights
lie in `[0, maxHeight]` and for every list of seed nodes of the grid, every large enough
step budget lets `updateNodeNeighbors` run to completion: the loops end in a state in which
the FIFO queue of height-dirty nodes and the stack of elevation candidates are both empty,
and the function returns the map of that state after the final pass. -/
theorem updateNodeNeighbors_worklists_drain (env : Env) (m : Map) (nodes : List Nat)
    (hwf : m.WF) (hr : m.HeightsInRange env) (hnodes : ∀ x ∈ nodes, x < m.mapNodes.length) :
    ∃ fuel, ∀ fuel', fuel ≤ fuel' →
      ∃ s', m.updateNodeNeighborsState env fuel' nodes = some s' ∧
        s'.nodesUpdatedHeight = [] ∧ s'.nodesToElevate = [] ∧
        m.updateNodeNeighbors env fuel' nodes = some (finishUpdate env s') := by
  obtain ⟨fuel, hf⟩ := Map.updateNodeNeighbors_autotile env m nodes hwf hr hnodes
  refine ⟨fuel, fun fuel' hle => ?_⟩
  obtain ⟨s', hs', hm', hQ, hS, -, -⟩ := hf fuel' hle
  exact ⟨s', hs', hQ, hS, hm'⟩

theorem updateNodeNeighbors_worklists_drain_witness :
    hillMap.WF ∧ hillMap.HeightsInRange (plainEnv 3) ∧
    ∃ fuel, ∀ fuel', fuel ≤ fuel' →
      ∃ s', hillMap.updateNodeNeighborsState (plainEnv 3) fuel' [4, 0, 8] = some s' ∧
        s'.nodesUpdatedHeight = [] ∧ s'.nodesToElevate = [] ∧
        hillMap.updateNodeNeighbors (plainEnv 3) fuel' [4, 0, 8] =
          some (finishUpdate (plainEnv 3) s') :=
  ⟨by decide, by decide,
    updateNodeNeighbors_worklists_drain (plainEnv 3) hillMap [4, 0, 8] (by decide) (by decide)
      (by decide)⟩

/-- C6: `getElevatedNeighborBitmask c` is exactly the set of strictly taller neighbours:
for every non-centre direction the bit of the direction is set if and only if `c` has an
in-grid neighbour in that direction that is strictly higher than `c`, and no bit outside
the eight direction bits is set. -/
theorem getElevatedNeighborBitmask_exact (m : Map) (c : Point) :
    (∀ d : NeighbourNodesPosition, d ≠ .CENTER →
      (hasBit (m.getElevatedNeighborBitmask c) d ↔ m.tallerNeighbour c d)) ∧
    m.getElevatedNeighborBitmask c < 2 ^ 8 :=
  Map.getElevatedNeighborBitmask_spec m c

/-- C7, counterexample: on the 2x2 sample grid node 0 holds an auto-tiling tile of kind ROAD
on the ROAD layer and node 2 is its neighbour to the RIGHT in the neighbour list, but node 2
holds no tile on the ROAD layer and the RIGHT bit is not set in the result for ROAD. -/
theorem road_skips_tileless_neighbour :
    sampleEnv.tileManager.isTileIDAutoTile
      ((sampleMap.node 0).m_mapNodeData Layer.ROAD).tileID = true ∧
    ((sampleMap.node 0).m_mapNodeData Layer.ROAD).tileData.map (fun td => td.tileType) =
      some TileType.ROAD ∧
    ({ pNode := 2, position := NeighbourNodesPosition.RIGHT } : NeighborNode) ∈
      sampleMap.getNeighborNodes (sampleMap.node 0).m_isoCoordinates false ∧
    ((sampleMap.node 2).m_mapNodeData Layer.ROAD).tileData = none ∧
    ¬ hasBit (sampleMap.calculateAutotileBitmask sampleEnv 0
        (sampleMap.getNeighborNodes (sampleMap.node 0).m_isoCoordinates false) Layer.ROAD)
      NeighbourNodesPosition.RIGHT := by
  decide

/-- C7, amended: stitching rule of `calculateAutotileBitmask`. For every node `N`, every
layer `L` of `allLayersOrdered` on which `N` holds a tile whose identifier takes part in
auto-tiling, and every neighbour `M` of the given neighbour list that holds a tile on
layer `L`, the bit of the direction of `M` is set in the result for `L` if `M` holds the
same tile identifier on `L` or the tile of `N` on `L` is of kind ROAD. -/
theorem calculateAutotileBitmask_stitching (env : Env) (m : Map) (N : Nat)
    (nbs : List NeighborNode) (L : Layer) (hL : L ∈ env.allLayersOrdered) (td : TileData)
    (htd : ((m.node N).m_mapNodeData L).tileData = some td)
    (hauto : env.tileManager.isTileIDAutoTile ((m.node N).m_mapNodeData L).tileID = true)
    (M : NeighborNode) (hM : M ∈ nbs)
    (htile : ((m.node M.pNode).m_mapNodeData L).tileData.isSome = true)
    (hrule : ((m.node M.pNode).m_mapNodeData L).tileID = ((m.node N).m_mapNodeData L).tileID ∨
      td.tileType = TileType.ROAD) :
    hasBit (m.calculateAutotileBitmask env N nbs L) M.position :=
  Map.calculateAutotileBitmask_stitch env m N nbs L hL td htd hauto M hM htile hrule

theorem calculateAutotileBitmask_stitching_witness :
    hasBit (sampleMap.calculateAutotileBitmask sampleEnv 0
        (sampleMap.getNeighborNodes (sampleMap.node 0).m_isoCoordinates false) Layer.ROAD)
      NeighbourNodesPosition.TOP :=
  calculateAutotileBitmask_stitching sampleEnv sampleMap 0
    (sampleMap.getNeighborNodes (sampleMap.node 0).m_isoCoordinates false) Layer.ROAD
    (by decide) (unitTile "Roads" TileType.ROAD) (by decide) (by decide)
    { pNode := 1, position := NeighbourNodesPosition.TOP } (by decide) (by decide)
    (Or.inr (by decide))

/-- C8: shoreline rule of `calculateAutotileBitmask`. For every node `N` and layer `L` of
`allLayersOrdered` on which the tile of `N` is of kind TERRAIN and does not take part in
auto-tiling, the bit of a non-centre direction `D` is set in the result for `L` if and only
if the neighbour list has a neighbour in direction `D` whose data on the WATER layer has a
tile descriptor, and that descriptor is of kind WATER; and for every layer `L0` on which
`N` has no tile the result is 0. -/
theorem calculateAutotileBitmask_shoreline (env : Env) (m : Map) (N : Nat)
    (nbs : List NeighborNode) (L : Layer) (hL : L ∈ env.allLayersOrdered) (td : TileData)
    (htd : ((m.node N).m_mapNodeData L).tileData = some td)
    (hter : td.tileType = TileType.TERRAIN)
    (hauto : env.tileManager.isTileIDAutoTile ((m.node N).m_mapNodeData L).tileID = false)
    (D : NeighbourNodesPosition) (hD : D ≠ .CENTER)
    (L0 : Layer) (hnone : ((m.node N).m_mapNodeData L0).tileData = none) :
    (hasBit (m.calculateAutotileBitmask env N nbs L) D ↔
      ∃ nb ∈ nbs, nb.position = D ∧
        ∃ wd : TileData, ((m.node nb.pNode).m_mapNodeData Layer.WATER).tileData = some wd ∧
          wd.tileType = TileType.WATER) ∧
    m.calculateAutotileBitmask env N nbs L0 = 0 := by
  refine ⟨?_, Map.calculateAutotileBitmask_noTile env m N nbs L0 hnone⟩
  rw [Map.calculateAutotileBitmask_shore env m N nbs L hL td htd hter hauto D hD]
  constructor
  · rintro ⟨nb, hnb, hpos, hw⟩
    exact ⟨nb, hnb, hpos, (Map.holdsWater_iff m nb.pNode).1 hw⟩
  · rintro ⟨nb, hnb, hpos, hw⟩
    exact ⟨nb, hnb, hpos, (Map.holdsWater_iff m nb.pNode).2 hw⟩

theorem calculateAutotileBitmask_shoreline_witness :
    (((sampleMap.node 2).m_mapNodeData Layer.WATER).tileData.map fun wd => wd.tileType) =
      some TileType.WATER ∧
    ((sampleMap.node 1).m_mapNodeData Layer.WATER).tileData = none ∧
    sampleMap.getNeighborNodes (sampleMap.node 0).m_isoCoordinates false =
      [{ pNode := 1, position := NeighbourNodesPosition.TOP },
        { pNode := 2, position := NeighbourNodesPosition.RIGHT },
        { pNode := 3, position := NeighbourNodesPosition.TOP_RIGHT }] ∧
    sampleMap.calculateAutotileBitmask sampleEnv 0
      (sampleMap.getNeighborNodes (sampleMap.node 0).m_isoCoordinates false) Layer.TERRAIN =
        NeighbourNodesPosition.RIGHT.toNat ∧
    ((hasBit (sampleMap.calculateAutotileBitmask sampleEnv 0
        (sampleMap.getNeighborNodes (sampleMap.node 0).m_isoCoordinates false) Layer.TERRAIN)
        NeighbourNodesPosition.RIGHT ↔
      ∃ nb ∈ sampleMap.getNeighborNodes (sampleMap.node 0).m_isoCoordinates false,
        nb.position = NeighbourNodesPosition.RIGHT ∧
          ∃ wd : TileData, ((sampleMap.node nb.pNode).m_mapNodeData Layer.WATER).tileData =
              some wd ∧
            wd.tileType = TileType.WATER) ∧
    sampleMap.calculateAutotileBitmask sampleEnv 0
      (sampleMap.getNeighborNodes (sampleMap.node 0).m_isoCoordinates false)
      Layer.BUILDINGS = 0) :=
  ⟨by decide, by decide, by decide, by decide,
    calculateAutotileBitmask_shoreline sampleEnv sampleMap 0
      (sampleMap.getNeighborNodes (sampleMap.node 0).m_isoCoordinates false) Layer.TERRAIN
      (by decide) (unitTile "Terrain" TileType.TERRAIN) (by decide) (by decide) (by decide)
      NeighbourNodesPosition.RIGHT (by decide) Layer.BUILDINGS (by decide)⟩

/-- C9: placement is all-or-nothing. If the tile descriptor cannot be resolved, or the set
of target cells is empty (a footprint cell falls outside the grid), or
`isPlacementOnNodeAllowed` is false for at least one target cell, then `setTileID` returns
the map it was given: every node is unchanged and no notification is added to the signal
log. -/
theorem setTileID_all_or_nothing (env : Env) (fuel rnd : Nat) (m : Map) (tileID : String)
    (coordinate : Point)
    (h : env.tileManager.getTileData tileID = none ∨
      getTargetCoordsOfTileID env m coordinate tileID = [] ∨
      ∃ coord ∈ getTargetCoordsOfTileID env m coordinate tileID,
        m.isPlacementOnNodeAllowed env coord tileID = false) :
    m.setTileID env fuel rnd tileID coordinate = some m :=
  Map.setTileID_rejected env fuel rnd m tileID coordinate h

theorem setTileID_all_or_nothing_witness :
    sampleEnv.tileManager.getTileData "house" ≠ none ∧
    sampleMap.setTileID sampleEnv 0 0 "house" { x := 0, y := 0, z := 0, height := 0 } =
      some sampleMap :=
  ⟨by decide,
    setTileID_all_or_nothing sampleEnv 0 0 sampleMap "house"
      { x := 0, y := 0, z := 0, height := 0 } (Or.inr (Or.inl (by decide)))⟩

/-- C10: partial demolition of a multi-cell structure is impossible. On a well-formed grid
with heights in `[0, maxHeight]` that holds a structure with a footprint larger than 1x1 on
the BUILDINGS layer, as left by `setTileID` with an in-grid origin, and for every cell `c`
of the footprint, `demolishNode [c] updateNeighbors BUILDINGS` returns (for every large
enough step budget) and the BUILDINGS layer is cleared on every cell of the footprint. -/
theorem demolishNode_clears_whole_footprint (env : Env) (m : Map) (tileID : String)
    (origin c : Point) (updateNeighbors : Bool) (hwf : m.WF) (hr : m.HeightsInRange env)
    (hold : m.HoldsStructure env tileID origin)
    (hc : c ∈ getTargetCoordsOfTileID env m origin tileID) :
    ∃ fuel, ∀ fuel', fuel ≤ fuel' →
      ∃ m', m.demolishNode env fuel' [c] updateNeighbors Layer.BUILDINGS = some m' ∧
        ∀ t ∈ getTargetCoordsOfTileID env m origin tileID,
          (m'.getMapNode t).layerCleared Layer.BUILDINGS :=
  Map.demolishNode_clears_footprint env m tileID origin c updateNeighbors hwf hr hold hc

theorem demolishNode_clears_whole_footprint_witness :
    ((flatMap 2).setTileID sampleEnv 0 0 "house" { x := 1, y := 0, z := 0, height := 0 }).isSome =
      true ∧
    (builtMap.mapNodes.map fun n => (n.m_mapNodeData Layer.BUILDINGS).tileData.isSome) =
      [true, true, true, true] ∧
    getTargetCoordsOfTileID sampleEnv builtMap { x := 1, y := 0, z := 0, height := 0 } "house" =
      [{ x := 1, y := 0, z := 0, height := 0 }, { x := 1, y := 1, z := 0, height := 0 },
       { x := 0, y := 0, z := 0, height := 0 }, { x := 0, y := 1, z := 0, height := 0 }] ∧
    ∃ fuel, ∀ fuel', fuel ≤ fuel' →
      ∃ m', builtMap.demolishNode sampleEnv fuel' [{ x := 0, y := 1, z := 0, height := 0 }] true
          Layer.BUILDINGS = some m' ∧
        ∀ t ∈ getTargetCoordsOfTileID sampleEnv builtMap
            { x := 1, y := 0, z := 0, height := 0 } "house",
          (m'.getMapNode t).layerCleared Layer.BUILDINGS :=
  ⟨by decide, by decide, by decide,
    demolishNode_clears_whole_footprint sampleEnv builtMap "house"
      { x := 1, y := 0, z := 0, height := 0 } { x := 0, y := 1, z := 0, height := 0 } true
      (by decide) (by decide) (by decide) (by decide)⟩



/-! ## Placement legality -/

theorem MapNode.isLayerOccupied_iff (n : MapNode) (layer : Layer) :
    n.isLayerOccupied layer = true ↔ ∃ td, (n.m_mapNodeData layer).tileData = some td := by
  unfold MapNode.isLayerOccupied
  exact Option.isSome_iff_exists

theorem isAllowSetTileId_zone (isSlopeNode : MapNode → Bool) (n : MapNode) :
    Map.isAllowSetTileId isSlopeNode Layer.ZONE n = false ↔
      (∃ td, (n.m_mapNodeData Layer.BUILDINGS).tileData = some td ∧ td.category ≠ "Flora") ∨
      n.isLayerOccupied Layer.WATER = true ∨ n.isLayerOccupied Layer.ROAD = true ∨
      isSlopeNode n = true := by
  unfold Map.isAllowSetTileId MapNode.isLayerOccupied
  cases hB : (n.m_mapNodeData Layer.BUILDINGS).tileData with
  | none =>
    cases hW : (n.m_mapNodeData Layer.WATER).tileData.isSome <;>
    cases hR : (n.m_mapNodeData Layer.ROAD).tileData.isSome <;>
    cases hS : isSlopeNode n <;> simp
  | some td =>
    by_cases hc : td.category = "Flora" <;>
    cases hW : (n.m_mapNodeData Layer.WATER).tileData.isSome <;>
    cases hR : (n.m_mapNodeData Layer.ROAD).tileData.isSome <;>
    cases hS : isSlopeNode n <;> simp [hc]

theorem isAllowSetTileId_water (isSlopeNode : MapNode → Bool) (n : MapNode) :
    Map.isAllowSetTileId isSlopeNode Layer.WATER n = false ↔
      ∃ td, (n.m_mapNodeData Layer.BUILDINGS).tileData = some td ∧ td.category ≠ "Flora" := by
  unfold Map.isAllowSetTileId MapNode.isLayerOccupied
  cases h : (n.m_mapNodeData Layer.BUILDINGS).tileData with
  | none => simp
  | some td => simp

theorem isAllowSetTileId_other (isSlopeNode : MapNode → Bool) (n : MapNode) (layer : Layer)
    (hz : layer ≠ Layer.ZONE) (hw : layer ≠ Layer.WATER) :
    Map.isAllowSetTileId isSlopeNode layer n = true := by
  unfold Map.isAllowSetTileId
  cases layer <;> simp_all

/-! ## Clamped height changes -/

theorem Map.changeHeight_clamped (env : Env) (fuel : Nat) (m : Map) (p : Point) (higher : Bool)
    (h : ((m.getMapNode p).changeHeight env.maxHeight higher).2 = false) :
    (m.updateHeight env (m.nodePtr p.x p.y) higher (m.getNeighborNodes p true)).2 = false ∧
      m.changeHeight env fuel p higher = some m := by
  have h2 : (m.updateHeight env (m.nodePtr p.x p.y) higher (m.getNeighborNodes p true)).2 =
      false := by
    rw [Map.updateHeight_snd]; exact h
  refine ⟨h2, ?_⟩
  unfold Map.changeHeight
  dsimp only
  rw [h2]
  rfl

/-! ## The visible-range culler -/

theorem flatMap_ite_singleton {α β : Type} (p : α → Bool) (f : α → β) (l : List α) :
    (l.flatMap fun a => if p a = true then [f a] else []) = (l.filter p).map f := by
  induction l with
  | nil => rfl
  | cons a l ih =>
    rw [List.flatMap_cons, ih]
    by_cases h : p a = true
    · rw [if_pos h, List.filter_cons_of_pos h]; rfl
    · rw [if_neg h, List.filter_cons_of_neg h]; rfl

theorem flatMap_sublist_flatMap {α β : Type} (l : List α) (f g : α → List β)
    (h : ∀ a, (f a).Sublist (g a)) : (l.flatMap f).Sublist (l.flatMap g) := by
  induction l with
  | nil => exact List.Sublist.refl _
  | cons a l ih =>
    rw [List.flatMap_cons, List.flatMap_cons]
    exact (h a).append ih

theorem length_flatMap_map_range {α β : Type} (l : List α) (r : Nat) (g : α → Nat → β) :
    (l.flatMap fun y => (List.range r).map (g y)).length = l.length * r := by
  induction l with
  | nil => simp
  | cons a l ih =>
    rw [List.flatMap_cons, List.length_append, ih, List.length_map, List.length_range,
      List.length_cons]
    ring

/-- The culler as a filter of each scanned row. -/
theorem Map.calculateVisibleMap_eq (env : Env) (m : Map) (topLeft bottomRight : Point) :
    m.calculateVisibleMap env topLeft bottomRight =
      (List.range m.m_columns.toNat).reverse.flatMap fun (y : Nat) =>
        ((List.range m.m_rows.toNat).filter fun (x : Nat) =>
          decide (((x : Int) + (y : Int)) ≥ topLeft.x + topLeft.y - 2) &&
          decide (((x : Int) + (y : Int)) ≤ bottomRight.x + bottomRight.y + 1) &&
          decide (((y : Int) - (x : Int)) ≤ topLeft.y - topLeft.x + 1) &&
          decide (((y : Int) - (x : Int)) ≥ bottomRight.y - bottomRight.x - 1 - env.maxHeight)).map
        fun (x : Nat) => m.nodePtr (x : Int) (y : Int) := by
  unfold Map.calculateVisibleMap
  dsimp only
  congr 1
  funext y
  exact flatMap_ite_singleton _ _ _

theorem Map.nodePtr_inj (m : Map) {x y x' y' : Nat} (hy : y < m.m_columns.toNat)
    (hy' : y' < m.m_columns.toNat)
    (h : m.nodePtr (x : Int) (y : Int) = m.nodePtr (x' : Int) (y' : Int)) : x = x' ∧ y = y' := by
  unfold Map.nodePtr Map.nodeIdx at h
  have hc : (m.m_columns.toNat : Int) = m.m_columns := Int.toNat_of_nonneg (by omega)
  rw [← hc] at h
  have e1 : ((x : Int) * (m.m_columns.toNat : Int) + (y : Int)) =
      ((x * m.m_columns.toNat + y : Nat) : Int) := by push_cast; rfl
  have e2 : ((x' : Int) * (m.m_columns.toNat : Int) + (y' : Int)) =
      ((x' * m.m_columns.toNat + y' : Nat) : Int) := by push_cast; rfl
  rw [e1, e2, Int.toNat_natCast, Int.toNat_natCast] at h
  have hpos : 0 < m.m_columns.toNat := by omega
  have hd := congrArg (fun t => t / m.m_columns.toNat) h
  have hm := congrArg (fun t => t % m.m_columns.toNat) h
  simp only at hd hm
  rw [Nat.add_comm, Nat.add_mul_div_right _ _ hpos, Nat.div_eq_of_lt hy, Nat.zero_add,
    Nat.add_comm, Nat.add_mul_div_right _ _ hpos, Nat.div_eq_of_lt hy', Nat.zero_add] at hd
  rw [Nat.add_comm, Nat.add_mul_mod_self_right, Nat.mod_eq_of_lt hy,
    Nat.add_comm, Nat.add_mul_mod_self_right, Nat.mod_eq_of_lt hy'] at hm
  exact ⟨hd, hm⟩

theorem Map.mem_calculateVisibleMap (env : Env) (m : Map) (topLeft bottomRight : Point) (i : Nat) :
    i ∈ m.calculateVisibleMap env topLeft bottomRight ↔
      ∃ x y : Nat, x < m.m_rows.toNat ∧ y < m.m_columns.toNat ∧ i = m.nodePtr (x : Int) (y : Int) ∧
        (topLeft.x + topLeft.y - 2 ≤ (x : Int) + (y : Int) ∧
          (x : Int) + (y : Int) ≤ bottomRight.x + bottomRight.y + 1) ∧
        (bottomRight.y - bottomRight.x - 1 - env.maxHeight ≤ (y : Int) - (x : Int) ∧
          (y : Int) - (x : Int) ≤ topLeft.y - topLeft.x + 1) := by
  rw [Map.calculateVisibleMap_eq]
  simp only [List.mem_flatMap, List.mem_reverse, List.mem_range, List.mem_map, List.mem_filter,
    Bool.and_eq_true, decide_eq_true_eq, ge_iff_le]
  constructor
  · rintro ⟨y, hy, x, ⟨hx, ⟨⟨⟨h1, h2⟩, h3⟩, h4⟩⟩, rfl⟩
    exact ⟨x, y, hx, hy, rfl, ⟨h1, h2⟩, h4, h3⟩
  · rintro ⟨x, y, hx, hy, rfl, ⟨h1, h2⟩, h4, h3⟩
    exact ⟨y, hy, x, ⟨hx, ⟨⟨⟨h1, h2⟩, h3⟩, h4⟩⟩, rfl⟩

theorem Map.calculateVisibleMap_nodup (env : Env) (m : Map) (topLeft bottomRight : Point) :
    (m.calculateVisibleMap env topLeft bottomRight).Nodup := by
  rw [Map.calculateVisibleMap_eq, List.nodup_flatMap]
  constructor
  · intro y hy
    rw [List.mem_reverse, List.mem_range] at hy
    apply List.Nodup.map_on
    · intro a _ b _ hab
      exact (m.nodePtr_inj hy hy hab).1
    · exact (List.nodup_range _).filter _
  · have hnd : (List.range m.m_columns.toNat).reverse.Nodup :=
      List.nodup_reverse.2 (List.nodup_range _)
    refine List.Pairwise.imp_of_mem ?_ hnd
    intro a b ha hb hab
    rw [List.mem_reverse, List.mem_range] at ha hb
    show List.Disjoint _ _
    intro i hi hi'
    rw [List.mem_map] at hi hi'
    obtain ⟨x, -, rfl⟩ := hi
    obtain ⟨x', -, hx'⟩ := hi'
    exact hab (m.nodePtr_inj hb ha hx').2.symm

theorem Map.calculateVisibleMap_sublist_scanOrder (env : Env) (m : Map)
    (topLeft bottomRight : Point) :
    (m.calculateVisibleMap env topLeft bottomRight).Sublist m.scanOrder := by
  rw [Map.calculateVisibleMap_eq]
  unfold Map.scanOrder
  apply flatMap_sublist_flatMap
  intro y
  exact (List.filter_sublist _).map _

theorem Map.length_scanOrder (m : Map) :
    m.scanOrder.length = m.m_columns.toNat * m.m_rows.toNat := by
  unfold Map.scanOrder
  rw [length_flatMap_map_range _ _ (fun (y x : Nat) => m.nodePtr (x : Int) (y : Int)),
    List.length_reverse, List.length_range]



/-! ## Zones after a height change -/

theorem Map.demolishZoneOf_cons (m : Map) (nb : NeighborNode) (rest : List NeighborNode) :
    m.demolishZoneOf (nb :: rest) =
      Map.demolishZoneOf
        (if (m.node nb.pNode).isLayerOccupied Layer.ZONE = true then
          m.setNode nb.pNode ((m.node nb.pNode).demolishLayer Layer.ZONE)
        else m) rest := by
  unfold Map.demolishZoneOf
  rw [List.foldl_cons]

theorem Map.zoneStep_unoccupied (m : Map) (j i : Nat)
    (h : (m.node i).isLayerOccupied Layer.ZONE = false ∨ i = j) :
    (Map.node (if (m.node j).isLayerOccupied Layer.ZONE = true then
        m.setNode j ((m.node j).demolishLayer Layer.ZONE)
      else m) i).isLayerOccupied Layer.ZONE = false := by
  by_cases hocc : (m.node j).isLayerOccupied Layer.ZONE = true
  · rw [if_pos hocc, Map.node_setNode]
    by_cases hij : i = j ∧ j < m.mapNodes.length
    · rw [if_pos hij]
      unfold MapNode.isLayerOccupied MapNode.demolishLayer
      simp
    · rw [if_neg hij]
      rcases h with h | h
      · exact h
      · subst h
        have hlen : ¬ i < m.mapNodes.length := fun hl => hij ⟨rfl, hl⟩
        unfold Map.node
        rw [List.getD_eq_default _ _ (Nat.le_of_not_lt hlen)]
        rfl
  · rw [if_neg hocc]
    rcases h with h | h
    · exact h
    · subst h; simpa using hocc

theorem Map.demolishZoneOf_keeps_unoccupied (nbs : List NeighborNode) :
    ∀ (m : Map) (i : Nat), (m.node i).isLayerOccupied Layer.ZONE = false →
      ((m.demolishZoneOf nbs).node i).isLayerOccupied Layer.ZONE = false := by
  induction nbs with
  | nil => intro m i h; exact h
  | cons nb rest ih =>
    intro m i h
    rw [Map.demolishZoneOf_cons]
    exact ih _ i (Map.zoneStep_unoccupied m nb.pNode i (Or.inl h))

/-- After the loop of `updateHeight` the ZONE layer of every listed node is unoccupied. -/
theorem Map.demolishZoneOf_unoccupied (nbs : List NeighborNode) :
    ∀ (m : Map), ∀ nb ∈ nbs,
      ((m.demolishZoneOf nbs).node nb.pNode).isLayerOccupied Layer.ZONE = false := by
  induction nbs with
  | nil => intro m nb h; exact absurd h (List.not_mem_nil _)
  | cons a rest ih =>
    intro m nb h
    rw [Map.demolishZoneOf_cons]
    rcases List.mem_cons.1 h with rfl | h
    · exact Map.demolishZoneOf_keeps_unoccupied rest _ _
        (Map.zoneStep_unoccupied m nb.pNode nb.pNode (Or.inr rfl))
    · exact ih _ nb h

theorem Map.updateHeight_fst_of_true (env : Env) (m : Map) (i : Nat) (higher : Bool)
    (nbs : List NeighborNode) (h : (m.updateHeight env i higher nbs).2 = true) :
    (m.updateHeight env i higher nbs).1 =
      (m.setNode i ((m.node i).changeHeight env.maxHeight higher).1).demolishZoneOf nbs := by
  rw [Map.updateHeight_snd] at h
  unfold Map.updateHeight
  rw [if_pos h]

theorem Map.updateHeight_zone_of_list (env : Env) (m : Map) (i : Nat) (higher : Bool)
    (nbs : List NeighborNode) (h : (m.updateHeight env i higher nbs).2 = true) :
    ∀ nb ∈ nbs,
      (((m.updateHeight env i higher nbs).1).node nb.pNode).isLayerOccupied Layer.ZONE = false := by
  intro nb hnb
  rw [Map.updateHeight_fst_of_true env m i higher nbs h]
  exact Map.demolishZoneOf_unoccupied nbs _ nb hnb

/-- The neighbour list with the centre included lists the node of an in-grid position. -/
theorem Map.center_mem_getNeighborNodes (m : Map) (p : Point)
    (hp : p.isWithinMapBoundaries m = true) :
    ∃ nb ∈ m.getNeighborNodes p true, nb.pNode = m.nodePtr p.x p.y := by
  unfold Map.getNeighborNodes
  refine ⟨_, List.mem_map.2 ⟨{ x := p.x, y := p.y, z := 0, height := 0 }, ?_, rfl⟩, rfl⟩
  rw [mem_getNeighbors]
  refine ⟨rfl, rfl, ?_, Or.inr (Or.inl (by simp)), Or.inr (Or.inl (by simp)), Or.inl rfl⟩
  rw [← hp]
  exact isWithinMapBoundaries_congr rfl rfl rfl rfl

/-! ## Demolition of a list of positions -/

theorem Map.collectNode_outside (env : Env) (m : Map) (acc : List Nat) (c : Point)
    (h : c.isWithinMapBoundaries m = false) : m.collectNode env acc c = acc := by
  unfold Map.collectNode
  rw [if_neg (by rw [h]; decide)]

theorem Map.nodesToDemolish_filter (env : Env) (m : Map) (coords : List Point) :
    m.nodesToDemolish env (coords.filter fun c => c.isWithinMapBoundaries m) =
      m.nodesToDemolish env coords := by
  unfold Map.nodesToDemolish
  generalize ([] : List Nat) = acc
  induction coords generalizing acc with
  | nil => rfl
  | cons c rest ih =>
    by_cases h : c.isWithinMapBoundaries m = true
    · rw [List.filter_cons_of_pos h, List.foldl_cons, List.foldl_cons]
      exact ih _
    · rw [List.filter_cons_of_neg h, List.foldl_cons,
        Map.collectNode_outside env m acc c (by simpa using h)]
      exact ih _

theorem setInsert_nodup (s : List Nat) (x : Nat) (h : s.Nodup) : (setInsert s x).Nodup := by
  unfold setInsert
  split
  · exact h
  · rename_i hx
    rw [List.nodup_append]
    refine ⟨h, List.nodup_singleton x, ?_⟩
    intro a ha hb
    rw [List.mem_singleton] at hb
    subst hb
    exact hx ha

theorem foldl_setInsert_nodup {α : Type} (f : α → Nat) (l : List α) :
    ∀ acc : List Nat, acc.Nodup → (l.foldl (fun a b => setInsert a (f b)) acc).Nodup := by
  induction l with
  | nil => intro acc h; exact h
  | cons b rest ih =>
    intro acc h
    rw [List.foldl_cons]
    exact ih _ (setInsert_nodup _ _ h)

theorem Map.collectNode_nodup (env : Env) (m : Map) (acc : List Nat) (c : Point)
    (h : acc.Nodup) : (m.collectNode env acc c).Nodup := by
  unfold Map.collectNode
  split
  · apply setInsert_nodup
    split
    · exact h
    · split
      · split
        · exact foldl_setInsert_nodup _ _ _ h
        · exact h
      · exact h
  · exact h

/-- The set of nodes to demolish holds every node once. -/
theorem Map.nodesToDemolish_nodup (env : Env) (m : Map) (coords : List Point) :
    (m.nodesToDemolish env coords).Nodup := by
  unfold Map.nodesToDemolish
  have : ∀ (l : List Point) (acc : List Nat), acc.Nodup →
      (l.foldl (m.collectNode env) acc).Nodup := by
    intro l
    induction l with
    | nil => intro acc h; exact h
    | cons c rest ih =>
      intro acc h
      rw [List.foldl_cons]
      exact ih _ (Map.collectNode_nodup env m acc c h)
  exact this coords [] List.nodup_nil

/-- The demolition loop emits one demolition signal per node, in the order of the set. -/
theorem Map.demolishAll_signals (nodes : List Nat) (layer : Layer) :
    ∀ m : Map, (m.demolishAll nodes layer).signals = m.signals ++ nodes.map Signal.demolish := by
  induction nodes with
  | nil => intro m; simp [Map.demolishAll]
  | cons x rest ih =>
    intro m
    have hstep : Map.demolishAll m (x :: rest) layer =
        Map.demolishAll
          { m.setNode x ((m.node x).demolishNode layer) with
            signals := m.signals ++ [Signal.demolish x] } rest layer := by
      unfold Map.demolishAll; rw [List.foldl_cons]
    rw [hstep, ih]
    simp

theorem Map.demolishNode_filter (env : Env) (fuel : Nat) (m : Map) (coords : List Point)
    (updateNeighboringTiles : Bool) (layer : Layer) :
    m.demolishNode env fuel (coords.filter fun c => c.isWithinMapBoundaries m)
        updateNeighboringTiles layer =
      m.demolishNode env fuel coords updateNeighboringTiles layer := by
  unfold Map.demolishNode
  rw [Map.nodesToDemolish_filter]

theorem Map.demolishNode_all_outside (env : Env) (fuel : Nat) (m : Map) (coords : List Point)
    (updateNeighboringTiles : Bool) (layer : Layer)
    (h : ∀ c ∈ coords, c.isWithinMapBoundaries m = false) :
    m.demolishNode env fuel coords updateNeighboringTiles layer = some m := by
  rw [← Map.demolishNode_filter]
  have : (coords.filter fun c => c.isWithinMapBoundaries m) = [] := by
    rw [List.filter_eq_nil_iff]
    intro c hc
    rw [h c hc]; decide
  rw [this]
  unfold Map.demolishNode Map.nodesToDemolish Map.demolishAll
  simp only [List.foldl_nil, Env.unorderedSetOrder_nil]
  cases updateNeighboringTiles <;> rfl

theorem Map.demolishNode_no_update (env : Env) (fuel : Nat) (m : Map) (coords : List Point)
    (layer : Layer) :
    m.demolishNode env fuel coords false layer =
      some (m.demolishAll (env.unorderedSetOrder (m.nodesToDemolish env coords)) layer) := by
  unfold Map.demolishNode
  rfl



/-! ## Propagation on a grid that needs no height change -/

theorem propagateAll_keeps (env : Env) (J : UpdateState → Prop)
    (hvalid : ∀ s, J s → s.Valid env)
    (hpush : ∀ s x, J s → x < s.map.mapNodes.length →
      J { s with nodesUpdatedHeight := s.nodesUpdatedHeight ++ [x] })
    (hheight : ∀ s N rest, J s → s.nodesUpdatedHeight = N :: rest →
      J (heightStep env { s with nodesUpdatedHeight := rest } N))
    (helev : ∀ s E rest, J s → s.nodesUpdatedHeight = [] → s.nodesToElevate = E :: rest →
      J (elevateStep env { s with nodesToElevate := rest } E)) :
    ∀ seeds s, J s → s.nodesUpdatedHeight = [] → (∀ x ∈ seeds, x < s.map.mapNodes.length) →
      ∃ fuel, ∀ fuel', fuel ≤ fuel' →
        ∃ s', propagateAll env fuel' seeds s = some s' ∧ J s' ∧ s'.nodesUpdatedHeight = [] := by
  intro seeds s hJ hQ hseeds
  have := propagateAll_induct env
    (fun seeds t => J t ∧ s.map.SameGrid t.map ∧ ∀ x ∈ seeds, x < s.map.mapNodes.length)
    (fun x xs t ht hQt => by
      obtain ⟨hJt, hgt, hxs⟩ := ht
      have hx : x < t.map.mapNodes.length := by
        rw [hgt.2.2.1]; exact hxs x (List.mem_cons_self _ _)
      obtain ⟨fuel, s', hp, hJ', hQ', -, hg'⟩ :=
        propagate_induct env J hvalid hheight helev _ (hpush t x hJt hx)
      exact ⟨fuel, s', hp,
        ⟨hJ', hgt.trans_sameGrid hg', fun y hy => hxs y (List.mem_cons_of_mem _ hy)⟩, hQ'⟩)
    seeds s ⟨hJ, Map.SameGrid.refl_sameGrid _, hseeds⟩ hQ
  obtain ⟨fuel, hf⟩ := this
  refine ⟨fuel, fun fuel' hle => ?_⟩
  obtain ⟨s', hs', hI, hQ'⟩ := hf fuel' hle
  exact ⟨s', hs', hI.1, hQ'⟩

theorem neighbourFold_quiet (env : Env) (k : Int) :
    ∀ (l : List NeighborNode) (t : UpdateState),
      (∀ nb ∈ l, (k - (t.map.node nb.pNode).height).natAbs ≤ 1) →
      (l.foldl (neighbourStep env k) t).map = t.map ∧
      (l.foldl (neighbourStep env k) t).nodesUpdatedHeight = t.nodesUpdatedHeight ∧
      (l.foldl (neighbourStep env k) t).nodesToDemolish = t.nodesToDemolish := by
  intro l
  induction l with
  | nil => intro t _; exact ⟨rfl, rfl, rfl⟩
  | cons nb rest ih =>
    intro t h
    rw [List.foldl_cons]
    obtain ⟨-, -, hD, hcase⟩ := neighbourStep_spec env k t nb
    have hnb := h nb (List.mem_cons_self _ _)
    rcases hcase with ⟨-, hm, hq⟩ | ⟨hgt, -, -⟩
    · obtain ⟨h1, h2, h3⟩ := ih (neighbourStep env k t nb)
        (fun x hx => by rw [hm]; exact h x (List.mem_cons_of_mem _ hx))
      exact ⟨h1.trans hm, h2.trans hq, h3.trans hD⟩
    · omega

/-- On a grid with height continuity the height phase changes neither the map nor the
queue. -/
theorem heightStep_quiet (env : Env) (s : UpdateState) (N : Nat) (hi1 : s.map.I1Idx)
    (hN : N < s.map.mapNodes.length) :
    (heightStep env s N).map = s.map ∧
    (heightStep env s N).nodesUpdatedHeight = s.nodesUpdatedHeight ∧
    (heightStep env s N).nodesToDemolish = s.nodesToDemolish := by
  rw [heightStep_eq]
  exact neighbourFold_quiet env _ _ { s with nodesToElevate := pushIfAbsent s.nodesToElevate N }
    (fun nb hnb => hi1 N hN nb.pNode (List.mem_map.2 ⟨nb, hnb, rfl⟩))

/-- A candidate that is not pinched and stores its elevation bitmask is only recorded as
visited. -/
theorem elevateStep_of_stored (env : Env) (s : UpdateState) (E : Nat)
    (h1 : (s.map.node E).m_elevationBitmask =
      s.map.getElevatedNeighborBitmask (s.map.node E).m_isoCoordinates)
    (h2 : mustElevate (s.map.getElevatedNeighborBitmask (s.map.node E).m_isoCoordinates) = false) :
    elevateStep env s E = { s with nodesToBeUpdated := setInsert s.nodesToBeUpdated E } := by
  unfold mustElevate at h2
  unfold elevateStep
  dsimp only
  rw [if_neg (by rw [h2]; decide), if_neg (by rw [h1]; exact fun h => h rfl)]

theorem Map.SameHeights.i1Idx_sameHeights {m m' : Map} (h : m.SameHeights m') (hi : m.I1Idx) :
    m'.I1Idx := by
  intro i hlt j hj
  rw [h.1.neighbourIdx] at hj
  rw [h.2 i, h.2 j]
  exact hi i (by rw [← h.1.2.2.1]; exact hlt) j hj

theorem Map.SameHeights.noPinchedNode_sameHeights {m m' : Map} (h : m.SameHeights m')
    (hp : m.NoPinchedNode) : m'.NoPinchedNode := by
  intro i hlt
  rw [h.getElevated i]
  exact hp i (by rw [← h.1.2.2.1]; exact hlt)

theorem Map.SameHeights.trans_sameHeights {a b c : Map} (h1 : a.SameHeights b)
    (h2 : b.SameHeights c) : a.SameHeights c :=
  ⟨h1.1.trans_sameGrid h2.1, fun i => (h2.2 i).trans (h1.2 i)⟩

theorem Map.SameCore.sameHeights_sameCore {a b : Map} (h : a.SameCore b) : a.SameHeights b :=
  ⟨h.sameGrid_sameCore, h.height_sameCore⟩

/-- On a well-formed grid with height continuity and without pinched nodes
`updateNodeNeighbors` returns and changes no height. -/
theorem Map.updateNodeNeighbors_heights (env : Env) (m : Map) (seeds : List Nat)
    (hwf : m.WF) (hr : m.HeightsInRange env) (hi1 : m.I1Idx) (hnp : m.NoPinchedNode)
    (hseeds : ∀ x ∈ seeds, x < m.mapNodes.length) :
    ∃ fuel, ∀ fuel', fuel ≤ fuel' →
      ∃ m', m.updateNodeNeighbors env fuel' seeds = some m' ∧ m.SameHeights m' := by
  obtain ⟨fuel, hf⟩ := propagateAll_keeps env (fun t => t.Valid env ∧ m.SameHeights t.map)
    (fun _ h => h.1)
    (fun t x h hx => ⟨h.1.pushQueue hx, h.2⟩)
    (fun t N rest h hq => by
      have hvu : UpdateState.Valid env { t with nodesUpdatedHeight := rest } :=
        ⟨h.1.1, h.1.2.1, fun i hi => h.1.2.2.1 i (by rw [hq]; exact List.mem_cons_of_mem _ hi),
          h.1.2.2.2⟩
      have hN : N < t.map.mapNodes.length := h.1.2.2.1 N (by rw [hq]; exact List.mem_cons_self _ _)
      refine ⟨(hvu.heightStep_valid hN).1, ?_⟩
      rw [(heightStep_quiet env { t with nodesUpdatedHeight := rest } N
        (h.2.i1Idx_sameHeights hi1) hN).1]
      exact h.2)
    (fun t E rest h _ hst => by
      have hvu : UpdateState.Valid env { t with nodesToElevate := rest } :=
        ⟨h.1.1, h.1.2.1, h.1.2.2.1,
          fun i hi => h.1.2.2.2 i (by rw [hst]; exact List.mem_cons_of_mem _ hi)⟩
      have hE : E < t.map.mapNodes.length := h.1.2.2.2 E (by rw [hst]; exact List.mem_cons_self _ _)
      refine ⟨(hvu.elevateStep_valid hE).1, ?_⟩
      obtain ⟨-, -, hcase⟩ := elevateStep_spec env { t with nodesToElevate := rest } E
      obtain ⟨hg, hh, -⟩ := Map.storeElevation_spec t.map E
      rcases hcase with ⟨-, hm, -⟩ | ⟨hc, -, -⟩
      · rw [hm]
        exact h.2.trans_sameHeights ⟨hg, hh⟩
      · have := h.2.noPinchedNode_sameHeights hnp E hE
        rw [this] at hc
        exact absurd hc (by decide))
    seeds
    { map := m, nodesUpdatedHeight := [], nodesToElevate := [], nodesToBeUpdated := [],
      nodesToDemolish := [] }
    ⟨⟨hwf, hr, fun _ h => absurd h (List.not_mem_nil _), fun _ h => absurd h (List.not_mem_nil _)⟩,
      Map.SameHeights.refl_sameHeights m⟩
    rfl hseeds
  refine ⟨fuel, fun fuel' hle => ?_⟩
  obtain ⟨s', hs', hJ, -⟩ := hf fuel' hle
  refine ⟨finishUpdate env s', ?_, hJ.2.trans_sameHeights (finishUpdate_sameCore env s').sameHeights_sameCore⟩
  unfold Map.updateNodeNeighbors Map.updateNodeNeighborsState
  rw [hs']; rfl

/-- On a settled grid `updateNodeNeighbors` returns the grid with the auto-tile bitmasks of
the visited nodes recomputed: no height, tile, elevation bitmask or signal changes. -/
theorem Map.updateNodeNeighbors_settled (env : Env) (m : Map) (seeds : List Nat)
    (hwf : m.WF) (hs : m.Settled env) (hseeds : ∀ x ∈ seeds, x < m.mapNodes.length) :
    ∃ fuel, ∀ fuel', fuel ≤ fuel' →
      ∃ visited, m.updateNodeNeighbors env fuel' seeds = some (m.autotilePass env visited) := by
  obtain ⟨hr, hi1, hst, hnp⟩ := hs
  obtain ⟨fuel, hf⟩ := propagateAll_keeps env
    (fun t => t.Valid env ∧ t.map = m ∧ t.nodesToDemolish = [])
    (fun _ h => h.1)
    (fun t x h hx => ⟨h.1.pushQueue hx, h.2.1, h.2.2⟩)
    (fun t N rest h hq => by
      have hvu : UpdateState.Valid env { t with nodesUpdatedHeight := rest } :=
        ⟨h.1.1, h.1.2.1, fun i hi => h.1.2.2.1 i (by rw [hq]; exact List.mem_cons_of_mem _ hi),
          h.1.2.2.2⟩
      have hN : N < t.map.mapNodes.length := h.1.2.2.1 N (by rw [hq]; exact List.mem_cons_self _ _)
      obtain ⟨e1, -, e3⟩ := heightStep_quiet env { t with nodesUpdatedHeight := rest } N
        (by show t.map.I1Idx; rw [h.2.1]; exact hi1) hN
      exact ⟨(hvu.heightStep_valid hN).1, e1.trans h.2.1, e3.trans h.2.2⟩)
    (fun t E rest h _ hstk => by
      have hvu : UpdateState.Valid env { t with nodesToElevate := rest } :=
        ⟨h.1.1, h.1.2.1, h.1.2.2.1,
          fun i hi => h.1.2.2.2 i (by rw [hstk]; exact List.mem_cons_of_mem _ hi)⟩
      have hE : E < t.map.mapNodes.length := h.1.2.2.2 E (by rw [hstk]; exact List.mem_cons_self _ _)
      have hEm : E < m.mapNodes.length := by rw [← h.2.1]; exact hE
      have e := elevateStep_of_stored env { t with nodesToElevate := rest } E
        (by show (t.map.node E).m_elevationBitmask = _; rw [h.2.1]; exact hst E hEm)
        (by show mustElevate (t.map.getElevatedNeighborBitmask _) = false
            rw [h.2.1]; exact hnp E hEm)
      refine ⟨(hvu.elevateStep_valid hE).1, ?_, ?_⟩
      · rw [e]; exact h.2.1
      · rw [e]; exact h.2.2)
    seeds
    { map := m, nodesUpdatedHeight := [], nodesToElevate := [], nodesToBeUpdated := [],
      nodesToDemolish := [] }
    ⟨⟨hwf, hr, fun _ h => absurd h (List.not_mem_nil _), fun _ h => absurd h (List.not_mem_nil _)⟩,
      rfl, rfl⟩
    rfl hseeds
  refine ⟨fuel, fun fuel' hle => ?_⟩
  obtain ⟨s', hs', hJ, -⟩ := hf fuel' hle
  refine ⟨env.unorderedSetOrder s'.nodesToBeUpdated, ?_⟩
  unfold Map.updateNodeNeighbors Map.updateNodeNeighborsState
  rw [hs']
  show some (finishUpdate env s') = _
  unfold finishUpdate
  rw [hJ.2.2, hJ.2.1]
  rfl

theorem Map.autotilePass_signals (env : Env) (nodes : List Nat) :
    ∀ m : Map, (m.autotilePass env nodes).signals = m.signals := by
  induction nodes with
  | nil => intro m; rfl
  | cons x rest ih =>
    intro m
    rw [Map.autotilePass_cons, ih]
    rfl

/-- Demolition leaves every height unchanged on a well-formed grid with height continuity
and without pinched nodes. -/
theorem Map.demolishNode_heights (env : Env) (m : Map) (coords : List Point)
    (updateNeighboringTiles : Bool) (layer : Layer) (hwf : m.WF) (hr : m.HeightsInRange env)
    (hi1 : m.I1Idx) (hnp : m.NoPinchedNode) :
    ∃ fuel, ∀ fuel', fuel ≤ fuel' →
      ∃ m', m.demolishNode env fuel' coords updateNeighboringTiles layer = some m' ∧
        m.SameHeights m' := by
  have hd := (Map.demolishAll_sameButData (env.unorderedSetOrder (m.nodesToDemolish env coords))
    layer m).sameCore
  have hsh := hd.sameHeights_sameCore
  have hlt : ∀ x ∈ env.unorderedSetOrder (m.nodesToDemolish env coords),
      x < m.mapNodes.length :=
    fun x hx => hwf.nodesToDemolish_lt env coords x ((env.mem_unorderedSetOrder _ _).1 hx)
  unfold Map.demolishNode
  dsimp only
  by_cases hup : (if updateNeighboringTiles = true then
      env.unorderedSetOrder (m.nodesToDemolish env coords) else []).isEmpty = true
  · exact ⟨0, fun fuel' _ => ⟨_, by rw [if_pos hup], hsh⟩⟩
  · obtain ⟨fuel, hf⟩ := Map.updateNodeNeighbors_heights env
      (m.demolishAll (env.unorderedSetOrder (m.nodesToDemolish env coords)) layer)
      (if updateNeighboringTiles = true then env.unorderedSetOrder (m.nodesToDemolish env coords)
        else [])
      (hd.wf_sameCore hwf) (hd.heightsInRange hr) (hsh.i1Idx_sameHeights hi1)
      (hsh.noPinchedNode_sameHeights hnp)
      (fun x hx => by
        rw [hd.2.2.1]
        split at hx
        · exact hlt x hx
        · exact absurd hx (List.not_mem_nil _))
    refine ⟨fuel, fun fuel' hle => ?_⟩
    obtain ⟨m', hm', hh⟩ := hf fuel' hle
    exact ⟨m', by rw [if_neg hup]; exact hm', hsh.trans_sameHeights hh⟩



/-! ## Render flags, origin corner points and the signal log through propagation -/

theorem Map.flagsKept_refl (m : Map) : m.FlagsKept m :=
  ⟨fun _ _ => ⟨rfl, rfl⟩, [], by simp⟩

theorem Map.flagsKept_trans {a b c : Map} (h1 : a.FlagsKept b) (h2 : b.FlagsKept c) :
    a.FlagsKept c := by
  obtain ⟨f1, l1, e1⟩ := h1
  obtain ⟨f2, l2, e2⟩ := h2
  refine ⟨fun i layer => ⟨(f2 i layer).1.trans (f1 i layer).1, (f2 i layer).2.trans (f1 i layer).2⟩,
    l1 ++ l2, ?_⟩
  rw [e2, e1, List.map_append, List.append_assoc]

theorem Map.flagsKept_of_data {m m' : Map}
    (h : ∀ i, (m'.node i).m_mapNodeData = (m.node i).m_mapNodeData)
    (hs : m'.signals = m.signals) : m.FlagsKept m' :=
  ⟨fun i layer => by rw [h i]; exact ⟨rfl, rfl⟩, [], by simp [hs]⟩

theorem Map.flagsKept_setNode (m : Map) (i : Nat) (n : MapNode)
    (h : ∀ layer, (n.m_mapNodeData layer).shouldRender =
        ((m.node i).m_mapNodeData layer).shouldRender ∧
      (n.m_mapNodeData layer).origCornerPoint = ((m.node i).m_mapNodeData layer).origCornerPoint) :
    m.FlagsKept (m.setNode i n) := by
  refine ⟨fun j layer => ?_, [], by simp [Map.setNode]⟩
  rw [Map.node_setNode]
  split
  · rename_i hji; rw [hji.1]; exact h layer
  · exact ⟨rfl, rfl⟩

theorem MapNode.demolishLayer_flags (n : MapNode) (layer l : Layer) :
    ((n.demolishLayer layer).m_mapNodeData l).shouldRender = (n.m_mapNodeData l).shouldRender ∧
    ((n.demolishLayer layer).m_mapNodeData l).origCornerPoint =
      (n.m_mapNodeData l).origCornerPoint := by
  unfold MapNode.demolishLayer
  dsimp only
  split
  · exact ⟨rfl, rfl⟩
  · exact ⟨rfl, rfl⟩

theorem MapNode.demolishNode_flags (n : MapNode) (layer l : Layer) :
    ((n.demolishNode layer).m_mapNodeData l).shouldRender = (n.m_mapNodeData l).shouldRender ∧
    ((n.demolishNode layer).m_mapNodeData l).origCornerPoint =
      (n.m_mapNodeData l).origCornerPoint := by
  unfold MapNode.demolishNode
  split
  · exact ⟨rfl, rfl⟩
  · exact n.demolishLayer_flags layer l

theorem Map.demolishZoneOf_flagsKept (nbs : List NeighborNode) (m : Map) :
    m.FlagsKept (m.demolishZoneOf nbs) := by
  unfold Map.demolishZoneOf
  induction nbs generalizing m with
  | nil => exact Map.flagsKept_refl m
  | cons nb rest ih =>
    simp only [List.foldl_cons]
    refine Map.flagsKept_trans ?_ (ih _)
    split
    · exact Map.flagsKept_setNode m _ _ fun l => MapNode.demolishLayer_flags _ _ l
    · exact Map.flagsKept_refl m

theorem Map.updateHeight_flagsKept (env : Env) (m : Map) (i : Nat) (higher : Bool)
    (nbs : List NeighborNode) : m.FlagsKept (m.updateHeight env i higher nbs).1 := by
  unfold Map.updateHeight
  split
  · refine Map.flagsKept_trans ?_ (Map.demolishZoneOf_flagsKept nbs _)
    apply Map.flagsKept_setNode
    intro l
    rw [(MapNode.changeHeight_fields env.maxHeight (m.node i) higher).2.2.2.1]
    exact ⟨rfl, rfl⟩
  · exact Map.flagsKept_refl m

theorem Map.storeElevation_flagsKept (m : Map) (E : Nat) : m.FlagsKept (m.storeElevation E) :=
  Map.flagsKept_of_data (Map.storeElevation_spec m E).2.2.2.1
    (Map.storeElevation_spec m E).2.2.2.2.2.2

theorem neighbourStep_flagsKept (env : Env) (k : Int) (s : UpdateState) (nb : NeighborNode) :
    s.map.FlagsKept (neighbourStep env k s nb).map := by
  obtain ⟨-, -, -, hcase⟩ := neighbourStep_spec env k s nb
  rcases hcase with ⟨-, hm, -⟩ | ⟨-, hm, -⟩
  · rw [hm]; exact Map.flagsKept_refl _
  · rw [hm]; exact Map.updateHeight_flagsKept _ _ _ _ _

theorem heightStep_flagsKept (env : Env) (s : UpdateState) (N : Nat) :
    s.map.FlagsKept (heightStep env s N).map := by
  rw [heightStep_eq]
  generalize s.map.getNeighborNodes (s.map.node N).m_isoCoordinates false = l
  have : ∀ (l : List NeighborNode) (t : UpdateState),
      t.map.FlagsKept (l.foldl (neighbourStep env (s.map.node N).height) t).map := by
    intro l
    induction l with
    | nil => intro t; exact Map.flagsKept_refl _
    | cons nb rest ih =>
      intro t
      rw [List.foldl_cons]
      exact Map.flagsKept_trans (neighbourStep_flagsKept env _ t nb) (ih _)
  exact this l { s with nodesToElevate := pushIfAbsent s.nodesToElevate N }

theorem elevateStep_flagsKept (env : Env) (s : UpdateState) (E : Nat) :
    s.map.FlagsKept (elevateStep env s E).map := by
  obtain ⟨-, -, hcase⟩ := elevateStep_spec env s E
  rcases hcase with ⟨-, hm, -⟩ | ⟨-, hm, -⟩
  · rw [hm]; exact Map.storeElevation_flagsKept _ _
  · rw [hm]
    exact Map.flagsKept_trans (Map.storeElevation_flagsKept _ _)
      (Map.updateHeight_flagsKept _ _ _ _ _)

theorem propagate_flagsKept (env : Env) :
    ∀ (fuel : Nat) (s s' : UpdateState), propagate env fuel s = some s' →
      s.map.FlagsKept s'.map := by
  intro fuel
  induction fuel with
  | zero => intro s s' h; simp [propagate] at h
  | succ n ih =>
    intro s s' h
    unfold propagate at h
    split at h
    · rename_i N rest _
      have h1 := heightStep_flagsKept env { s with nodesUpdatedHeight := rest } N
      exact Map.flagsKept_trans h1 (ih _ _ h)
    · split at h
      · rename_i E rest _
        have h1 := elevateStep_flagsKept env { s with nodesToElevate := rest } E
        exact Map.flagsKept_trans h1 (ih _ _ h)
      · rw [Option.some.injEq] at h; subst h; exact Map.flagsKept_refl _

theorem propagateAll_flagsKept (env : Env) (fuel : Nat) :
    ∀ (seeds : List Nat) (s s' : UpdateState), propagateAll env fuel seeds s = some s' →
      s.map.FlagsKept s'.map := by
  intro seeds
  induction seeds with
  | nil =>
    intro s s' h
    simp only [propagateAll, Option.some.injEq] at h
    subst h; exact Map.flagsKept_refl _
  | cons x xs ih =>
    intro s s' h
    unfold propagateAll at h
    split at h
    · exact absurd h (by simp)
    · rename_i s1 hs1
      have h1 := propagate_flagsKept env fuel _ _ hs1
      exact Map.flagsKept_trans h1 (ih _ _ h)

theorem Map.demolishAll_flagsKept (nodes : List Nat) (layer : Layer) (m : Map) :
    m.FlagsKept (m.demolishAll nodes layer) := by
  refine ⟨?_, nodes, Map.demolishAll_signals nodes layer m⟩
  unfold Map.demolishAll
  induction nodes generalizing m with
  | nil => exact fun _ _ => ⟨rfl, rfl⟩
  | cons x rest ih =>
    simp only [List.foldl_cons]
    intro i l
    have h1 := (Map.flagsKept_setNode m x ((m.node x).demolishNode layer)
      fun l => MapNode.demolishNode_flags _ _ l).1 i l
    have h2 := ih { m.setNode x ((m.node x).demolishNode layer) with
      signals := m.signals ++ [Signal.demolish x] } i l
    exact ⟨h2.1.trans h1.1, h2.2.trans h1.2⟩

theorem Map.autotilePass_flagsKept (env : Env) (nodes : List Nat) (m : Map) :
    m.FlagsKept (m.autotilePass env nodes) :=
  Map.flagsKept_of_data (Map.autotilePass_spec env nodes m).2.1
    (Map.autotilePass_signals env nodes m)

theorem finishUpdate_flagsKept (env : Env) (s : UpdateState) :
    s.map.FlagsKept (finishUpdate env s) := by
  unfold finishUpdate
  refine Map.flagsKept_trans ?_ (Map.autotilePass_flagsKept env _ _)
  split
  · exact Map.flagsKept_refl _
  · exact Map.demolishAll_flagsKept _ _ _

/-- `updateNodeNeighbors` changes no render flag and no origin corner point, and the only
signals it emits are demolition signals. -/
theorem Map.updateNodeNeighbors_flagsKept (env : Env) (fuel : Nat) (m m' : Map)
    (seeds : List Nat) (h : m.updateNodeNeighbors env fuel seeds = some m') :
    m.FlagsKept m' := by
  unfold Map.updateNodeNeighbors Map.updateNodeNeighborsState at h
  rw [Option.map_eq_some'] at h
  obtain ⟨s, hs, hf⟩ := h
  rw [← hf]
  have h1 := propagateAll_flagsKept env fuel _ _ _ hs
  exact Map.flagsKept_trans h1 (finishUpdate_flagsKept env s)



/-! ## The placement loop of `setTileID` -/

theorem placeStep_snd (env : Env) (tileID : String) (coordinate : Point)
    (targetCoordinates : List Point) (layer : Layer) (deco : String) (acc : Map × List Nat)
    (coord : Point) :
    (placeStep env tileID coordinate targetCoordinates layer deco acc coord).2 =
      if env.tileManager.isTileIDAutoTile tileID = true then
        acc.2 ++ [acc.1.nodePtr coord.x coord.y]
      else acc.2 := rfl

theorem placeStep_fst_raw (env : Env) (tileID : String) (coordinate : Point)
    (targetCoordinates : List Point) (layer : Layer) (deco : String) (acc : Map × List Nat)
    (coord : Point) :
    (placeStep env tileID coordinate targetCoordinates layer deco acc coord).1 =
      if ((placedNode env tileID coordinate targetCoordinates layer deco
            (acc.1.node (acc.1.nodePtr coord.x coord.y)) coord).m_mapNodeData
              Layer.BUILDINGS).tileData.isSome &&
          ((placedNode env tileID coordinate targetCoordinates layer deco
            (acc.1.node (acc.1.nodePtr coord.x coord.y)) coord).m_mapNodeData
              Layer.ZONE).tileData.isSome then
        { acc.1.setNode (acc.1.nodePtr coord.x coord.y)
            (placedNode env tileID coordinate targetCoordinates layer deco
              (acc.1.node (acc.1.nodePtr coord.x coord.y)) coord) with
          signals := (acc.1.setNode (acc.1.nodePtr coord.x coord.y)
            (placedNode env tileID coordinate targetCoordinates layer deco
              (acc.1.node (acc.1.nodePtr coord.x coord.y)) coord)).signals ++
            [Signal.placeBuilding (acc.1.nodePtr coord.x coord.y)] }
      else if ((placedNode env tileID coordinate targetCoordinates layer deco
            (acc.1.node (acc.1.nodePtr coord.x coord.y)) coord).m_mapNodeData
              Layer.ZONE).tileData.isSome then
        { acc.1.setNode (acc.1.nodePtr coord.x coord.y)
            (placedNode env tileID coordinate targetCoordinates layer deco
              (acc.1.node (acc.1.nodePtr coord.x coord.y)) coord) with
          signals := (acc.1.setNode (acc.1.nodePtr coord.x coord.y)
            (placedNode env tileID coordinate targetCoordinates layer deco
              (acc.1.node (acc.1.nodePtr coord.x coord.y)) coord)).signals ++
            [Signal.placeZone (acc.1.nodePtr coord.x coord.y)] }
      else
        acc.1.setNode (acc.1.nodePtr coord.x coord.y)
          (placedNode env tileID coordinate targetCoordinates layer deco
            (acc.1.node (acc.1.nodePtr coord.x coord.y)) coord) := rfl

theorem placeStep_fst (env : Env) (tileID : String) (coordinate : Point)
    (targetCoordinates : List Point) (layer : Layer) (deco : String) (acc : Map × List Nat)
    (coord : Point) :
    (placeStep env tileID coordinate targetCoordinates layer deco acc coord).1 =
      { acc.1.setNode (acc.1.nodePtr coord.x coord.y)
          (placedNode env tileID coordinate targetCoordinates layer deco
            (acc.1.node (acc.1.nodePtr coord.x coord.y)) coord) with
        signals := acc.1.signals ++
          (placementSignal (placedNode env tileID coordinate targetCoordinates layer deco
            (acc.1.node (acc.1.nodePtr coord.x coord.y)) coord)
            (acc.1.nodePtr coord.x coord.y)).toList } := by
  rw [placeStep_fst_raw]
  unfold placementSignal
  generalize placedNode env tileID coordinate targetCoordinates layer deco
    (acc.1.node (acc.1.nodePtr coord.x coord.y)) coord = n3
  split
  · simp [Map.setNode]
  · split
    · simp [Map.setNode]
    · simp [Map.setNode]

theorem placeStep_node (env : Env) (tileID : String) (coordinate : Point)
    (targetCoordinates : List Point) (layer : Layer) (deco : String) (acc : Map × List Nat)
    (coord : Point) (j : Nat) :
    (placeStep env tileID coordinate targetCoordinates layer deco acc coord).1.node j =
      if j = acc.1.nodePtr coord.x coord.y ∧ acc.1.nodePtr coord.x coord.y < acc.1.mapNodes.length
      then placedNode env tileID coordinate targetCoordinates layer deco
        (acc.1.node (acc.1.nodePtr coord.x coord.y)) coord
      else acc.1.node j := by
  rw [placeStep_fst]
  exact Map.node_setNode acc.1 _ j _

theorem placeStep_grid (env : Env) (tileID : String) (coordinate : Point)
    (targetCoordinates : List Point) (layer : Layer) (deco : String) (acc : Map × List Nat)
    (coord : Point) :
    (placeStep env tileID coordinate targetCoordinates layer deco acc coord).1.m_columns =
      acc.1.m_columns ∧
    (placeStep env tileID coordinate targetCoordinates layer deco acc coord).1.m_rows =
      acc.1.m_rows ∧
    (placeStep env tileID coordinate targetCoordinates layer deco acc coord).1.mapNodes.length =
      acc.1.mapNodes.length ∧
    (placeStep env tileID coordinate targetCoordinates layer deco acc coord).1.signals =
      acc.1.signals ++
        (placementSignal (placedNode env tileID coordinate targetCoordinates layer deco
          (acc.1.node (acc.1.nodePtr coord.x coord.y)) coord)
          (acc.1.nodePtr coord.x coord.y)).toList := by
  rw [placeStep_fst]
  exact ⟨rfl, rfl, Map.length_setNode _ _ _, rfl⟩

theorem nodePtr_of_columns {m m' : Map} (h : m'.m_columns = m.m_columns) (x y : Int) :
    m'.nodePtr x y = m.nodePtr x y := by
  unfold Map.nodePtr Map.nodeIdx; rw [h]

/-- The placement loop writes every target cell once, leaves the other nodes alone, emits
the placement signal of each written cell in order, and queues the cells of an auto-tiling
tile. -/
theorem placeFold_spec (env : Env) (tileID : String) (coordinate : Point)
    (targetCoordinates : List Point) (layer : Layer) (deco : String) :
    ∀ (l : List Point) (acc r : Map × List Nat),
      r = l.foldl (placeStep env tileID coordinate targetCoordinates layer deco) acc →
      (l.map fun c => acc.1.nodePtr c.x c.y).Nodup →
      (∀ c ∈ l, acc.1.nodePtr c.x c.y < acc.1.mapNodes.length) →
      r.1.m_columns = acc.1.m_columns ∧ r.1.m_rows = acc.1.m_rows ∧
      r.1.mapNodes.length = acc.1.mapNodes.length ∧
      (∀ c ∈ l, r.1.node (acc.1.nodePtr c.x c.y) =
        placedNode env tileID coordinate targetCoordinates layer deco
          (acc.1.node (acc.1.nodePtr c.x c.y)) c) ∧
      (∀ i, i ∉ l.map (fun c => acc.1.nodePtr c.x c.y) → r.1.node i = acc.1.node i) ∧
      r.1.signals = acc.1.signals ++ l.filterMap (fun c =>
        placementSignal (placedNode env tileID coordinate targetCoordinates layer deco
          (acc.1.node (acc.1.nodePtr c.x c.y)) c) (acc.1.nodePtr c.x c.y)) ∧
      r.2 = acc.2 ++ (if env.tileManager.isTileIDAutoTile tileID = true then
        l.map (fun c => acc.1.nodePtr c.x c.y) else []) := by
  intro l
  induction l with
  | nil =>
    intro acc r hr _ _
    subst hr
    refine ⟨rfl, rfl, rfl, fun c hc => absurd hc (List.not_mem_nil _), fun _ _ => rfl, ?_, ?_⟩
    · simp
    · simp
  | cons c rest ih =>
    intro acc r hr hnd hlt
    rw [List.foldl_cons] at hr
    obtain ⟨gc, gr, gl, gs⟩ :=
      placeStep_grid env tileID coordinate targetCoordinates layer deco acc c
    have hptr : ∀ x y, (placeStep env tileID coordinate targetCoordinates layer deco acc c).1.nodePtr
        x y = acc.1.nodePtr x y := nodePtr_of_columns gc
    rw [List.map_cons, List.nodup_cons] at hnd
    have hpc := hlt c (List.mem_cons_self _ _)
    have hmapeq : (rest.map fun c' =>
        (placeStep env tileID coordinate targetCoordinates layer deco acc c).1.nodePtr c'.x c'.y) =
        rest.map fun c' => acc.1.nodePtr c'.x c'.y := by
      apply List.map_congr_left
      intro c' _
      exact hptr _ _
    obtain ⟨hc', hr', hl', hw, ho, hsig, h2⟩ := ih _ r hr (by rw [hmapeq]; exact hnd.2)
      (fun c' hc' => by rw [hptr, gl]; exact hlt c' (List.mem_cons_of_mem _ hc'))
    have hother : ∀ c' ∈ rest,
        (placeStep env tileID coordinate targetCoordinates layer deco acc c).1.node
          (acc.1.nodePtr c'.x c'.y) = acc.1.node (acc.1.nodePtr c'.x c'.y) := by
      intro c' hc'
      rw [placeStep_node, if_neg]
      intro hcon
      exact hnd.1 (hcon.1 ▸ List.mem_map.2 ⟨c', hc', rfl⟩)
    refine ⟨hc'.trans gc, hr'.trans gr, hl'.trans gl, ?_, ?_, ?_, ?_⟩
    · intro c' hmem
      rcases List.mem_cons.1 hmem with rfl | hmem
      · rw [ho _ (by rw [hmapeq]; exact hnd.1), placeStep_node, if_pos ⟨rfl, hpc⟩]
      · have := hw c' hmem
        rw [hptr, hother c' hmem] at this
        exact this
    · intro i hi
      rw [List.map_cons, List.mem_cons, not_or] at hi
      rw [ho i (by rw [hmapeq]; exact hi.2), placeStep_node, if_neg (fun h => hi.1 h.1)]
    · rw [hsig, gs, List.filterMap_cons, List.append_assoc]
      congr 1
      have hfm : (rest.filterMap fun c' =>
          placementSignal (placedNode env tileID coordinate targetCoordinates layer deco
            ((placeStep env tileID coordinate targetCoordinates layer deco acc c).1.node
              ((placeStep env tileID coordinate targetCoordinates layer deco acc c).1.nodePtr
                c'.x c'.y)) c')
            ((placeStep env tileID coordinate targetCoordinates layer deco acc c).1.nodePtr
              c'.x c'.y)) =
          rest.filterMap fun c' =>
            placementSignal (placedNode env tileID coordinate targetCoordinates layer deco
              (acc.1.node (acc.1.nodePtr c'.x c'.y)) c') (acc.1.nodePtr c'.x c'.y) := by
        apply List.filterMap_congr
        intro c' hc'
        rw [hptr, hother c' hc']
      rw [hfm]
      cases placementSignal (placedNode env tileID coordinate targetCoordinates layer deco
        (acc.1.node (acc.1.nodePtr c.x c.y)) c) (acc.1.nodePtr c.x c.y) <;> rfl
    · rw [h2, placeStep_snd, hmapeq]
      split
      · simp
      · simp



/-! ## The target cells of a placement -/

theorem map_natCast_range {α : Type} (n : Nat) (f : Int → α) :
    List.map f (do let a ← List.range n; pure (a : Int)) =
      (List.range n).map fun (j : Nat) => f (j : Int) := by
  show List.map f ((List.range n).flatMap fun a => [(a : Int)]) = _
  induction (List.range n) with
  | nil => rfl
  | cons a l ih => simp_all

theorem getTargetCoords_eq (env : Env) (m : Map) (o : Point) (tileID : String) :
    getTargetCoordsOfTileID env m o tileID = [] ∨
      ∃ td, env.tileManager.getTileData tileID = some td ∧
        getTargetCoordsOfTileID env m o tileID =
          (List.range td.RequiredTiles.width).flatMap fun (i : Nat) =>
            (List.range td.RequiredTiles.height).map fun (j : Nat) =>
              ({ o with x := o.x - (i : Int), y := o.y + (j : Int) } : Point) := by
  unfold getTargetCoordsOfTileID
  split
  · exact Or.inl rfl
  · rename_i td htd
    dsimp only
    split
    · refine Or.inr ⟨td, htd, ?_⟩
      congr 1
      funext i
      exact map_natCast_range _ _
    · exact Or.inl rfl

theorem mem_getTargetCoords_form {env : Env} {m : Map} {o : Point} {tileID : String} {t : Point}
    (h : t ∈ getTargetCoordsOfTileID env m o tileID) :
    ∃ i j : Nat, t = { o with x := o.x - (i : Int), y := o.y + (j : Int) } := by
  rcases getTargetCoords_eq env m o tileID with he | ⟨td, -, he⟩
  · rw [he] at h; exact absurd h (List.not_mem_nil _)
  · rw [he] at h
    simp only [List.mem_flatMap, List.mem_map, List.mem_range] at h
    obtain ⟨i, -, j, -, rfl⟩ := h
    exact ⟨i, j, rfl⟩

/-- A non-empty target set contains the origin. -/
theorem origin_mem_getTargetCoords (env : Env) (m : Map) (o : Point) (tileID : String)
    (h : getTargetCoordsOfTileID env m o tileID ≠ []) :
    o ∈ getTargetCoordsOfTileID env m o tileID := by
  rcases getTargetCoords_eq env m o tileID with he | ⟨td, -, he⟩
  · exact absurd he h
  · obtain ⟨t, ht⟩ := List.exists_mem_of_ne_nil _ h
    rw [he] at ht ⊢
    simp only [List.mem_flatMap, List.mem_map, List.mem_range] at ht ⊢
    obtain ⟨i, hi, j, hj, -⟩ := ht
    refine ⟨0, by omega, 0, by omega, ?_⟩
    cases o
    simp

theorem getTargetCoords_nodup (env : Env) (m : Map) (o : Point) (tileID : String) :
    (getTargetCoordsOfTileID env m o tileID).Nodup := by
  rcases getTargetCoords_eq env m o tileID with he | ⟨td, -, he⟩
  · rw [he]; exact List.nodup_nil
  · rw [he, List.nodup_flatMap]
    constructor
    · intro i _
      apply List.Nodup.map_on _ (List.nodup_range _)
      intro a _ b _ hab
      have := congrArg Point.y hab
      simp only at this
      omega
    · refine List.Pairwise.imp_of_mem ?_ (List.nodup_range _)
      intro a b _ _ hab
      show List.Disjoint _ _
      intro t ht ht'
      rw [List.mem_map] at ht ht'
      obtain ⟨j, -, rfl⟩ := ht
      obtain ⟨j', -, hj'⟩ := ht'
      have := congrArg Point.x hj'
      simp only at this
      omega

theorem Map.WF.nodePtr_inj_within {m : Map} (hwf : m.WF) {p q : Point}
    (hp : p.isWithinMapBoundaries m = true) (hq : q.isWithinMapBoundaries m = true)
    (h : m.nodePtr p.x p.y = m.nodePtr q.x q.y) : p.x = q.x ∧ p.y = q.y := by
  have h1 := hwf.getMapNode_xy hp
  have h2 := hwf.getMapNode_xy hq
  unfold Map.getMapNode at h1 h2
  rw [h] at h1
  exact ⟨h1.1.symm.trans h2.1, h1.2.symm.trans h2.2⟩

/-- The target cells of a placement are pairwise different nodes of the grid. -/
theorem Map.WF.targetNodes_nodup {m : Map} (hwf : m.WF) (env : Env) (o : Point)
    (tileID : String) :
    ((getTargetCoordsOfTileID env m o tileID).map fun c => m.nodePtr c.x c.y).Nodup := by
  apply List.Nodup.map_on _ (getTargetCoords_nodup env m o tileID)
  intro c hc c' hc' h
  obtain ⟨hx, hy⟩ := hwf.nodePtr_inj_within (mem_getTargetCoords_within hc)
    (mem_getTargetCoords_within hc') h
  obtain ⟨i, j, rfl⟩ := mem_getTargetCoords_form hc
  obtain ⟨i', j', rfl⟩ := mem_getTargetCoords_form hc'
  simp only at hx hy
  simp only [Point.mk.injEq, and_true]
  exact ⟨hx, hy⟩

/-! ## The node written by the placement loop -/

theorem MapNode.setTileID_fields (tm : TileManager) (n : MapNode) (tileID : String) (o : Point) :
    (n.setTileID tm tileID o).m_isoCoordinates = n.m_isoCoordinates ∧
    (n.setTileID tm tileID o).m_elevationBitmask = n.m_elevationBitmask ∧
    (n.setTileID tm tileID o).m_autotileBitmask = n.m_autotileBitmask ∧
    ∀ l, ((n.setTileID tm tileID o).m_mapNodeData l).shouldRender =
      (n.m_mapNodeData l).shouldRender := by
  unfold MapNode.setTileID
  split
  · exact ⟨rfl, rfl, rfl, fun _ => rfl⟩
  · split
    · exact ⟨rfl, rfl, rfl, fun _ => rfl⟩
    · refine ⟨rfl, rfl, rfl, fun l => ?_⟩
      dsimp only
      split <;> rfl

theorem MapNode.setTileID_other (tm : TileManager) (n : MapNode) (tileID : String) (o : Point)
    (l : Layer) (h : tileID = "" ∨ tm.getTileData tileID = none ∨ tm.getTileLayer tileID ≠ l) :
    (n.setTileID tm tileID o).m_mapNodeData l = n.m_mapNodeData l := by
  unfold MapNode.setTileID
  split
  · rfl
  · split
    · rfl
    · rename_i td htd hne
      dsimp only
      rw [if_neg]
      intro hl
      rcases h with h | h | h
      · exact hne (by rw [h]; rfl)
      · rw [htd] at h; exact absurd h (by simp)
      · exact h hl.symm

theorem MapNode.setTileID_self (tm : TileManager) (n : MapNode) (tileID : String) (o : Point)
    (td : TileData) (htd : tm.getTileData tileID = some td) (hne : tileID ≠ "") :
    ((n.setTileID tm tileID o).m_mapNodeData (tm.getTileLayer tileID)).tileID = tileID ∧
    ((n.setTileID tm tileID o).m_mapNodeData (tm.getTileLayer tileID)).tileData = some td ∧
    ((n.setTileID tm tileID o).m_mapNodeData (tm.getTileLayer tileID)).origCornerPoint = o := by
  unfold MapNode.setTileID
  rw [htd]
  dsimp only
  have : tileID.isEmpty = false := by
    cases h : tileID.isEmpty
    · rfl
    · exact absurd ((String.isEmpty_iff tileID).1 h) hne
  rw [this]
  simp

theorem MapNode.setRenderFlag_fields (n : MapNode) (layer : Layer) (b : Bool) :
    (n.setRenderFlag layer b).m_isoCoordinates = n.m_isoCoordinates ∧
    (n.setRenderFlag layer b).m_elevationBitmask = n.m_elevationBitmask ∧
    (n.setRenderFlag layer b).m_autotileBitmask = n.m_autotileBitmask ∧
    ((n.setRenderFlag layer b).m_mapNodeData layer).shouldRender = b := by
  unfold MapNode.setRenderFlag
  simp

theorem placedNode_fields (env : Env) (tileID : String) (coordinate : Point)
    (targetCoordinates : List Point) (layer : Layer) (deco : String) (n : MapNode) (coord : Point) :
    (placedNode env tileID coordinate targetCoordinates layer deco n coord).m_isoCoordinates =
      n.m_isoCoordinates ∧
    (placedNode env tileID coordinate targetCoordinates layer deco n coord).m_elevationBitmask =
      n.m_elevationBitmask ∧
    (placedNode env tileID coordinate targetCoordinates layer deco n coord).m_autotileBitmask =
      n.m_autotileBitmask ∧
    ((placedNode env tileID coordinate targetCoordinates layer deco n coord).m_mapNodeData
      layer).shouldRender = !(decide (coord ≠ coordinate ∧ targetCoordinates.length > 1)) := by
  unfold placedNode
  dsimp only
  have hdeco : ∀ n2 : MapNode,
      (if (!deco.isEmpty) = true then n2.setTileID env.tileManager deco coord else n2).m_isoCoordinates
          = n2.m_isoCoordinates ∧
      (if (!deco.isEmpty) = true then n2.setTileID env.tileManager deco coord
        else n2).m_elevationBitmask = n2.m_elevationBitmask ∧
      (if (!deco.isEmpty) = true then n2.setTileID env.tileManager deco coord
        else n2).m_autotileBitmask = n2.m_autotileBitmask ∧
      ∀ l, ((if (!deco.isEmpty) = true then n2.setTileID env.tileManager deco coord
        else n2).m_mapNodeData l).shouldRender = (n2.m_mapNodeData l).shouldRender := by
    intro n2
    split
    · exact MapNode.setTileID_fields _ _ _ _
    · exact ⟨rfl, rfl, rfl, fun _ => rfl⟩
  have htile : ∀ n1 : MapNode,
      (if (if targetCoordinates.length = 0 then 1 else 0) = 1 then
          n1.setTileID env.tileManager tileID coord
        else n1.setTileID env.tileManager tileID coordinate).m_isoCoordinates =
          n1.m_isoCoordinates ∧
      (if (if targetCoordinates.length = 0 then 1 else 0) = 1 then
          n1.setTileID env.tileManager tileID coord
        else n1.setTileID env.tileManager tileID coordinate).m_elevationBitmask =
          n1.m_elevationBitmask ∧
      (if (if targetCoordinates.length = 0 then 1 else 0) = 1 then
          n1.setTileID env.tileManager tileID coord
        else n1.setTileID env.tileManager tileID coordinate).m_autotileBitmask =
          n1.m_autotileBitmask ∧
      ∀ l, ((if (if targetCoordinates.length = 0 then 1 else 0) = 1 then
          n1.setTileID env.tileManager tileID coord
        else n1.setTileID env.tileManager tileID coordinate).m_mapNodeData l).shouldRender =
          (n1.m_mapNodeData l).shouldRender := by
    intro n1
    split
    · exact MapNode.setTileID_fields _ _ _ _
    · exact MapNode.setTileID_fields _ _ _ _
  obtain ⟨d1, d2, d3, d4⟩ := hdeco
    (if (if targetCoordinates.length = 0 then 1 else 0) = 1 then
      (if coord ≠ coordinate ∧ targetCoordinates.length > 1 then n.setRenderFlag layer false
        else n.setRenderFlag layer true).setTileID env.tileManager tileID coord
    else (if coord ≠ coordinate ∧ targetCoordinates.length > 1 then n.setRenderFlag layer false
        else n.setRenderFlag layer true).setTileID env.tileManager tileID coordinate)
  obtain ⟨t1, t2, t3, t4⟩ := htile
    (if coord ≠ coordinate ∧ targetCoordinates.length > 1 then n.setRenderFlag layer false
      else n.setRenderFlag layer true)
  rw [d1, d2, d3, d4, t1, t2, t3, t4]
  by_cases hc : coord ≠ coordinate ∧ targetCoordinates.length > 1
  · rw [if_pos hc]
    obtain ⟨r1, r2, r3, r4⟩ := MapNode.setRenderFlag_fields n layer false
    exact ⟨r1, r2, r3, by rw [r4]; simp [hc]⟩
  · rw [if_neg hc]
    obtain ⟨r1, r2, r3, r4⟩ := MapNode.setRenderFlag_fields n layer true
    exact ⟨r1, r2, r3, by rw [r4]; simp [hc]⟩



/-! ## A successful placement -/

theorem Map.clearedForPlacement_sameButData (env : Env) (m : Map) (tileID : String)
    (coordinate : Point) : m.SameButData (m.clearedForPlacement env tileID coordinate) := by
  unfold Map.clearedForPlacement
  split
  · exact Map.demolishNodeNoUpdate_sameButData env m _ _
  · exact Map.SameButData.refl_sameButData m

theorem Map.clearedForPlacement_flagsKept (env : Env) (m : Map) (tileID : String)
    (coordinate : Point) : m.FlagsKept (m.clearedForPlacement env tileID coordinate) := by
  unfold Map.clearedForPlacement
  split
  · exact Map.demolishAll_flagsKept _ _ _
  · exact Map.flagsKept_refl m

/-- When the descriptor resolves, the target set is not empty and every target cell
allows the placement, `setTileID` runs the placement loop and then updates the neighbours
of the queued nodes. -/
theorem Map.setTileID_accepted (env : Env) (fuel rnd : Nat) (m : Map) (tileID : String)
    (coordinate : Point) (td : TileData) (htd : env.tileManager.getTileData tileID = some td)
    (hne : getTargetCoordsOfTileID env m coordinate tileID ≠ [])
    (hall : ∀ c ∈ getTargetCoordsOfTileID env m coordinate tileID,
      m.isPlacementOnNodeAllowed env c tileID = true) :
    m.setTileID env fuel rnd tileID coordinate =
      if (m.placeAll env rnd tileID coordinate td).2.isEmpty = true then
        some (m.placeAll env rnd tileID coordinate td).1
      else (m.placeAll env rnd tileID coordinate td).1.updateNodeNeighbors env fuel
        (m.placeAll env rnd tileID coordinate td).2 := by
  unfold Map.setTileID
  dsimp only
  rw [htd]
  dsimp only
  have h1 : ¬ (getTargetCoordsOfTileID env m coordinate tileID).isEmpty = true := by
    rw [List.isEmpty_iff]; exact hne
  have h2 : ¬ ((getTargetCoordsOfTileID env m coordinate tileID).any fun coord =>
      !m.isPlacementOnNodeAllowed env coord tileID) = true := by
    rw [List.any_eq_true]
    rintro ⟨c, hc, hcc⟩
    rw [hall c hc] at hcc
    exact absurd hcc (by decide)
  rw [if_neg h1, if_neg h2]
  rfl

/-- The state after the placement loop. -/
theorem Map.placeAll_spec (env : Env) (rnd : Nat) (m : Map) (tileID : String)
    (coordinate : Point) (td : TileData) (hwf : m.WF) :
    m.SameCore (m.placeAll env rnd tileID coordinate td).1 ∧
    (∀ t ∈ getTargetCoordsOfTileID env m coordinate tileID,
      (m.placeAll env rnd tileID coordinate td).1.node (m.nodePtr t.x t.y) =
        m.writtenCell env rnd tileID coordinate td t) ∧
    (m.placeAll env rnd tileID coordinate td).1.signals =
      (m.clearedForPlacement env tileID coordinate).signals ++
        (getTargetCoordsOfTileID env m coordinate tileID).filterMap (fun t =>
          placementSignal (m.writtenCell env rnd tileID coordinate td t) (m.nodePtr t.x t.y)) ∧
    (m.placeAll env rnd tileID coordinate td).2 =
      (if env.tileManager.isTileIDAutoTile tileID = true then
        (getTargetCoordsOfTileID env m coordinate tileID).map (fun t => m.nodePtr t.x t.y)
      else []) ∧
    ∀ x ∈ (m.placeAll env rnd tileID coordinate td).2,
      x < (m.placeAll env rnd tileID coordinate td).1.mapNodes.length := by
  have hb := Map.clearedForPlacement_sameButData env m tileID coordinate
  have hptr : ∀ x y, (m.clearedForPlacement env tileID coordinate).nodePtr x y = m.nodePtr x y :=
    nodePtr_of_columns hb.1
  have hmapeq : ((getTargetCoordsOfTileID env m coordinate tileID).map fun c =>
      (m.clearedForPlacement env tileID coordinate).nodePtr c.x c.y) =
      (getTargetCoordsOfTileID env m coordinate tileID).map fun c => m.nodePtr c.x c.y :=
    List.map_congr_left fun c _ => hptr _ _
  have hlt : ∀ c ∈ getTargetCoordsOfTileID env m coordinate tileID,
      m.nodePtr c.x c.y < m.mapNodes.length :=
    fun c hc => hwf.nodePtr_lt (mem_getTargetCoords_within hc)
  obtain ⟨hc, hr, hl, hw, ho, hsig, h2⟩ := placeFold_spec env tileID coordinate
    (getTargetCoordsOfTileID env m coordinate tileID) (env.tileManager.getTileLayer tileID)
    (chosenGroundDecoration td rnd) (getTargetCoordsOfTileID env m coordinate tileID)
    (m.clearedForPlacement env tileID coordinate, []) (m.placeAll env rnd tileID coordinate td) rfl
    (by rw [hmapeq]; exact hwf.targetNodes_nodup env coordinate tileID)
    (fun c hc => by rw [hptr, hb.2.2.1]; exact hlt c hc)
  dsimp only at hc hr hl hw ho hsig h2
  refine ⟨⟨hc.trans hb.1, hr.trans hb.2.1, hl.trans hb.2.2.1, fun i => ?_⟩, fun t ht => ?_, ?_, ?_,
    ?_⟩
  · by_cases hi : i ∈ (getTargetCoordsOfTileID env m coordinate tileID).map fun c =>
        (m.clearedForPlacement env tileID coordinate).nodePtr c.x c.y
    · obtain ⟨c, hcm, rfl⟩ := List.mem_map.1 hi
      rw [hw c hcm]
      obtain ⟨f1, f2, -, -⟩ := placedNode_fields env tileID coordinate
        (getTargetCoordsOfTileID env m coordinate tileID) (env.tileManager.getTileLayer tileID)
        (chosenGroundDecoration td rnd)
        ((m.clearedForPlacement env tileID coordinate).node
          ((m.clearedForPlacement env tileID coordinate).nodePtr c.x c.y)) c
      rw [f1, f2]
      exact ⟨(hb.2.2.2 _).1, (hb.2.2.2 _).2.1⟩
    · rw [ho i hi]
      exact ⟨(hb.2.2.2 _).1, (hb.2.2.2 _).2.1⟩
  · have := hw t ht
    rw [hptr] at this
    exact this
  · rw [hsig]
    congr 1
    apply List.filterMap_congr
    intro t _
    rw [hptr]
    rfl
  · rw [h2, hmapeq]
    rfl
  · intro x hx
    rw [h2, hmapeq] at hx
    rw [hl, hb.2.2.1]
    split at hx
    · simp only [List.nil_append, List.mem_map] at hx
      obtain ⟨c, hcm, rfl⟩ := hx
      exact hlt c hcm
    · simp at hx



/-! ## What a successful placement leaves -/

theorem Map.SameCore.settled_sameCore {env : Env} {m m' : Map} (h : m.SameCore m')
    (hs : m.Settled env) : m'.Settled env := by
  obtain ⟨hr, hi1, hst, hnp⟩ := hs
  refine ⟨h.heightsInRange hr, h.i1Idx hi1, fun i hi => ?_,
    h.sameHeights_sameCore.noPinchedNode_sameHeights hnp⟩
  rw [(h.2.2.2 i).2, h.sameHeights_sameCore.getElevated i]
  exact hst i (by rw [← h.2.2.1]; exact hi)

/-- A successful placement returns, and the node of every target cell keeps the render
flags the placement loop gave it. -/
theorem Map.setTileID_render (env : Env) (rnd : Nat) (m : Map) (tileID : String)
    (coordinate : Point) (td : TileData) (hwf : m.WF) (hr : m.HeightsInRange env)
    (htd : env.tileManager.getTileData tileID = some td)
    (hne : getTargetCoordsOfTileID env m coordinate tileID ≠ [])
    (hall : ∀ c ∈ getTargetCoordsOfTileID env m coordinate tileID,
      m.isPlacementOnNodeAllowed env c tileID = true) :
    ∃ fuel, ∀ fuel', fuel ≤ fuel' →
      ∃ m', m.setTileID env fuel' rnd tileID coordinate = some m' ∧
        ∀ t ∈ getTargetCoordsOfTileID env m coordinate tileID,
          ((m'.getMapNode t).m_mapNodeData (env.tileManager.getTileLayer tileID)).shouldRender =
            !(decide (t ≠ coordinate ∧
              (getTargetCoordsOfTileID env m coordinate tileID).length > 1)) := by
  obtain ⟨hcore, hw, -, -, hlt⟩ := Map.placeAll_spec env rnd m tileID coordinate td hwf
  have hflag : ∀ t ∈ getTargetCoordsOfTileID env m coordinate tileID,
      (((m.placeAll env rnd tileID coordinate td).1.node (m.nodePtr t.x t.y)).m_mapNodeData
        (env.tileManager.getTileLayer tileID)).shouldRender =
        !(decide (t ≠ coordinate ∧
          (getTargetCoordsOfTileID env m coordinate tileID).length > 1)) := by
    intro t ht
    rw [hw t ht]
    exact (placedNode_fields env tileID coordinate _ _ _ _ t).2.2.2
  by_cases hemp : (m.placeAll env rnd tileID coordinate td).2.isEmpty = true
  · refine ⟨0, fun fuel' _ => ⟨(m.placeAll env rnd tileID coordinate td).1, ?_, fun t ht => ?_⟩⟩
    · rw [Map.setTileID_accepted env fuel' rnd m tileID coordinate td htd hne hall, if_pos hemp]
    · unfold Map.getMapNode
      rw [nodePtr_of_columns hcore.1]
      exact hflag t ht
  · obtain ⟨fuel, hf⟩ := Map.updateNodeNeighbors_terminates env
      (m.placeAll env rnd tileID coordinate td).1 (m.placeAll env rnd tileID coordinate td).2
      (hcore.wf_sameCore hwf) (hcore.heightsInRange hr) hlt
    refine ⟨fuel, fun fuel' hle => ?_⟩
    obtain ⟨m', hm', -, -, hg⟩ := hf fuel' hle
    refine ⟨m', ?_, fun t ht => ?_⟩
    · rw [Map.setTileID_accepted env fuel' rnd m tileID coordinate td htd hne hall, if_neg hemp]
      exact hm'
    · have hk := Map.updateNodeNeighbors_flagsKept env fuel' _ m' _ hm'
      unfold Map.getMapNode
      rw [nodePtr_of_columns (hg.1.trans hcore.1), (hk.1 _ _).1]
      exact hflag t ht

theorem chosenGroundDecoration_mem (td : TileData) (rnd : Nat) :
    chosenGroundDecoration td rnd = "" ∨ chosenGroundDecoration td rnd ∈ td.groundDecoration := by
  unfold chosenGroundDecoration
  split
  · exact Or.inl rfl
  · rename_i h
    right
    have hpos : 0 < td.groundDecoration.length := by
      cases hl : td.groundDecoration with
      | nil => rw [hl] at h; exact absurd rfl h
      | cons a l => simp
    rw [List.getD_eq_getElem _ _ (Nat.mod_lt _ hpos)]
    exact List.getElem_mem _

/-- The tile written on the placed layer of a target cell. -/
theorem placedNode_tile (env : Env) (tileID : String) (coordinate : Point)
    (targetCoordinates : List Point) (deco : String) (n : MapNode) (coord : Point) (td : TileData)
    (htd : env.tileManager.getTileData tileID = some td) (hid : tileID ≠ "")
    (hne : targetCoordinates ≠ [])
    (hdeco : deco = "" ∨ env.tileManager.getTileLayer deco ≠ env.tileManager.getTileLayer tileID) :
    ((placedNode env tileID coordinate targetCoordinates (env.tileManager.getTileLayer tileID)
        deco n coord).m_mapNodeData (env.tileManager.getTileLayer tileID)).tileID = tileID ∧
    ((placedNode env tileID coordinate targetCoordinates (env.tileManager.getTileLayer tileID)
        deco n coord).m_mapNodeData (env.tileManager.getTileLayer tileID)).tileData = some td ∧
    ((placedNode env tileID coordinate targetCoordinates (env.tileManager.getTileLayer tileID)
        deco n coord).m_mapNodeData (env.tileManager.getTileLayer tileID)).origCornerPoint =
      coordinate := by
  have hlen : ¬ ((if targetCoordinates.length = 0 then 1 else 0) = 1) := by
    have : targetCoordinates.length ≠ 0 := fun h => hne (List.length_eq_zero.1 h)
    rw [if_neg this]
    decide
  unfold placedNode
  dsimp only
  rw [if_neg hlen]
  have hkeep : ∀ n2 : MapNode,
      (if (!deco.isEmpty) = true then n2.setTileID env.tileManager deco coord
        else n2).m_mapNodeData (env.tileManager.getTileLayer tileID) =
      n2.m_mapNodeData (env.tileManager.getTileLayer tileID) := by
    intro n2
    split
    · apply MapNode.setTileID_other
      rcases hdeco with h | h
      · exact Or.inl h
      · exact Or.inr (Or.inr h)
    · rfl
  rw [hkeep]
  exact MapNode.setTileID_self _ _ _ _ td htd hid

/-- A successful placement on a settled grid returns, and every target cell stores the
tile identifier, the descriptor and the origin on the placed layer. -/
theorem Map.setTileID_footprint (env : Env) (rnd : Nat) (m : Map) (tileID : String)
    (coordinate : Point) (td : TileData) (hwf : m.WF)
    (hq : env.tileManager.isTileIDAutoTile tileID = true → m.Settled env)
    (htd : env.tileManager.getTileData tileID = some td) (hid : tileID ≠ "")
    (hdeco : ∀ d ∈ td.groundDecoration,
      env.tileManager.getTileLayer d ≠ env.tileManager.getTileLayer tileID)
    (hne : getTargetCoordsOfTileID env m coordinate tileID ≠ [])
    (hall : ∀ c ∈ getTargetCoordsOfTileID env m coordinate tileID,
      m.isPlacementOnNodeAllowed env c tileID = true) :
    ∃ fuel, ∀ fuel', fuel ≤ fuel' →
      ∃ m', m.setTileID env fuel' rnd tileID coordinate = some m' ∧
        ∀ t ∈ getTargetCoordsOfTileID env m coordinate tileID,
          ((m'.getMapNode t).m_mapNodeData (env.tileManager.getTileLayer tileID)).tileID =
            tileID ∧
          ((m'.getMapNode t).m_mapNodeData (env.tileManager.getTileLayer tileID)).tileData =
            some td ∧
          ((m'.getMapNode t).m_mapNodeData (env.tileManager.getTileLayer tileID)).origCornerPoint =
            coordinate := by
  obtain ⟨hcore, hw, -, h2, hlt⟩ := Map.placeAll_spec env rnd m tileID coordinate td hwf
  have htile : ∀ t ∈ getTargetCoordsOfTileID env m coordinate tileID,
      (((m.placeAll env rnd tileID coordinate td).1.node (m.nodePtr t.x t.y)).m_mapNodeData
        (env.tileManager.getTileLayer tileID)).tileID = tileID ∧
      (((m.placeAll env rnd tileID coordinate td).1.node (m.nodePtr t.x t.y)).m_mapNodeData
        (env.tileManager.getTileLayer tileID)).tileData = some td ∧
      (((m.placeAll env rnd tileID coordinate td).1.node (m.nodePtr t.x t.y)).m_mapNodeData
        (env.tileManager.getTileLayer tileID)).origCornerPoint = coordinate := by
    intro t ht
    rw [hw t ht]
    apply placedNode_tile env tileID coordinate _ _ _ t td htd hid hne
    rcases chosenGroundDecoration_mem td rnd with h | h
    · exact Or.inl h
    · exact Or.inr (hdeco _ h)
  by_cases hemp : (m.placeAll env rnd tileID coordinate td).2.isEmpty = true
  · refine ⟨0, fun fuel' _ => ⟨(m.placeAll env rnd tileID coordinate td).1, ?_, fun t ht => ?_⟩⟩
    · rw [Map.setTileID_accepted env fuel' rnd m tileID coordinate td htd hne hall, if_pos hemp]
    · unfold Map.getMapNode
      rw [nodePtr_of_columns hcore.1]
      exact htile t ht
  · have hauto : env.tileManager.isTileIDAutoTile tileID = true := by
      by_contra hcon
      rw [h2, if_neg hcon] at hemp
      exact hemp rfl
    obtain ⟨fuel, hf⟩ := Map.updateNodeNeighbors_settled env
      (m.placeAll env rnd tileID coordinate td).1 (m.placeAll env rnd tileID coordinate td).2
      (hcore.wf_sameCore hwf) (hcore.settled_sameCore (hq hauto)) hlt
    refine ⟨fuel, fun fuel' hle => ?_⟩
    obtain ⟨visited, hm'⟩ := hf fuel' hle
    refine ⟨(m.placeAll env rnd tileID coordinate td).1.autotilePass env visited, ?_,
      fun t ht => ?_⟩
    · rw [Map.setTileID_accepted env fuel' rnd m tileID coordinate td htd hne hall, if_neg hemp]
      exact hm'
    · obtain ⟨hg, hdata, -, -⟩ := Map.autotilePass_spec env visited
        (m.placeAll env rnd tileID coordinate td).1
      unfold Map.getMapNode
      rw [nodePtr_of_columns (hg.1.trans hcore.1), hdata]
      exact htile t ht

/-! ## Placement notifications -/

theorem filter_isPlacement_demolish (l : List Nat) :
    (l.map Signal.demolish).filter Signal.isPlacement = [] := by
  induction l with
  | nil => rfl
  | cons a l ih => rw [List.map_cons, List.filter_cons_of_neg (by simp [Signal.isPlacement]), ih]

theorem placementSignal_isPlacement (n : MapNode) (p : Nat) (sg : Signal)
    (h : placementSignal n p = some sg) : sg.isPlacement = true ∧ sg.node = p := by
  unfold placementSignal at h
  split at h
  · cases h; exact ⟨rfl, rfl⟩
  · split at h
    · cases h; exact ⟨rfl, rfl⟩
    · exact absurd h (by simp)

theorem filter_isPlacement_placed {α : Type} (g : α → MapNode) (f : α → Nat) (l : List α) :
    (l.filterMap fun t => placementSignal (g t) (f t)).filter Signal.isPlacement =
      l.filterMap fun t => placementSignal (g t) (f t) := by
  rw [List.filter_eq_self]
  intro sg hsg
  rw [List.mem_filterMap] at hsg
  obtain ⟨t, -, ht⟩ := hsg
  exact (placementSignal_isPlacement _ _ sg ht).1

theorem placed_nodes_sublist {α : Type} (g : α → MapNode) (f : α → Nat) (l : List α) :
    ((l.filterMap fun t => placementSignal (g t) (f t)).map Signal.node).Sublist (l.map f) := by
  induction l with
  | nil => exact List.Sublist.refl _
  | cons a l ih =>
    rw [List.filterMap_cons, List.map_cons]
    cases h : placementSignal (g a) (f a) with
    | none => exact ih.cons _
    | some sg =>
      dsimp only
      rw [List.map_cons, (placementSignal_isPlacement _ _ sg h).2]
      exact ih.cons₂ _

/-- A successful placement returns, and the placement notifications it adds to the signal
log are, in the order of the target cells, the notification of each cell in the state in
which the loop wrote it; no node is notified twice. -/
theorem Map.setTileID_notifications (env : Env) (rnd : Nat) (m : Map) (tileID : String)
    (coordinate : Point) (td : TileData) (hwf : m.WF) (hr : m.HeightsInRange env)
    (htd : env.tileManager.getTileData tileID = some td)
    (hne : getTargetCoordsOfTileID env m coordinate tileID ≠ [])
    (hall : ∀ c ∈ getTargetCoordsOfTileID env m coordinate tileID,
      m.isPlacementOnNodeAllowed env c tileID = true) :
    ∃ fuel, ∀ fuel', fuel ≤ fuel' →
      ∃ m', m.setTileID env fuel' rnd tileID coordinate = some m' ∧
        m'.signals.filter Signal.isPlacement =
          m.signals.filter Signal.isPlacement ++
            (getTargetCoordsOfTileID env m coordinate tileID).filterMap (fun t =>
              placementSignal (m.writtenCell env rnd tileID coordinate td t)
                (m.nodePtr t.x t.y)) := by
  obtain ⟨hcore, -, hsig, -, hlt⟩ := Map.placeAll_spec env rnd m tileID coordinate td hwf
  obtain ⟨-, l1, e1⟩ := Map.clearedForPlacement_flagsKept env m tileID coordinate
  have hplaced : (m.placeAll env rnd tileID coordinate td).1.signals.filter Signal.isPlacement =
      m.signals.filter Signal.isPlacement ++
        (getTargetCoordsOfTileID env m coordinate tileID).filterMap (fun t =>
          placementSignal (m.writtenCell env rnd tileID coordinate td t)
            (m.nodePtr t.x t.y)) := by
    rw [hsig, e1, List.filter_append, List.filter_append, filter_isPlacement_demolish,
      List.append_nil,
      filter_isPlacement_placed (fun t => m.writtenCell env rnd tileID coordinate td t)
        (fun t => m.nodePtr t.x t.y)]
  by_cases hemp : (m.placeAll env rnd tileID coordinate td).2.isEmpty = true
  · refine ⟨0, fun fuel' _ => ⟨(m.placeAll env rnd tileID coordinate td).1, ?_, hplaced⟩⟩
    rw [Map.setTileID_accepted env fuel' rnd m tileID coordinate td htd hne hall, if_pos hemp]
  · obtain ⟨fuel, hf⟩ := Map.updateNodeNeighbors_terminates env
      (m.placeAll env rnd tileID coordinate td).1 (m.placeAll env rnd tileID coordinate td).2
      (hcore.wf_sameCore hwf) (hcore.heightsInRange hr) hlt
    refine ⟨fuel, fun fuel' hle => ?_⟩
    obtain ⟨m', hm', -, -, -⟩ := hf fuel' hle
    refine ⟨m', ?_, ?_⟩
    · rw [Map.setTileID_accepted env fuel' rnd m tileID coordinate td htd hne hall, if_neg hemp]
      exact hm'
    · obtain ⟨-, l2, e2⟩ := Map.updateNodeNeighbors_flagsKept env fuel' _ m' _ hm'
      rw [e2, List.filter_append, filter_isPlacement_demolish, List.append_nil]
      exact hplaced

set_option maxRecDepth 100000

/-! ## Placement legality, clamped edits, demolition and culling -/

theorem MapNode.changeHeight_at_limit (maxHeight : Int) (n : MapNode) :
    (n.height = maxHeight → (n.changeHeight maxHeight true).2 = false) ∧
    (n.height = 0 → (n.changeHeight maxHeight false).2 = false) := by
  constructor
  · intro h
    simp [MapNode.changeHeight, h]
  · intro h
    simp [MapNode.changeHeight, h]

theorem Map.demolishZoneOf_node_outside (nbs : List NeighborNode) (j : Nat) :
    ∀ m : Map, (∀ nb ∈ nbs, nb.pNode ≠ j) → (m.demolishZoneOf nbs).node j = m.node j := by
  induction nbs with
  | nil => intro m _; rfl
  | cons nb rest ih =>
    intro m h
    rw [Map.demolishZoneOf_cons]
    rw [ih _ (fun nb' hnb' => h nb' (List.mem_cons_of_mem _ hnb'))]
    split
    · rw [Map.node_setNode, if_neg]
      intro hc
      exact h nb (List.mem_cons_self _ _) hc.1.symm
    · rfl

theorem MapNode.changeHeight_occupied (maxHeight : Int) (n : MapNode) (higher : Bool)
    (layer : Layer) :
    (n.changeHeight maxHeight higher).1.isLayerOccupied layer = n.isLayerOccupied layer := by
  unfold MapNode.changeHeight
  split <;> rfl

theorem Map.updateHeight_zone_outside (env : Env) (m : Map) (i : Nat) (higher : Bool)
    (nbs : List NeighborNode) (j : Nat) (h : ∀ nb ∈ nbs, nb.pNode ≠ j) :
    ((m.updateHeight env i higher nbs).1.node j).isLayerOccupied Layer.ZONE =
      (m.node j).isLayerOccupied Layer.ZONE := by
  unfold Map.updateHeight
  split
  · simp only
    rw [Map.demolishZoneOf_node_outside nbs j _ h, Map.node_setNode]
    split
    · rename_i hc
      rw [hc.1]
      exact MapNode.changeHeight_occupied _ _ _ _
    · rfl
  · rfl

theorem Map.demolishNode_unfold (env : Env) (fuel : Nat) (m : Map) (coords : List Point)
    (updateNeighboringTiles : Bool) (layer : Layer) :
    m.demolishNode env fuel coords updateNeighboringTiles layer =
      if updateNeighboringTiles = true ∧ m.nodesToDemolish env coords ≠ [] then
        (m.demolishAll (env.unorderedSetOrder (m.nodesToDemolish env coords))
          layer).updateNodeNeighbors env fuel (env.unorderedSetOrder (m.nodesToDemolish env coords))
      else some (m.demolishAll (env.unorderedSetOrder (m.nodesToDemolish env coords)) layer) := by
  have hiff : env.unorderedSetOrder (m.nodesToDemolish env coords) = [] ↔
      m.nodesToDemolish env coords = [] := by
    rw [← List.length_eq_zero, ← List.length_eq_zero, Env.unorderedSetOrder_length]
  unfold Map.demolishNode
  cases updateNeighboringTiles
  · simp
  · by_cases hn : m.nodesToDemolish env coords = []
    · simp [hn, Env.unorderedSetOrder_nil]
    · have hn2 : env.unorderedSetOrder (m.nodesToDemolish env coords) ≠ [] :=
        fun h => hn (hiff.1 h)
      simp [hn, hn2]

theorem targets_singleton_of_short (env : Env) (m : Map) (o : Point) (tileID : String)
    (hne : getTargetCoordsOfTileID env m o tileID ≠ [])
    (hshort : ¬ (getTargetCoordsOfTileID env m o tileID).length > 1) :
    getTargetCoordsOfTileID env m o tileID = [o] := by
  have ho := origin_mem_getTargetCoords env m o tileID hne
  match hl : getTargetCoordsOfTileID env m o tileID with
  | [] => exact absurd hl hne
  | [a] =>
    rw [hl] at ho
    rw [List.mem_singleton.1 ho]
  | a :: b :: rest =>
    rw [hl] at hshort
    simp at hshort

theorem countP_eq_one_of_iff {α : Type} [DecidableEq α] (l : List α) (a : α) (p : α → Bool)
    (hnd : l.Nodup) (ha : a ∈ l) (h : ∀ t ∈ l, (p t = true ↔ t = a)) : l.countP p = 1 := by
  have h1 : l.countP p = l.countP (fun t => t == a) := by
    apply List.countP_congr
    intro t ht
    rw [h t ht]
    simp
  rw [h1]
  exact List.count_eq_one_of_mem hnd ha

/-! ## Demolition end to end -/

theorem Map.collectNode_subset (env : Env) (m : Map) (acc : List Nat) (c : Point) :
    ∀ x ∈ acc, x ∈ m.collectNode env acc c := by
  intro x hx
  unfold Map.collectNode
  split
  · rw [mem_setInsert]
    refine Or.inr ?_
    split
    · exact hx
    · split
      · split
        · rw [mem_foldl_setInsert (fun b => m.nodePtr b.x b.y)]
          exact Or.inl hx
        · exact hx
      · exact hx
  · exact hx

theorem Map.collectNode_self (env : Env) (m : Map) (acc : List Nat) (c : Point)
    (h : c.isWithinMapBoundaries m = true) : m.nodePtr c.x c.y ∈ m.collectNode env acc c := by
  unfold Map.collectNode
  rw [if_pos h, mem_setInsert]
  exact Or.inl rfl

/-- The node of every in-grid position of the list is in the set of nodes to demolish. -/
theorem Map.nodesToDemolish_mem_of_inside (env : Env) (m : Map) (coords : List Point) :
    ∀ c ∈ coords, c.isWithinMapBoundaries m = true →
      m.nodePtr c.x c.y ∈ m.nodesToDemolish env coords := by
  unfold Map.nodesToDemolish
  have hsub : ∀ (l : List Point) (acc : List Nat), ∀ x ∈ acc,
      x ∈ l.foldl (m.collectNode env) acc := by
    intro l
    induction l with
    | nil => intro acc x hx; exact hx
    | cons c rest ih =>
      intro acc x hx
      rw [List.foldl_cons]
      exact ih _ x (Map.collectNode_subset env m acc c x hx)
  have : ∀ (l : List Point) (acc : List Nat), ∀ c ∈ l, c.isWithinMapBoundaries m = true →
      m.nodePtr c.x c.y ∈ l.foldl (m.collectNode env) acc := by
    intro l
    induction l with
    | nil => intro acc c hc; exact absurd hc (List.not_mem_nil _)
    | cons d rest ih =>
      intro acc c hc hin
      rw [List.foldl_cons]
      rcases List.mem_cons.1 hc with rfl | hc
      · exact hsub rest _ _ (Map.collectNode_self env m acc c hin)
      · exact ih _ c hc hin
  exact this coords []

/-- The demolition loop over a duplicate-free list leaves every listed node as its own
`demolishNode` leaves it and every other node as it was. -/
theorem Map.demolishAll_node (layer : Layer) (nodes : List Nat) (hnd : nodes.Nodup) :
    ∀ (m : Map) (i : Nat), i < m.mapNodes.length →
      (m.demolishAll nodes layer).node i =
        if i ∈ nodes then (m.node i).demolishNode layer else m.node i := by
  induction nodes with
  | nil => intro m i _; simp [Map.demolishAll]
  | cons x rest ih =>
    intro m i hi
    have hstep : Map.demolishAll m (x :: rest) layer =
        Map.demolishAll
          { m.setNode x ((m.node x).demolishNode layer) with
            signals := m.signals ++ [Signal.demolish x] } rest layer := by
      unfold Map.demolishAll; rw [List.foldl_cons]
    have hx : x ∉ rest := (List.nodup_cons.1 hnd).1
    have hnode : ∀ j, Map.node { m.setNode x ((m.node x).demolishNode layer) with
        signals := m.signals ++ [Signal.demolish x] } j =
        (m.setNode x ((m.node x).demolishNode layer)).node j := fun _ => rfl
    rw [hstep, ih (List.nodup_cons.1 hnd).2 _ i (by simpa [Map.setNode] using hi)]
    by_cases hr : i ∈ rest
    · have hix : i ≠ x := fun h => hx (h ▸ hr)
      rw [if_pos hr, if_pos (List.mem_cons_of_mem _ hr), hnode, Map.node_setNode,
        if_neg (fun h => hix h.1)]
    · rw [if_neg hr, hnode, Map.node_setNode]
      by_cases hix : i = x
      · subst hix
        rw [if_pos ⟨rfl, hi⟩, if_pos (List.mem_cons_self _ _)]
      · rw [if_neg (fun h => hix h.1), if_neg (fun h => (List.mem_cons.1 h).elim hix hr)]

theorem MapNode.demolishNode_data (n : MapNode) (layer L : Layer) :
    (layer = Layer.NONE ∨ L = layer →
      ((n.demolishNode layer).m_mapNodeData L).tileData = none ∧
        ((n.demolishNode layer).m_mapNodeData L).tileID = "") ∧
    (layer ≠ Layer.NONE ∧ L ≠ layer →
      (n.demolishNode layer).m_mapNodeData L = n.m_mapNodeData L) := by
  unfold MapNode.demolishNode MapNode.demolishLayer
  constructor
  · intro h
    by_cases hl : layer = Layer.NONE
    · rw [if_pos hl]; exact ⟨rfl, rfl⟩
    · rw [if_neg hl]
      have hL : L = layer := h.resolve_left hl
      simp [hL]
  · rintro ⟨h1, h2⟩
    rw [if_neg h1]
    simp [h2]

/-- What `demolishNode` leaves on a well-formed grid when the follow-up propagation is
switched off or the grid is settled: the call returns, the log gains one demolition signal
per node of the set, in the order in which the set is iterated, every node of the set is
left as its own `demolishNode` leaves it, and the tile data of every other node is kept. -/
theorem Map.demolishNode_once (env : Env) (m : Map) (coords : List Point)
    (updateNeighboringTiles : Bool) (layer : Layer) (hwf : m.WF)
    (hcond : updateNeighboringTiles = false ∨ m.Settled env) :
    ∃ fuel, ∀ fuel', fuel ≤ fuel' →
      ∃ m', m.demolishNode env fuel' coords updateNeighboringTiles layer = some m' ∧
        m'.signals = m.signals ++
          (env.unorderedSetOrder (m.nodesToDemolish env coords)).map Signal.demolish ∧
        (∀ i ∈ m.nodesToDemolish env coords,
          (m'.node i).m_mapNodeData = ((m.node i).demolishNode layer).m_mapNodeData) ∧
        (∀ i, i ∉ m.nodesToDemolish env coords →
          (m'.node i).m_mapNodeData = (m.node i).m_mapNodeData) := by
  have hnd : (env.unorderedSetOrder (m.nodesToDemolish env coords)).Nodup :=
    (env.unorderedSetOrder_perm _).nodup_iff.2 (Map.nodesToDemolish_nodup env m coords)
  have hin : ∀ i ∈ m.nodesToDemolish env coords,
      ((m.demolishAll (env.unorderedSetOrder (m.nodesToDemolish env coords)) layer).node
        i).m_mapNodeData = ((m.node i).demolishNode layer).m_mapNodeData := by
    intro i hi
    rw [Map.demolishAll_node layer _ hnd m i (hwf.nodesToDemolish_lt env coords i hi),
      if_pos ((env.mem_unorderedSetOrder _ _).2 hi)]
  have hout : ∀ i, i ∉ m.nodesToDemolish env coords →
      ((m.demolishAll (env.unorderedSetOrder (m.nodesToDemolish env coords)) layer).node
        i).m_mapNodeData = (m.node i).m_mapNodeData := by
    intro i hi
    by_cases hlt : i < m.mapNodes.length
    · rw [Map.demolishAll_node layer _ hnd m i hlt,
        if_neg (fun h => hi ((env.mem_unorderedSetOrder _ _).1 h))]
    · have hd := Map.demolishAll_sameButData
        (env.unorderedSetOrder (m.nodesToDemolish env coords)) layer m
      have h1 : (m.demolishAll (env.unorderedSetOrder (m.nodesToDemolish env coords))
          layer).node i = default := by
        unfold Map.node
        rw [List.getD_eq_default _ _ (by rw [hd.2.2.1]; omega)]
      have h2 : m.node i = default := by
        unfold Map.node
        rw [List.getD_eq_default _ _ (by omega)]
      rw [h1, h2]
  have hdone : ∀ fuel', (m.demolishNode env fuel' coords updateNeighboringTiles layer =
      some (m.demolishAll (env.unorderedSetOrder (m.nodesToDemolish env coords)) layer)) →
      ∃ m', m.demolishNode env fuel' coords updateNeighboringTiles layer = some m' ∧
        m'.signals = m.signals ++
          (env.unorderedSetOrder (m.nodesToDemolish env coords)).map Signal.demolish ∧
        (∀ i ∈ m.nodesToDemolish env coords,
          (m'.node i).m_mapNodeData = ((m.node i).demolishNode layer).m_mapNodeData) ∧
        (∀ i, i ∉ m.nodesToDemolish env coords →
          (m'.node i).m_mapNodeData = (m.node i).m_mapNodeData) :=
    fun fuel' h => ⟨_, h, Map.demolishAll_signals _ layer m, hin, hout⟩
  by_cases hup : updateNeighboringTiles = true ∧ m.nodesToDemolish env coords ≠ []
  · have hs : m.Settled env := by
      rcases hcond with h | h
      · rw [hup.1] at h; exact absurd h (by decide)
      · exact h
    have hd := (Map.demolishAll_sameButData
      (env.unorderedSetOrder (m.nodesToDemolish env coords)) layer m).sameCore
    obtain ⟨fuel, hf⟩ := Map.updateNodeNeighbors_settled env
      (m.demolishAll (env.unorderedSetOrder (m.nodesToDemolish env coords)) layer)
      (env.unorderedSetOrder (m.nodesToDemolish env coords))
      (hd.wf_sameCore hwf) (hd.settled_sameCore hs)
      (fun x hx => by
        rw [hd.2.2.1]
        exact hwf.nodesToDemolish_lt env coords x ((env.mem_unorderedSetOrder _ _).1 hx))
    refine ⟨fuel, fun fuel' hle => ?_⟩
    obtain ⟨visited, hv⟩ := hf fuel' hle
    refine ⟨_, by rw [Map.demolishNode_unfold, if_pos hup]; exact hv, ?_, ?_, ?_⟩
    · rw [Map.autotilePass_signals, Map.demolishAll_signals]
    · intro i hi
      rw [(Map.autotilePass_spec env visited _).2.1 i]
      exact hin i hi
    · intro i hi
      rw [(Map.autotilePass_spec env visited _).2.1 i]
      exact hout i hi
  · exact ⟨0, fun fuel' _ => hdone fuel' (by rw [Map.demolishNode_unfold, if_neg hup])⟩

set_option maxRecDepth 100000

/-! ## Claims C11 to C20 -/

/-- C11: render visibility of a footprint. After a successful `setTileID tileID origin`
(the descriptor resolves, the target-cell set is not empty and every target cell passes the
placement check) on a well-formed grid with heights in `[0, maxHeight]`, the call returns
for every large enough step budget, and on the placed layer: when the target set has more
than one cell, the render flag is true on the origin cell and false on every other target
cell; when the target set is the single origin cell, its render flag is true; in both cases
exactly one target cell is render-visible. -/
theorem setTileID_render_visibility (env : Env) (rnd : Nat) (m : Map) (tileID : String)
    (coordinate : Point) (td : TileData) (hwf : m.WF) (hr : m.HeightsInRange env)
    (htd : env.tileManager.getTileData tileID = some td)
    (hne : getTargetCoordsOfTileID env m coordinate tileID ≠ [])
    (hall : ∀ c ∈ getTargetCoordsOfTileID env m coordinate tileID,
      m.isPlacementOnNodeAllowed env c tileID = true) :
    ∃ fuel, ∀ fuel', fuel ≤ fuel' →
      ∃ m', m.setTileID env fuel' rnd tileID coordinate = some m' ∧
        ((getTargetCoordsOfTileID env m coordinate tileID).length > 1 →
          coordinate ∈ getTargetCoordsOfTileID env m coordinate tileID ∧
          ((m'.getMapNode coordinate).m_mapNodeData
            (env.tileManager.getTileLayer tileID)).shouldRender = true ∧
          ∀ t ∈ getTargetCoordsOfTileID env m coordinate tileID, t ≠ coordinate →
            ((m'.getMapNode t).m_mapNodeData
              (env.tileManager.getTileLayer tileID)).shouldRender = false) ∧
        (getTargetCoordsOfTileID env m coordinate tileID = [coordinate] →
          ((m'.getMapNode coordinate).m_mapNodeData
            (env.tileManager.getTileLayer tileID)).shouldRender = true) ∧
        (getTargetCoordsOfTileID env m coordinate tileID).countP
          (fun t => ((m'.getMapNode t).m_mapNodeData
            (env.tileManager.getTileLayer tileID)).shouldRender) = 1 := by
  obtain ⟨fuel, hf⟩ := Map.setTileID_render env rnd m tileID coordinate td hwf hr htd hne hall
  have ho := origin_mem_getTargetCoords env m coordinate tileID hne
  refine ⟨fuel, fun fuel' hle => ?_⟩
  obtain ⟨m', hm', hflag⟩ := hf fuel' hle
  refine ⟨m', hm', fun hlen => ⟨ho, ?_, fun t ht hneq => ?_⟩, fun hone => ?_, ?_⟩
  · rw [hflag coordinate ho]
    simp
  · rw [hflag t ht]
    simp [hneq, hlen]
  · rw [hflag coordinate ho]
    simp
  · apply countP_eq_one_of_iff _ coordinate _ (getTargetCoords_nodup env m coordinate tileID) ho
    intro t ht
    rw [hflag t ht]
    by_cases hlen : (getTargetCoordsOfTileID env m coordinate tileID).length > 1
    · simp [hlen]
    · have hs := targets_singleton_of_short env m coordinate tileID hne hlen
      rw [hs] at ht
      simp [List.mem_singleton.1 ht]

theorem setTileID_render_visibility_witness :
    (flatMap 2).WF ∧ (flatMap 2).HeightsInRange sampleEnv ∧
    getTargetCoordsOfTileID sampleEnv (flatMap 2) { x := 1, y := 0, z := 0, height := 0 } "house" =
      [{ x := 1, y := 0, z := 0, height := 0 }, { x := 1, y := 1, z := 0, height := 0 },
       { x := 0, y := 0, z := 0, height := 0 }, { x := 0, y := 1, z := 0, height := 0 }] ∧
    ∃ fuel, ∀ fuel', fuel ≤ fuel' →
      ∃ m', (flatMap 2).setTileID sampleEnv fuel' 0 "house"
          { x := 1, y := 0, z := 0, height := 0 } = some m' ∧
        ((getTargetCoordsOfTileID sampleEnv (flatMap 2) { x := 1, y := 0, z := 0, height := 0 }
            "house").length > 1 →
          ({ x := 1, y := 0, z := 0, height := 0 } : Point) ∈
            getTargetCoordsOfTileID sampleEnv (flatMap 2)
              { x := 1, y := 0, z := 0, height := 0 } "house" ∧
          ((m'.getMapNode { x := 1, y := 0, z := 0, height := 0 }).m_mapNodeData
            (sampleEnv.tileManager.getTileLayer "house")).shouldRender = true ∧
          ∀ t ∈ getTargetCoordsOfTileID sampleEnv (flatMap 2)
              { x := 1, y := 0, z := 0, height := 0 } "house",
            t ≠ { x := 1, y := 0, z := 0, height := 0 } →
            ((m'.getMapNode t).m_mapNodeData
              (sampleEnv.tileManager.getTileLayer "house")).shouldRender = false) ∧
        (getTargetCoordsOfTileID sampleEnv (flatMap 2) { x := 1, y := 0, z := 0, height := 0 }
            "house" = [{ x := 1, y := 0, z := 0, height := 0 }] →
          ((m'.getMapNode { x := 1, y := 0, z := 0, height := 0 }).m_mapNodeData
            (sampleEnv.tileManager.getTileLayer "house")).shouldRender = true) ∧
        (getTargetCoordsOfTileID sampleEnv (flatMap 2) { x := 1, y := 0, z := 0, height := 0 }
            "house").countP
          (fun t => ((m'.getMapNode t).m_mapNodeData
            (sampleEnv.tileManager.getTileLayer "house")).shouldRender) = 1 :=
  ⟨by decide, by decide, by decide,
    setTileID_render_visibility sampleEnv 0 (flatMap 2) "house"
      { x := 1, y := 0, z := 0, height := 0 }
      { category := "Residential", tileType := TileType.OTHER,
        RequiredTiles := { width := 2, height := 2 }, groundDecoration := [] }
      (by decide) (by decide) (by decide) (by decide) (by decide)⟩

/-- C12: footprint consistency (I3). After a successful `setTileID tileID origin` (the
identifier is not empty and resolves, the target-cell set is not empty, every target cell
passes the placement check, the ground decorations of the tile live on another layer than
the tile, and for an auto-tiling tile the grid is in the state a completed edit leaves), the
call returns for every large enough step budget, and every target cell of the footprint,
whatever the footprint size, stores on the placed layer the identifier `tileID`, its
descriptor and an origin corner point equal to the origin cell. -/
theorem setTileID_footprint_consistent (env : Env) (rnd : Nat) (m : Map) (tileID : String)
    (coordinate : Point) (td : TileData) (hwf : m.WF)
    (hq : env.tileManager.isTileIDAutoTile tileID = true → m.Settled env)
    (htd : env.tileManager.getTileData tileID = some td) (hid : tileID ≠ "")
    (hdeco : ∀ d ∈ td.groundDecoration,
      env.tileManager.getTileLayer d ≠ env.tileManager.getTileLayer tileID)
    (hne : getTargetCoordsOfTileID env m coordinate tileID ≠ [])
    (hall : ∀ c ∈ getTargetCoordsOfTileID env m coordinate tileID,
      m.isPlacementOnNodeAllowed env c tileID = true) :
    ∃ fuel, ∀ fuel', fuel ≤ fuel' →
      ∃ m', m.setTileID env fuel' rnd tileID coordinate = some m' ∧
        ∀ t ∈ getTargetCoordsOfTileID env m coordinate tileID,
          ((m'.getMapNode t).m_mapNodeData (env.tileManager.getTileLayer tileID)).tileID =
            tileID ∧
          ((m'.getMapNode t).m_mapNodeData (env.tileManager.getTileLayer tileID)).tileData =
            some td ∧
          ((m'.getMapNode t).m_mapNodeData (env.tileManager.getTileLayer tileID)).origCornerPoint =
            coordinate :=
  Map.setTileID_footprint env rnd m tileID coordinate td hwf hq htd hid hdeco hne hall

theorem setTileID_footprint_consistent_witness :
    sampleMap.WF ∧ sampleMap.Settled sampleEnv ∧
    sampleEnv.tileManager.isTileIDAutoTile "road" = true ∧
    getTargetCoordsOfTileID sampleEnv sampleMap { x := 1, y := 1, z := 0, height := 0 } "road" =
      [{ x := 1, y := 1, z := 0, height := 0 }] ∧
    ∃ fuel, ∀ fuel', fuel ≤ fuel' →
      ∃ m', sampleMap.setTileID sampleEnv fuel' 0 "road"
          { x := 1, y := 1, z := 0, height := 0 } = some m' ∧
        ∀ t ∈ getTargetCoordsOfTileID sampleEnv sampleMap
            { x := 1, y := 1, z := 0, height := 0 } "road",
          ((m'.getMapNode t).m_mapNodeData (sampleEnv.tileManager.getTileLayer "road")).tileID =
            "road" ∧
          ((m'.getMapNode t).m_mapNodeData (sampleEnv.tileManager.getTileLayer "road")).tileData =
            some (unitTile "Roads" TileType.ROAD) ∧
          ((m'.getMapNode t).m_mapNodeData
            (sampleEnv.tileManager.getTileLayer "road")).origCornerPoint =
            { x := 1, y := 1, z := 0, height := 0 } :=
  ⟨by decide, by decide, by decide, by decide,
    setTileID_footprint_consistent sampleEnv 0 sampleMap "road"
      { x := 1, y := 1, z := 0, height := 0 } (unitTile "Roads" TileType.ROAD)
      (by decide) (fun _ => by decide) (by decide) (by decide) (by decide) (by decide)
      (by decide)⟩

/-- C13: layer placement legality (I5) as decided by `isAllowSetTileId layer node`. For
layer ZONE the result is false if and only if the BUILDINGS layer of the node holds a tile
whose category is not Flora, or its WATER layer is occupied, or its ROAD layer is occupied,
or the node is a slope node; for layer WATER the result is false if and only if the
BUILDINGS layer holds a tile whose category is not Flora; for every other layer the result
is true. -/
theorem isAllowSetTileId_legality (isSlopeNode : MapNode → Bool) (n : MapNode) :
    (Map.isAllowSetTileId isSlopeNode Layer.ZONE n = false ↔
      (∃ td, (n.m_mapNodeData Layer.BUILDINGS).tileData = some td ∧ td.category ≠ "Flora") ∨
      n.isLayerOccupied Layer.WATER = true ∨ n.isLayerOccupied Layer.ROAD = true ∨
      isSlopeNode n = true) ∧
    (Map.isAllowSetTileId isSlopeNode Layer.WATER n = false ↔
      ∃ td, (n.m_mapNodeData Layer.BUILDINGS).tileData = some td ∧ td.category ≠ "Flora") ∧
    (∀ layer : Layer, layer ≠ Layer.ZONE → layer ≠ Layer.WATER →
      Map.isAllowSetTileId isSlopeNode layer n = true) :=
  ⟨isAllowSetTileId_zone isSlopeNode n, isAllowSetTileId_water isSlopeNode n,
    fun layer hz hw => isAllowSetTileId_other isSlopeNode n layer hz hw⟩

/-- C15, counterexample: a successful height change that leaves the ZONE tile of the changed
node in place. On the flat 3x3 grid with a zone tile on its centre, `updateHeight` of the
centre with the neighbour list that `updateNodeNeighbors` passes (centre excluded) returns
true and the centre is still occupied on ZONE. End to end: on the settled 4x4 plateau of
height 2 whose peak `(0, 0)` of height 3 holds a zone tile, `decreaseHeight (2, 2)` lowers
the peak to height 2 through the propagation, and the peak still holds its zone tile. -/
theorem updateHeight_keeps_own_zone :
    ((zoneGrid.node 4).isLayerOccupied Layer.ZONE = true ∧
      (zoneGrid.updateHeight townEnv 4 true
        (zoneGrid.getNeighborNodes (zoneGrid.node 4).m_isoCoordinates false)).2 = true ∧
      ((zoneGrid.updateHeight townEnv 4 true
        (zoneGrid.getNeighborNodes (zoneGrid.node 4).m_isoCoordinates false)).1.node
          4).isLayerOccupied Layer.ZONE = true) ∧
    (peakGrid.WF ∧ peakGrid.Settled townEnv ∧
      peakGrid.heights = [3, 2, 2, 2,  2, 2, 2, 2,  2, 2, 2, 2,  2, 2, 2, 2] ∧
      (peakGrid.node 0).isLayerOccupied Layer.ZONE = true ∧
      ∃ m', peakGrid.decreaseHeight townEnv 60 { x := 2, y := 2, z := 0, height := 0 } =
          some m' ∧
        m'.heights = [2, 2, 2, 2,  2, 1, 1, 1,  2, 1, 1, 1,  2, 1, 1, 1] ∧
        (m'.node 0).isLayerOccupied Layer.ZONE = true) := by
  refine ⟨by decide, by decide, by decide, by decide, by decide, ?_⟩
  have h : (peakGrid.decreaseHeight townEnv 60 { x := 2, y := 2, z := 0, height := 0 }).isSome =
      true := by decide
  obtain ⟨m', hm'⟩ := Option.isSome_iff_exists.1 h
  refine ⟨m', hm', ?_, ?_⟩
  · have h2 : ((peakGrid.decreaseHeight townEnv 60
        { x := 2, y := 2, z := 0, height := 0 }).map Map.heights) =
        some [2, 2, 2, 2,  2, 1, 1, 1,  2, 1, 1, 1,  2, 1, 1, 1] := by decide
    rw [hm'] at h2
    exact Option.some.inj h2
  · have h3 : ((peakGrid.decreaseHeight townEnv 60
        { x := 2, y := 2, z := 0, height := 0 }).map fun m =>
          (m.node 0).isLayerOccupied Layer.ZONE) = some true := by decide
    rw [hm'] at h3
    exact Option.some.inj h3

/-- C15, amended: a successful height change demolishes the ZONE layer of the nodes of the
neighbour list it is given. Whenever `updateHeight node higher neighbours` returns true,
the ZONE layer of every node of the list is unoccupied afterwards; with the list that
`changeHeight` passes for an in-grid position (centre included) this covers the changed node
itself; the ZONE layer of a node outside the list, the changed node included, is occupied
afterwards exactly when it was before. -/
theorem updateHeight_clears_listed_zones (env : Env) (m : Map) (i : Nat) (higher : Bool)
    (nbs : List NeighborNode) (h : (m.updateHeight env i higher nbs).2 = true) :
    (∀ nb ∈ nbs,
      ((m.updateHeight env i higher nbs).1.node nb.pNode).isLayerOccupied Layer.ZONE = false) ∧
    (∀ p : Point, p.isWithinMapBoundaries m = true → i = m.nodePtr p.x p.y →
      nbs = m.getNeighborNodes p true →
      ((m.updateHeight env i higher nbs).1.node i).isLayerOccupied Layer.ZONE = false) ∧
    (∀ j : Nat, (∀ nb ∈ nbs, nb.pNode ≠ j) →
      ((m.updateHeight env i higher nbs).1.node j).isLayerOccupied Layer.ZONE =
        (m.node j).isLayerOccupied Layer.ZONE) := by
  refine ⟨Map.updateHeight_zone_of_list env m i higher nbs h, fun p hp hi hn => ?_,
    fun j hj => Map.updateHeight_zone_outside env m i higher nbs j hj⟩
  obtain ⟨nb, hnb, hnode⟩ := Map.center_mem_getNeighborNodes m p hp
  have hz := Map.updateHeight_zone_of_list env m i higher nbs h nb (hn ▸ hnb)
  rw [hnode, ← hi] at hz
  exact hz

theorem updateHeight_clears_listed_zones_witness :
    (zoneGrid.node 4).isLayerOccupied Layer.ZONE = true ∧
    (zoneGrid.updateHeight townEnv 4 true
      (zoneGrid.getNeighborNodes { x := 1, y := 1, z := 0, height := 0 } true)).2 = true ∧
    ((∀ nb ∈ zoneGrid.getNeighborNodes { x := 1, y := 1, z := 0, height := 0 } true,
      ((zoneGrid.updateHeight townEnv 4 true
        (zoneGrid.getNeighborNodes { x := 1, y := 1, z := 0, height := 0 } true)).1.node
          nb.pNode).isLayerOccupied Layer.ZONE = false) ∧
    (∀ p : Point, p.isWithinMapBoundaries zoneGrid = true → 4 = zoneGrid.nodePtr p.x p.y →
      zoneGrid.getNeighborNodes { x := 1, y := 1, z := 0, height := 0 } true =
        zoneGrid.getNeighborNodes p true →
      ((zoneGrid.updateHeight townEnv 4 true
        (zoneGrid.getNeighborNodes { x := 1, y := 1, z := 0, height := 0 } true)).1.node
          4).isLayerOccupied Layer.ZONE = false) ∧
    (∀ j : Nat,
      (∀ nb ∈ zoneGrid.getNeighborNodes { x := 1, y := 1, z := 0, height := 0 } true,
        nb.pNode ≠ j) →
      ((zoneGrid.updateHeight townEnv 4 true
        (zoneGrid.getNeighborNodes { x := 1, y := 1, z := 0, height := 0 } true)).1.node
          j).isLayerOccupied Layer.ZONE = (zoneGrid.node j).isLayerOccupied Layer.ZONE)) :=
  ⟨by decide, by decide,
    updateHeight_clears_listed_zones townEnv zoneGrid 4 true
      (zoneGrid.getNeighborNodes { x := 1, y := 1, z := 0, height := 0 } true) (by decide)⟩

/-- C16: demolition never changes heights. On a well-formed grid with heights in
`[0, maxHeight]` that satisfies I1 and in which no node is pinched (no taller-neighbour set
contains a must-elevate combination), for every list of positions, every layer and both
values of `updateNeighbors`, `demolishNode positions updateNeighbors layer` returns for
every large enough step budget and leaves the height of every node unchanged. -/
theorem demolishNode_keeps_heights (env : Env) (m : Map) (isoCoordinates : List Point)
    (updateNeighboringTiles : Bool) (layer : Layer) (hwf : m.WF) (hr : m.HeightsInRange env)
    (hi1 : m.I1) (hnp : m.NoPinchedNode) :
    ∃ fuel, ∀ fuel', fuel ≤ fuel' →
      ∃ m', m.demolishNode env fuel' isoCoordinates updateNeighboringTiles layer = some m' ∧
        m'.heights = m.heights ∧ ∀ i, (m'.node i).height = (m.node i).height := by
  obtain ⟨fuel, hf⟩ := Map.demolishNode_heights env m isoCoordinates updateNeighboringTiles
    layer hwf hr ((Map.WF.i1_iff hwf).1 hi1) hnp
  refine ⟨fuel, fun fuel' hle => ?_⟩
  obtain ⟨m', hm', hsame⟩ := hf fuel' hle
  exact ⟨m', hm', Map.SameHeights.heights_eq hsame, hsame.2⟩

theorem demolishNode_keeps_heights_witness :
    hillMap.WF ∧ hillMap.HeightsInRange sampleEnv ∧ hillMap.I1 ∧ hillMap.NoPinchedNode ∧
    hillMap.heights = [0, 0, 0, 0, 1, 0, 0, 0, 0] ∧
    ∃ fuel, ∀ fuel', fuel ≤ fuel' →
      ∃ m', hillMap.demolishNode sampleEnv fuel'
          [{ x := 1, y := 1, z := 0, height := 0 }, { x := 0, y := 2, z := 0, height := 0 }]
          true Layer.NONE = some m' ∧
        m'.heights = hillMap.heights ∧ ∀ i, (m'.node i).height = (hillMap.node i).height :=
  ⟨by decide, by decide, (Map.WF.i1_iff (by decide)).2 (by decide), by decide, by decide,
    demolishNode_keeps_heights sampleEnv hillMap
      [{ x := 1, y := 1, z := 0, height := 0 }, { x := 0, y := 2, z := 0, height := 0 }]
      true Layer.NONE (by decide) (by decide) ((Map.WF.i1_iff (by decide)).2 (by decide))
      (by decide)⟩

/-- C18: placement notifications. During a successful `setTileID` (the descriptor resolves,
the target-cell set is not empty and every target cell passes the placement check) on a
well-formed grid with heights in `[0, maxHeight]`, the call returns for every large enough
step budget and the placement signals it appends to the log are, in the order of the target
cells, the signal of each target cell evaluated on the cell as written: none when the cell
has no tile on ZONE, building placed when it has a tile on ZONE and on BUILDINGS, zone
placed when it has a tile on ZONE only. The target cells are distinct nodes, so no node is
notified twice and a node never receives both kinds. -/
theorem setTileID_placement_signals (env : Env) (rnd : Nat) (m : Map) (tileID : String)
    (coordinate : Point) (td : TileData) (hwf : m.WF) (hr : m.HeightsInRange env)
    (htd : env.tileManager.getTileData tileID = some td)
    (hne : getTargetCoordsOfTileID env m coordinate tileID ≠ [])
    (hall : ∀ c ∈ getTargetCoordsOfTileID env m coordinate tileID,
      m.isPlacementOnNodeAllowed env c tileID = true) :
    (∃ fuel, ∀ fuel', fuel ≤ fuel' →
      ∃ m', m.setTileID env fuel' rnd tileID coordinate = some m' ∧
        m'.signals.filter Signal.isPlacement =
          m.signals.filter Signal.isPlacement ++
            (getTargetCoordsOfTileID env m coordinate tileID).filterMap (fun t =>
              placementSignal (m.writtenCell env rnd tileID coordinate td t)
                (m.nodePtr t.x t.y))) ∧
    ((getTargetCoordsOfTileID env m coordinate tileID).map fun t => m.nodePtr t.x t.y).Nodup ∧
    ((((getTargetCoordsOfTileID env m coordinate tileID).filterMap (fun t =>
        placementSignal (m.writtenCell env rnd tileID coordinate td t)
          (m.nodePtr t.x t.y))).map Signal.node).Sublist
      ((getTargetCoordsOfTileID env m coordinate tileID).map fun t => m.nodePtr t.x t.y)) ∧
    ∀ (n : MapNode) (pNode : Nat),
      ((n.m_mapNodeData Layer.ZONE).tileData = none → placementSignal n pNode = none) ∧
      ((n.m_mapNodeData Layer.ZONE).tileData ≠ none →
        (n.m_mapNodeData Layer.BUILDINGS).tileData ≠ none →
        placementSignal n pNode = some (Signal.placeBuilding pNode)) ∧
      ((n.m_mapNodeData Layer.ZONE).tileData ≠ none →
        (n.m_mapNodeData Layer.BUILDINGS).tileData = none →
        placementSignal n pNode = some (Signal.placeZone pNode)) := by
  refine ⟨Map.setTileID_notifications env rnd m tileID coordinate td hwf hr htd hne hall,
    Map.WF.targetNodes_nodup hwf env coordinate tileID,
    placed_nodes_sublist (fun t => m.writtenCell env rnd tileID coordinate td t)
      (fun t => m.nodePtr t.x t.y) _, fun n pNode => ?_⟩
  unfold placementSignal
  cases hz : (n.m_mapNodeData Layer.ZONE).tileData <;>
    cases hb : (n.m_mapNodeData Layer.BUILDINGS).tileData <;> simp

theorem setTileID_placement_signals_witness :
    zoneCorner.WF ∧ zoneCorner.HeightsInRange townEnv ∧
    (zoneCorner.node 0).isLayerOccupied Layer.ZONE = true ∧
    ((zoneCorner.setTileID townEnv 0 0 "hut" { x := 0, y := 0, z := 0, height := 0 }).map
      Map.signals) = some [Signal.placeBuilding 0] ∧
    (((flatMap 2).setTileID townEnv 0 0 "zone" { x := 0, y := 1, z := 0, height := 0 }).map
      Map.signals) = some [Signal.placeZone 1] ∧
    (((flatMap 2).setTileID townEnv 0 0 "hut" { x := 0, y := 1, z := 0, height := 0 }).map
      Map.signals) = some [] ∧
    ((∃ fuel, ∀ fuel', fuel ≤ fuel' →
      ∃ m', zoneCorner.setTileID townEnv fuel' 0 "hut"
          { x := 0, y := 0, z := 0, height := 0 } = some m' ∧
        m'.signals.filter Signal.isPlacement =
          zoneCorner.signals.filter Signal.isPlacement ++
            (getTargetCoordsOfTileID townEnv zoneCorner
              { x := 0, y := 0, z := 0, height := 0 } "hut").filterMap (fun t =>
              placementSignal
                (zoneCorner.writtenCell townEnv 0 "hut" { x := 0, y := 0, z := 0, height := 0 }
                  { category := "Residential", tileType := TileType.OTHER,
                    RequiredTiles := { width := 1, height := 1 },
                    groundDecoration := ["lawn"] } t)
                (zoneCorner.nodePtr t.x t.y))) ∧
    ((getTargetCoordsOfTileID townEnv zoneCorner
      { x := 0, y := 0, z := 0, height := 0 } "hut").map fun t =>
        zoneCorner.nodePtr t.x t.y).Nodup ∧
    ((((getTargetCoordsOfTileID townEnv zoneCorner
        { x := 0, y := 0, z := 0, height := 0 } "hut").filterMap (fun t =>
        placementSignal
          (zoneCorner.writtenCell townEnv 0 "hut" { x := 0, y := 0, z := 0, height := 0 }
            { category := "Residential", tileType := TileType.OTHER,
              RequiredTiles := { width := 1, height := 1 },
              groundDecoration := ["lawn"] } t)
          (zoneCorner.nodePtr t.x t.y))).map Signal.node).Sublist
      ((getTargetCoordsOfTileID townEnv zoneCorner
        { x := 0, y := 0, z := 0, height := 0 } "hut").map fun t =>
          zoneCorner.nodePtr t.x t.y)) ∧
    ∀ (n : MapNode) (pNode : Nat),
      ((n.m_mapNodeData Layer.ZONE).tileData = none → placementSignal n pNode = none) ∧
      ((n.m_mapNodeData Layer.ZONE).tileData ≠ none →
        (n.m_mapNodeData Layer.BUILDINGS).tileData ≠ none →
        placementSignal n pNode = some (Signal.placeBuilding pNode)) ∧
      ((n.m_mapNodeData Layer.ZONE).tileData ≠ none →
        (n.m_mapNodeData Layer.BUILDINGS).tileData = none →
        placementSignal n pNode = some (Signal.placeZone pNode))) :=
  ⟨by decide, by decide, by decide, by decide, by decide, by decide,
    setTileID_placement_signals townEnv 0 zoneCorner "hut"
      { x := 0, y := 0, z := 0, height := 0 }
      { category := "Residential", tileType := TileType.OTHER,
        RequiredTiles := { width := 1, height := 1 }, groundDecoration := ["lawn"] }
      (by decide) (by decide) (by decide) (by decide) (by decide)⟩

/-- C19: the visible-range culler selects exactly the nodes inside the rotated bounds.
With `left = tl.x + tl.y - 2`, `right = br.x + br.y + 1`, `top = tl.y - tl.x + 1` and
`bottom = br.y - br.x - 1 - maxHeight`, the node at `(x, y)` of the scanned range
(`x` below the row count, `y` below the column count) is in the list of
`calculateVisibleMap` if and only if `left <= x + y <= right` and `bottom <= y - x <= top`;
every listed node is such a node; no node is listed twice; and the length of the list is at
most `columns * rows`. -/
theorem calculateVisibleMap_selects_bounds (env : Env) (m : Map) (topLeft bottomRight : Point) :
    (∀ x y : Nat, x < m.m_rows.toNat → y < m.m_columns.toNat →
      (m.nodePtr (x : Int) (y : Int) ∈ m.calculateVisibleMap env topLeft bottomRight ↔
        (topLeft.x + topLeft.y - 2 ≤ (x : Int) + (y : Int) ∧
          (x : Int) + (y : Int) ≤ bottomRight.x + bottomRight.y + 1) ∧
        (bottomRight.y - bottomRight.x - 1 - env.maxHeight ≤ (y : Int) - (x : Int) ∧
          (y : Int) - (x : Int) ≤ topLeft.y - topLeft.x + 1))) ∧
    (∀ i ∈ m.calculateVisibleMap env topLeft bottomRight,
      ∃ x y : Nat, x < m.m_rows.toNat ∧ y < m.m_columns.toNat ∧
        i = m.nodePtr (x : Int) (y : Int) ∧
        (topLeft.x + topLeft.y - 2 ≤ (x : Int) + (y : Int) ∧
          (x : Int) + (y : Int) ≤ bottomRight.x + bottomRight.y + 1) ∧
        (bottomRight.y - bottomRight.x - 1 - env.maxHeight ≤ (y : Int) - (x : Int) ∧
          (y : Int) - (x : Int) ≤ topLeft.y - topLeft.x + 1)) ∧
    (m.calculateVisibleMap env topLeft bottomRight).Nodup ∧
    (m.calculateVisibleMap env topLeft bottomRight).length ≤
      m.m_columns.toNat * m.m_rows.toNat := by
  refine ⟨fun x y hx hy => ?_, fun i hi => (Map.mem_calculateVisibleMap env m _ _ i).1 hi,
    Map.calculateVisibleMap_nodup env m topLeft bottomRight, ?_⟩
  · rw [Map.mem_calculateVisibleMap]
    constructor
    · rintro ⟨x', y', -, hy', he, hb⟩
      obtain ⟨rfl, rfl⟩ := Map.nodePtr_inj m hy hy' he
      exact hb
    · intro hb
      exact ⟨x, y, hx, hy, rfl, hb⟩
  · rw [← Map.length_scanOrder]
    exact (Map.calculateVisibleMap_sublist_scanOrder env m topLeft bottomRight).length_le

/-- C20, counterexample: on the flat 2x2 grid with the viewport corners at `(0, 0)` and
`(1, 1)` the culler lists the nodes `1, 3, 0, 2`, the drawing order built by
`loadMapFromFile` is `1, 0, 3, 2`, and the first list is not a subsequence of the second. -/
theorem calculateVisibleMap_not_in_drawing_order :
    (flatMap 2).WF ∧
    (flatMap 2).calculateVisibleMap (plainEnv 3) { x := 0, y := 0, z := 0, height := 0 }
      { x := 1, y := 1, z := 0, height := 0 } = [1, 3, 0, 2] ∧
    loadedDrawingOrder (flatMap 2).m_columns = [1, 0, 3, 2] ∧
    ¬ ((flatMap 2).calculateVisibleMap (plainEnv 3) { x := 0, y := 0, z := 0, height := 0 }
      { x := 1, y := 1, z := 0, height := 0 }).Sublist
        (loadedDrawingOrder (flatMap 2).m_columns) := by
  decide

/-- C20, amended: the culler lists the visible nodes in the order of its own scan, `y` from
`columns - 1` down to 0 and `x` ascending inside each `y`: for every viewport and every
grid, the visible list of `calculateVisibleMap` is a subsequence of that scan order. -/
theorem calculateVisibleMap_keeps_scan_order (env : Env) (m : Map)
    (topLeft bottomRight : Point) :
    (m.calculateVisibleMap env topLeft bottomRight).Sublist m.scanOrder :=
  Map.calculateVisibleMap_sublist_scanOrder env m topLeft bottomRight


/-! ## Direction increment, node lookup and drawing order -/

theorem Map.getMapNodeChecked_eq_some_iff (m : Map) (p : Point) (n : MapNode) :
    m.getMapNodeChecked p = some n ↔
      0 ≤ m.nodeIdx p.x p.y ∧ m.nodePtr p.x p.y < m.mapNodes.length ∧
        m.getMapNode p = n := by
  unfold Map.getMapNodeChecked Map.getMapNode Map.node Map.nodePtr
  by_cases h0 : 0 ≤ m.nodeIdx p.x p.y
  · rw [if_pos h0]
    by_cases hlt : (m.nodeIdx p.x p.y).toNat < m.mapNodes.length
    · rw [List.getElem?_eq_getElem hlt, List.getD_eq_getElem _ _ hlt]
      simp [h0, hlt]
    · rw [List.getElem?_eq_none (not_lt.1 hlt)]
      simp [hlt]
  · rw [if_neg h0]
    simp [h0]

theorem Map.getMapNodeChecked_eq_none_iff (m : Map) (p : Point) :
    m.getMapNodeChecked p = none ↔
      m.nodeIdx p.x p.y < 0 ∨ m.mapNodes.length ≤ m.nodePtr p.x p.y := by
  unfold Map.getMapNodeChecked Map.nodePtr
  by_cases h0 : 0 ≤ m.nodeIdx p.x p.y
  · rw [if_pos h0, List.getElem?_eq_none_iff]
    constructor
    · exact fun h => Or.inr h
    · rintro (h | h)
      · omega
      · exact h
  · rw [if_neg h0]
    simp only [true_iff]
    exact Or.inl (not_le.1 h0)

theorem Map.WF.getMapNodeChecked_within {m : Map} (hwf : m.WF) {p : Point}
    (hp : p.isWithinMapBoundaries m = true) :
    m.getMapNodeChecked p = some (m.getMapNode p) := by
  rw [Map.getMapNodeChecked_eq_some_iff]
  refine ⟨?_, hwf.nodePtr_lt hp, rfl⟩
  obtain ⟨h0, -, -, -⟩ := hwf
  simp only [Point.isWithinMapBoundaries, Bool.and_eq_true, decide_eq_true_eq] at hp
  unfold Map.nodeIdx
  have := mul_nonneg hp.1.1.1 h0
  omega

theorem loadedDrawingOrder_eq (n : Nat) :
    loadedDrawingOrder (n : Int) =
      (List.range n).flatMap fun (x : Nat) => (List.range n).reverse.map fun (y : Nat) => x * n + y := by
  unfold loadedDrawingOrder
  rw [Int.toNat_natCast]
  congr 1

theorem mem_loadedDrawingOrder (n i : Nat) :
    i ∈ loadedDrawingOrder (n : Int) ↔ i < n * n := by
  rw [loadedDrawingOrder_eq]
  simp only [List.mem_flatMap, List.mem_map, List.mem_reverse, List.mem_range]
  constructor
  · rintro ⟨x, hx, y, hy, rfl⟩
    calc x * n + y < x * n + n := by omega
      _ = (x + 1) * n := by ring
      _ ≤ n * n := Nat.mul_le_mul_right n hx
  · intro hi
    have hn : 0 < n := by
      rcases Nat.eq_zero_or_pos n with h | h
      · subst h; simp at hi
      · exact h
    refine ⟨i / n, (Nat.div_lt_iff_lt_mul hn).2 hi, i % n, Nat.mod_lt _ hn, ?_⟩
    rw [Nat.mul_comm]
    exact Nat.div_add_mod i n

theorem loadedDrawingOrder_nodup (n : Nat) : (loadedDrawingOrder (n : Int)).Nodup := by
  rw [loadedDrawingOrder_eq, List.nodup_flatMap]
  constructor
  · intro x _
    apply List.Nodup.map_on
    · intro a _ b _ h
      omega
    · exact List.nodup_reverse.2 (List.nodup_range n)
  · apply List.Pairwise.imp _ (List.nodup_range n)
    intro a b hab
    simp only [Function.onFun]
    intro i h1 h2
    simp only [List.mem_map, List.mem_reverse, List.mem_range] at h1 h2
    obtain ⟨y, hy, rfl⟩ := h1
    obtain ⟨y', hy', h⟩ := h2
    apply hab
    have h3 : (b * n + y') / n = (a * n + y) / n := by rw [h]
    have hn : 0 < n := by omega
    rw [Nat.mul_comm b n, Nat.mul_comm a n, Nat.mul_add_div hn, Nat.mul_add_div hn,
      Nat.div_eq_of_lt hy, Nat.div_eq_of_lt hy'] at h3
    omega

theorem loadedDrawingOrder_perm (n : Nat) :
    (loadedDrawingOrder (n : Int)).Perm (List.range (n * n)) := by
  apply List.perm_of_nodup_nodup_toFinset_eq (loadedDrawingOrder_nodup n) (List.nodup_range _)
  ext i
  simp only [List.mem_toFinset, List.mem_range]
  exact mem_loadedDrawingOrder n i

theorem loadedDrawingOrder_getLast (n : Nat) (hn : 1 ≤ n) :
    (loadedDrawingOrder (n : Int)).getLast? = some ((n - 1) * n) := by
  rw [loadedDrawingOrder_eq]
  obtain ⟨k, rfl⟩ : ∃ k, n = k + 1 := ⟨n - 1, by omega⟩
  rw [List.range_succ, List.flatMap_append, List.getLast?_append]
  simp only [List.flatMap_cons, List.flatMap_nil, List.append_nil, List.getLast?_map,
    List.getLast?_reverse]
  rw [← List.range_succ]
  simp [List.range_succ_eq_map]

/-! ## Picker -/

theorem adjustPickerGuess_overflow (mapSize isoX isoY : Int) (h : isoY ≥ mapSize) :
    (adjustPickerGuess mapSize isoX isoY).2 = mapSize ∧
      (adjustPickerGuess mapSize isoX isoY).1 + (adjustPickerGuess mapSize isoX isoY).2 =
        isoX + isoY := by
  unfold adjustPickerGuess
  rw [if_pos h]
  constructor
  · simp only
    omega
  · simp only
    omega

theorem mem_pickerCandidates (mapSize isoX isoY : Int) (c : Int × Int) :
    c ∈ pickerCandidates mapSize isoX isoY ↔
      (max (isoX - 2) 0 ≤ c.1 ∧ c.1 ≤ min (isoX + 2 + isoY) (mapSize - 1)) ∧
      (max (isoY - (c.1 - isoX) - 2) 0 ≤ c.2 ∧
        c.2 ≤ min (isoY - (c.1 - isoX) + 2) (mapSize - 1)) := by
  unfold pickerCandidates
  simp only [List.mem_flatMap, List.mem_map, List.mem_range]
  constructor
  · rintro ⟨k, hk, j, hj, rfl⟩
    simp only
    omega
  · rintro ⟨⟨h1, h2⟩, h3, h4⟩
    refine ⟨(min (isoX + 2 + isoY) (mapSize - 1) - c.1).toNat, by omega, ?_⟩
    have hx : min (isoX + 2 + isoY) (mapSize - 1) -
        ((min (isoX + 2 + isoY) (mapSize - 1) - c.1).toNat : Int) = c.1 := by omega
    rw [hx]
    refine ⟨(c.2 - max (isoY - (c.1 - isoX) - 2) 0).toNat, by omega, ?_⟩
    have hy : max (isoY - (c.1 - isoX) - 2) 0 +
        ((c.2 - max (isoY - (c.1 - isoX) - 2) 0).toNat : Int) = c.2 := by omega
    rw [hy]

theorem pickerCandidates_order (mapSize isoX isoY : Int) :
    (pickerCandidates mapSize isoX isoY).Pairwise
      (fun a b => b.1 < a.1 ∨ (b.1 = a.1 ∧ a.2 < b.2)) := by
  unfold pickerCandidates
  simp only
  rw [List.pairwise_flatMap]
  constructor
  · intro k _
    rw [List.pairwise_map]
    apply List.Pairwise.imp _ (List.pairwise_lt_range _)
    intro a b hab
    right
    exact ⟨rfl, by omega⟩
  · apply List.Pairwise.imp _ (List.pairwise_lt_range _)
    intro a b hab x hx y hy
    simp only [List.mem_map, List.mem_range] at hx hy
    obtain ⟨j, -, rfl⟩ := hx
    obtain ⟨j', -, rfl⟩ := hy
    left
    simp only
    omega

theorem pickerCandidates_within (m : Map) (mapSize isoX isoY : Int) (hsize : mapSize = m.m_columns)
    (hsq : m.m_rows = m.m_columns) (c : Int × Int) (hc : c ∈ pickerCandidates mapSize isoX isoY) :
    (candidatePoint c).isWithinMapBoundaries m = true := by
  rw [mem_pickerCandidates] at hc
  simp only [Point.isWithinMapBoundaries, candidatePoint, Bool.and_eq_true, decide_eq_true_eq]
  omega

theorem Map.findNodeInMap_first (m : Map) (mapSize : Int) (isClickWithinTile : Point → Bool)
    (guess : Point) (l1 l2 : List (Int × Int)) (c : Int × Int)
    (hsplit : pickerCandidates mapSize (adjustPickerGuess mapSize guess.x guess.y).1
      (adjustPickerGuess mapSize guess.x guess.y).2 = l1 ++ c :: l2)
    (hmiss : ∀ d ∈ l1, isClickWithinTile (m.getMapNode (candidatePoint d)).m_isoCoordinates = false)
    (hhit : isClickWithinTile (m.getMapNode (candidatePoint c)).m_isoCoordinates = true) :
    m.findNodeInMap mapSize isClickWithinTile guess =
      (m.getMapNode (candidatePoint c)).m_isoCoordinates := by
  unfold Map.findNodeInMap
  have : (pickerCandidates mapSize (adjustPickerGuess mapSize guess.x guess.y).1
      (adjustPickerGuess mapSize guess.x guess.y).2).find?
      (fun c => isClickWithinTile (m.getMapNode (candidatePoint c)).m_isoCoordinates) = some c := by
    rw [List.find?_eq_some]
    exact ⟨hhit, l1, l2, hsplit, fun a ha => by simp [hmiss a ha]⟩
  rw [this]

theorem Map.findNodeInMap_sentinel_iff (m : Map) (mapSize : Int)
    (isClickWithinTile : Point → Bool) (guess : Point) (hwf : m.WF)
    (hsize : mapSize = m.m_columns) :
    m.findNodeInMap mapSize isClickWithinTile guess = { x := -1, y := -1, z := 0, height := 0 } ↔
      ∀ c ∈ pickerCandidates mapSize (adjustPickerGuess mapSize guess.x guess.y).1
          (adjustPickerGuess mapSize guess.x guess.y).2,
        isClickWithinTile (m.getMapNode (candidatePoint c)).m_isoCoordinates = false := by
  unfold Map.findNodeInMap
  constructor
  · intro h
    cases hf : (pickerCandidates mapSize (adjustPickerGuess mapSize guess.x guess.y).1
      (adjustPickerGuess mapSize guess.x guess.y).2).find?
      (fun c => isClickWithinTile (m.getMapNode (candidatePoint c)).m_isoCoordinates) with
    | none =>
      rw [List.find?_eq_none] at hf
      intro c hc
      simpa using hf c hc
    | some c =>
      rw [hf] at h
      simp only at h
      have hmem := List.mem_of_find?_eq_some hf
      have hin := pickerCandidates_within m mapSize _ _ hsize hwf.2.1 c hmem
      have hx := (hwf.getMapNode_xy hin).1
      rw [h] at hx
      rw [mem_pickerCandidates] at hmem
      simp only [candidatePoint] at hx
      omega
  · intro h
    have : (pickerCandidates mapSize (adjustPickerGuess mapSize guess.x guess.y).1
      (adjustPickerGuess mapSize guess.x guess.y).2).find?
      (fun c => isClickWithinTile (m.getMapNode (candidatePoint c)).m_isoCoordinates) = none := by
      rw [List.find?_eq_none]
      intro c hc
      simp [h c hc]
    rw [this]


/-! ## The must-elevate table -/

theorem and_or_eq_iff (a x y : Nat) : a &&& (x ||| y) = x ||| y ↔ a &&& x = x ∧ a &&& y = y := by
  constructor
  · intro h
    constructor
    · apply Nat.eq_of_testBit_eq
      intro k
      have hk := congrArg (fun n => n.testBit k) h
      simp only [Nat.testBit_and, Nat.testBit_or] at hk ⊢
      cases ha : a.testBit k <;> cases hx : x.testBit k <;> cases hy : y.testBit k <;> simp_all
    · apply Nat.eq_of_testBit_eq
      intro k
      have hk := congrArg (fun n => n.testBit k) h
      simp only [Nat.testBit_and, Nat.testBit_or] at hk ⊢
      cases ha : a.testBit k <;> cases hx : x.testBit k <;> cases hy : y.testBit k <;> simp_all
  · rintro ⟨h1, h2⟩
    apply Nat.eq_of_testBit_eq
    intro k
    have hk1 := congrArg (fun n => n.testBit k) h1
    have hk2 := congrArg (fun n => n.testBit k) h2
    simp only [Nat.testBit_and, Nat.testBit_or] at hk1 hk2 ⊢
    cases ha : a.testBit k <;> cases hx : x.testBit k <;> cases hy : y.testBit k <;> simp_all

/-- The must-elevate test is the table of six combinations. -/
theorem mustElevate_iff (b : Nat) :
    mustElevate b = true ↔
      (hasBit b .TOP ∧ hasBit b .BOTTOM) ∨ (hasBit b .LEFT ∧ hasBit b .RIGHT) ∨
      (hasBit b .TOP_LEFT ∧ hasBit b .RIGHT ∧ hasBit b .BOTTOM) ∨
      (hasBit b .TOP_RIGHT ∧ hasBit b .LEFT ∧ hasBit b .BOTTOM) ∨
      (hasBit b .BOTTOM_LEFT ∧ hasBit b .RIGHT ∧ hasBit b .TOP) ∨
      (hasBit b .BOTTOM_RIGHT ∧ hasBit b .LEFT ∧ hasBit b .TOP) := by
  unfold mustElevate elevateTileComb hasBit
  simp only [List.any_cons, List.any_nil, Bool.or_false, Bool.or_eq_true, beq_iff_eq,
    and_or_eq_iff, and_assoc]

/-- A bitmask whose bits all belong to a second bitmask must elevate only if the second
does. -/
theorem mustElevate_mono {a b : Nat}
    (h : ∀ d : NeighbourNodesPosition, d ≠ .CENTER → hasBit a d → hasBit b d)
    (ha : mustElevate a = true) : mustElevate b = true := by
  rw [mustElevate_iff] at ha ⊢
  rcases ha with ⟨h1, h2⟩ | ⟨h1, h2⟩ | ⟨h1, h2, h3⟩ | ⟨h1, h2, h3⟩ | ⟨h1, h2, h3⟩ | ⟨h1, h2, h3⟩
  · exact Or.inl ⟨h _ (by decide) h1, h _ (by decide) h2⟩
  · exact Or.inr (Or.inl ⟨h _ (by decide) h1, h _ (by decide) h2⟩)
  · exact Or.inr (Or.inr (Or.inl ⟨h _ (by decide) h1, h _ (by decide) h2, h _ (by decide) h3⟩))
  · exact Or.inr (Or.inr (Or.inr (Or.inl
      ⟨h _ (by decide) h1, h _ (by decide) h2, h _ (by decide) h3⟩)))
  · exact Or.inr (Or.inr (Or.inr (Or.inr (Or.inl
      ⟨h _ (by decide) h1, h _ (by decide) h2, h _ (by decide) h3⟩))))
  · exact Or.inr (Or.inr (Or.inr (Or.inr (Or.inr
      ⟨h _ (by decide) h1, h _ (by decide) h2, h _ (by decide) h3⟩))))

/-- Heights and queue after one elevation step. -/
theorem elevateStep_heights (env : Env) (s : UpdateState) (E : Nat)
    (hE : E < s.map.mapNodes.length) :
    (mustElevate (s.map.getElevatedNeighborBitmask (s.map.node E).m_isoCoordinates) = true →
      (elevateStep env s E).nodesUpdatedHeight = s.nodesUpdatedHeight ++ [E] ∧
      ((elevateStep env s E).map.node E).height =
        (if (s.map.node E).height < env.maxHeight then (s.map.node E).height + 1
          else (s.map.node E).height) ∧
      ∀ j, j ≠ E → ((elevateStep env s E).map.node j).height = (s.map.node j).height) ∧
    (mustElevate (s.map.getElevatedNeighborBitmask (s.map.node E).m_isoCoordinates) = false →
      (elevateStep env s E).nodesUpdatedHeight = s.nodesUpdatedHeight ∧
      ∀ j, ((elevateStep env s E).map.node j).height = (s.map.node j).height) := by
  obtain ⟨-, -, hcase⟩ := elevateStep_spec env s E
  obtain ⟨hg, hh, -, -, -, -, -⟩ := Map.storeElevation_spec s.map E
  constructor
  · intro hm
    rcases hcase with ⟨hm', -, -⟩ | ⟨-, hmap, hQ⟩
    · rw [hm] at hm'; exact absurd hm' (by decide)
    · obtain ⟨-, -, -, hne, heq, -⟩ := Map.updateHeight_spec env (s.map.storeElevation E) E true
        ((s.map.storeElevation E).getNeighborNodes
          ((s.map.storeElevation E).node E).m_isoCoordinates false)
      refine ⟨hQ, ?_, fun j hj => ?_⟩
      · rw [hmap, heq (by rw [hg.2.2.1]; exact hE), MapNode.changeHeight_height, hh E]
        simp
      · rw [hmap, hne j hj, hh j]
  · intro hm
    rcases hcase with ⟨-, hmap, hQ⟩ | ⟨hm', -, -⟩
    · exact ⟨hQ, fun j => by rw [hmap, hh j]⟩
    · rw [hm] at hm'; exact absurd hm' (by decide)


/-! ## The nodes visited by the propagation are free of pinches -/

theorem Map.WF.pinchOK_congr {m m' : Map} (hwf : m.WF) (hg : m.SameGrid m') {i : Nat}
    (hi : i < m.mapNodes.length) (hcen : (m'.node i).height = (m.node i).height)
    (hnb : ∀ j, m.Adj i j → (m'.node j).height = (m.node j).height) :
    m'.pinchOK i ↔ m.pinchOK i := by
  unfold Map.pinchOK
  rw [hwf.getElevated_eq hg hi hcen hnb]

/-- One step of the propagation keeps the pinch invariant: every node whose height changes
joins the work list. -/
theorem Map.PinchInv.step_pinchInv {m m' : Map} {W W' S S' B B' : List Nat} {T T' : Nat → Prop}
    (h : m.PinchInv W S B T) (hwf : m.WF) (hg : m.SameGrid m')
    (hchg : ∀ j, (m'.node j).height ≠ (m.node j).height → j ∈ W')
    (hW : ∀ i, i ∈ W → i ∈ W')
    (hS : ∀ i, i ∈ S → i ∈ S' ∨ i ∈ W' ∨ m'.pinchOK i)
    (hB : ∀ i, i ∈ B' → i ∈ B ∨ i ∈ S' ∨ i ∈ W' ∨ m'.pinchOK i)
    (hT : ∀ i, T i → i ∈ S' ∨ T' i) :
    m'.PinchInv W' S' B' T' := by
  intro i hi hiB
  rw [hg.2.2.1] at hi
  rcases hB i hiB with hb | hb | hb | hb
  · rcases h i hi hb with h1 | h1 | h1 | ⟨j, h1, h2⟩ | h1
    · by_cases hc : (m'.node i).height = (m.node i).height ∧
          ∀ j, m.Adj i j → (m'.node j).height = (m.node j).height
      · exact Or.inl ((hwf.pinchOK_congr hg hi hc.1 hc.2).2 h1)
      · rw [not_and_or] at hc
        rcases hc with hc | hc
        · exact Or.inr (Or.inr (Or.inl (hchg i hc)))
        · push_neg at hc
          obtain ⟨j, hj, hne⟩ := hc
          exact Or.inr (Or.inr (Or.inr (Or.inl ⟨j, hchg j hne, (hg.adj i j).2 hj⟩)))
    · rcases hS i h1 with h2 | h2 | h2
      · exact Or.inr (Or.inl h2)
      · exact Or.inr (Or.inr (Or.inl h2))
      · exact Or.inl h2
    · exact Or.inr (Or.inr (Or.inl (hW i h1)))
    · exact Or.inr (Or.inr (Or.inr (Or.inl ⟨j, hW j h1, (hg.adj i j).2 h2⟩)))
    · rcases hT i h1 with h2 | h2
      · exact Or.inr (Or.inl h2)
      · exact Or.inr (Or.inr (Or.inr (Or.inr h2)))
  · exact Or.inr (Or.inl hb)
  · exact Or.inr (Or.inr (Or.inl hb))
  · exact Or.inl hb

/-- One step of the propagation keeps the visit invariant. -/
theorem Map.VisitInv.step_visitInv {h0 : Nat → Int} {A : List Nat} {m m' : Map} {W W' S S' B B' : List Nat}
    {N N' : Nat} {todo todo' : List Nat}
    (h : m.VisitInv h0 A W S B N todo) (hg : m.SameGrid m')
    (hchg : ∀ j, (m'.node j).height ≠ (m.node j).height → j ∈ W')
    (hW : ∀ i, i ∈ W → i ∈ W' ∨
      ((i ∈ S' ∨ i ∈ B') ∧ ∀ j, m.Adj i j → j ∈ S' ∨ j ∈ B' ∨ (i = N' ∧ j ∈ todo')))
    (hS : ∀ i, i ∈ S → i ∈ S' ∨ i ∈ B') (hB : ∀ i, i ∈ B → i ∈ B')
    (htodo : ∀ i j, i = N → j ∈ todo → j ∈ S' ∨ j ∈ B' ∨ (i = N' ∧ j ∈ todo')) :
    m'.VisitInv h0 A W' S' B' N' todo' := by
  intro i hi hpre
  rw [hg.2.2.1] at hi
  by_cases hc : (m'.node i).height = (m.node i).height
  · rw [hc] at hpre
    rcases h i hi hpre with h1 | ⟨h1, h2⟩
    · rcases hW i h1 with h3 | ⟨h3, h4⟩
      · exact Or.inl h3
      · exact Or.inr ⟨h3, fun j hj => h4 j ((hg.adj i j).1 hj)⟩
    · refine Or.inr ⟨?_, fun j hj => ?_⟩
      · rcases h1 with h1 | h1
        · exact hS i h1
        · exact Or.inr (hB i h1)
      · rcases h2 j ((hg.adj i j).1 hj) with h3 | h3 | ⟨h3, h4⟩
        · rcases hS j h3 with h5 | h5
          · exact Or.inl h5
          · exact Or.inr (Or.inl h5)
        · exact Or.inr (Or.inl (hB j h3))
        · exact htodo i j h3 h4
  · exact Or.inl (hchg i hc)

theorem neighbourStep_seen {env : Env} {h0 : Nat → Int} {A : List Nat} {s : UpdateState}
    (hv : s.Valid env) {k : Int} {N : Nat} {nb : NeighborNode} {rest : List NeighborNode}
    (hp : s.map.PinchInv s.nodesUpdatedHeight s.nodesToElevate s.nodesToBeUpdated
      (fun i => i ∈ (nb :: rest).map (fun x => x.pNode)))
    (hvis : s.map.VisitInv h0 A s.nodesUpdatedHeight s.nodesToElevate s.nodesToBeUpdated N
      ((nb :: rest).map fun x => x.pNode)) :
    (neighbourStep env k s nb).map.PinchInv (neighbourStep env k s nb).nodesUpdatedHeight
      (neighbourStep env k s nb).nodesToElevate (neighbourStep env k s nb).nodesToBeUpdated
      (fun i => i ∈ rest.map (fun x => x.pNode)) ∧
    (neighbourStep env k s nb).map.VisitInv h0 A (neighbourStep env k s nb).nodesUpdatedHeight
      (neighbourStep env k s nb).nodesToElevate (neighbourStep env k s nb).nodesToBeUpdated N
      (rest.map fun x => x.pNode) := by
  obtain ⟨hS, hB, -, hcase⟩ := neighbourStep_spec env k s nb
  have hg : s.map.SameGrid (neighbourStep env k s nb).map ∧
      (∀ j, ((neighbourStep env k s nb).map.node j).height ≠ (s.map.node j).height →
        j ∈ (neighbourStep env k s nb).nodesUpdatedHeight) ∧
      (∀ i, i ∈ s.nodesUpdatedHeight → i ∈ (neighbourStep env k s nb).nodesUpdatedHeight) := by
    rcases hcase with ⟨-, hm, hQ⟩ | ⟨-, hm, hQ⟩
    · rw [hm, hQ]
      exact ⟨Map.SameGrid.refl_sameGrid _, fun j hj => absurd rfl hj, fun i hi => hi⟩
    · obtain ⟨hg, -, -, hne, -, -⟩ := Map.updateHeight_spec env s.map nb.pNode
        (decide (k - (s.map.node nb.pNode).height > 1))
        (s.map.getNeighborNodes (s.map.node nb.pNode).m_isoCoordinates false)
      rw [hm, hQ]
      refine ⟨hg, fun j hj => ?_, fun i hi => List.mem_append_left _ hi⟩
      by_cases hjM : j = nb.pNode
      · rw [hjM]; simp
      · exact absurd (hne j hjM) hj
  obtain ⟨hg, hchg, hW⟩ := hg
  constructor
  · refine hp.step_pinchInv hv.1 hg hchg hW (fun i hi => Or.inl ?_) (fun i hi => Or.inl ?_) (fun i hi => ?_)
    · rw [hS]; exact (mem_pushIfAbsent _ _ _).2 (Or.inr hi)
    · rw [hB] at hi; exact hi
    · rw [List.map_cons, List.mem_cons] at hi
      rcases hi with hi | hi
      · left; rw [hS]; exact (mem_pushIfAbsent _ _ _).2 (Or.inl hi)
      · exact Or.inr hi
  · refine hvis.step_visitInv hg hchg (fun i hi => Or.inl (hW i hi)) (fun i hi => Or.inl ?_)
      (fun i hi => ?_) (fun i j hi hj => ?_)
    · rw [hS]; exact (mem_pushIfAbsent _ _ _).2 (Or.inr hi)
    · rw [hB]; exact hi
    · rw [List.map_cons, List.mem_cons] at hj
      rcases hj with hj | hj
      · left; rw [hS]; exact (mem_pushIfAbsent _ _ _).2 (Or.inl hj)
      · exact Or.inr (Or.inr ⟨hi, hj⟩)

/-- A height step keeps the invariant of the visited nodes. -/
theorem UpdateState.Seen.heightStep_seen {env : Env} {h0 : Nat → Int} {A : List Nat}
    {s : UpdateState} (hinv : s.Seen env h0 A) {N : Nat} {rest : List Nat}
    (hQ : s.nodesUpdatedHeight = N :: rest) :
    (Cytopia.heightStep env { s with nodesUpdatedHeight := rest } N).Seen env h0 A := by
  obtain ⟨hv, hp, hvis⟩ := hinv
  have hN : N < s.map.mapNodes.length := hv.2.2.1 N (by rw [hQ]; exact List.mem_cons_self _ _)
  have hv' : UpdateState.Valid env { s with nodesUpdatedHeight := rest } :=
    ⟨hv.1, hv.2.1, fun i hi => hv.2.2.1 i (by rw [hQ]; exact List.mem_cons_of_mem _ hi), hv.2.2.2⟩
  have hv1 := hv'.pushStack hN
  rw [hQ] at hp hvis
  have hnbr : ∀ j, s.map.Adj N j ↔
      j ∈ (s.map.getNeighborNodes (s.map.node N).m_isoCoordinates false).map fun x => x.pNode :=
    fun j => (hv.1.mem_neighbourIdx_iff (i := N) j).symm
  rw [heightStep_eq]
  have := neighbourFold_induct env (s.map.node N).height
    (fun todo t =>
      t.map.PinchInv t.nodesUpdatedHeight t.nodesToElevate t.nodesToBeUpdated
        (fun i => i ∈ todo.map (fun x => x.pNode)) ∧
      t.map.VisitInv h0 A t.nodesUpdatedHeight t.nodesToElevate t.nodesToBeUpdated N
        (todo.map fun x => x.pNode))
    (fun nb rest' t ht _ hP => neighbourStep_seen ht hP.1 hP.2)
    _ _ hv1 (hv.1.neighborNodes_lt N) ⟨?_, ?_⟩
  · refine ⟨this.2.1, fun i hi hiB => ?_, fun i hi hpre => ?_⟩
    · rcases this.1.1 i hi hiB with h1 | h1 | h1 | h1 | h1
      · exact Or.inl h1
      · exact Or.inr (Or.inl h1)
      · exact Or.inr (Or.inr (Or.inl h1))
      · exact Or.inr (Or.inr (Or.inr (Or.inl h1)))
      · simp at h1
    · rcases this.1.2 i hi hpre with h1 | ⟨h1, h2⟩
      · exact Or.inl h1
      · refine Or.inr ⟨h1, fun j hj => ?_⟩
        rcases h2 j hj with h3 | h3 | ⟨-, h3⟩
        · exact Or.inl h3
        · exact Or.inr (Or.inl h3)
        · simp at h3
  · -- the pinch invariant when the node has just been popped
    intro i hi hiB
    dsimp only at hi hiB ⊢
    rcases hp i hi hiB with h1 | h1 | h1 | ⟨j, h1, h2⟩ | h1
    · exact Or.inl h1
    · exact Or.inr (Or.inl ((mem_pushIfAbsent _ _ _).2 (Or.inr h1)))
    · rw [List.mem_cons] at h1
      rcases h1 with h1 | h1
      · exact Or.inr (Or.inl ((mem_pushIfAbsent _ _ _).2 (Or.inl h1)))
      · exact Or.inr (Or.inr (Or.inl h1))
    · rw [List.mem_cons] at h1
      rcases h1 with h1 | h1
      · subst h1
        exact Or.inr (Or.inr (Or.inr (Or.inr ((hnbr i).1 (hv.1.adj_symm hi h2)))))
      · exact Or.inr (Or.inr (Or.inr (Or.inl ⟨j, h1, h2⟩)))
    · exact absurd h1 id
  · -- the visit invariant when the node has just been popped
    intro i hi hpre
    dsimp only at hi hpre ⊢
    rcases hvis i hi hpre with h1 | ⟨h1, h2⟩
    · rw [List.mem_cons] at h1
      rcases h1 with h1 | h1
      · subst h1
        exact Or.inr ⟨Or.inl ((mem_pushIfAbsent _ _ _).2 (Or.inl rfl)),
          fun j hj => Or.inr (Or.inr ⟨rfl, (hnbr j).1 hj⟩)⟩
      · exact Or.inl h1
    · refine Or.inr ⟨?_, fun j hj => ?_⟩
      · rcases h1 with h1 | h1
        · exact Or.inl ((mem_pushIfAbsent _ _ _).2 (Or.inr h1))
        · exact Or.inr h1
      · rcases h2 j hj with h3 | h3 | ⟨-, h3⟩
        · exact Or.inl ((mem_pushIfAbsent _ _ _).2 (Or.inr h3))
        · exact Or.inr (Or.inl h3)
        · simp at h3

/-- An elevation step keeps the invariant of the visited nodes. -/
theorem UpdateState.Seen.elevateStep_seen {env : Env} {h0 : Nat → Int} {A : List Nat}
    {s : UpdateState} (hinv : s.Seen env h0 A) {E : Nat} {rest : List Nat}
    (hS : s.nodesToElevate = E :: rest) :
    (Cytopia.elevateStep env { s with nodesToElevate := rest } E).Seen env h0 A := by
  obtain ⟨hv, hp, hvis⟩ := hinv
  have hE : E < s.map.mapNodes.length := hv.2.2.2 E (by rw [hS]; exact List.mem_cons_self _ _)
  have hv' : UpdateState.Valid env { s with nodesToElevate := rest } :=
    ⟨hv.1, hv.2.1, hv.2.2.1, fun i hi => hv.2.2.2 i (by rw [hS]; exact List.mem_cons_of_mem _ hi)⟩
  obtain ⟨hvalid, hg⟩ := hv'.elevateStep_valid (E := E) hE
  obtain ⟨hS', hB', -⟩ := elevateStep_spec env { s with nodesToElevate := rest } E
  obtain ⟨hyes, hno⟩ := elevateStep_heights env { s with nodesToElevate := rest } E hE
  dsimp only at hS' hB' hyes hno hg
  rw [hS] at hp hvis
  -- every node whose height changes joins the queue, and the popped node is settled
  have hkey : (∀ j, ((Cytopia.elevateStep env { s with nodesToElevate := rest } E).map.node j).height ≠
        (s.map.node j).height →
        j ∈ (Cytopia.elevateStep env { s with nodesToElevate := rest } E).nodesUpdatedHeight) ∧
      (∀ i, i ∈ s.nodesUpdatedHeight →
        i ∈ (Cytopia.elevateStep env { s with nodesToElevate := rest } E).nodesUpdatedHeight) ∧
      (E ∈ (Cytopia.elevateStep env { s with nodesToElevate := rest } E).nodesUpdatedHeight ∨
        (Cytopia.elevateStep env { s with nodesToElevate := rest } E).map.pinchOK E) := by
    cases hm : mustElevate (s.map.getElevatedNeighborBitmask (s.map.node E).m_isoCoordinates)
    · obtain ⟨hQ, hh⟩ := hno hm
      refine ⟨fun j hj => absurd (hh j) hj, fun i hi => by rw [hQ]; exact hi, Or.inr ?_⟩
      exact (hv.1.pinchOK_congr hg hE (hh E) fun j _ => hh j).2 hm
    · obtain ⟨hQ, -, hne⟩ := hyes hm
      refine ⟨fun j hj => ?_, fun i hi => by rw [hQ]; exact List.mem_append_left _ hi,
        Or.inl (by rw [hQ]; simp)⟩
      by_cases hjE : j = E
      · rw [hQ, hjE]; simp
      · exact absurd (hne j hjE) hj
  obtain ⟨hchg, hW, hEok⟩ := hkey
  refine ⟨hvalid, ?_, ?_⟩
  · refine hp.step_pinchInv hv.1 hg hchg hW (fun i hi => ?_) (fun i hi => ?_) (fun i hi => absurd hi id)
    · rw [List.mem_cons] at hi
      rcases hi with hi | hi
      · subst hi
        rcases hEok with h | h
        · exact Or.inr (Or.inl h)
        · exact Or.inr (Or.inr h)
      · left; rw [hS']; exact hi
    · rw [hB', mem_setInsert] at hi
      rcases hi with hi | hi
      · subst hi
        rcases hEok with h | h
        · exact Or.inr (Or.inr (Or.inl h))
        · exact Or.inr (Or.inr (Or.inr h))
      · exact Or.inl hi
  · refine hvis.step_visitInv hg hchg (fun i hi => Or.inl (hW i hi)) (fun i hi => ?_)
      (fun i hi => ?_) (fun i j _ hj => absurd hj (List.not_mem_nil _))
    · rw [List.mem_cons] at hi
      rcases hi with hi | hi
      · right; rw [hB', hi]; exact (mem_setInsert _ _ _).2 (Or.inl rfl)
      · left; rw [hS']; exact hi
    · rw [hB']; exact (mem_setInsert _ _ _).2 (Or.inr hi)

/-- The propagation loop terminates from every state that satisfies the invariant of the
visited nodes, and the invariant holds in the final state. -/
theorem propagate_seen (env : Env) (h0 : Nat → Int) (A : List Nat) (s : UpdateState)
    (h : s.Seen env h0 A) :
    ∃ fuel s', propagate env fuel s = some s' ∧ s'.Seen env h0 A ∧
      s'.nodesUpdatedHeight = [] ∧ s'.nodesToElevate = [] ∧ s.map.SameGrid s'.map :=
  propagate_induct env (fun s => s.Seen env h0 A) (fun _ h => h.1)
    (fun _ _ _ hinv hQ => hinv.heightStep_seen hQ) (fun _ _ _ hinv _ hS => hinv.elevateStep_seen hS)
    s h

theorem UpdateState.Seen.pushSeed {env : Env} {h0 : Nat → Int} {A : List Nat} {s : UpdateState}
    (h : s.Seen env h0 A) {x : Nat} (hx : x < s.map.mapNodes.length) :
    UpdateState.Seen env h0 (x :: A)
      { s with nodesUpdatedHeight := s.nodesUpdatedHeight ++ [x] } := by
  obtain ⟨hv, hp, hvis⟩ := h
  refine ⟨hv.pushQueue hx, fun i hi hiB => ?_, fun i hi hpre => ?_⟩
  · rcases hp i hi hiB with h1 | h1 | h1 | ⟨j, h1, h2⟩ | h1
    · exact Or.inl h1
    · exact Or.inr (Or.inl h1)
    · exact Or.inr (Or.inr (Or.inl (List.mem_append_left _ h1)))
    · exact Or.inr (Or.inr (Or.inr (Or.inl ⟨j, List.mem_append_left _ h1, h2⟩)))
    · exact absurd h1 id
  · dsimp only at hi hpre ⊢
    by_cases hix : i = x
    · left; rw [hix]; simp
    · have hpre' : i ∈ A ∨ (s.map.node i).height ≠ h0 i := by
        rcases hpre with h1 | h1
        · rw [List.mem_cons] at h1
          rcases h1 with h1 | h1
          · exact absurd h1 hix
          · exact Or.inl h1
        · exact Or.inr h1
      rcases hvis i hi hpre' with h1 | h1
      · exact Or.inl (List.mem_append_left _ h1)
      · exact Or.inr h1

/-- The seed loop ends in a state in which every visited node is free of pinches, and
every seed, every node whose height changed and every neighbour of such a node has been
visited. -/
theorem propagateAll_seen (env : Env) (h0 : Nat → Int) (seeds : List Nat) (s : UpdateState)
    (hinv : s.Seen env h0 []) (hQ : s.nodesUpdatedHeight = []) (hS : s.nodesToElevate = [])
    (hseeds : ∀ x ∈ seeds, x < s.map.mapNodes.length) :
    ∃ fuel, ∀ fuel', fuel ≤ fuel' → ∃ s', propagateAll env fuel' seeds s = some s' ∧
      s'.Seen env h0 seeds ∧ s'.nodesUpdatedHeight = [] ∧ s'.nodesToElevate = [] ∧
      s.map.SameGrid s'.map := by
  have := propagateAll_induct env
    (fun rem t => (∃ A, t.Seen env h0 A ∧ ∀ x ∈ seeds, x ∈ rem ∨ x ∈ A) ∧
      t.nodesToElevate = [] ∧ s.map.SameGrid t.map ∧ ∀ x ∈ rem, x < s.map.mapNodes.length)
    (fun x xs t ht hQt => by
      obtain ⟨⟨A, hit, hA⟩, hSt, hgt, hxs⟩ := ht
      have hx : x < t.map.mapNodes.length := by
        rw [hgt.2.2.1]; exact hxs x (List.mem_cons_self _ _)
      obtain ⟨fuel, s', hp, hI', hQ', hS', hg'⟩ := propagate_seen env h0 (x :: A) _ (hit.pushSeed hx)
      refine ⟨fuel, s', hp, ⟨⟨x :: A, hI', fun y hy => ?_⟩, hS', hgt.trans_sameGrid hg',
        fun y hy => hxs y (List.mem_cons_of_mem _ hy)⟩, hQ'⟩
      rcases hA y hy with h1 | h1
      · rw [List.mem_cons] at h1
        rcases h1 with h1 | h1
        · right; rw [h1]; exact List.mem_cons_self _ _
        · exact Or.inl h1
      · exact Or.inr (List.mem_cons_of_mem _ h1))
    seeds s ⟨⟨[], hinv, fun x hx => Or.inl hx⟩, hS, Map.SameGrid.refl_sameGrid _, hseeds⟩ hQ
  obtain ⟨fuel, hf⟩ := this
  refine ⟨fuel, fun fuel' hle => ?_⟩
  obtain ⟨s', hs', ⟨⟨A, hI, hA⟩, hS', hg, -⟩, hQ'⟩ := hf fuel' hle
  refine ⟨s', hs', ⟨hI.1, hI.2.1, fun i hi hpre => hI.2.2 i hi ?_⟩, hQ', hS', hg⟩
  rcases hpre with h1 | h1
  · rcases hA i h1 with h2 | h2
    · exact absurd h2 (List.not_mem_nil _)
    · exact Or.inl h2
  · exact Or.inr h1

/-- When `updateNodeNeighbors` returns, no visited node is pinched, and the visited nodes
include every seed, every node whose height changed and every neighbour of those. -/
theorem Map.updateNodeNeighbors_seen (env : Env) (m : Map) (seeds : List Nat)
    (hwf : m.WF) (hr : m.HeightsInRange env) (hseeds : ∀ x ∈ seeds, x < m.mapNodes.length) :
    ∃ fuel, ∀ fuel', fuel ≤ fuel' →
      ∃ s', m.updateNodeNeighborsState env fuel' seeds = some s' ∧
        m.updateNodeNeighbors env fuel' seeds = some (finishUpdate env s') ∧
        m.SameGrid (finishUpdate env s') ∧
        (∀ i ∈ s'.nodesToBeUpdated, i < m.mapNodes.length → (finishUpdate env s').pinchOK i) ∧
        (∀ i, i < m.mapNodes.length →
          (i ∈ seeds ∨ ((finishUpdate env s').node i).height ≠ (m.node i).height) →
          i ∈ s'.nodesToBeUpdated ∧ ∀ j, m.Adj i j → j ∈ s'.nodesToBeUpdated) := by
  obtain ⟨fuel, hf⟩ := propagateAll_seen env (fun i => (m.node i).height) seeds
    { map := m, nodesUpdatedHeight := [], nodesToElevate := [], nodesToBeUpdated := [],
      nodesToDemolish := [] }
    ⟨⟨hwf, hr, fun _ h => absurd h (List.not_mem_nil _), fun _ h => absurd h (List.not_mem_nil _)⟩,
      fun i _ hi => absurd hi (List.not_mem_nil _),
      fun i _ hpre => by
        rcases hpre with h | h
        · exact absurd h (List.not_mem_nil _)
        · exact absurd rfl h⟩
    rfl rfl hseeds
  refine ⟨fuel, fun fuel' hle => ?_⟩
  obtain ⟨s', hs', ⟨hv, hp, hvis⟩, hQ, hS, hg⟩ := hf fuel' hle
  have hc := finishUpdate_sameCore env s'
  rw [hQ, hS] at hp hvis
  dsimp only at hg
  refine ⟨s', hs', ?_, hg.trans_sameGrid hc.sameGrid_sameCore, fun i hiB hi => ?_,
    fun i hi hpre => ?_⟩
  · unfold Map.updateNodeNeighbors Map.updateNodeNeighborsState
    rw [hs']; rfl
  · rw [← hg.2.2.1] at hi
    rcases hp i hi hiB with h1 | h1 | h1 | ⟨j, h1, -⟩ | h1
    · exact (hv.1.pinchOK_congr hc.sameGrid_sameCore hi (hc.height_sameCore i)
        fun j _ => hc.height_sameCore j).2 h1
    · simp at h1
    · simp at h1
    · simp at h1
    · exact absurd h1 id
  · rw [← hg.2.2.1] at hi
    rw [hc.height_sameCore i] at hpre
    rcases hvis i hi hpre with h1 | ⟨h1, h2⟩
    · simp at h1
    · refine ⟨?_, fun j hj => ?_⟩
      · rcases h1 with h1 | h1
        · simp at h1
        · exact h1
      · rcases h2 j ((hg.adj i j).2 hj) with h3 | h3 | ⟨-, h3⟩
        · simp at h3
        · exact h3
        · simp at h3


/-! ## Raising is monotone -/

theorem Map.WF.eq_of_dist_zero {m : Map} (hwf : m.WF) {i j : Nat} (hi : i < m.mapNodes.length)
    (hj : j < m.mapNodes.length) (h : m.dist i j = 0) : i = j := by
  unfold Map.dist at h
  have hx : (m.node i).m_isoCoordinates.x = (m.node j).m_isoCoordinates.x := by omega
  have hy : (m.node i).m_isoCoordinates.y = (m.node j).m_isoCoordinates.y := by omega
  rw [← hwf.nodePtr_coords hi, ← hwf.nodePtr_coords hj, hx, hy]

/-- On a grid whose adjacent nodes differ by at most one unit, two nodes differ by at most
their distance. -/
theorem Map.WF.height_le_dist {m : Map} (hwf : m.WF)
    (hgap : ∀ i j, i < m.mapNodes.length → m.Adj i j → m.gapOK i j) :
    ∀ n : Nat, ∀ i j, i < m.mapNodes.length → j < m.mapNodes.length → m.dist i j ≤ n →
      (m.node i).height - (m.node j).height ≤ n := by
  intro n
  induction n with
  | zero =>
    intro i j hi hj hd
    have := hwf.eq_of_dist_zero hi hj (by omega)
    subst this
    simp
  | succ n ih =>
    intro i j hi hj hd
    by_cases hle : m.dist i j ≤ n
    · have := ih i j hi hj hle
      push_cast
      omega
    have hci := hwf.coords_within hi
    have hcj := hwf.coords_within hj
    simp only [Point.isWithinMapBoundaries, Bool.and_eq_true, decide_eq_true_eq] at hci hcj
    unfold Map.dist at hd hle
    have hdist : ∀ k, m.dist k j = max ((m.node k).m_isoCoordinates.x -
        (m.node j).m_isoCoordinates.x).natAbs ((m.node k).m_isoCoordinates.y -
        (m.node j).m_isoCoordinates.y).natAbs := fun k => rfl
    obtain ⟨xi, hxi⟩ : ∃ xi, (m.node i).m_isoCoordinates.x = xi := ⟨_, rfl⟩
    obtain ⟨yi, hyi⟩ : ∃ yi, (m.node i).m_isoCoordinates.y = yi := ⟨_, rfl⟩
    obtain ⟨xj, hxj⟩ : ∃ xj, (m.node j).m_isoCoordinates.x = xj := ⟨_, rfl⟩
    obtain ⟨yj, hyj⟩ : ∃ yj, (m.node j).m_isoCoordinates.y = yj := ⟨_, rfl⟩
    rw [hxi, hyi] at hci
    rw [hxj, hyj] at hcj hd hle
    rw [hxi, hyi] at hd hle
    obtain ⟨sx, hsx⟩ : ∃ sx : Int,
        (sx = 1 ∧ xi < xj) ∨ (sx = 0 ∧ xi = xj) ∨ (sx = -1 ∧ xj < xi) := by
      rcases lt_trichotomy xi xj with h | h | h
      · exact ⟨1, Or.inl ⟨rfl, h⟩⟩
      · exact ⟨0, Or.inr (Or.inl ⟨rfl, h⟩)⟩
      · exact ⟨-1, Or.inr (Or.inr ⟨rfl, h⟩)⟩
    obtain ⟨sy, hsy⟩ : ∃ sy : Int,
        (sy = 1 ∧ yi < yj) ∨ (sy = 0 ∧ yi = yj) ∨ (sy = -1 ∧ yj < yi) := by
      rcases lt_trichotomy yi yj with h | h | h
      · exact ⟨1, Or.inl ⟨rfl, h⟩⟩
      · exact ⟨0, Or.inr (Or.inl ⟨rfl, h⟩)⟩
      · exact ⟨-1, Or.inr (Or.inr ⟨rfl, h⟩)⟩
    have hq : (Point.mk (xi + sx) (yi + sy) 0 0).isWithinMapBoundaries m = true := by
      simp only [Point.isWithinMapBoundaries, Bool.and_eq_true, decide_eq_true_eq]
      omega
    have hk := hwf.nodePtr_lt hq
    have hxy := hwf.getMapNode_xy hq
    unfold Map.getMapNode at hxy
    simp only at hxy hk
    have hadj : m.Adj i (m.nodePtr (xi + sx) (yi + sy)) := by
      refine ⟨hk, ?_, ?_, ?_⟩
      · rw [hxy.1, hxi]; omega
      · rw [hxy.2, hyi]; omega
      · rw [hxy.1, hxy.2, hxi, hyi]; omega
    have h1 := hgap i _ hi hadj
    unfold Map.gapOK at h1
    have h2 := ih _ j hk hj (by rw [hdist, hxy.1, hxy.2, hxj, hyj]; omega)
    push_cast
    omega

/-- The start of a wave: on a grid whose adjacent nodes differ by at most one unit, after
the node `E` has been raised by one unit, the cone of `E` over the old heights is a target
profile. -/
theorem Map.WF.wave_start {env : Env} {m0 m : Map} (hwf : m.WF) (hg : m0.SameGrid m)
    (hr : m.HeightsInRange env)
    (hgap : ∀ i j, i < m.mapNodes.length → m.Adj i j → m.gapOK i j) {E : Nat}
    (hE : E < m.mapNodes.length) (hlt : (m.node E).height < env.maxHeight) (h' : Nat → Int)
    (hE' : h' E = (m.node E).height + 1) (hne : ∀ j, j ≠ E → h' j = (m.node j).height) :
    m0.WaveInv env h' [E]
      (fun i => max (m.node i).height ((m.node E).height + 1 - (m.dist i E : Int))) := by
  have hEE : m.dist E E = 0 := by unfold Map.dist; simp
  refine ⟨fun i j hi hadj => ?_, fun i hi => ?_, fun i hi => ?_⟩
  · rw [← hg.2.2.1] at hi
    rw [← hg.adj] at hadj
    have h1 := hgap i j hi hadj
    obtain ⟨-, hx, hy, -⟩ := hadj
    unfold Map.gapOK at h1
    unfold Map.dist
    simp only
    omega
  · rw [← hg.2.2.1] at hi
    have hri := hr i hi
    simp only
    by_cases hiE : i = E
    · subst hiE
      rw [hE', hEE]
      simp only [Nat.cast_zero, sub_zero]
      omega
    · rw [hne i hiE]
      have := hwf.height_le_dist hgap (m.dist i E) E i hE hi (by unfold Map.dist; omega)
      omega
  · rw [List.mem_singleton] at hi
    subst hi
    simp only
    rw [hE', hEE]
    simp only [Nat.cast_zero, sub_zero]
    omega

/-- A node that is pinched in a grid but was not pinched in an earlier state of the grid
has a neighbour that is strictly higher now and was not strictly higher then. -/
theorem Map.WF.new_taller_of_pinched {m0 m : Map} (hwf0 : m0.WF) (hg : m0.SameGrid m) {E : Nat}
    (hE : E < m0.mapNodes.length)
    (hnow : mustElevate (m.getElevatedNeighborBitmask (m.node E).m_isoCoordinates) = true)
    (hold : mustElevate (m0.getElevatedNeighborBitmask (m0.node E).m_isoCoordinates) = false) :
    ∃ q, q < m0.mapNodes.length ∧ (m.node q).height > (m.node E).height ∧
      ¬ (m0.node q).height > (m0.node E).height := by
  by_contra hcon
  push_neg at hcon
  have hwf := hg.wf_sameGrid hwf0
  have hE' : E < m.mapNodes.length := by rw [hg.2.2.1]; exact hE
  have := mustElevate_mono (a := m.getElevatedNeighborBitmask (m.node E).m_isoCoordinates)
    (b := m0.getElevatedNeighborBitmask (m0.node E).m_isoCoordinates) (fun d hd hb => ?_) hnow
  · rw [hold] at this
    exact absurd this (by decide)
  · rw [(Map.getElevatedNeighborBitmask_spec m _).1 d hd] at hb
    rw [(Map.getElevatedNeighborBitmask_spec m0 _).1 d hd]
    obtain ⟨hin, hgt⟩ := hb
    have hshift : (m0.node E).m_isoCoordinates.shift d = (m.node E).m_isoCoordinates.shift d := by
      unfold Point.shift
      rw [(hg.2.2.2 E).1, (hg.2.2.2 E).2]
    have hin0 : ((m0.node E).m_isoCoordinates.shift d).isWithinMapBoundaries m0 = true := by
      rw [hshift, ← isWithinMapBoundaries_congr hg.1 hg.2.1 rfl rfl]
      exact hin
    refine ⟨hin0, ?_⟩
    rw [hwf.getMapNode_coords hE'] at hgt
    rw [hwf0.getMapNode_coords hE, hshift]
    have hq := hwf0.nodePtr_lt (hshift ▸ hin0)
    have hptr : m.nodePtr ((m.node E).m_isoCoordinates.shift d).x
        ((m.node E).m_isoCoordinates.shift d).y =
        m0.nodePtr ((m.node E).m_isoCoordinates.shift d).x
          ((m.node E).m_isoCoordinates.shift d).y := by
      unfold Map.nodePtr Map.nodeIdx
      rw [hg.1]
    unfold Map.getMapNode at hgt ⊢
    rw [hptr] at hgt
    exact hcon _ hq hgt

theorem neighbourStep_rising {env : Env} {m0 : Map} (hwf0 : m0.WF) {h1 : Nat → Int} {H : Int}
    (h01 : ∀ i, (m0.node i).height ≤ h1 i) {T : Nat → Int} {N : Nat}
    (hN : N < m0.mapNodes.length) {k : Int} {s : UpdateState} {nb : NeighborNode}
    {rest : List NeighborNode}
    (hP : (s.map.node N).height = k ∧ m0.SameGrid s.map ∧
      (∀ x ∈ nb :: rest, m0.Adj N x.pNode) ∧
      m0.WaveInv env (fun i => (s.map.node i).height) (N :: s.nodesUpdatedHeight) T ∧
      m0.RaisedInv h1 H (fun i => (s.map.node i).height) (N :: s.nodesUpdatedHeight)) :
    ((neighbourStep env k s nb).map.node N).height = k ∧
      m0.SameGrid (neighbourStep env k s nb).map ∧
      (∀ x ∈ rest, m0.Adj N x.pNode) ∧
      m0.WaveInv env (fun i => ((neighbourStep env k s nb).map.node i).height)
        (N :: (neighbourStep env k s nb).nodesUpdatedHeight) T ∧
      m0.RaisedInv h1 H (fun i => ((neighbourStep env k s nb).map.node i).height)
        (N :: (neighbourStep env k s nb).nodesUpdatedHeight) := by
  obtain ⟨hk, hg, hadjs, ⟨hT1, hT2, hT3⟩, hR1, hR2⟩ := hP
  have hrest : ∀ x ∈ rest, m0.Adj N x.pNode := fun x hx => hadjs x (List.mem_cons_of_mem _ hx)
  obtain ⟨-, -, -, hcase⟩ := neighbourStep_spec env k s nb
  rcases hcase with ⟨-, hm, hQ⟩ | ⟨hgap, hm, hQ⟩
  · rw [hm, hQ]
    exact ⟨hk, hg, hrest, ⟨hT1, hT2, hT3⟩, hR1, hR2⟩
  · have hadj := hadjs nb (List.mem_cons_self _ _)
    have hM : nb.pNode < m0.mapNodes.length := hadj.1
    have hNT : (s.map.node N).height = T N := hT3 N (List.mem_cons_self _ _)
    have hNraised := hR2 N (List.mem_cons_self _ _)
    have hTMN := hT1 N nb.pNode hN hadj
    have hTNM := hT1 nb.pNode N hM (hwf0.adj_symm hN hadj)
    have hM2 := hT2 nb.pNode hM
    have hRN := hR1 N hN
    have hRM := hR1 nb.pNode hM
    have h0M := h01 nb.pNode
    simp only at hNT hNraised hM2 hRN hRM
    have hdiff : k - (s.map.node nb.pNode).height > 1 := by omega
    have hNM : N ≠ nb.pNode := by
      rintro rfl
      omega
    obtain ⟨hg2, -, -, hne, heq, -⟩ := Map.updateHeight_spec env s.map nb.pNode
      (decide (k - (s.map.node nb.pNode).height > 1))
      (s.map.getNeighborNodes (s.map.node nb.pNode).m_isoCoordinates false)
    have hMval : ((s.map.updateHeight env nb.pNode
        (decide (k - (s.map.node nb.pNode).height > 1))
        (s.map.getNeighborNodes (s.map.node nb.pNode).m_isoCoordinates false)).1.node
        nb.pNode).height = (s.map.node nb.pNode).height + 1 := by
      rw [heq (by rw [hg.2.2.1]; exact hM), MapNode.changeHeight_height]
      rw [if_pos (by simpa using hdiff), if_pos (by omega)]
    rw [hm, hQ]
    refine ⟨by rw [hne N hNM]; exact hk, hg.trans_sameGrid hg2, hrest,
      ⟨hT1, fun i hi => ?_, fun i hi => ?_⟩, fun i hi => ?_, fun i hi => ?_⟩
    · simp only
      by_cases hiM : i = nb.pNode
      · rw [hiM, hMval]; omega
      · rw [hne i hiM]; exact hT2 i hi
    · simp only
      by_cases hiM : i = nb.pNode
      · rw [hiM, hMval]; omega
      · rw [hne i hiM]
        apply hT3 i
        rw [List.mem_cons, List.mem_append, List.mem_singleton] at hi
        rcases hi with hi | hi | hi
        · exact hi ▸ List.mem_cons_self _ _
        · exact List.mem_cons_of_mem _ hi
        · exact absurd hi hiM
    · simp only
      by_cases hiM : i = nb.pNode
      · rw [hiM, hMval]; omega
      · rw [hne i hiM]; exact hR1 i hi
    · simp only
      by_cases hiM : i = nb.pNode
      · rw [hiM, hMval]; omega
      · rw [hne i hiM]
        apply hR2 i
        rw [List.mem_cons, List.mem_append, List.mem_singleton] at hi
        rcases hi with hi | hi | hi
        · exact hi ▸ List.mem_cons_self _ _
        · exact List.mem_cons_of_mem _ hi
        · exact absurd hi hiM

/-- A height step keeps the invariant of a raise. -/
theorem UpdateState.Rising.heightStep_rising {env : Env} {m0 : Map} (hwf0 : m0.WF)
    {h1 : Nat → Int} {H : Int} (h01 : ∀ i, (m0.node i).height ≤ h1 i) {s : UpdateState}
    (hinv : s.Rising env m0 h1 H) {N : Nat} {rest : List Nat}
    (hQ : s.nodesUpdatedHeight = N :: rest) :
    (Cytopia.heightStep env { s with nodesUpdatedHeight := rest } N).Rising env m0 h1 H := by
  obtain ⟨hI, hg, ⟨T, hT⟩, hR⟩ := hinv
  have hv := hI.1
  have hN : N < s.map.mapNodes.length := hv.2.2.1 N (by rw [hQ]; exact List.mem_cons_self _ _)
  have hN0 : N < m0.mapNodes.length := by rw [← hg.2.2.1]; exact hN
  have hv' : UpdateState.Valid env { s with nodesUpdatedHeight := rest } :=
    ⟨hv.1, hv.2.1, fun i hi => hv.2.2.1 i (by rw [hQ]; exact List.mem_cons_of_mem _ hi), hv.2.2.2⟩
  have hv1 := hv'.pushStack hN
  have hI' := hI.heightStep_inv hQ
  rw [hQ] at hT hR
  rw [heightStep_eq] at hI' ⊢
  have := neighbourFold_induct env (s.map.node N).height
    (fun todo t => (t.map.node N).height = (s.map.node N).height ∧ m0.SameGrid t.map ∧
      (∀ x ∈ todo, m0.Adj N x.pNode) ∧
      m0.WaveInv env (fun i => (t.map.node i).height) (N :: t.nodesUpdatedHeight) T ∧
      m0.RaisedInv h1 H (fun i => (t.map.node i).height) (N :: t.nodesUpdatedHeight))
    (fun nb rest' t _ _ hP => neighbourStep_rising hwf0 h01 hN0 hP)
    _ _ hv1 (hv.1.neighborNodes_lt N) ⟨rfl, hg, fun x hx => ?_, hT, hR⟩
  · obtain ⟨⟨-, hg', -, ⟨a1, a2, a3⟩, b1, b2⟩, -, -⟩ := this
    exact ⟨hI', hg', ⟨T, a1, a2, fun i hi => a3 i (List.mem_cons_of_mem _ hi)⟩, b1,
      fun i hi => b2 i (List.mem_cons_of_mem _ hi)⟩
  · rw [← hg.adj]
    exact (hv.1.mem_neighbourIdx_iff x.pNode).1 (List.mem_map.2 ⟨x, hx, rfl⟩)

/-- An elevation step keeps the invariant of a raise: a pinched node starts a new wave. -/
theorem UpdateState.Rising.elevateStep_rising {env : Env} {m0 : Map} (hwf0 : m0.WF)
    (hnp0 : m0.NoPinchedNode) {h1 : Nat → Int} {H : Int}
    (h01 : ∀ i, (m0.node i).height ≤ h1 i) {s : UpdateState}
    (hinv : s.Rising env m0 h1 H) (hQ : s.nodesUpdatedHeight = []) {E : Nat} {rest : List Nat}
    (hS : s.nodesToElevate = E :: rest) :
    (Cytopia.elevateStep env { s with nodesToElevate := rest } E).Rising env m0 h1 H := by
  obtain ⟨hI, hg, ⟨T, hT⟩, hR⟩ := hinv
  have hv := hI.1
  have hE : E < s.map.mapNodes.length := hv.2.2.2 E (by rw [hS]; exact List.mem_cons_self _ _)
  have hE0 : E < m0.mapNodes.length := by rw [← hg.2.2.1]; exact hE
  have hv' : UpdateState.Valid env { s with nodesToElevate := rest } :=
    ⟨hv.1, hv.2.1, hv.2.2.1, fun i hi => hv.2.2.2 i (by rw [hS]; exact List.mem_cons_of_mem _ hi)⟩
  obtain ⟨-, hg2⟩ := hv'.elevateStep_valid (E := E) hE
  have hI' := hI.elevateStep_inv hS
  obtain ⟨hyes, hno⟩ := elevateStep_heights env { s with nodesToElevate := rest } E hE
  dsimp only at hyes hno hg2
  rw [hQ] at hT hR
  refine ⟨hI', hg.trans_sameGrid hg2, ?_⟩
  cases hm : mustElevate (s.map.getElevatedNeighborBitmask (s.map.node E).m_isoCoordinates)
  · obtain ⟨hQ', hh⟩ := hno hm
    refine ⟨⟨T, hT.1, fun i hi => ?_, fun i hi => ?_⟩, fun i hi => ?_, fun i hi => ?_⟩
    · simp only [hh i]; exact hT.2.1 i hi
    · rw [hQ', hQ] at hi; exact absurd hi (List.not_mem_nil _)
    · simp only [hh i]; exact hR.1 i hi
    · rw [hQ', hQ] at hi; exact absurd hi (List.not_mem_nil _)
  · obtain ⟨hQ', hEh, hne⟩ := hyes hm
    have hlt := hv.1.lt_maxHeight_of_mustElevate hv.2.1 hE hm
    rw [if_pos hlt] at hEh
    have hgap : ∀ i j, i < s.map.mapNodes.length → s.map.Adj i j → s.map.gapOK i j := by
      intro i j hi hadj
      have := hI.2.1 i j hi hadj
      rw [hQ] at this
      rcases this with h | h | h | ⟨-, h⟩ | ⟨-, h⟩
      · exact h
      all_goals simp at h
    have hW : (Cytopia.elevateStep env { s with nodesToElevate := rest } E).nodesUpdatedHeight =
        [E] := by rw [hQ', hQ]; rfl
    rw [hW]
    refine ⟨⟨_, hv.1.wave_start hg hv.2.1 hgap hE hlt _ hEh hne⟩, fun i hi => ?_, fun i hi => ?_⟩
    · have hRi := hR.1 i hi
      simp only at hRi ⊢
      by_cases hiE : i = E
      · subst hiE
        rw [hEh]
        obtain ⟨q, hq, hq1, hq2⟩ := hwf0.new_taller_of_pinched hg hi hm (hnp0 i hi)
        have hRq := hR.1 q hq
        have := h01 i
        simp only at hRq
        omega
      · rw [hne i hiE]; exact hRi
    · rw [List.mem_singleton] at hi
      subst hi
      have hRi := hR.1 i hE0
      have := h01 i
      simp only at hRi ⊢
      rw [hEh]
      omega

/-- The propagation that follows a raise terminates and keeps its invariant. -/
theorem propagate_rising (env : Env) (m0 : Map) (hwf0 : m0.WF) (hnp0 : m0.NoPinchedNode)
    (h1 : Nat → Int) (H : Int) (h01 : ∀ i, (m0.node i).height ≤ h1 i) (s : UpdateState)
    (h : s.Rising env m0 h1 H) :
    ∃ fuel s', propagate env fuel s = some s' ∧ s'.Rising env m0 h1 H ∧
      s'.nodesUpdatedHeight = [] ∧ s'.nodesToElevate = [] ∧ s.map.SameGrid s'.map :=
  propagate_induct env (fun s => s.Rising env m0 h1 H) (fun _ h => h.1.1)
    (fun _ _ _ hinv hQ => hinv.heightStep_rising hwf0 h01 hQ)
    (fun _ _ _ hinv hQ hS => hinv.elevateStep_rising hwf0 hnp0 h01 hQ hS) s h

/-- Under the invariant of a raise the test on the height difference only fires for a
neighbour that is more than one unit below the popped node. -/
theorem neighbourStep_rising_branch {env : Env} {m0 : Map} (hwf0 : m0.WF) {h1 : Nat → Int}
    {H : Int} (h01 : ∀ i, (m0.node i).height ≤ h1 i) {T : Nat → Int} {N : Nat}
    (hN : N < m0.mapNodes.length) {k : Int} {s : UpdateState} {nb : NeighborNode}
    {rest : List NeighborNode}
    (hP : (s.map.node N).height = k ∧ m0.SameGrid s.map ∧
      (∀ x ∈ nb :: rest, m0.Adj N x.pNode) ∧
      m0.WaveInv env (fun i => (s.map.node i).height) (N :: s.nodesUpdatedHeight) T ∧
      m0.RaisedInv h1 H (fun i => (s.map.node i).height) (N :: s.nodesUpdatedHeight))
    (hgap : (k - (s.map.node nb.pNode).height).natAbs > 1) :
    k - (s.map.node nb.pNode).height > 1 := by
  obtain ⟨hk, hg, hadjs, ⟨hT1, hT2, hT3⟩, hR1, hR2⟩ := hP
  have hadj := hadjs nb (List.mem_cons_self _ _)
  have hM : nb.pNode < m0.mapNodes.length := hadj.1
  have hNT : (s.map.node N).height = T N := hT3 N (List.mem_cons_self _ _)
  have hNraised := hR2 N (List.mem_cons_self _ _)
  have hTMN := hT1 N nb.pNode hN hadj
  have hTNM := hT1 nb.pNode N hM (hwf0.adj_symm hN hadj)
  have hM2 := hT2 nb.pNode hM
  have hRN := hR1 N hN
  have hRM := hR1 nb.pNode hM
  have h0M := h01 nb.pNode
  simp only at hNT hNraised hM2 hRN hRM
  omega

/-- Under the invariant of a raise no step of the loop over the neighbours takes the
lowering branch. -/
theorem neighbourLowerings_rising {env : Env} {m0 : Map} (hwf0 : m0.WF) {h1 : Nat → Int}
    {H : Int} (h01 : ∀ i, (m0.node i).height ≤ h1 i) {T : Nat → Int} {N : Nat}
    (hN : N < m0.mapNodes.length) {k : Int} :
    ∀ (todo : List NeighborNode) (s : UpdateState),
      ((s.map.node N).height = k ∧ m0.SameGrid s.map ∧
        (∀ x ∈ todo, m0.Adj N x.pNode) ∧
        m0.WaveInv env (fun i => (s.map.node i).height) (N :: s.nodesUpdatedHeight) T ∧
        m0.RaisedInv h1 H (fun i => (s.map.node i).height) (N :: s.nodesUpdatedHeight)) →
      neighbourLowerings env k todo s = 0 := by
  intro todo
  induction todo with
  | nil => intro s _; rfl
  | cons nb rest ih =>
    intro s hP
    unfold neighbourLowerings
    rw [ih _ (neighbourStep_rising hwf0 h01 hN hP), Nat.add_zero]
    rw [if_neg]
    rintro ⟨hgap, hnot⟩
    exact hnot (neighbourStep_rising_branch hwf0 h01 hN hP hgap)

theorem propagateLowerings_height (env : Env) (fuel : Nat) (s : UpdateState) (N : Nat)
    (rest : List Nat) (hQ : s.nodesUpdatedHeight = N :: rest) :
    propagateLowerings env (fuel + 1) s =
      neighbourLowerings env (s.map.node N).height
          (s.map.getNeighborNodes (s.map.node N).m_isoCoordinates false)
          { s with nodesUpdatedHeight := rest,
                   nodesToElevate := pushIfAbsent s.nodesToElevate N } +
        propagateLowerings env fuel (heightStep env { s with nodesUpdatedHeight := rest } N) := by
  rw [propagateLowerings]
  simp only [hQ]

theorem propagateLowerings_elevate (env : Env) (fuel : Nat) (s : UpdateState) (E : Nat)
    (rest : List Nat) (hQ : s.nodesUpdatedHeight = []) (hS : s.nodesToElevate = E :: rest) :
    propagateLowerings env (fuel + 1) s =
      propagateLowerings env fuel (elevateStep env { s with nodesToElevate := rest } E) := by
  rw [propagateLowerings]
  simp only [hQ, hS]

theorem propagateLowerings_done (env : Env) (fuel : Nat) (s : UpdateState)
    (hQ : s.nodesUpdatedHeight = []) (hS : s.nodesToElevate = []) :
    propagateLowerings env (fuel + 1) s = 0 := by
  rw [propagateLowerings]
  simp only [hQ, hS]

/-- A run of the propagation from a state that satisfies the invariant of a raise never
takes the lowering branch, whatever its step budget. -/
theorem propagateLowerings_rising (env : Env) (m0 : Map) (hwf0 : m0.WF)
    (hnp0 : m0.NoPinchedNode) (h1 : Nat → Int) (H : Int)
    (h01 : ∀ i, (m0.node i).height ≤ h1 i) :
    ∀ (fuel : Nat) (s : UpdateState), s.Rising env m0 h1 H →
      propagateLowerings env fuel s = 0 := by
  intro fuel
  induction fuel with
  | zero => intro s _; rfl
  | succ fuel ih =>
    intro s hinv
    cases hQ : s.nodesUpdatedHeight with
    | nil =>
      cases hS : s.nodesToElevate with
      | nil => exact propagateLowerings_done env fuel s hQ hS
      | cons E rest =>
        rw [propagateLowerings_elevate env fuel s E rest hQ hS]
        exact ih (elevateStep env { s with nodesToElevate := rest } E)
          (hinv.elevateStep_rising hwf0 hnp0 h01 hQ hS)
    | cons N rest =>
      rw [propagateLowerings_height env fuel s N rest hQ,
        ih (heightStep env { s with nodesUpdatedHeight := rest } N)
          (hinv.heightStep_rising hwf0 h01 hQ), Nat.add_zero]
      obtain ⟨hI, hg, ⟨T, hT⟩, hR⟩ := hinv
      have hv := hI.1
      have hN : N < s.map.mapNodes.length :=
        hv.2.2.1 N (by rw [hQ]; exact List.mem_cons_self _ _)
      have hN0 : N < m0.mapNodes.length := by rw [← hg.2.2.1]; exact hN
      rw [hQ] at hT hR
      refine neighbourLowerings_rising hwf0 h01 hN0 (T := T) _ _ ⟨rfl, hg, fun x hx => ?_, hT, hR⟩
      rw [← hg.adj]
      exact (hv.1.mem_neighbourIdx_iff x.pNode).1 (List.mem_map.2 ⟨x, hx, rfl⟩)

/-- A successful raise is the propagation from `raiseStart`, followed by the closing
passes. -/
theorem Map.increaseHeight_eq_propagate (env : Env) (fuel : Nat) (m : Map) (p : Point)
    (hlt : (m.getMapNode p).height < env.maxHeight) :
    m.increaseHeight env fuel p =
      (propagate env fuel (m.raiseStart env p)).map (finishUpdate env) := by
  unfold Map.getMapNode at hlt
  unfold Map.increaseHeight Map.changeHeight
  dsimp only
  rw [if_pos (by rw [Map.updateHeight_snd, MapNode.changeHeight_snd]; simpa using hlt)]
  simp only [Bool.not_true, Bool.false_eq_true, if_false]
  unfold Map.updateNodeNeighbors Map.updateNodeNeighborsState propagateAll
  unfold Map.raiseStart
  simp only [List.nil_append]
  cases propagate env fuel _ <;> rfl

/-- The state in which the propagation of a raise starts satisfies the invariant of a
raise. -/
theorem Map.raiseStart_rising (env : Env) (m : Map) (p : Point) (hwf : m.WF)
    (hr : m.HeightsInRange env) (hp : p.isWithinMapBoundaries m = true) (hi1 : m.I1Idx)
    (hlt : (m.getMapNode p).height < env.maxHeight) :
    (∀ i, (m.node i).height ≤ ((m.raiseStart env p).map.node i).height) ∧
    ((m.raiseStart env p).map.node (m.nodePtr p.x p.y)).height =
      (m.node (m.nodePtr p.x p.y)).height + 1 ∧
    (m.raiseStart env p).Rising env m (fun i => ((m.raiseStart env p).map.node i).height)
      ((m.node (m.nodePtr p.x p.y)).height + 1) := by
  have hP := hwf.nodePtr_lt hp
  unfold Map.getMapNode at hlt
  unfold Map.raiseStart
  dsimp only
  obtain ⟨hg, -, -, hne, heq, -⟩ := Map.updateHeight_spec env m (m.nodePtr p.x p.y) true
    (m.getNeighborNodes p true)
  have hd := (Map.demolishNodeNoUpdate_sameButData env
    (m.updateHeight env (m.nodePtr p.x p.y) true (m.getNeighborNodes p true)).1
    (PointFunctions.getNeighbors m p true) Layer.NONE).sameCore
  have hPh : (((m.updateHeight env (m.nodePtr p.x p.y) true (m.getNeighborNodes p true)).1).node
      (m.nodePtr p.x p.y)).height = (m.node (m.nodePtr p.x p.y)).height + 1 := by
    rw [heq hP, MapNode.changeHeight_height, if_pos rfl, if_pos hlt]
  have hwf1 := hd.wf_sameCore (hg.wf_sameGrid hwf)
  have hr1 := hd.heightsInRange
    (hr.updateHeight_heightsInRange (m.nodePtr p.x p.y) true (m.getNeighborNodes p true))
  have hg1 := hg.trans_sameGrid hd.sameGrid_sameCore
  have hgapm : ∀ i j, i < m.mapNodes.length → m.Adj i j → m.gapOK i j :=
    fun i j hi hadj => hi1 i hi j ((hwf.mem_neighbourIdx_iff j).2 hadj)
  have hgap1 := (@Map.GapInv.move_gapInv _ _ _ [m.nodePtr p.x p.y] _ _ []
    (hwf.gapInv_of_i1Idx hi1) hg _ hne (fun i hi => absurd hi (List.not_mem_nil _))
    (List.mem_singleton_self _) (fun i hi => Or.inr hi)).congr_gapInv hd.sameGrid_sameCore
      hd.height_sameCore
  refine ⟨fun i => ?_, by rw [hd.height_sameCore, hPh], ?_⟩
  · rw [hd.height_sameCore]
    by_cases hiP : i = m.nodePtr p.x p.y
    · rw [hiP, hPh]; omega
    · rw [hne i hiP]
  · refine ⟨⟨⟨hwf1, hr1, fun i hi => ?_, fun _ h => absurd h (List.not_mem_nil _)⟩, ?_,
      fun i _ => Or.inr (Or.inr (Or.inr (Or.inr trivial)))⟩, hg1,
      ⟨fun i => max (m.node i).height
        ((m.node (m.nodePtr p.x p.y)).height + 1 - (m.dist i (m.nodePtr p.x p.y) : Int)), ?_⟩,
      fun i hi => ?_, fun i hi => ?_⟩
    · simp only [List.mem_singleton] at hi
      rw [hi, hg1.2.2.1]; exact hP
    · simpa using hgap1
    · refine hwf.wave_start (Map.SameGrid.refl_sameGrid m) hr hgapm hP hlt _ ?_ (fun j hj => ?_)
      · simp only
        rw [hd.height_sameCore, hPh]
      · simp only
        rw [hd.height_sameCore, hne j hj]
    · simp only
      refine ⟨le_refl _, ?_⟩
      by_cases hiP : i = m.nodePtr p.x p.y
      · rw [hiP, hd.height_sameCore, hPh]; exact le_max_right _ _
      · rw [hd.height_sameCore, hne i hiP]; exact le_max_left _ _
    · simp only [List.mem_singleton] at hi
      simp only
      rw [hi, hd.height_sameCore, hPh]
      omega

/-- Raising a node of a grid that satisfies I1 and has no pinched node lowers no node,
raises the node itself by exactly one unit, and its propagation never takes the lowering
branch. -/
theorem Map.increaseHeight_monotone (env : Env) (m : Map) (p : Point) (hwf : m.WF)
    (hr : m.HeightsInRange env) (hp : p.isWithinMapBoundaries m = true) (hi1 : m.I1Idx)
    (hnp : m.NoPinchedNode) (hlt : (m.getMapNode p).height < env.maxHeight) :
    (∀ fuel, m.increaseHeight env fuel p =
      (propagate env fuel (m.raiseStart env p)).map (finishUpdate env)) ∧
    (∀ fuel, propagateLowerings env fuel (m.raiseStart env p) = 0) ∧
    ∃ fuel, ∀ fuel', fuel ≤ fuel' → ∃ m', m.increaseHeight env fuel' p = some m' ∧
      m.SameGrid m' ∧ (∀ i, i < m.mapNodes.length → (m.node i).height ≤ (m'.node i).height) ∧
      (m'.getMapNode p).height = (m.getMapNode p).height + 1 := by
  have hP := hwf.nodePtr_lt hp
  obtain ⟨h01, hPh, hrise⟩ := Map.raiseStart_rising env m p hwf hr hp hi1 hlt
  refine ⟨fun fuel => Map.increaseHeight_eq_propagate env fuel m p hlt,
    fun fuel => propagateLowerings_rising env m hwf hnp _ _ h01 fuel _ hrise, ?_⟩
  obtain ⟨fuel, s', hs', hRs, hQ', -, hgs⟩ := propagate_rising env m hwf hnp _ _ h01 _ hrise
  refine ⟨fuel, fun fuel' hle => ⟨finishUpdate env s', ?_, ?_, fun i hi => ?_, ?_⟩⟩
  · have hs2 := propagate_mono env fuel _ _ hs' fuel' hle
    rw [Map.increaseHeight_eq_propagate env fuel' m p hlt, hs2]
    rfl
  · exact hRs.2.1.trans_sameGrid (finishUpdate_sameCore env s').sameGrid_sameCore
  · rw [(finishUpdate_sameCore env s').height_sameCore]
    exact le_trans (h01 i) (hRs.2.2.2.1 i hi).1
  · unfold Map.getMapNode
    have hfin : (finishUpdate env s').nodePtr p.x p.y = m.nodePtr p.x p.y := by
      unfold Map.nodePtr Map.nodeIdx
      rw [(hRs.2.1.trans_sameGrid (finishUpdate_sameCore env s').sameGrid_sameCore).1]
    rw [hfin, (finishUpdate_sameCore env s').height_sameCore]
    have h1 := (hRs.2.2.2.1 _ hP).1
    have h2 := (hRs.2.2.2.1 _ hP).2
    simp only at h1 h2
    rw [hPh] at h1
    omega


/-! ## The lowering loop of `changeHeight` -/

theorem Map.decreaseHeight_eq (env : Env) (fuel : Nat) (m : Map) (p : Point) :
    m.decreaseHeight env fuel p =
      if (m.updateHeight env (m.nodePtr p.x p.y) false (m.getNeighborNodes p true)).2 = true then
        ((m.lowerAround env p).1.demolishNodeNoUpdate env (PointFunctions.getNeighbors m p true)
          Layer.NONE).updateNodeNeighbors env fuel (m.lowerAround env p).2
      else some m := rfl

theorem getNeighbors_nodup (m : Map) (p : Point) (inc : Bool) :
    (PointFunctions.getNeighbors m p inc).Nodup := by
  unfold PointFunctions.getNeighbors
  apply List.Nodup.filter
  apply List.Nodup.map_on
  · intro a _ b _ h
    have hx := congrArg Point.x h
    have hy := congrArg Point.y h
    simp only at hx hy
    exact Prod.ext (by omega) (by omega)
  · apply List.Nodup.filter
    unfold neighborOffsets
    decide

theorem Map.WF.neighbourPtrs_nodup {m : Map} (hwf : m.WF) (p : Point) (inc : Bool) :
    ((PointFunctions.getNeighbors m p inc).map fun q => m.nodePtr q.x q.y).Nodup := by
  apply List.Nodup.map_on _ (getNeighbors_nodup m p inc)
  intro a ha b hb h
  rw [mem_getNeighbors] at ha hb
  obtain ⟨hx, hy⟩ := hwf.nodePtr_inj_within ha.2.2.1 hb.2.2.1 h
  cases a
  cases b
  simp only at hx hy ha hb
  simp only [Point.mk.injEq]
  exact ⟨hx, hy, ha.1.trans hb.1.symm, ha.2.1.trans hb.2.1.symm⟩

/-- Heights after the lowering loop of `changeHeight`: each listed node that is higher than
the centre is lowered by one unit, once. -/
theorem lowerFold_heights (env : Env) (centerHeight : Int) (hc : 0 ≤ centerHeight) (m0 : Map) :
    ∀ (coords : List Point) (acc : Map × List Nat),
      (coords.map fun q => m0.nodePtr q.x q.y).Nodup → m0.SameGrid acc.1 →
      m0.SameGrid (coords.foldl
        (fun (acc : Map × List Nat) neighbourCoord =>
          let neighborNode := acc.1.nodePtr neighbourCoord.x neighbourCoord.y
          if centerHeight < (acc.1.node neighborNode).height then
            (acc.1.setNode neighborNode
                ((acc.1.node neighborNode).changeHeight env.maxHeight false).1,
              acc.2 ++ [neighborNode])
          else acc) acc).1 ∧
      ∀ i, i < m0.mapNodes.length → ((coords.foldl
        (fun (acc : Map × List Nat) neighbourCoord =>
          let neighborNode := acc.1.nodePtr neighbourCoord.x neighbourCoord.y
          if centerHeight < (acc.1.node neighborNode).height then
            (acc.1.setNode neighborNode
                ((acc.1.node neighborNode).changeHeight env.maxHeight false).1,
              acc.2 ++ [neighborNode])
          else acc) acc).1.node i).height =
        if i ∈ (coords.map fun q => m0.nodePtr q.x q.y) ∧ centerHeight < (acc.1.node i).height
        then (acc.1.node i).height - 1 else (acc.1.node i).height := by
  intro coords
  induction coords with
  | nil =>
    intro acc _ hg
    exact ⟨hg, fun i _ => by simp⟩
  | cons q rest ih =>
    intro acc hnd hg
    rw [List.map_cons, List.nodup_cons] at hnd
    simp only [List.foldl_cons]
    have hptr : acc.1.nodePtr q.x q.y = m0.nodePtr q.x q.y := by
      unfold Map.nodePtr Map.nodeIdx
      rw [hg.1]
    rw [hptr]
    obtain ⟨hg', -, hne, heq⟩ :=
      Map.setNode_changeHeight_spec env.maxHeight acc.1 (m0.nodePtr q.x q.y) false
    by_cases hlow : centerHeight < (acc.1.node (m0.nodePtr q.x q.y)).height
    · rw [if_pos hlow]
      obtain ⟨a1, a2⟩ := ih (acc.1.setNode (m0.nodePtr q.x q.y)
        ((acc.1.node (m0.nodePtr q.x q.y)).changeHeight env.maxHeight false).1,
        acc.2 ++ [m0.nodePtr q.x q.y]) hnd.2 (hg.trans_sameGrid hg')
      refine ⟨a1, fun i hi => ?_⟩
      rw [a2 i hi]
      by_cases hiq : i = m0.nodePtr q.x q.y
      · subst hiq
        simp only
        rw [if_neg (fun h => hnd.1 h.1), heq (by rw [hg.2.2.1]; exact hi),
          MapNode.changeHeight_height]
        simp only [Bool.false_eq_true, if_false, List.map_cons, List.mem_cons, true_or, true_and]
        rw [if_pos hlow, if_pos (show (acc.1.node (m0.nodePtr q.x q.y)).height > 0 by omega)]
      · simp only
        rw [hne i hiq]
        simp only [List.map_cons, List.mem_cons, hiq, false_or]
    · rw [if_neg hlow]
      obtain ⟨a1, a2⟩ := ih acc hnd.2 hg
      refine ⟨a1, fun i hi => ?_⟩
      rw [a2 i hi]
      by_cases hiq : i = m0.nodePtr q.x q.y
      · subst hiq
        rw [if_neg (fun h => hnd.1 h.1), if_neg (fun h => hlow h.2)]
      · simp only [List.map_cons, List.mem_cons, hiq, false_or]

/-- Heights after `updateHeight` and the lowering loop of `changeHeight`: the node is one
unit lower, every 8-neighbour that was higher than the new height of the node is one unit
lower, and every other node keeps its height. -/
theorem Map.lowerAround_spec (env : Env) (m : Map) (p : Point) (hwf : m.WF)
    (hp : p.isWithinMapBoundaries m = true) (hpos : 0 < (m.getMapNode p).height) :
    m.SameGrid (m.lowerAround env p).1 ∧
    ((m.lowerAround env p).1.getMapNode p).height = (m.getMapNode p).height - 1 ∧
    ∀ q : Point, q.isWithinMapBoundaries m = true → (q.x ≠ p.x ∨ q.y ≠ p.y) →
      ((m.lowerAround env p).1.getMapNode q).height =
        if (|q.x - p.x| ≤ 1 ∧ |q.y - p.y| ≤ 1) ∧
            (m.getMapNode p).height - 1 < (m.getMapNode q).height then
          (m.getMapNode q).height - 1
        else (m.getMapNode q).height := by
  have hP := hwf.nodePtr_lt hp
  obtain ⟨hg, -, -, hne, heq, -⟩ := Map.updateHeight_spec env m (m.nodePtr p.x p.y) false
    (m.getNeighborNodes p true)
  unfold Map.getMapNode at hpos
  have hPh : ((m.updateHeight env (m.nodePtr p.x p.y) false (m.getNeighborNodes p true)).1.node
      (m.nodePtr p.x p.y)).height = (m.node (m.nodePtr p.x p.y)).height - 1 := by
    rw [heq hP, MapNode.changeHeight_height]
    simp only [Bool.false_eq_true, if_false]
    rw [if_pos hpos]
  have hptr : ∀ (m' : Map), m.SameGrid m' → ∀ x y, m'.nodePtr x y = m.nodePtr x y := by
    intro m' h x y
    unfold Map.nodePtr Map.nodeIdx
    rw [h.1]
  have hcen : ((m.updateHeight env (m.nodePtr p.x p.y) false
      (m.getNeighborNodes p true)).1.getMapNode p).height =
      (m.node (m.nodePtr p.x p.y)).height - 1 := by
    unfold Map.getMapNode
    rw [hptr _ hg, hPh]
  obtain ⟨a1, a2⟩ := lowerFold_heights env
    ((m.updateHeight env (m.nodePtr p.x p.y) false (m.getNeighborNodes p true)).1.getMapNode
      p).height (by rw [hcen]; omega) m (PointFunctions.getNeighbors m p true)
    ((m.updateHeight env (m.nodePtr p.x p.y) false (m.getNeighborNodes p true)).1,
      [m.nodePtr p.x p.y]) (hwf.neighbourPtrs_nodup p true) hg
  have hL : (m.lowerAround env p).1 = ((PointFunctions.getNeighbors m p true).foldl
      (fun (acc : Map × List Nat) neighbourCoord =>
        let neighborNode := acc.1.nodePtr neighbourCoord.x neighbourCoord.y
        if ((m.updateHeight env (m.nodePtr p.x p.y) false
            (m.getNeighborNodes p true)).1.getMapNode p).height <
            (acc.1.node neighborNode).height then
          (acc.1.setNode neighborNode
              ((acc.1.node neighborNode).changeHeight env.maxHeight false).1,
            acc.2 ++ [neighborNode])
        else acc)
      ((m.updateHeight env (m.nodePtr p.x p.y) false (m.getNeighborNodes p true)).1,
        [m.nodePtr p.x p.y])).1 := rfl
  rw [← hL] at a1 a2
  refine ⟨a1, ?_, fun q hq hne' => ?_⟩
  · unfold Map.getMapNode
    rw [hptr _ a1, a2 _ hP]
    simp only
    rw [if_neg (fun h => by have := h.2; rw [hcen, hPh] at this; omega), hPh]
  · have hQ := hwf.nodePtr_lt hq
    have hQP : m.nodePtr q.x q.y ≠ m.nodePtr p.x p.y := by
      intro h
      have := hwf.nodePtr_inj_within hq hp h
      rcases hne' with h1 | h1
      · exact h1 this.1
      · exact h1 this.2
    unfold Map.getMapNode
    rw [hptr _ a1, a2 _ hQ]
    simp only
    rw [hne _ hQP, hcen]
    have hmem : m.nodePtr q.x q.y ∈
        (PointFunctions.getNeighbors m p true).map (fun q => m.nodePtr q.x q.y) ↔
        (|q.x - p.x| ≤ 1 ∧ |q.y - p.y| ≤ 1) := by
      rw [List.mem_map]
      constructor
      · rintro ⟨q', hq', he⟩
        rw [mem_getNeighbors] at hq'
        obtain ⟨hx, hy⟩ := hwf.nodePtr_inj_within hq'.2.2.1 hq he
        rw [← hx, ← hy, abs_le, abs_le]
        omega
      · rintro ⟨hx, hy⟩
        rw [abs_le] at hx hy
        refine ⟨{ x := q.x, y := q.y, z := 0, height := 0 }, ?_, rfl⟩
        rw [mem_getNeighbors]
        refine ⟨rfl, rfl, ?_, by simp only; omega, by simp only; omega, Or.inl rfl⟩
        rw [← hq]
        exact isWithinMapBoundaries_congr rfl rfl rfl rfl
    by_cases hc : (|q.x - p.x| ≤ 1 ∧ |q.y - p.y| ≤ 1) ∧
        (m.node (m.nodePtr p.x p.y)).height - 1 < (m.node (m.nodePtr q.x q.y)).height
    · rw [if_pos ⟨hmem.2 hc.1, hc.2⟩, if_pos hc]
    · rw [if_neg (fun h => hc ⟨hmem.1 h.1, h.2⟩), if_neg hc]


/-! ## Picker, pinches, loading and lowering counts: closing lemmas -/

/-- The picker either returns the coordinates of the first probed node that is hit, or no
probed node is hit and it returns the point `(-1, -1, 0, 0)`. -/
theorem Map.findNodeInMap_cases (m : Map) (mapSize : Int) (isClickWithinTile : Point → Bool)
    (guess : Point) :
    (∃ l1 c l2,
      pickerCandidates mapSize (adjustPickerGuess mapSize guess.x guess.y).1
        (adjustPickerGuess mapSize guess.x guess.y).2 = l1 ++ c :: l2 ∧
      (∀ d ∈ l1, isClickWithinTile (m.getMapNode (candidatePoint d)).m_isoCoordinates = false) ∧
      isClickWithinTile (m.getMapNode (candidatePoint c)).m_isoCoordinates = true ∧
      m.findNodeInMap mapSize isClickWithinTile guess =
        (m.getMapNode (candidatePoint c)).m_isoCoordinates) ∨
    ((∀ c ∈ pickerCandidates mapSize (adjustPickerGuess mapSize guess.x guess.y).1
        (adjustPickerGuess mapSize guess.x guess.y).2,
        isClickWithinTile (m.getMapNode (candidatePoint c)).m_isoCoordinates = false) ∧
      m.findNodeInMap mapSize isClickWithinTile guess = { x := -1, y := -1, z := 0, height := 0 }) := by
  unfold Map.findNodeInMap
  cases hf : (pickerCandidates mapSize (adjustPickerGuess mapSize guess.x guess.y).1
      (adjustPickerGuess mapSize guess.x guess.y).2).find?
      fun c => isClickWithinTile (m.getMapNode (candidatePoint c)).m_isoCoordinates with
  | none =>
    right
    rw [List.find?_eq_none] at hf
    exact ⟨fun c hc => by simpa using hf c hc, rfl⟩
  | some c =>
    left
    rw [List.find?_eq_some] at hf
    obtain ⟨hhit, l1, l2, hsplit, hmiss⟩ := hf
    exact ⟨l1, c, l2, hsplit, fun d hd => by simpa using hmiss d hd, hhit, rfl⟩

/-- The must-elevate test on the computed elevation bitmask of a position is the test for
a pinch on the strictly taller neighbours of the position. -/
theorem Map.mustElevate_iff_pinched (m : Map) (c : Point) :
    mustElevate (m.getElevatedNeighborBitmask c) = true ↔ m.pinched c := by
  obtain ⟨hb, -⟩ := Map.getElevatedNeighborBitmask_spec m c
  rw [mustElevate_iff]
  unfold Map.pinched
  rw [hb .TOP (by decide), hb .BOTTOM (by decide), hb .LEFT (by decide), hb .RIGHT (by decide),
    hb .TOP_LEFT (by decide), hb .TOP_RIGHT (by decide), hb .BOTTOM_LEFT (by decide),
    hb .BOTTOM_RIGHT (by decide)]

theorem Map.pinchOK_iff (m : Map) (i : Nat) :
    m.pinchOK i ↔ ¬ m.pinched (m.node i).m_isoCoordinates := by
  unfold Map.pinchOK
  rw [← Map.mustElevate_iff_pinched]
  simp

theorem Map.noPinchedNode_iff (m : Map) :
    m.NoPinchedNode ↔ ∀ i, i < m.mapNodes.length → ¬ m.pinched (m.node i).m_isoCoordinates := by
  unfold Map.NoPinchedNode
  constructor
  · intro h i hi
    exact (m.pinchOK_iff i).1 (h i hi)
  · intro h i hi
    exact (m.pinchOK_iff i).2 (h i hi)

/-- The failures of a load: a text that does not parse gives the configuration error, a
parsed save game of another version gives the version error whatever its other entries
are, and a save game of the right version gives neither. -/
theorem loadMapFromFile_failures (env : Env) (fuel : Nat) (parse : String → Option SaveGame)
    (SAVEGAME_VERSION : Nat) (jsonAsString : String) (htext : jsonAsString.isEmpty = false) :
    (parse jsonAsString = none →
      loadMapFromFile env fuel parse SAVEGAME_VERSION jsonAsString =
        some LoadResult.configurationError) ∧
    (∀ sg, parse jsonAsString = some sg → sg.savegameVersion.getD 0 ≠ SAVEGAME_VERSION →
      loadMapFromFile env fuel parse SAVEGAME_VERSION jsonAsString =
        some (LoadResult.cytopiaError (sg.savegameVersion.getD 0))) ∧
    (∀ sg, parse jsonAsString = some sg → sg.savegameVersion.getD 0 = SAVEGAME_VERSION →
      loadMapFromFile env fuel parse SAVEGAME_VERSION jsonAsString ≠
          some LoadResult.configurationError ∧
        (∀ v, loadMapFromFile env fuel parse SAVEGAME_VERSION jsonAsString ≠
          some (LoadResult.cytopiaError v)) ∧
        ((sg.columns.getD (-1) = -1 ∨ sg.rows.getD (-1) = -1) →
          loadMapFromFile env fuel parse SAVEGAME_VERSION jsonAsString =
            some LoadResult.nullptr)) := by
  refine ⟨fun hp => ?_, fun sg hp hv => ?_, fun sg hp hv => ⟨?_, fun v => ?_, fun hcr => ?_⟩⟩
  · unfold loadMapFromFile
    rw [if_neg (by simp [htext]), hp]
  · unfold loadMapFromFile
    rw [if_neg (by simp [htext]), hp]
    simp only
    rw [if_pos hv]
  · unfold loadMapFromFile
    rw [if_neg (by simp [htext]), hp]
    simp only
    rw [if_neg (by simpa using hv)]
    split
    · simp
    · split
      · simp
      · cases (Map.updateAllNodes env fuel _ _) <;> simp
  · unfold loadMapFromFile
    rw [if_neg (by simp [htext]), hp]
    simp only
    rw [if_neg (by simpa using hv)]
    split
    · simp
    · split
      · simp
      · cases (Map.updateAllNodes env fuel _ _) <;> simp
  · unfold loadMapFromFile
    rw [if_neg (by simp [htext]), hp]
    simp only
    rw [if_neg (by simpa using hv), if_pos hcr]

/-- A load that passes the checks returns the result of `updateAllNodes` on the grid of the
save game, with the drawing order built from the column count. -/
theorem loadMapFromFile_loaded (env : Env) (fuel : Nat) (parse : String → Option SaveGame)
    (SAVEGAME_VERSION : Nat) (jsonAsString : String) (sg : SaveGame)
    (htext : jsonAsString.isEmpty = false) (hparse : parse jsonAsString = some sg)
    (hver : sg.savegameVersion.getD 0 = SAVEGAME_VERSION)
    (hc : sg.columns.getD (-1) ≠ -1) (hr : sg.rows.getD (-1) ≠ -1)
    (hsize : 0 ≤ sg.columns.getD (-1) * sg.rows.getD (-1)) :
    loadMapFromFile env fuel parse SAVEGAME_VERSION jsonAsString =
      (sg.grid.updateAllNodes env fuel (loadedDrawingOrder (sg.columns.getD (-1)))).map
        fun loadedMap => LoadResult.loaded loadedMap (loadedDrawingOrder (sg.columns.getD (-1))) := by
  unfold loadMapFromFile
  rw [if_neg (by simp [htext]), hparse]
  simp only
  rw [if_neg (by simpa using hver), if_neg (by simp [hc, hr]), if_neg (by omega)]
  rfl

/-- A save game of the right version whose column and row counts are not `-1` and have a
negative product makes the constructor of the map throw. -/
theorem loadMapFromFile_negative_size (env : Env) (fuel : Nat)
    (parse : String → Option SaveGame) (SAVEGAME_VERSION : Nat) (jsonAsString : String)
    (sg : SaveGame) (htext : jsonAsString.isEmpty = false)
    (hparse : parse jsonAsString = some sg)
    (hver : sg.savegameVersion.getD 0 = SAVEGAME_VERSION)
    (hc : sg.columns.getD (-1) ≠ -1) (hr : sg.rows.getD (-1) ≠ -1)
    (hsize : sg.columns.getD (-1) * sg.rows.getD (-1) < 0) :
    loadMapFromFile env fuel parse SAVEGAME_VERSION jsonAsString =
      some LoadResult.badArrayNewLength := by
  unfold loadMapFromFile
  rw [if_neg (by simp [htext]), hparse]
  simp only
  rw [if_neg (by simpa using hver), if_neg (by simp [hc, hr]), if_pos hsize]

/-- The save game with `-2` columns and 3 rows passes the version check and the check for
missing dimensions, and the load ends in the exception of the constructor. -/
theorem loadMapFromFile_negativeSave_throws :
    loadMapFromFile (plainEnv 3) 10 (fun _ => some negativeSave) 4 "negative" =
      some LoadResult.badArrayNewLength :=
  loadMapFromFile_negative_size (plainEnv 3) 10 (fun _ => some negativeSave) 4 "negative"
    negativeSave (by decide) rfl (by decide) (by decide) (by decide) (by decide)

/-- After `updateAllNodes` with a drawing order that lists every node, no node of the grid
is pinched. -/
theorem Map.updateAllNodes_noPinchedNode (env : Env) (m : Map) (order : List Nat) (hwf : m.WF)
    (hr : m.HeightsInRange env) (horder : ∀ i ∈ order, i < m.mapNodes.length)
    (hall : ∀ i, i < m.mapNodes.length → i ∈ order) :
    ∃ fuel, ∀ fuel', fuel ≤ fuel' → ∃ m', m.updateAllNodes env fuel' order = some m' ∧
      m.SameGrid m' ∧ m'.WF ∧ m'.NoPinchedNode := by
  obtain ⟨fuel, hf⟩ := Map.updateNodeNeighbors_seen env m order hwf hr horder
  refine ⟨fuel, fun fuel' hle => ?_⟩
  obtain ⟨s', -, hm', hg, hpinch, hseen⟩ := hf fuel' hle
  refine ⟨finishUpdate env s', hm', hg, hg.wf_sameGrid hwf, fun i hi => ?_⟩
  rw [hg.2.2.1] at hi
  exact hpinch i (hseen i hi (Or.inl (hall i hi))).1 hi

/-- Loading a well-formed save game: the load returns for every large enough step budget,
its drawing order lists every node index exactly once and ends with the node of the highest
column and the lowest row, and no node of the loaded map is pinched. -/
theorem loadMapFromFile_square (env : Env) (parse : String → Option SaveGame)
    (SAVEGAME_VERSION : Nat) (jsonAsString : String) (sg : SaveGame)
    (htext : jsonAsString.isEmpty = false) (hparse : parse jsonAsString = some sg)
    (hver : sg.savegameVersion.getD 0 = SAVEGAME_VERSION)
    (hwf : sg.grid.WF) (hr : sg.grid.HeightsInRange env) (hpos : 1 ≤ sg.grid.m_columns) :
    (loadedDrawingOrder sg.grid.m_columns).Perm (List.range sg.mapNode.length) ∧
    (∃ last, (loadedDrawingOrder sg.grid.m_columns).getLast? = some last ∧
      last < sg.mapNode.length ∧
      (sg.grid.node last).m_isoCoordinates.x = sg.grid.m_columns - 1 ∧
      (sg.grid.node last).m_isoCoordinates.y = 0) ∧
    ∃ fuel, ∀ fuel', fuel ≤ fuel' → ∃ m',
      loadMapFromFile env fuel' parse SAVEGAME_VERSION jsonAsString =
        some (LoadResult.loaded m' (loadedDrawingOrder sg.grid.m_columns)) ∧
      sg.grid.SameGrid m' ∧ m'.NoPinchedNode := by
  obtain ⟨n, hn⟩ : ∃ n : Nat, sg.grid.m_columns = (n : Int) :=
    ⟨sg.grid.m_columns.toNat, (Int.toNat_of_nonneg hwf.1).symm⟩
  have hlen : sg.mapNode.length = n * n := by
    have := hwf.2.2.1
    rw [hn] at this
    simpa [SaveGame.grid] using this
  have hn1 : 1 ≤ n := by rw [hn] at hpos; exact_mod_cast hpos
  have hcols : sg.columns.getD (-1) = (n : Int) := hn
  have hrows : sg.rows.getD (-1) = (n : Int) := by
    have := hwf.2.1
    rw [hn] at this
    exact this
  rw [hn, hlen]
  refine ⟨loadedDrawingOrder_perm n, ⟨(n - 1) * n, loadedDrawingOrder_getLast n hn1, ?_, ?_⟩, ?_⟩
  · calc (n - 1) * n < (n - 1) * n + n := by omega
      _ = n * n := by
        obtain ⟨k, rfl⟩ : ∃ k, n = k + 1 := ⟨n - 1, by omega⟩
        simp only [Nat.add_sub_cancel]
        ring
  · have hlt : (n - 1) * n < sg.grid.mapNodes.length := by
      show (n - 1) * n < sg.mapNode.length
      rw [hlen]
      obtain ⟨k, rfl⟩ : ∃ k, n = k + 1 := ⟨n - 1, by omega⟩
      simp only [Nat.add_sub_cancel]
      nlinarith
    obtain ⟨hx, hy⟩ := hwf.2.2.2 _ hlt
    rw [hn] at hx hy
    simp only [Int.toNat_ofNat] at hx hy
    rw [hx, hy]
    obtain ⟨k, rfl⟩ : ∃ k, n = k + 1 := ⟨n - 1, by omega⟩
    simp only [Nat.add_sub_cancel]
    rw [Nat.mul_div_cancel _ (Nat.succ_pos k), Nat.mul_mod_left]
    constructor
    · push_cast; ring
    · rfl
  · obtain ⟨fuel, hf⟩ := Map.updateAllNodes_noPinchedNode env sg.grid
      (loadedDrawingOrder (n : Int)) hwf hr
      (fun i hi => by
        show i < sg.mapNode.length
        rw [hlen]
        exact (mem_loadedDrawingOrder n i).1 hi)
      (fun i hi => by
        apply (mem_loadedDrawingOrder n i).2
        rw [← hlen]
        exact hi)
    refine ⟨fuel, fun fuel' hle => ?_⟩
    obtain ⟨m', hm', hg, -, hnp⟩ := hf fuel' hle
    refine ⟨m', ?_, hg, hnp⟩
    rw [loadMapFromFile_loaded env fuel' parse SAVEGAME_VERSION jsonAsString sg htext hparse hver
      (by rw [hcols]; omega) (by rw [hrows]; omega) (by rw [hcols, hrows]; positivity), hcols,
      hm']
    rfl

/-- After a lowering every 8-neighbour of every node is within one unit of it again. -/
theorem Map.decreaseHeight_close (env : Env) (m : Map) (p : Point) (hwf : m.WF)
    (hr : m.HeightsInRange env) (hp : p.isWithinMapBoundaries m = true) (hi1 : m.I1) :
    ∃ fuel, ∀ fuel', fuel ≤ fuel' → ∃ m', m.decreaseHeight env fuel' p = some m' ∧
      m.SameGrid m' ∧
      ∀ q : Point, q.isWithinMapBoundaries m = true → |q.x - p.x| ≤ 1 → |q.y - p.y| ≤ 1 →
        |(m'.getMapNode q).height - (m'.getMapNode p).height| ≤ 1 := by
  obtain ⟨fuel, hf⟩ := Map.changeHeight_restores env (fun _ => True) m p false hwf hr hp
    (hwf.i1_iff.1 hi1) (fun _ _ => Or.inr trivial)
  refine ⟨fuel, fun fuel' hle => ?_⟩
  obtain ⟨m', hm', hwf', -, hg, hi1', -⟩ := hf fuel' hle
  refine ⟨m', hm', hg, fun q hq hx hy => ?_⟩
  exact (hwf'.i1_iff.2 hi1') q p
    (by rw [isWithinMapBoundaries_congr hg.1 hg.2.1 rfl rfl]; exact hq)
    (by rw [isWithinMapBoundaries_congr hg.1 hg.2.1 rfl rfl]; exact hp) hx hy

/-- The lowering of a node at a positive height succeeds and is the propagation from the
state that the lowering loop leaves. -/
theorem Map.decreaseHeight_eq_lowerAround (env : Env) (fuel : Nat) (m : Map) (p : Point)
    (hpos : 0 < (m.getMapNode p).height) :
    m.decreaseHeight env fuel p =
      ((m.lowerAround env p).1.demolishNodeNoUpdate env (PointFunctions.getNeighbors m p true)
        Layer.NONE).updateNodeNeighbors env fuel (m.lowerAround env p).2 := by
  rw [Map.decreaseHeight_eq, if_pos]
  unfold Map.getMapNode at hpos
  rw [Map.updateHeight_snd, MapNode.changeHeight_snd]
  simpa using hpos

set_option maxRecDepth 100000

/-! ## Claims C21 to C30 -/

/-- C21: the picker returns the first hit or the sentinel. On a well-formed grid whose
column count is `mapSize`, for every hit test `isClickWithinTile` (the screen point and the
layer fixed) and every calculated guess: the probed positions are ordered by column from
`xMax` down to `xMin` and by ascending row inside a column, each of them is a position of
the grid whose node carries its coordinates; whenever the probes before a candidate all miss
and the candidate is hit, `findNodeInMap` returns the coordinates of that candidate; either
there is such a first hit or every probe misses; and the result is the point
`(-1, -1, 0, 0)` exactly when the hit test is false for every candidate. -/
theorem findNodeInMap_first_hit_or_sentinel (m : Map) (mapSize : Int)
    (isClickWithinTile : Point → Bool) (calculatedIsoCoords : Point) (hwf : m.WF)
    (hsize : mapSize = m.m_columns) :
    (pickerCandidates mapSize
        (adjustPickerGuess mapSize calculatedIsoCoords.x calculatedIsoCoords.y).1
        (adjustPickerGuess mapSize calculatedIsoCoords.x calculatedIsoCoords.y).2).Pairwise
      (fun a b => b.1 < a.1 ∨ (b.1 = a.1 ∧ a.2 < b.2)) ∧
    (∀ c ∈ pickerCandidates mapSize
        (adjustPickerGuess mapSize calculatedIsoCoords.x calculatedIsoCoords.y).1
        (adjustPickerGuess mapSize calculatedIsoCoords.x calculatedIsoCoords.y).2,
      (candidatePoint c).isWithinMapBoundaries m = true ∧
      (m.getMapNode (candidatePoint c)).m_isoCoordinates.x = c.1 ∧
      (m.getMapNode (candidatePoint c)).m_isoCoordinates.y = c.2) ∧
    (∀ l1 c l2,
      pickerCandidates mapSize
        (adjustPickerGuess mapSize calculatedIsoCoords.x calculatedIsoCoords.y).1
        (adjustPickerGuess mapSize calculatedIsoCoords.x calculatedIsoCoords.y).2 =
          l1 ++ c :: l2 →
      (∀ d ∈ l1, isClickWithinTile (m.getMapNode (candidatePoint d)).m_isoCoordinates = false) →
      isClickWithinTile (m.getMapNode (candidatePoint c)).m_isoCoordinates = true →
      m.findNodeInMap mapSize isClickWithinTile calculatedIsoCoords =
        (m.getMapNode (candidatePoint c)).m_isoCoordinates) ∧
    ((∃ l1 c l2,
        pickerCandidates mapSize
          (adjustPickerGuess mapSize calculatedIsoCoords.x calculatedIsoCoords.y).1
          (adjustPickerGuess mapSize calculatedIsoCoords.x calculatedIsoCoords.y).2 =
            l1 ++ c :: l2 ∧
        (∀ d ∈ l1,
          isClickWithinTile (m.getMapNode (candidatePoint d)).m_isoCoordinates = false) ∧
        isClickWithinTile (m.getMapNode (candidatePoint c)).m_isoCoordinates = true ∧
        m.findNodeInMap mapSize isClickWithinTile calculatedIsoCoords =
          (m.getMapNode (candidatePoint c)).m_isoCoordinates) ∨
      ((∀ c ∈ pickerCandidates mapSize
          (adjustPickerGuess mapSize calculatedIsoCoords.x calculatedIsoCoords.y).1
          (adjustPickerGuess mapSize calculatedIsoCoords.x calculatedIsoCoords.y).2,
          isClickWithinTile (m.getMapNode (candidatePoint c)).m_isoCoordinates = false) ∧
        m.findNodeInMap mapSize isClickWithinTile calculatedIsoCoords =
          { x := -1, y := -1, z := 0, height := 0 })) ∧
    (m.findNodeInMap mapSize isClickWithinTile calculatedIsoCoords =
        { x := -1, y := -1, z := 0, height := 0 } ↔
      ∀ c ∈ pickerCandidates mapSize
          (adjustPickerGuess mapSize calculatedIsoCoords.x calculatedIsoCoords.y).1
          (adjustPickerGuess mapSize calculatedIsoCoords.x calculatedIsoCoords.y).2,
        isClickWithinTile (m.getMapNode (candidatePoint c)).m_isoCoordinates = false) := by
  refine ⟨pickerCandidates_order _ _ _, fun c hc => ?_,
    fun l1 c l2 hsplit hmiss hhit =>
      Map.findNodeInMap_first m mapSize isClickWithinTile calculatedIsoCoords l1 l2 c hsplit
        hmiss hhit,
    Map.findNodeInMap_cases m mapSize isClickWithinTile calculatedIsoCoords,
    Map.findNodeInMap_sentinel_iff m mapSize isClickWithinTile calculatedIsoCoords hwf hsize⟩
  have hin := pickerCandidates_within m mapSize _ _ hsize hwf.2.1 c hc
  exact ⟨hin, hwf.getMapNode_xy hin⟩

theorem findNodeInMap_first_hit_or_sentinel_witness :
    (flatMap 3).WF ∧ (3 : Int) = (flatMap 3).m_columns ∧
    (pickerCandidates 3 (adjustPickerGuess 3 1 1).1 (adjustPickerGuess 3 1 1).2 =
      [(2, 0), (2, 1), (2, 2), (1, 0), (1, 1), (1, 2), (0, 0), (0, 1), (0, 2)]) ∧
    (flatMap 3).findNodeInMap 3 (fun p => decide (p.x = 1 ∧ p.y = 1))
      { x := 1, y := 1, z := 0, height := 0 } = { x := 1, y := 1, z := 0, height := 0 } ∧
    ((flatMap 3).findNodeInMap 3 (fun _ => false) { x := 1, y := 1, z := 0, height := 0 } =
        { x := -1, y := -1, z := 0, height := 0 } ↔
      ∀ c ∈ pickerCandidates 3
          (adjustPickerGuess 3 ({ x := 1, y := 1, z := 0, height := 0 } : Point).x
            ({ x := 1, y := 1, z := 0, height := 0 } : Point).y).1
          (adjustPickerGuess 3 ({ x := 1, y := 1, z := 0, height := 0 } : Point).x
            ({ x := 1, y := 1, z := 0, height := 0 } : Point).y).2,
        (fun _ => false) ((flatMap 3).getMapNode (candidatePoint c)).m_isoCoordinates = false) :=
  ⟨by decide, by decide, by decide, by decide,
    (findNodeInMap_first_hit_or_sentinel (flatMap 3) 3 (fun _ => false)
      { x := 1, y := 1, z := 0, height := 0 } (by decide) (by decide)).2.2.2.2⟩

/-- C22, counterexample: with `mapSize = 4` the guess `(0, 5)` overflows the row bound, and
the adjusted guess is `(1, 4)`: its row is `mapSize`, which is not a row of the grid. -/
theorem adjustPickerGuess_row_past_grid :
    (5 : Int) ≥ 4 ∧ adjustPickerGuess 4 0 5 = (1, 4) ∧
    ¬ (0 ≤ (adjustPickerGuess 4 0 5).2 ∧ (adjustPickerGuess 4 0 5).2 < 4) := by
  decide

/-- C22, amended: the picker slides an overflowing guess along the diagonal to the row
`mapSize`. For every guess `(isoX, isoY)` with `isoY >= mapSize`, the adjusted guess has the
row `mapSize` (the first row past the grid, not a row of the grid), the column
`isoX + (isoY - mapSize)`, and column + row is unchanged. -/
theorem adjustPickerGuess_slides_to_mapSize (mapSize isoX isoY : Int) (h : isoY ≥ mapSize) :
    (adjustPickerGuess mapSize isoX isoY).2 = mapSize ∧
    (adjustPickerGuess mapSize isoX isoY).1 = isoX + (isoY - mapSize) ∧
    (adjustPickerGuess mapSize isoX isoY).1 + (adjustPickerGuess mapSize isoX isoY).2 =
      isoX + isoY := by
  obtain ⟨h1, h2⟩ := adjustPickerGuess_overflow mapSize isoX isoY h
  refine ⟨h1, ?_, h2⟩
  omega

theorem adjustPickerGuess_slides_to_mapSize_witness :
    (5 : Int) ≥ 4 ∧
    (adjustPickerGuess 4 0 5).2 = 4 ∧
    (adjustPickerGuess 4 0 5).1 = 0 + (5 - 4) ∧
    (adjustPickerGuess 4 0 5).1 + (adjustPickerGuess 4 0 5).2 = 0 + 5 :=
  ⟨by decide, adjustPickerGuess_slides_to_mapSize 4 0 5 (by decide)⟩

/-- C23: post-increment on a direction follows the fixed cyclic order. For each of the nine
values `postIncrement` returns the old value; the nine values are exactly the entries of
`directionOrder` (BOTTOM_LEFT, LEFT, TOP_LEFT, BOTTOM, CENTER, TOP, BOTTOM_RIGHT, RIGHT,
TOP_RIGHT), each once; the operand advances from the entry at place `k` to the entry at
place `k + 1` modulo 9, so the successor of TOP_RIGHT is BOTTOM_LEFT; nine increments return
every value to itself, and fewer than nine (at least one) return no value to itself. -/
theorem postIncrement_nine_cycle :
    (∀ nn : NeighbourNodesPosition, nn.postIncrement.1 = nn) ∧
    (∀ nn : NeighbourNodesPosition, nn ∈ directionOrder) ∧
    directionOrder.Nodup ∧ directionOrder.length = 9 ∧
    (∀ k, k < 9 →
      (directionOrder.getD k NeighbourNodesPosition.CENTER).postIncrement.2 =
        directionOrder.getD ((k + 1) % 9) NeighbourNodesPosition.CENTER) ∧
    NeighbourNodesPosition.TOP_RIGHT.postIncrement.2 = NeighbourNodesPosition.BOTTOM_LEFT ∧
    (∀ nn : NeighbourNodesPosition,
      (fun n => (NeighbourNodesPosition.postIncrement n).2)^[9] nn = nn) ∧
    (∀ nn : NeighbourNodesPosition, ∀ k, k < 9 → 0 < k →
      (fun n => (NeighbourNodesPosition.postIncrement n).2)^[k] nn ≠ nn) := by
  refine ⟨fun nn => rfl, fun nn => by cases nn <;> decide, by decide, rfl, by decide, rfl,
    fun nn => by cases nn <;> rfl, fun nn => by cases nn <;> decide⟩

/-- C24, counterexample: on the flat 2x2 grid the position `(0, 2)` is outside the grid, but
its index `0 * 2 + 2 = 2` is inside the node array, and `getMapNode` returns the node stored
there, which is the node of `(1, 0)`. -/
theorem getMapNode_outside_grid_returns_node :
    (flatMap 2).WF ∧
    ({ x := 0, y := 2, z := 0, height := 0 } : Point).isWithinMapBoundaries (flatMap 2) = false ∧
    (flatMap 2).nodeIdx 0 2 = 2 ∧ (flatMap 2).mapNodes.length = 4 ∧
    ((flatMap 2).getMapNodeChecked { x := 0, y := 2, z := 0, height := 0 }).map
      MapNode.m_isoCoordinates = some { x := 1, y := 0, z := 0, height := 0 } := by
  decide

/-- C24, amended: node lookup fails only outside the node array. On a well-formed grid,
`getMapNode pos` returns the node stored for `pos` when `pos` is inside the grid; it fails
exactly when the index `pos.x * columns + pos.y` is outside the node array; and whenever it
returns a node, that is the node stored at this index, which carries the coordinates
`(index / columns, index mod columns)`. -/
theorem getMapNode_checks_array_only (m : Map) (pos : Point) (hwf : m.WF) :
    (pos.isWithinMapBoundaries m = true →
      m.getMapNodeChecked pos = some (m.getMapNode pos) ∧
      (m.getMapNode pos).m_isoCoordinates.x = pos.x ∧
      (m.getMapNode pos).m_isoCoordinates.y = pos.y) ∧
    (m.getMapNodeChecked pos = none ↔
      m.nodeIdx pos.x pos.y < 0 ∨ m.mapNodes.length ≤ m.nodePtr pos.x pos.y) ∧
    (∀ n, m.getMapNodeChecked pos = some n →
      n = m.node (m.nodePtr pos.x pos.y) ∧
      n.m_isoCoordinates.x = ((m.nodePtr pos.x pos.y / m.m_columns.toNat : Nat) : Int) ∧
      n.m_isoCoordinates.y = ((m.nodePtr pos.x pos.y % m.m_columns.toNat : Nat) : Int)) := by
  refine ⟨fun hp => ⟨hwf.getMapNodeChecked_within hp, hwf.getMapNode_xy hp⟩,
    Map.getMapNodeChecked_eq_none_iff m pos, fun n hn => ?_⟩
  obtain ⟨-, hlt, rfl⟩ := (Map.getMapNodeChecked_eq_some_iff m pos n).1 hn
  exact ⟨rfl, hwf.2.2.2 _ hlt⟩

theorem getMapNode_checks_array_only_witness :
    (flatMap 2).WF ∧
    (({ x := 1, y := 1, z := 0, height := 0 } : Point).isWithinMapBoundaries (flatMap 2) = true →
      (flatMap 2).getMapNodeChecked { x := 1, y := 1, z := 0, height := 0 } =
        some ((flatMap 2).getMapNode { x := 1, y := 1, z := 0, height := 0 }) ∧
      ((flatMap 2).getMapNode { x := 1, y := 1, z := 0, height := 0 }).m_isoCoordinates.x =
        ({ x := 1, y := 1, z := 0, height := 0 } : Point).x ∧
      ((flatMap 2).getMapNode { x := 1, y := 1, z := 0, height := 0 }).m_isoCoordinates.y =
        ({ x := 1, y := 1, z := 0, height := 0 } : Point).y) ∧
    ({ x := 1, y := 1, z := 0, height := 0 } : Point).isWithinMapBoundaries (flatMap 2) = true :=
  ⟨by decide,
    (getMapNode_checks_array_only (flatMap 2) { x := 1, y := 1, z := 0, height := 0 }
      (by decide)).1,
    by decide⟩

/-- C25: load failures. For every non-empty save text (whatever the step budget): the load
fails with the configuration (parse) error exactly when the text does not parse; when it
parses, the load fails with the version error exactly when the stored version, taken as 0
when absent, differs from `SAVEGAME_VERSION`, and the error carries the stored version; in
both failures no map is returned; and the version check comes before columns and rows are
read: a save game of another version gives the version error whatever its columns and rows
are, while a save game of the right version without columns or rows gives the null
result. -/
theorem loadMapFromFile_reports_failures (env : Env) (fuel : Nat)
    (parse : String → Option SaveGame) (SAVEGAME_VERSION : Nat) (jsonAsString : String)
    (htext : jsonAsString.isEmpty = false) :
    (loadMapFromFile env fuel parse SAVEGAME_VERSION jsonAsString =
        some LoadResult.configurationError ↔ parse jsonAsString = none) ∧
    (∀ sg, parse jsonAsString = some sg →
      ((∃ v, loadMapFromFile env fuel parse SAVEGAME_VERSION jsonAsString =
          some (LoadResult.cytopiaError v)) ↔ sg.savegameVersion.getD 0 ≠ SAVEGAME_VERSION) ∧
      (sg.savegameVersion.getD 0 ≠ SAVEGAME_VERSION →
        loadMapFromFile env fuel parse SAVEGAME_VERSION jsonAsString =
          some (LoadResult.cytopiaError (sg.savegameVersion.getD 0))) ∧
      (sg.savegameVersion.getD 0 = SAVEGAME_VERSION →
        (sg.columns.getD (-1) = -1 ∨ sg.rows.getD (-1) = -1) →
        loadMapFromFile env fuel parse SAVEGAME_VERSION jsonAsString =
          some LoadResult.nullptr)) ∧
    ((parse jsonAsString = none ∨
        ∃ sg, parse jsonAsString = some sg ∧ sg.savegameVersion.getD 0 ≠ SAVEGAME_VERSION) →
      ∀ map order, loadMapFromFile env fuel parse SAVEGAME_VERSION jsonAsString ≠
        some (LoadResult.loaded map order)) := by
  obtain ⟨h1, h2, h3⟩ :=
    loadMapFromFile_failures env fuel parse SAVEGAME_VERSION jsonAsString htext
  refine ⟨⟨fun h => ?_, h1⟩, fun sg hp => ⟨⟨fun ⟨v, hv⟩ hver => ?_, fun hver => ⟨_, h2 sg hp hver⟩⟩,
    h2 sg hp, fun hver => (h3 sg hp hver).2.2⟩, fun hfail map order hload => ?_⟩
  · cases hp : parse jsonAsString with
    | none => rfl
    | some sg =>
      by_cases hver : sg.savegameVersion.getD 0 = SAVEGAME_VERSION
      · exact absurd h (h3 sg hp hver).1
      · rw [h2 sg hp hver] at h
        cases h
  · exact (h3 sg hp hver).2.1 v hv
  · rcases hfail with hp | ⟨sg, hp, hver⟩
    · rw [h1 hp] at hload
      cases hload
    · rw [h2 sg hp hver] at hload
      cases hload

theorem loadMapFromFile_reports_failures_witness :
    ("old" : String).isEmpty = false ∧ sampleParse "old" = some unversionedSave ∧
    unversionedSave.savegameVersion.getD 0 ≠ 4 ∧ sampleParse "broken" = none ∧
    ("broken" : String).isEmpty = false ∧
    loadMapFromFile (plainEnv 3) 10 sampleParse 4 "old" = some (LoadResult.cytopiaError 0) ∧
    loadMapFromFile (plainEnv 3) 10 sampleParse 4 "broken" =
      some LoadResult.configurationError :=
  ⟨by decide, rfl, by decide, rfl, by decide,
    ((loadMapFromFile_reports_failures (plainEnv 3) 10 sampleParse 4 "old" (by decide)).2.1
      unversionedSave rfl).2.1 (by decide),
    (loadMapFromFile_reports_failures (plainEnv 3) 10 sampleParse 4 "broken" (by decide)).1.2
      rfl⟩

/-- C26, counterexample: the drawing order does not cover a grid that is not square. A save
game with 1 column and 2 rows holds `1 * 2` node records and loads with the drawing order
`[0]`, which misses node 1; and for 2 columns and 1 row the loops build the order
`[1, 0, 3, 2]`, which names the indices 2 and 3 that a node array of `2 * 1` records does
not have. -/
theorem loadMapFromFile_order_misses_nodes :
    (tallSave.columns = some 1 ∧ tallSave.rows = some 2 ∧ tallSave.mapNode.length = 1 * 2 ∧
      sampleParse "tall" = some tallSave ∧
      (∃ m', loadMapFromFile (plainEnv 3) 10 sampleParse 4 "tall" =
        some (LoadResult.loaded m' [0])) ∧
      ¬ ([0] : List Nat).Perm (List.range (1 * 2))) ∧
    (loadedDrawingOrder 2 = [1, 0, 3, 2] ∧
      ¬ (∀ i ∈ loadedDrawingOrder 2, i < 2 * 1) ∧
      ¬ (loadedDrawingOrder 2).Perm (List.range (2 * 1))) := by
  refine ⟨⟨rfl, rfl, rfl, rfl, ?_, by decide⟩, by decide, by decide, by decide⟩
  rw [loadMapFromFile_loaded (plainEnv 3) 10 sampleParse 4 "tall" tallSave (by decide)
    rfl (by decide) (by decide) (by decide) (by decide)]
  have h : (tallSave.grid.updateAllNodes (plainEnv 3) 10
      (loadedDrawingOrder (tallSave.columns.getD (-1)))).isSome = true := by decide
  obtain ⟨m', hm'⟩ := Option.isSome_iff_exists.1 h
  exact ⟨m', by rw [hm']; rfl⟩

/-- C26, amended: the drawing order rebuilt on load covers a square grid. For a save game
of the supported version whose grid is well formed (columns = rows, `columns * columns` node
records, the record at index `x * columns + y` holding node `(x, y)`) with at least one
column, the drawing-order list built by `loadMapFromFile` is a permutation of the indices of
the node array, and its last element is the node with the highest column and the lowest row;
if moreover the heights lie in `[0, maxHeight]`, the load returns a map with this drawing
order for every large enough step budget. -/
theorem loadMapFromFile_drawing_order_square (env : Env) (parse : String → Option SaveGame)
    (SAVEGAME_VERSION : Nat) (jsonAsString : String) (sg : SaveGame)
    (htext : jsonAsString.isEmpty = false) (hparse : parse jsonAsString = some sg)
    (hver : sg.savegameVersion.getD 0 = SAVEGAME_VERSION)
    (hwf : sg.grid.WF) (hr : sg.grid.HeightsInRange env) (hpos : 1 ≤ sg.grid.m_columns) :
    (loadedDrawingOrder sg.grid.m_columns).Perm (List.range sg.mapNode.length) ∧
    (∃ last, (loadedDrawingOrder sg.grid.m_columns).getLast? = some last ∧
      last < sg.mapNode.length ∧
      (sg.grid.node last).m_isoCoordinates.x = sg.grid.m_columns - 1 ∧
      (sg.grid.node last).m_isoCoordinates.y = 0) ∧
    ∃ fuel, ∀ fuel', fuel ≤ fuel' → ∃ m',
      loadMapFromFile env fuel' parse SAVEGAME_VERSION jsonAsString =
        some (LoadResult.loaded m' (loadedDrawingOrder sg.grid.m_columns)) ∧
      sg.grid.SameGrid m' :=
  have h := loadMapFromFile_square env parse SAVEGAME_VERSION jsonAsString sg htext hparse hver
    hwf hr hpos
  ⟨h.1, h.2.1, h.2.2.elim fun fuel hf => ⟨fuel, fun fuel' hle =>
    (hf fuel' hle).elim fun m' hm' => ⟨m', hm'.1, hm'.2.1⟩⟩⟩

theorem loadMapFromFile_drawing_order_square_witness :
    ("square" : String).isEmpty = false ∧ sampleParse "square" = some squareSave ∧
    squareSave.savegameVersion.getD 0 = 4 ∧ squareSave.grid.WF ∧
    squareSave.grid.HeightsInRange (plainEnv 3) ∧ 1 ≤ squareSave.grid.m_columns ∧
    loadedDrawingOrder squareSave.grid.m_columns = [1, 0, 3, 2] ∧
    (loadedDrawingOrder squareSave.grid.m_columns).Perm (List.range squareSave.mapNode.length) :=
  ⟨by decide, rfl, by decide, by decide, by decide, by decide, by decide,
    (loadMapFromFile_drawing_order_square (plainEnv 3) sampleParse 4 "square" squareSave
      (by decide) rfl (by decide) (by decide) (by decide) (by decide)).1⟩

/-- C27: the must-elevate test is the fixed table of six combinations. For a state of the
propagation on a well-formed grid with heights in `[0, maxHeight]` and a node `E` of the
grid popped from the elevation candidates: the test on the freshly computed elevation
bitmask of `E` holds exactly when the bitmask contains all bits of TOP and BOTTOM, or of
LEFT and RIGHT, or of TOP_LEFT, RIGHT and BOTTOM, or of TOP_RIGHT, LEFT and BOTTOM, or of
BOTTOM_LEFT, RIGHT and TOP, or of BOTTOM_RIGHT, LEFT and TOP; `E` is raised by one unit
exactly when the test holds, and it is pushed on the height-dirty queue exactly when the
test holds; otherwise the queue is unchanged; and in every case every node keeps its height
except that `E` may be one unit higher. -/
theorem elevateStep_follows_six_combinations (env : Env) (s : UpdateState) (E : Nat)
    (hv : s.Valid env) (hE : E < s.map.mapNodes.length) :
    (mustElevate (s.map.getElevatedNeighborBitmask (s.map.node E).m_isoCoordinates) = true ↔
      (hasBit (s.map.getElevatedNeighborBitmask (s.map.node E).m_isoCoordinates) .TOP ∧
        hasBit (s.map.getElevatedNeighborBitmask (s.map.node E).m_isoCoordinates) .BOTTOM) ∨
      (hasBit (s.map.getElevatedNeighborBitmask (s.map.node E).m_isoCoordinates) .LEFT ∧
        hasBit (s.map.getElevatedNeighborBitmask (s.map.node E).m_isoCoordinates) .RIGHT) ∨
      (hasBit (s.map.getElevatedNeighborBitmask (s.map.node E).m_isoCoordinates) .TOP_LEFT ∧
        hasBit (s.map.getElevatedNeighborBitmask (s.map.node E).m_isoCoordinates) .RIGHT ∧
        hasBit (s.map.getElevatedNeighborBitmask (s.map.node E).m_isoCoordinates) .BOTTOM) ∨
      (hasBit (s.map.getElevatedNeighborBitmask (s.map.node E).m_isoCoordinates) .TOP_RIGHT ∧
        hasBit (s.map.getElevatedNeighborBitmask (s.map.node E).m_isoCoordinates) .LEFT ∧
        hasBit (s.map.getElevatedNeighborBitmask (s.map.node E).m_isoCoordinates) .BOTTOM) ∨
      (hasBit (s.map.getElevatedNeighborBitmask (s.map.node E).m_isoCoordinates) .BOTTOM_LEFT ∧
        hasBit (s.map.getElevatedNeighborBitmask (s.map.node E).m_isoCoordinates) .RIGHT ∧
        hasBit (s.map.getElevatedNeighborBitmask (s.map.node E).m_isoCoordinates) .TOP) ∨
      (hasBit (s.map.getElevatedNeighborBitmask (s.map.node E).m_isoCoordinates) .BOTTOM_RIGHT ∧
        hasBit (s.map.getElevatedNeighborBitmask (s.map.node E).m_isoCoordinates) .LEFT ∧
        hasBit (s.map.getElevatedNeighborBitmask (s.map.node E).m_isoCoordinates) .TOP)) ∧
    (((elevateStep env s E).map.node E).height = (s.map.node E).height + 1 ↔
      mustElevate (s.map.getElevatedNeighborBitmask (s.map.node E).m_isoCoordinates) = true) ∧
    ((elevateStep env s E).nodesUpdatedHeight = s.nodesUpdatedHeight ++ [E] ↔
      mustElevate (s.map.getElevatedNeighborBitmask (s.map.node E).m_isoCoordinates) = true) ∧
    (mustElevate (s.map.getElevatedNeighborBitmask (s.map.node E).m_isoCoordinates) = false →
      (elevateStep env s E).nodesUpdatedHeight = s.nodesUpdatedHeight) ∧
    (∀ j, ((elevateStep env s E).map.node j).height = (s.map.node j).height ∨
      (j = E ∧ ((elevateStep env s E).map.node j).height = (s.map.node j).height + 1)) := by
  obtain ⟨hyes, hno⟩ := elevateStep_heights env s E hE
  refine ⟨mustElevate_iff _, ⟨fun h => ?_, fun h => ?_⟩, ⟨fun h => ?_, fun h => (hyes h).1⟩,
    fun h => (hno h).1, fun j => ?_⟩
  · by_contra hm
    have := (hno (by simpa using hm)).2 E
    omega
  · rw [(hyes h).2.1, if_pos (hv.1.lt_maxHeight_of_mustElevate hv.2.1 hE h)]
  · by_contra hm
    have := (hno (by simpa using hm)).1
    rw [this] at h
    have := congrArg List.length h
    simp at this
  · cases hm : mustElevate (s.map.getElevatedNeighborBitmask (s.map.node E).m_isoCoordinates)
    · exact Or.inl ((hno hm).2 j)
    · by_cases hj : j = E
      · subst hj
        right
        refine ⟨rfl, ?_⟩
        rw [(hyes hm).2.1, if_pos (hv.1.lt_maxHeight_of_mustElevate hv.2.1 hE hm)]
      · exact Or.inl ((hyes hm).2.2 j hj)

theorem elevateStep_follows_six_combinations_witness :
    pinchState.Valid (plainEnv 3) ∧ 1 < pinchState.map.mapNodes.length ∧
    pinchGrid.heights = [1, 0, 1, 0, 0, 0, 0, 0, 0] ∧
    mustElevate (pinchState.map.getElevatedNeighborBitmask
      (pinchState.map.node 1).m_isoCoordinates) = true ∧
    (((elevateStep (plainEnv 3) pinchState 1).map.node 1).height =
        (pinchState.map.node 1).height + 1 ↔
      mustElevate (pinchState.map.getElevatedNeighborBitmask
        (pinchState.map.node 1).m_isoCoordinates) = true) :=
  ⟨⟨by decide, by decide, fun _ h => absurd h (List.not_mem_nil _),
      fun _ h => absurd h (List.not_mem_nil _)⟩, by decide, by decide, by decide,
    (elevateStep_follows_six_combinations (plainEnv 3) pinchState 1
      ⟨by decide, by decide, fun _ h => absurd h (List.not_mem_nil _),
        fun _ h => absurd h (List.not_mem_nil _)⟩ (by decide)).2.1⟩

/-- C28: no pinched node survives propagation. On a well-formed grid with heights in
`[0, maxHeight]` and seed nodes of the grid, `updateNodeNeighbors` returns for every large
enough step budget; every seed, every node whose height changed and every neighbour of
those is in the set of visited nodes (`nodesToBeUpdated`); for every visited node, the
directions in which it has a strictly taller neighbour in the result contain none of the six
must-elevate combinations; hence, when the seeds list every node, as the drawing order does
for `updateAllNodes`, no node of the result is pinched. -/
theorem updateNodeNeighbors_leaves_no_pinch (env : Env) (m : Map) (seeds : List Nat)
    (hwf : m.WF) (hr : m.HeightsInRange env) (hseeds : ∀ i ∈ seeds, i < m.mapNodes.length) :
    ∃ fuel, ∀ fuel', fuel ≤ fuel' → ∃ s' m',
      m.updateNodeNeighborsState env fuel' seeds = some s' ∧
      m.updateNodeNeighbors env fuel' seeds = some m' ∧ m.SameGrid m' ∧
      (∀ i, i < m.mapNodes.length →
        (i ∈ seeds ∨ (m'.node i).height ≠ (m.node i).height) →
        i ∈ s'.nodesToBeUpdated ∧ ∀ j, m.Adj i j → j ∈ s'.nodesToBeUpdated) ∧
      (∀ i ∈ s'.nodesToBeUpdated, i < m.mapNodes.length →
        ¬ m'.pinched (m'.node i).m_isoCoordinates) ∧
      ((∀ i, i < m.mapNodes.length → i ∈ seeds) →
        m.updateAllNodes env fuel' seeds = some m' ∧
        ∀ i, i < m'.mapNodes.length → ¬ m'.pinched (m'.node i).m_isoCoordinates) := by
  obtain ⟨fuel, hf⟩ := Map.updateNodeNeighbors_seen env m seeds hwf hr hseeds
  refine ⟨fuel, fun fuel' hle => ?_⟩
  obtain ⟨s', hs', hm', hg, hpinch, hseen⟩ := hf fuel' hle
  refine ⟨s', finishUpdate env s', hs', hm', hg, hseen,
    fun i hi hlt => (Map.pinchOK_iff _ i).1 (hpinch i hi hlt), fun hall => ⟨hm', fun i hi => ?_⟩⟩
  rw [hg.2.2.1] at hi
  exact (Map.pinchOK_iff _ i).1 (hpinch i (hseen i hi (Or.inl (hall i hi))).1 hi)

theorem updateNodeNeighbors_leaves_no_pinch_witness :
    pinchGrid.WF ∧ pinchGrid.HeightsInRange (plainEnv 3) ∧
    (∀ i ∈ [4], i < pinchGrid.mapNodes.length) ∧
    pinchGrid.pinched (pinchGrid.node 1).m_isoCoordinates ∧
    ∃ fuel, ∀ fuel', fuel ≤ fuel' → ∃ s' m',
      pinchGrid.updateNodeNeighborsState (plainEnv 3) fuel' [4] = some s' ∧
      pinchGrid.updateNodeNeighbors (plainEnv 3) fuel' [4] = some m' ∧ pinchGrid.SameGrid m' ∧
      (∀ i, i < pinchGrid.mapNodes.length →
        (i ∈ [4] ∨ (m'.node i).height ≠ (pinchGrid.node i).height) →
        i ∈ s'.nodesToBeUpdated ∧ ∀ j, pinchGrid.Adj i j → j ∈ s'.nodesToBeUpdated) ∧
      (∀ i ∈ s'.nodesToBeUpdated, i < pinchGrid.mapNodes.length →
        ¬ m'.pinched (m'.node i).m_isoCoordinates) ∧
      ((∀ i, i < pinchGrid.mapNodes.length → i ∈ [4]) →
        pinchGrid.updateAllNodes (plainEnv 3) fuel' [4] = some m' ∧
        ∀ i, i < m'.mapNodes.length → ¬ m'.pinched (m'.node i).m_isoCoordinates) :=
  ⟨by decide, by decide, by decide,
    (Map.mustElevate_iff_pinched pinchGrid (pinchGrid.node 1).m_isoCoordinates).1 (by decide),
    updateNodeNeighbors_leaves_no_pinch (plainEnv 3) pinchGrid [4] (by decide) (by decide)
      (by decide)⟩

/-- C29: lowering does not level the surroundings to the centre, although the comment of
line 143 says that all nodes around should be lowered to the height of the central one. On
the settled 3x3 slope (node `(x, y)` at height `x`), which satisfies I1,
`decreaseHeight (1, 1)` lowers the row of height 1 to 0 and the row of height 2 to 1: the
neighbour `(2, 1)` was higher than the new height 0 of `(1, 1)`, and it ends at height 1,
not at the height of `(1, 1)`. -/
theorem decreaseHeight_leaves_slope :
    slopeGrid.WF ∧ slopeGrid.Settled (plainEnv 3) ∧ slopeGrid.I1 ∧
    slopeGrid.heights = [0, 0, 0, 1, 1, 1, 2, 2, 2] ∧
    ({ x := 1, y := 1, z := 0, height := 0 } : Point).isWithinMapBoundaries slopeGrid = true ∧
    0 < (slopeGrid.getMapNode { x := 1, y := 1, z := 0, height := 0 }).height ∧
    ∃ m', slopeGrid.decreaseHeight (plainEnv 3) 60 { x := 1, y := 1, z := 0, height := 0 } =
        some m' ∧
      m'.heights = [0, 0, 0, 0, 0, 0, 1, 1, 1] ∧
      (m'.getMapNode { x := 1, y := 1, z := 0, height := 0 }).height = 0 ∧
      (slopeGrid.getMapNode { x := 2, y := 1, z := 0, height := 0 }).height >
        (m'.getMapNode { x := 1, y := 1, z := 0, height := 0 }).height ∧
      (m'.getMapNode { x := 2, y := 1, z := 0, height := 0 }).height ≠
        (m'.getMapNode { x := 1, y := 1, z := 0, height := 0 }).height := by
  refine ⟨by decide, by decide, (Map.WF.i1_iff (by decide)).2 (by decide), by decide, by decide,
    by decide, ?_⟩
  have h : (slopeGrid.decreaseHeight (plainEnv 3) 60
      { x := 1, y := 1, z := 0, height := 0 }).isSome = true := by decide
  obtain ⟨m', hm'⟩ := Option.isSome_iff_exists.1 h
  have h2 : ((slopeGrid.decreaseHeight (plainEnv 3) 60
      { x := 1, y := 1, z := 0, height := 0 }).map Map.heights) =
      some [0, 0, 0, 0, 0, 0, 1, 1, 1] := by decide
  have h3 : ((slopeGrid.decreaseHeight (plainEnv 3) 60
      { x := 1, y := 1, z := 0, height := 0 }).map fun m =>
        (m.getMapNode { x := 1, y := 1, z := 0, height := 0 }).height) = some 0 := by decide
  have h4 : ((slopeGrid.decreaseHeight (plainEnv 3) 60
      { x := 1, y := 1, z := 0, height := 0 }).map fun m =>
        (m.getMapNode { x := 2, y := 1, z := 0, height := 0 }).height) = some 1 := by decide
  rw [hm'] at h2 h3 h4
  have e2 := Option.some.inj h2
  have e3 := Option.some.inj h3
  have e4 := Option.some.inj h4
  simp only at e3 e4
  refine ⟨m', hm', e2, e3, ?_, ?_⟩
  · rw [e3]; decide
  · rw [e3, e4]; decide

/-- C30: raising is monotone. On a well-formed grid with heights in `[0, maxHeight]` that
satisfies I1 and has no pinched node, for an in-grid `p` with `height(p) < maxHeight`:
`increaseHeight p` is the propagation run from the state `raiseStart`, followed by the
closing passes; in that run, whatever the step budget, no step of the loop over the
neighbours takes the lowering branch; and the call returns for every large enough step
budget with no node lower than before and `p` exactly one unit higher than before. -/
theorem increaseHeight_never_lowers (env : Env) (m : Map) (p : Point) (hwf : m.WF)
    (hr : m.HeightsInRange env) (hp : p.isWithinMapBoundaries m = true) (hi1 : m.I1)
    (hnp : m.NoPinchedNode) (hlt : (m.getMapNode p).height < env.maxHeight) :
    (∀ fuel, m.increaseHeight env fuel p =
      (propagate env fuel (m.raiseStart env p)).map (finishUpdate env)) ∧
    (∀ fuel, propagateLowerings env fuel (m.raiseStart env p) = 0) ∧
    ∃ fuel, ∀ fuel', fuel ≤ fuel' → ∃ m', m.increaseHeight env fuel' p = some m' ∧
      m.SameGrid m' ∧ (∀ i, i < m.mapNodes.length → (m.node i).height ≤ (m'.node i).height) ∧
      (m'.getMapNode p).height = (m.getMapNode p).height + 1 :=
  Map.increaseHeight_monotone env m p hwf hr hp ((Map.WF.i1_iff hwf).1 hi1) hnp hlt

theorem increaseHeight_never_lowers_witness :
    hillMap.WF ∧ hillMap.HeightsInRange (plainEnv 3) ∧
    ({ x := 1, y := 1, z := 0, height := 0 } : Point).isWithinMapBoundaries hillMap = true ∧
    hillMap.I1 ∧ hillMap.NoPinchedNode ∧
    (hillMap.getMapNode { x := 1, y := 1, z := 0, height := 0 }).height <
      (plainEnv 3).maxHeight ∧
    hillMap.heights = [0, 0, 0, 0, 1, 0, 0, 0, 0] ∧
    (∀ fuel, propagateLowerings (plainEnv 3) fuel
      (hillMap.raiseStart (plainEnv 3) { x := 1, y := 1, z := 0, height := 0 }) = 0) ∧
    0 < propagateLowerings (plainEnv 3) 3
      { map := (peakGrid.lowerAround (plainEnv 3) { x := 2, y := 2, z := 0, height := 0 }).1,
        nodesUpdatedHeight :=
          (peakGrid.lowerAround (plainEnv 3) { x := 2, y := 2, z := 0, height := 0 }).2,
        nodesToElevate := [], nodesToBeUpdated := [], nodesToDemolish := [] } :=
  ⟨by decide, by decide, by decide, (Map.WF.i1_iff (by decide)).2 (by decide), by decide,
    by decide, by decide,
    (increaseHeight_never_lowers (plainEnv 3) hillMap { x := 1, y := 1, z := 0, height := 0 }
      (by decide) (by decide) (by decide) ((Map.WF.i1_iff (by decide)).2 (by decide))
      (by decide) (by decide)).2.1,
    by decide⟩

set_option maxRecDepth 100000

/-! ## Index arithmetic, picker band and forced raises -/

theorem Point.isWithinMapBoundaries_iff (m : Map) (p : Point) :
    p.isWithinMapBoundaries m = true ↔
      0 ≤ p.x ∧ p.x < m.m_columns ∧ 0 ≤ p.y ∧ p.y < m.m_rows := by
  simp only [Point.isWithinMapBoundaries, Bool.and_eq_true, decide_eq_true_eq, and_assoc]

/-- The index of every in-grid position is below `columns * rows` exactly when the grid has
a single column or at least as many rows as columns. -/
theorem Map.nodeIdx_bound_iff (m : Map) (hc : 1 ≤ m.m_columns) (hr : 1 ≤ m.m_rows) :
    (∀ p : Point, p.isWithinMapBoundaries m = true →
      0 ≤ m.nodeIdx p.x p.y ∧ m.nodeIdx p.x p.y < m.m_columns * m.m_rows) ↔
      (m.m_columns = 1 ∨ m.m_columns ≤ m.m_rows) := by
  constructor
  · intro h
    by_contra hcon
    have h1 : m.m_rows < m.m_columns := by omega
    have h2 : (2 : Int) ≤ m.m_columns := by omega
    have hp := (h { x := m.m_columns - 1, y := m.m_rows - 1, z := 0, height := 0 }
      ((Point.isWithinMapBoundaries_iff m _).2 ⟨by simp only; omega, by simp only; omega,
        by simp only; omega, by simp only; omega⟩)).2
    unfold Map.nodeIdx at hp
    simp only at hp
    have h3 : 0 ≤ (m.m_columns - 2) * (m.m_columns - m.m_rows - 1) :=
      mul_nonneg (by omega) (by omega)
    nlinarith
  · intro h p hp
    rw [Point.isWithinMapBoundaries_iff] at hp
    obtain ⟨hx0, hx1, hy0, hy1⟩ := hp
    unfold Map.nodeIdx
    have h0 : 0 ≤ p.x * m.m_columns := mul_nonneg hx0 (by omega)
    refine ⟨by omega, ?_⟩
    have h1 : p.x * m.m_columns ≤ (m.m_columns - 1) * m.m_columns :=
      mul_le_mul_of_nonneg_right (by omega) (by omega)
    rcases h with h | h
    · have hx : p.x = 0 := by omega
      rw [hx, h]
      omega
    · have h2 : 0 ≤ (m.m_columns - 1) * (m.m_rows - m.m_columns) :=
        mul_nonneg (by omega) (by omega)
      nlinarith

/-- In-grid positions with the same index are equal exactly when the grid has a single
column or at most as many rows as columns. -/
theorem Map.nodeIdx_injective_iff (m : Map) (hc : 1 ≤ m.m_columns) (hr : 1 ≤ m.m_rows) :
    (∀ p q : Point, p.isWithinMapBoundaries m = true → q.isWithinMapBoundaries m = true →
      m.nodeIdx p.x p.y = m.nodeIdx q.x q.y → p.x = q.x ∧ p.y = q.y) ↔
      (m.m_columns = 1 ∨ m.m_rows ≤ m.m_columns) := by
  constructor
  · intro h
    by_contra hcon
    have h1 : m.m_columns < m.m_rows := by omega
    have h2 : (2 : Int) ≤ m.m_columns := by omega
    have := (h { x := 0, y := m.m_columns, z := 0, height := 0 }
      { x := 1, y := 0, z := 0, height := 0 }
      ((Point.isWithinMapBoundaries_iff m _).2 ⟨by simp only; omega, by simp only; omega,
        by simp only; omega, by simp only; omega⟩)
      ((Point.isWithinMapBoundaries_iff m _).2 ⟨by simp only; omega, by simp only; omega,
        by simp only; omega, by simp only; omega⟩)
      (by unfold Map.nodeIdx; simp only; ring)).1
    simp only at this
    omega
  · intro h p q hp hq he
    rw [Point.isWithinMapBoundaries_iff] at hp hq
    obtain ⟨hx0, hx1, hy0, hy1⟩ := hp
    obtain ⟨hu0, hu1, hv0, hv1⟩ := hq
    unfold Map.nodeIdx at he
    rcases h with h | h
    · have hx : p.x = 0 := by omega
      have hu : q.x = 0 := by omega
      rw [hx, hu] at he
      exact ⟨by omega, by omega⟩
    · have hxe : p.x = q.x := by
        rcases lt_trichotomy p.x q.x with hlt | heq | hgt
        · exfalso
          have : (p.x + 1) * m.m_columns ≤ q.x * m.m_columns :=
            mul_le_mul_of_nonneg_right (by omega) (by omega)
          nlinarith
        · exact heq
        · exfalso
          have : (q.x + 1) * m.m_columns ≤ p.x * m.m_columns :=
            mul_le_mul_of_nonneg_right (by omega) (by omega)
          nlinarith
      refine ⟨hxe, ?_⟩
      rw [hxe] at he
      omega

/-- With the ranges exchanged, `0 <= x < rows` and `0 <= y < columns`, the index is below
`columns * rows` and collision-free for every shape of the grid. -/
theorem Map.nodeIdx_valid_exchanged (m : Map) :
    (∀ x y : Int, 0 ≤ x → x < m.m_rows → 0 ≤ y → y < m.m_columns →
      0 ≤ m.nodeIdx x y ∧ m.nodeIdx x y < m.m_columns * m.m_rows) ∧
    (∀ x y u v : Int, 0 ≤ x → x < m.m_rows → 0 ≤ y → y < m.m_columns →
      0 ≤ u → u < m.m_rows → 0 ≤ v → v < m.m_columns →
      m.nodeIdx x y = m.nodeIdx u v → x = u ∧ y = v) := by
  constructor
  · intro x y hx0 hx1 hy0 hy1
    unfold Map.nodeIdx
    have h0 : 0 ≤ x * m.m_columns := mul_nonneg hx0 (by omega)
    have h1 : (x + 1) * m.m_columns ≤ m.m_rows * m.m_columns :=
      mul_le_mul_of_nonneg_right (by omega) (by omega)
    refine ⟨by omega, ?_⟩
    nlinarith
  · intro x y u v hx0 hx1 hy0 hy1 hu0 hu1 hv0 hv1 he
    unfold Map.nodeIdx at he
    have hxe : x = u := by
      rcases lt_trichotomy x u with hlt | heq | hgt
      · exfalso
        have : (x + 1) * m.m_columns ≤ u * m.m_columns :=
          mul_le_mul_of_nonneg_right (by omega) (by omega)
        nlinarith
      · exact heq
      · exfalso
        have : (u + 1) * m.m_columns ≤ x * m.m_columns :=
          mul_le_mul_of_nonneg_right (by omega) (by omega)
        nlinarith
    refine ⟨hxe, ?_⟩
    rw [hxe] at he
    omega

/-- Every position probed by the picker lies in `[0, mapSize) x [0, mapSize)`, at most two
columns below the guess and at most two steps off the diagonal of the guess. -/
theorem pickerCandidates_band (mapSize isoX isoY : Int) (c : Int × Int)
    (hc : c ∈ pickerCandidates mapSize isoX isoY) :
    (0 ≤ c.1 ∧ c.1 < mapSize) ∧ (0 ≤ c.2 ∧ c.2 < mapSize) ∧ isoX - 2 ≤ c.1 ∧
      |(c.1 + c.2) - (isoX + isoY)| ≤ 2 := by
  rw [mem_pickerCandidates] at hc
  obtain ⟨⟨h1, h2⟩, h3, h4⟩ := hc
  refine ⟨⟨by omega, by omega⟩, ⟨by omega, by omega⟩, by omega, ?_⟩
  rw [abs_le]
  constructor <;> omega

/-- A bitmask that contains one of the combinations of `elevateTileComb` passes the
must-elevate test, and conversely. -/
theorem mustElevate_iff_exists (b : Nat) :
    mustElevate b = true ↔ ∃ elBitMask ∈ elevateTileComb, b &&& elBitMask = elBitMask := by
  unfold mustElevate
  rw [List.any_eq_true]
  constructor
  · rintro ⟨c, hc, h⟩
    exact ⟨c, hc, by simpa using h⟩
  · rintro ⟨c, hc, h⟩
    exact ⟨c, hc, by simpa using h⟩

/-- The raise of a node whose computed elevation bitmask passes the must-elevate test
succeeds and changes the height by one unit. -/
theorem Map.updateHeight_of_mustElevate (env : Env) (m : Map) (E : Nat) (hwf : m.WF)
    (hr : m.HeightsInRange env) (hE : E < m.mapNodes.length)
    (hm : mustElevate (m.getElevatedNeighborBitmask (m.node E).m_isoCoordinates) = true)
    (nbs : List NeighborNode) :
    (m.node E).height < env.maxHeight ∧
    (m.updateHeight env E true nbs).2 = true ∧
    ((m.updateHeight env E true nbs).1.node E).height = (m.node E).height + 1 := by
  have hlt := hwf.lt_maxHeight_of_mustElevate hr hE hm
  obtain ⟨-, -, -, -, heq, -⟩ := Map.updateHeight_spec env m E true nbs
  refine ⟨hlt, ?_, ?_⟩
  · rw [Map.updateHeight_snd, MapNode.changeHeight_snd]
    simpa using hlt
  · rw [heq hE, MapNode.changeHeight_height, if_pos rfl, if_pos hlt]

/-! ## Claims C31 to C33 -/

/-- C31, counterexample: `nodeIdx` is neither collision-free nor in range on grids that are
not square. With 2 columns and 3 rows the in-grid positions `(0, 2)` and `(1, 0)` both have
the index 2; with 3 columns and 1 row the in-grid position `(2, 0)` has the index 6, which
is not below `3 * 1`. -/
theorem nodeIdx_collides_on_rectangle :
    (({ x := 0, y := 2, z := 0, height := 0 } : Point).isWithinMapBoundaries (bareGrid 2 3) =
        true ∧
      ({ x := 1, y := 0, z := 0, height := 0 } : Point).isWithinMapBoundaries (bareGrid 2 3) =
        true ∧
      (bareGrid 2 3).nodeIdx 0 2 = 2 ∧ (bareGrid 2 3).nodeIdx 1 0 = 2) ∧
    (({ x := 2, y := 0, z := 0, height := 0 } : Point).isWithinMapBoundaries (bareGrid 3 1) =
        true ∧
      (bareGrid 3 1).nodeIdx 2 0 = 6 ∧
      ¬ (bareGrid 3 1).nodeIdx 2 0 < (bareGrid 3 1).m_columns * (bareGrid 3 1).m_rows) := by
  decide

/-- C31, amended: `nodeIdx` is a valid, collision-free index exactly on square grids and on
grids with a single column. For all `columns >= 1` and `rows >= 1`: if `rows = columns`
(or `columns = 1`), then for every in-grid position `nodeIdx x y = x * columns + y` lies in
`[0, columns * rows)` and two in-grid positions with the same index are equal; for every
other shape one of the two fails: the bound holds for all in-grid positions exactly when
`columns = 1` or `columns <= rows`, and the index is collision-free exactly when
`columns = 1` or `rows <= columns`. With the ranges exchanged, `0 <= x < rows` and
`0 <= y < columns` (the ranges that `calculateVisibleMap` scans), the index is in range and
collision-free for every shape. -/
theorem nodeIdx_valid_iff_square (m : Map) (hc : 1 ≤ m.m_columns) (hr : 1 ≤ m.m_rows) :
    ((m.m_columns = 1 ∨ m.m_rows = m.m_columns) →
      (∀ p : Point, p.isWithinMapBoundaries m = true →
        m.nodeIdx p.x p.y = p.x * m.m_columns + p.y ∧
        0 ≤ m.nodeIdx p.x p.y ∧ m.nodeIdx p.x p.y < m.m_columns * m.m_rows) ∧
      (∀ p q : Point, p.isWithinMapBoundaries m = true → q.isWithinMapBoundaries m = true →
        m.nodeIdx p.x p.y = m.nodeIdx q.x q.y → p.x = q.x ∧ p.y = q.y)) ∧
    ((∀ p : Point, p.isWithinMapBoundaries m = true →
        0 ≤ m.nodeIdx p.x p.y ∧ m.nodeIdx p.x p.y < m.m_columns * m.m_rows) ↔
      (m.m_columns = 1 ∨ m.m_columns ≤ m.m_rows)) ∧
    ((∀ p q : Point, p.isWithinMapBoundaries m = true → q.isWithinMapBoundaries m = true →
        m.nodeIdx p.x p.y = m.nodeIdx q.x q.y → p.x = q.x ∧ p.y = q.y) ↔
      (m.m_columns = 1 ∨ m.m_rows ≤ m.m_columns)) ∧
    (∀ x y : Int, 0 ≤ x → x < m.m_rows → 0 ≤ y → y < m.m_columns →
      0 ≤ m.nodeIdx x y ∧ m.nodeIdx x y < m.m_columns * m.m_rows) ∧
    (∀ x y u v : Int, 0 ≤ x → x < m.m_rows → 0 ≤ y → y < m.m_columns →
      0 ≤ u → u < m.m_rows → 0 ≤ v → v < m.m_columns →
      m.nodeIdx x y = m.nodeIdx u v → x = u ∧ y = v) := by
  refine ⟨fun h => ⟨fun p hp => ⟨rfl, ?_⟩, ?_⟩, Map.nodeIdx_bound_iff m hc hr,
    Map.nodeIdx_injective_iff m hc hr, Map.nodeIdx_valid_exchanged m⟩
  · exact (Map.nodeIdx_bound_iff m hc hr).2 (by omega) p hp
  · exact (Map.nodeIdx_injective_iff m hc hr).2 (by omega)

theorem nodeIdx_valid_iff_square_witness :
    1 ≤ (flatMap 3).m_columns ∧ 1 ≤ (flatMap 3).m_rows ∧
    ((flatMap 3).m_columns = 1 ∨ (flatMap 3).m_rows = (flatMap 3).m_columns) ∧
    (∀ p : Point, p.isWithinMapBoundaries (flatMap 3) = true →
      (flatMap 3).nodeIdx p.x p.y = p.x * (flatMap 3).m_columns + p.y ∧
      0 ≤ (flatMap 3).nodeIdx p.x p.y ∧
      (flatMap 3).nodeIdx p.x p.y < (flatMap 3).m_columns * (flatMap 3).m_rows) ∧
    (∀ p q : Point, p.isWithinMapBoundaries (flatMap 3) = true →
      q.isWithinMapBoundaries (flatMap 3) = true →
      (flatMap 3).nodeIdx p.x p.y = (flatMap 3).nodeIdx q.x q.y → p.x = q.x ∧ p.y = q.y) :=
  ⟨by decide, by decide, by decide,
    (nodeIdx_valid_iff_square (flatMap 3) (by decide) (by decide)).1 (by decide)⟩

/-- C32: the picker only probes positions inside the grid and inside a band of reach 2. For
every `mapSize` and every calculated guess (negative and overflowing values included), every
position `(x, y)` that `findNodeInMap` probes for the adjusted guess `(isoX, isoY)` satisfies
`0 <= x < mapSize`, `0 <= y < mapSize`, `x >= isoX - 2` and
`|(x + y) - (isoX + isoY)| <= 2`. -/
theorem findNodeInMap_probes_within_band (mapSize : Int) (calculatedIsoCoords : Point)
    (c : Int × Int)
    (hc : c ∈ pickerCandidates mapSize
      (adjustPickerGuess mapSize calculatedIsoCoords.x calculatedIsoCoords.y).1
      (adjustPickerGuess mapSize calculatedIsoCoords.x calculatedIsoCoords.y).2) :
    (0 ≤ c.1 ∧ c.1 < mapSize) ∧ (0 ≤ c.2 ∧ c.2 < mapSize) ∧
    (adjustPickerGuess mapSize calculatedIsoCoords.x calculatedIsoCoords.y).1 - 2 ≤ c.1 ∧
    |(c.1 + c.2) -
      ((adjustPickerGuess mapSize calculatedIsoCoords.x calculatedIsoCoords.y).1 +
        (adjustPickerGuess mapSize calculatedIsoCoords.x calculatedIsoCoords.y).2)| ≤ 2 :=
  pickerCandidates_band mapSize _ _ c hc

theorem findNodeInMap_probes_within_band_witness :
    adjustPickerGuess 4 0 5 = (1, 4) ∧
    ((3, 2) : Int × Int) ∈ pickerCandidates 4
      (adjustPickerGuess 4 ({ x := 0, y := 5, z := 0, height := 0 } : Point).x
        ({ x := 0, y := 5, z := 0, height := 0 } : Point).y).1
      (adjustPickerGuess 4 ({ x := 0, y := 5, z := 0, height := 0 } : Point).x
        ({ x := 0, y := 5, z := 0, height := 0 } : Point).y).2 ∧
    ((0 ≤ ((3, 2) : Int × Int).1 ∧ ((3, 2) : Int × Int).1 < 4) ∧
      (0 ≤ ((3, 2) : Int × Int).2 ∧ ((3, 2) : Int × Int).2 < 4) ∧
      (adjustPickerGuess 4 ({ x := 0, y := 5, z := 0, height := 0 } : Point).x
        ({ x := 0, y := 5, z := 0, height := 0 } : Point).y).1 - 2 ≤ ((3, 2) : Int × Int).1 ∧
      |(((3, 2) : Int × Int).1 + ((3, 2) : Int × Int).2) -
        ((adjustPickerGuess 4 ({ x := 0, y := 5, z := 0, height := 0 } : Point).x
            ({ x := 0, y := 5, z := 0, height := 0 } : Point).y).1 +
          (adjustPickerGuess 4 ({ x := 0, y := 5, z := 0, height := 0 } : Point).x
            ({ x := 0, y := 5, z := 0, height := 0 } : Point).y).2)| ≤ 2) :=
  ⟨by decide, by decide,
    findNodeInMap_probes_within_band 4 { x := 0, y := 5, z := 0, height := 0 } (3, 2)
      (by decide)⟩

/-- C33: a forced raise in the elevation phase is never clamped. On a well-formed grid whose
heights all lie in `[0, maxHeight]`, for every node `E` of the grid: if the bitmask that
`getElevatedNeighborBitmask` returns for `E` contains one of the six combinations of
`elevateTileComb`, then the height of `E` is below `maxHeight`, the raise `updateHeight E
true` reports a change and leaves `E` exactly one unit higher, and the elevation step of the
propagation for `E` leaves `E` one unit higher and appends it to the height-dirty queue. -/
theorem forced_raise_never_clamped (env : Env) (m : Map) (E : Nat) (hwf : m.WF)
    (hr : m.HeightsInRange env) (hE : E < m.mapNodes.length)
    (hcomb : ∃ elBitMask ∈ elevateTileComb,
      m.getElevatedNeighborBitmask (m.node E).m_isoCoordinates &&& elBitMask = elBitMask) :
    (m.node E).height < env.maxHeight ∧
    (m.updateHeight env E true
      (m.getNeighborNodes (m.node E).m_isoCoordinates false)).2 = true ∧
    ((m.updateHeight env E true
      (m.getNeighborNodes (m.node E).m_isoCoordinates false)).1.node E).height =
        (m.node E).height + 1 ∧
    (∀ s : UpdateState, s.map = m →
      ((elevateStep env s E).map.node E).height = (m.node E).height + 1 ∧
      ((elevateStep env s E).map.node E).height ≠ (m.node E).height ∧
      (elevateStep env s E).nodesUpdatedHeight = s.nodesUpdatedHeight ++ [E]) := by
  have hm := (mustElevate_iff_exists _).2 hcomb
  obtain ⟨hlt, h2, h3⟩ := Map.updateHeight_of_mustElevate env m E hwf hr hE hm
    (m.getNeighborNodes (m.node E).m_isoCoordinates false)
  refine ⟨hlt, h2, h3, ?_⟩
  rintro s rfl
  obtain ⟨hyes, -⟩ := elevateStep_heights env s E hE
  obtain ⟨hq, hh, -⟩ := hyes hm
  rw [if_pos hlt] at hh
  exact ⟨hh, by rw [hh]; omega, hq⟩

theorem forced_raise_never_clamped_witness :
    pinchGrid.WF ∧ pinchGrid.HeightsInRange (plainEnv 1) ∧ 1 < pinchGrid.mapNodes.length ∧
    (∃ elBitMask ∈ elevateTileComb,
      pinchGrid.getElevatedNeighborBitmask (pinchGrid.node 1).m_isoCoordinates &&& elBitMask =
        elBitMask) ∧
    (pinchGrid.node 1).height < (plainEnv 1).maxHeight ∧
    (pinchGrid.updateHeight (plainEnv 1) 1 true
      (pinchGrid.getNeighborNodes (pinchGrid.node 1).m_isoCoordinates false)).2 = true :=
  ⟨by decide, by decide, by decide, ⟨3, by decide, by decide⟩,
    (forced_raise_never_clamped (plainEnv 1) pinchGrid 1 (by decide) (by decide) (by decide)
      ⟨3, by decide, by decide⟩).1,
    (forced_raise_never_clamped (plainEnv 1) pinchGrid 1 (by decide) (by decide) (by decide)
      ⟨3, by decide, by decide⟩).2.1⟩

end Cytopia
